import Mathlib

/-! The expression evaluator of `eval.c`

A shallow embedding of the two-phase expression engine of `eval.c` (lexer `eval_lex`,
shunting-yard parser `eval_parse`, stack interpreter `eval_compute`, the primitive registry
and the session facade `evaluate` / `evaluate_ex`) together with the built-in tables of
`evalfuncs.h` and the registrations of `main.c`.

Modelling conventions.

* A C string is the list of its characters before the terminating NUL.
* `eval_double` values live in an arbitrary carrier `V`; the floating-point operations of the
  C implementation and of `libm` are the fields of `Platform V`.  Every general theorem holds
  for every platform.  `exact` is the platform of exact fractions, on which the results of
  computations whose intermediate values are exactly representable can be read off;
  `rounded` rounds as x86-64 does, `long double` to 64 binary digits and `double` to 53.
* What ISO C leaves implementation-defined and the program depends on is a field of the
  platform as well: whether a plain `int` bit-field is signed (`operator_token` declares
  `int precedence:8`, `int associativity:2`, `int unary:1`).
* The conversion to `double` and the arithmetic of `double` are fields of the platform too:
  `__evaluate__` hands its result over as a `double`, and `eval_double_value` and the
  function `sigma` compute in `double`.  A `double`, once widened, is an `eval_double`.
* An execution that reaches undefined behaviour ends in a `Fault`.
* The sizes that decide whether a store stays inside its block are those of the LP64 data
  model with the types that `eval.h` selects when `LLONG_MIN` is defined: `int` has 32 bits,
  `eval_int` is `long long` with 64 bits, a pointer takes 8 bytes and an `eval_stack_entry`,
  whose union holds a `long double`, takes 32 bytes.
* Stacks are lists with their top at the head; `eval_stack_push` faults when the entry it
  copies lies past the block that `eval_stack_alloc` obtained.
-/

namespace Eval

/-! ## `<ctype.h>` in the "C" locale -/

def isdigit (c : Char) : Bool := decide ('0' ≤ c) && decide (c ≤ '9')

def isupper (c : Char) : Bool := decide ('A' ≤ c) && decide (c ≤ 'Z')

def islower (c : Char) : Bool := decide ('a' ≤ c) && decide (c ≤ 'z')

def isalpha (c : Char) : Bool := isupper c || islower c

def isalnum (c : Char) : Bool := isalpha c || isdigit c

def isxdigit (c : Char) : Bool :=
  isdigit c || (decide ('A' ≤ c) && decide (c ≤ 'F')) || (decide ('a' ≤ c) && decide (c ≤ 'f'))

def isspace (c : Char) : Bool :=
  c == ' ' || c == '\t' || c == '\n' || c == '\x0b' || c == '\x0c' || c == '\r'

def toupper (c : Char) : Char := if islower c then Char.ofNat (c.toNat - 32) else c

def tolower (c : Char) : Char := if isupper c then Char.ofNat (c.toNat + 32) else c

/-- The value of a character as a C `char` (an `int` after promotion). -/
def code (c : Char) : Int := (c.toNat : Int)

/-! ## Constants of `eval.c` and `eval.h` -/

def TOKEN_ERROR : Nat := 0x8000
def TOKEN_EOF : Nat := 0x0001
def TOKEN_NUMBER : Nat := 0x0002
def TOKEN_NAME : Nat := 0x0004
def TOKEN_OPERATOR : Nat := 0x0008
def TOKEN_COMMA : Nat := 0x0010
def TOKEN_LEFT_PARENT : Nat := 0x0020
def TOKEN_RIGHT_PARENT : Nat := 0x0040
def TOKEN_REGISTER_SAVE : Nat := 0x0080
def TOKEN_REGISTER_RECALL : Nat := 0x0100
def TOKEN_VARIABLE : Nat := 0x0200

def OP_PLUS : Int := 1
def OP_MINUS : Int := 2
def OP_MUL : Int := 3
def OP_DIV : Int := 4
def OP_IDIV : Int := 5
def OP_POWER : Int := 6
def OP_MOD : Int := 7
def OP_AND : Int := 8
def OP_OR : Int := 9
def OP_XOR : Int := 10
def OP_NOT : Int := 11
def OP_UNARY_PLUS : Int := 12
def OP_UNARY_MINUS : Int := 13
def OP_SHL : Int := 14
def OP_SHR : Int := 15
def OP_FACTORIAL : Int := 16
def OP_LEFT_PARENT : Int := 50
def OP_RIGHT_PARENT : Int := 51
def OP_COMMA : Int := 52

def ASSOC_NONE : Int := 0
def ASSOC_LEFT : Int := 1
def ASSOC_RIGHT : Int := 2

def MAX_REGISTERS : Int := 64
def MAX_NESTED_FUNCTION_CALLS : Int := 64

def OUTPUT_STACK_SIZE : Nat := 64
def OPERATOR_STACK_SIZE : Nat := 32
@[reducible] def DEFAULT_TOKEN_BUFFER_SIZE : Int := 64

/-- The size of the array `evaluator_error`. -/
def EVALUATOR_ERROR_SIZE : Nat := 1024

/-- The value of `sizeof ( eval_stack_entry * )`. -/
def sizeof_pointer : Nat := 8

/-- The value of `sizeof ( eval_stack_entry )`: the tag, padding, and the union aligned for
its `long double` member. -/
def sizeof_stack_entry : Nat := 32

def INT_MIN : Int := -2147483648
def INT_MAX : Int := 2147483647
def LLONG_MIN : Int := -9223372036854775808
def LLONG_MAX : Int := 9223372036854775807

def E_EVAL_OK : Int := 0
def E_EVAL_UNEXPECTED_CHARACTER : Int := -1
def E_EVAL_INVALID_NUMBER : Int := -2
def E_EVAL_UNEXPECTED_TOKEN : Int := -3
def E_EVAL_UNEXPECTED_NUMBER : Int := -4
def E_EVAL_UNEXPECTED_OPERATOR : Int := -5
def E_EVAL_STACK_EMPTY : Int := -6
def E_EVAL_UNDEFINED_OPERATOR : Int := -7
def E_EVAL_UNDEFINED_TOKEN_TYPE : Int := -8
def E_EVAL_UNBALANCED_PARENTHESES : Int := -9
def E_EVAL_UNEXPECTED_RIGHT_PARENT : Int := -10
def E_EVAL_UNDEFINED_CONSTANT : Int := -11
def E_EVAL_UNEXPECTED_NAME : Int := -12
def E_EVAL_IMPLEMENTATION_ERROR : Int := -13
def E_EVAL_INVALID_REGISTER_INDEX : Int := -14
def E_EVAL_REGISTER_NOT_SET : Int := -15
def E_EVAL_UNDEFINED_FUNCTION : Int := -16
def E_EVAL_UNTERMINATED_FUNCTION_CALL : Int := -17
def E_EVAL_TOO_MANY_NESTED_CALLS : Int := -18
def E_EVAL_UNEXPECTED_ARG_SEPARATOR : Int := -19
def E_EVAL_INVALID_FUNCTION_ARGC : Int := -20
def E_EVAL_BAD_ARGUMENT_COUNT : Int := -21
def E_EVAL_UNDEFINED_VARIABLE : Int := -22
def E_EVAL_VARIABLES_NOT_ALLOWED : Int := -23
def E_EVAL_UNEXPECTED_VARIABLE : Int := -24

def EVAL_CALLBACK_UNDEFINED : Int := -1

/-! ## Undefined behaviour -/

/-- The ways in which an execution of `eval.c` leaves defined behaviour. -/
inductive Fault where
  /-- `eval_skip_spaces` stores `1` through `character` after `* character ++` advanced the
  pointer past the counter (the newline branch). -/
  | stray_store
  /-- `eval_parse` computes `endp - startp` although `eval_lex` returned `TOKEN_EOF` before
  ever setting them. -/
  | unset_token_bounds
  /-- The shunting loop of `eval_parse` reads the fields of `previous_op` although the top of
  the operator stack is a function-call marker, whose union holds a `char *`. -/
  | marker_read_as_operator
  /-- `eval_parse` re-tags the top of the output stack as a function call although that entry
  is not the name (an inert entry was pushed after it); its `name` is not a string. -/
  | retagged_non_name
  /-- `parentheses_nesting` or `function_args` is indexed with 64 or more. -/
  | nesting_index_out_of_bounds
  /-- `eval_compute` reads `value_stack [-1]`. -/
  | value_stack_read_below
  /-- `eval_compute` indexes `eval_registers` outside `0 .. 63`. -/
  | register_index_out_of_bounds
  /-- `eval_compute` reads an `argc` or an operator that was never stored in the entry. -/
  | indeterminate_entry
  /-- `eval_compute` returns `result` although no instruction assigned it. -/
  | indeterminate_result
  /-- `eval_compute` calls the callback although it is `NULL`. -/
  | null_callback
  /-- `eval_stack_push` copies an entry past the end of the block of the stack. -/
  | stack_overflow
  /-- `eval_parse` copies a token past the end of the block of `current_token`. -/
  | token_buffer_overflow
  /-- `eval_error` prints a message past the end of `evaluator_error`. -/
  | message_buffer_overflow
  /-- A computation on `int` leaves the range of `int`. -/
  | signed_overflow
  /-- A floating value is converted to an integer type that cannot hold its integral part. -/
  | cast_out_of_range
  /-- A shift count is negative or not below the width of `eval_int`, or a left shift has a
  negative operand or a result that `eval_int` cannot hold. -/
  | invalid_shift
  deriving DecidableEq, Repr

/-! ## The platform -/

/-- One-argument functions of `<math.h>` used by `eval.c` and `evalfuncs.h`. -/
inductive Math1 where
  | acos | asin | atan | ceil | cos | cosh | exp | floor | log | log10
  | sin | sinh | sqrt | tan | tanh
  deriving DecidableEq, Repr

/-- Two-argument functions of `<math.h>` used by `eval.c` and `evalfuncs.h`. -/
inductive Math2 where
  | atan2 | pow | fmod
  deriving DecidableEq, Repr

/-- What the C implementation and its library contribute: the arithmetic of `eval_double`
and of `double`, conversions, `strtod`, `<math.h>`, and the signedness of plain `int`
bit-fields. -/
structure Platform (V : Type) where
  /-- Conversion of an integer to `eval_double`. -/
  ofInt : Int → V
  /-- The integral part of a finite `eval_double`: the value that a conversion to an integer
  type gives when the type can hold it. -/
  toInt : V → Int
  /-- Whether the value is finite (neither an infinity nor a NaN). -/
  finite : V → Bool
  /-- The conversion `( double ) x`, widened again. -/
  double : V → V
  add : V → V → V
  sub : V → V → V
  mul : V → V → V
  div : V → V → V
  neg : V → V
  /-- The comparison `x >= y`. -/
  ge : V → V → Bool
  /-- The sum of two `double` values, computed in `double`. -/
  dadd : V → V → V
  /-- The difference of two `double` values, computed in `double`. -/
  dsub : V → V → V
  /-- The product of two `double` values, computed in `double`. -/
  dmul : V → V → V
  /-- The quotient of two `double` values, computed in `double`. -/
  ddiv : V → V → V
  /-- `strtod ( str, & tail )`: the value and the number of characters converted. -/
  strtod : List Char → V × Nat
  math1 : Math1 → V → V
  math2 : Math2 → V → V → V
  /-- The value of a floating constant of the program text, given by its spelling. -/
  constant : String → V
  /-- Whether a plain `int` bit-field is signed (it is with GCC, Clang and MSVC). -/
  signed_bitfields : Bool

/-- The value read back from an `int` bit-field of `width` bits initialised with `v`. -/
def bitfield (signed : Bool) (width : Nat) (v : Int) : Int :=
  let m := v % 2 ^ width
  if signed && decide (2 ^ (width - 1) ≤ m) then m - 2 ^ width else m

/-! ## Operator definitions -/

/-- The operator descriptor `operator_token`. -/
structure operator_token where
  token : List Char
  length : Nat
  type : Int
  precedence : Int
  associativity : Int
  unary : Int
  deriving DecidableEq, Repr

/-- An initialiser `{ token, length, type, precedence, associativity, unary }`. -/
def operator_init (signed : Bool) (token : String) (length : Nat) (type precedence
    associativity unary : Int) : operator_token :=
  { token := token.toList, length := length, type := type,
    precedence := bitfield signed 8 precedence,
    associativity := bitfield signed 2 associativity,
    unary := bitfield signed 1 unary }

/-- The table `operators` as initialised (before `eval_initialize` sorts it), without its
terminating `NULL` entry. -/
def operators (signed : Bool) : List operator_token :=
  [ operator_init signed "+" 1 OP_PLUS 5 ASSOC_LEFT 0,
    operator_init signed "-" 1 OP_MINUS 5 ASSOC_LEFT 0,
    operator_init signed "*" 1 OP_MUL 8 ASSOC_LEFT 0,
    operator_init signed "/" 1 OP_DIV 8 ASSOC_LEFT 0,
    operator_init signed "\\" 1 OP_IDIV 8 ASSOC_LEFT 0,
    operator_init signed "**" 2 OP_POWER 9 ASSOC_RIGHT 0,
    operator_init signed "%" 1 OP_MOD 8 ASSOC_LEFT 0,
    operator_init signed "&" 1 OP_AND 5 ASSOC_LEFT 0,
    operator_init signed "|" 1 OP_OR 5 ASSOC_LEFT 0,
    operator_init signed "^" 1 OP_XOR 5 ASSOC_LEFT 0,
    operator_init signed "~" 1 OP_NOT 10 ASSOC_RIGHT 1,
    operator_init signed "<<" 2 OP_SHL 5 ASSOC_LEFT 0,
    operator_init signed ">>" 2 OP_SHR 5 ASSOC_LEFT 0,
    operator_init signed "!" 1 OP_FACTORIAL 10 ASSOC_LEFT 1 ]

def unary_minus (signed : Bool) : operator_token :=
  operator_init signed "-" 1 OP_UNARY_MINUS 10 ASSOC_RIGHT 1

def left_parenthesis (signed : Bool) : operator_token :=
  operator_init signed "(" 1 OP_LEFT_PARENT 50 ASSOC_NONE 0

def right_parenthesis (signed : Bool) : operator_token :=
  operator_init signed ")" 1 OP_RIGHT_PARENT 50 ASSOC_NONE 0

def comma_operator (signed : Bool) : operator_token :=
  operator_init signed "," 1 OP_COMMA 50 ASSOC_NONE 0

/-- The comparison `__eval_sort_operators__` as an order: descending `length`. -/
def sort_operators_le (a b : operator_token) : Prop := b.length ≤ a.length

instance : DecidableRel sort_operators_le := fun a b => Nat.decLe b.length a.length

/-- The table `operators` after the `qsort` of `eval_initialize`.  `qsort` leaves the order
of entries of equal length unspecified; the model keeps their initial order. -/
def sorted_operators (signed : Bool) : List operator_token :=
  List.insertionSort sort_operators_le (operators signed)

/-! ## Stack entries -/

/-- An entry of the output or operator stack (`eval_stack_entry`): the tag `type` and the
member of the union that was stored.  A function call carries `argc` only once the closing
parenthesis stored it. -/
inductive eval_stack_entry (V : Type) where
  | numeric (double_value : V)
  | name (string_value : List Char)
  | operator (operator_value : operator_token)
  | register_save (register_value : Int)
  | register_recall (register_value : Int)
  | function_call (name : List Char) (argc : Option Int)
  | variable (string_value : List Char)

/-! ## Primitive registry -/

/-- `strcmp`: the sign of the result is that of the first differing character. -/
def strcmp : List Char → List Char → Int
  | [], [] => 0
  | [], b :: _ => 0 - code b
  | a :: _, [] => code a
  | a :: as, b :: bs => if a = b then strcmp as bs else code a - code b

/-- `strcasecompare` (`strcasecmp` / `_stricmp`). -/
def strcasecompare : List Char → List Char → Int
  | [], [] => 0
  | [], b :: _ => 0 - code (tolower b)
  | a :: _, [] => code (tolower a)
  | a :: as, b :: bs =>
    if tolower a = tolower b then strcasecompare as bs else code (tolower a) - code (tolower b)

/-- The type `eval_function`; the first argument is the value of the global
`evaluator_use_degrees` that the built-in functions read.  A function is C code: its call
returns a value or reaches undefined behaviour. -/
abbrev eval_function (V : Type) := Int → Int → List V → Except Fault V

structure evaluator_constant_definition (V : Type) where
  name : List Char
  value : V

structure evaluator_function_definition (V : Type) where
  name : List Char
  min_args : Int
  max_args : Int
  func : eval_function V

/-- The order given to `qsort` by `__eval_primitive_sort__`. -/
def primitive_sort_le (a b : List Char) : Prop := strcmp a b ≤ 0

instance : DecidableRel primitive_sort_le := fun a b => Int.decLe (strcmp a b) 0

/-- The function `eval_register` on the items of a primitive list: the new definitions (the
array up to its `NULL` name) are appended, then the list is sorted by name.  `qsort` leaves the
order of equal names unspecified; the model keeps them in insertion order. -/
def eval_register {α : Type} (name : α → List Char) (list : List α) (definitions : List α) :
    List α :=
  List.insertionSort (fun a b => primitive_sort_le (name a) (name b)) (list ++ definitions)

/-- The loop of `eval_find_primitive`; `fuel` bounds the number of halvings. -/
def eval_find_primitive_loop {α : Type} (name : α → List Char) (data : List α)
    (value : List Char) : Nat → Int → Int → Option α
  | 0, _, _ => none
  | fuel + 1, low, high =>
    if low ≤ high then
      let middle := low + (high - low) / 2
      match data.get? middle.toNat with
      | none => none
      | some p =>
        let cmpresult := strcasecompare (name p) value
        if cmpresult < 0 then eval_find_primitive_loop name data value fuel (middle + 1) high
        else if cmpresult > 0 then eval_find_primitive_loop name data value fuel low (middle - 1)
        else some p
    else none

/-- The function `eval_find_primitive`: binary search with a case-insensitive comparison. -/
def eval_find_primitive {α : Type} (name : α → List Char) (list : List α)
    (value : List Char) : Option α :=
  eval_find_primitive_loop name list value (list.length + 1) 0 ((list.length : Int) - 1)

/-! ## The session: the global variables of `eval.c` -/

/-- The buffer `evaluator_error`, reduced to the position it prints: empty, a message without
position (`line == -1`), or a message starting `[line#l, col#c]`. -/
inductive error_text where
  | empty
  | plain
  | positioned (line col : Int)
  deriving DecidableEq, Repr

structure Session (V : Type) where
  evaluator_errno : Int
  evaluator_error : error_text
  eval_registers : List V
  eval_registers_set : List Bool
  eval_last_register : Int
  eval_initialized : Bool
  eval_constant_definitions : List (evaluator_constant_definition V)
  eval_function_definitions : List (evaluator_function_definition V)
  evaluator_use_degrees : Int

/-- The function `eval_error` on the global variables: the error code, and the message
reduced to its position.  Whether the message fits the buffer is the matter of
`message_fits`. -/
def eval_error {V : Type} (s : Session V) (err line character : Int) : Session V :=
  { s with
    evaluator_errno := err
    evaluator_error :=
      if line = -1 then error_text.plain else error_text.positioned line (character + 1) }

/-- The number of decimal digits of `n`; `fuel` bounds the number of divisions. -/
def decimal_digits : Nat → Nat → Nat
  | 0, _ => 1
  | fuel + 1, n => if n < 10 then 1 else decimal_digits fuel (n / 10) + 1

/-- The number of characters that `%d` prints for `x`. -/
def printed_length (x : Int) : Nat :=
  (if x < 0 then 1 else 0) + decimal_digits x.natAbs x.natAbs

/-- Whether `eval_error` stays inside `evaluator_error` when the text printed for its format
has `body` characters: `sprintf` writes `Eval error : ` (13 characters) or
`Eval error [line#%d, col#%d] : ` (27 characters and the two numbers), `vsprintf` appends
the text and a NUL.  The test is made where the format prints a string of any length with
`%s`; the messages of the other calls are shorter than the buffer at every position. -/
def message_fits (line character : Int) (body : Nat) : Bool :=
  decide
    ((if line = -1 then 13 else 27 + printed_length line + printed_length (character + 1)) +
      body + 1 ≤ EVALUATOR_ERROR_SIZE)


/-! ## Lexer -/

/-- The function `eval_skip_spaces`, returning the position reached.  `* character ++` and
`* line ++` advance the local pointers and leave both counters as they are; on a newline
`* character = 1` then stores through the advanced pointer. -/
def eval_skip_spaces : List Char → Except Fault (List Char)
  | [] => .ok []
  | c :: cs =>
    if isspace c then
      if c = '\n' then .error Fault.stray_store else eval_skip_spaces cs
    else .ok (c :: cs)

/-- `strncmp ( a, b, n )`. -/
def strncmp (s1 s2 : List Char) (n : Nat) : Int :=
  match n, s1, s2 with
  | 0, _, _ => 0
  | _ + 1, [], [] => 0
  | _ + 1, [], b :: _ => 0 - code b
  | _ + 1, a :: _, [] => code a
  | n + 1, a :: as, b :: bs => if a = b then strncmp as bs n else code a - code b
termination_by structural n

/-- The function `eval_double_value` on the token `str` of length `length`: `none` for the
return value 0, `some result` for 1.  The value of a literal with a base prefix or a leading
zero is accumulated in a `double`. -/
def eval_double_value {V : Type} (P : Platform V) (str : List Char) (length : Int) : Option V :=
  match str with
  | [] => some (P.ofInt 0)
  | c :: cs =>
    if c = '0' ∧ length > 1 then
      match cs with
      | [] => none
      | p :: ps =>
        let up := toupper p
        let base : Option Int :=
          if up = 'B' then some 2
          else if up = 'O' then some 8
          else if up = 'D' then some 10
          else if up = 'X' then some 16
          else if '0' ≤ p ∧ p ≤ '7' then some 8
          else none
        match base with
        | none => none
        | some base =>
          some (ps.foldl
            (fun value q =>
              let ich := toupper q
              let ch := if 'A' ≤ ich then code ich - code 'A' + 10 else code ich - code '0'
              P.dadd (P.dmul value (P.ofInt base)) (P.ofInt ch))
            (P.ofInt 0))
    else
      let r := P.strtod (c :: cs)
      if (r.2 : Int) ≠ length then none else some r.1

/-- What `eval_lex` hands back through `op`. -/
inductive lex_param where
  | null
  | operator (op : operator_token)
  | register (register_id : Int)
  deriving DecidableEq, Repr

/-- The results of one call of `eval_lex`: the token, the characters from `* startp` up to
`* endp`, the input from `* endp` on, `* op` and the updated `* character`. -/
structure lex_result where
  token : Nat
  text : List Char
  rest : List Char
  param : lex_param
  character : Int
  deriving DecidableEq, Repr

/-- The digit loop of the number branch of `eval_lex`: the token and the position reached. -/
def lex_number_loop (base : Int) (found_base found_dot found_exp : Bool) :
    List Char → Nat × List Char
  | [] => (TOKEN_NUMBER, [])
  | c :: cs =>
    let ch := toupper c
    if ch = 'X' ∨ ch = 'B' ∨ ch = 'D' ∨ ch = 'O' then
      if found_dot || found_exp || found_base then (TOKEN_ERROR, c :: cs)
      else
        lex_number_loop
          (if ch = 'X' then 16 else if ch = 'D' then 10 else if ch = 'O' then 8 else 2)
          true found_dot found_exp cs
    else if ch = '.' then
      if found_dot || found_exp || found_base then (TOKEN_ERROR, c :: cs)
      else lex_number_loop base found_base true found_exp cs
    else if ch = 'E' ∧ found_base = false then
      if found_dot || found_exp then (TOKEN_ERROR, c :: cs)
      else
        match cs with
        | [] => lex_number_loop base found_base found_dot true []
        | sign :: cs' =>
          if sign = '+' ∨ sign = '-' then lex_number_loop base found_base found_dot true cs'
          else lex_number_loop base found_base found_dot true (sign :: cs')
    else if ('0' ≤ ch ∧ ch ≤ '9') ∨ ('A' ≤ ch ∧ ch ≤ 'F') then
      let ich := if 'A' ≤ ch then code ch - code 'A' + 10 else code ch - code '0'
      if ich ≥ base then (TOKEN_ERROR, c :: cs)
      else lex_number_loop base found_base found_dot found_exp cs
    else (TOKEN_NUMBER, c :: cs)

/-- The scan of the number branch for something "specific to a float" in the rest of the
input (`p` runs to the end of the string, not to the end of the number). -/
def lex_float_ahead (p : List Char) : Bool := p.any (fun c => c == '.' || c == 'E' || c == 'e')

/-- The number branch of `eval_lex`, entered with `isdigit ( * str )`. -/
def lex_number (str : List Char) : Nat × List Char :=
  match str with
  | '0' :: c1 :: cs =>
    if isxdigit c1 then
      if lex_float_ahead (c1 :: cs) then lex_number_loop 10 false false false str
      else lex_number_loop 8 false false false (c1 :: cs)
    else lex_number_loop 10 false false false str
  | _ => lex_number_loop 10 false false false str

/-- The operator branch of `eval_lex`: the first entry of the table that is a prefix of the
input. -/
def lex_operator (table : List operator_token) (str : List Char) : Option operator_token :=
  table.find? (fun o => strncmp str o.token o.length == 0)

/-- The register digits of the `#` branch: `register_id`, `found_digits`, position reached.
`register_id` is an `int`: the loop leaves defined behaviour when
`( register_id * 10 ) + ( * str - '0' )` leaves its range. -/
def lex_register_digits : Int → Bool → List Char → Except Fault (Int × Bool × List Char)
  | register_id, found_digits, [] => .ok (register_id, found_digits, [])
  | register_id, found_digits, c :: cs =>
    if isdigit c then
      if register_id * 10 + (code c - code '0') ≤ INT_MAX then
        lex_register_digits (register_id * 10 + (code c - code '0')) true cs
      else .error Fault.signed_overflow
    else .ok (register_id, found_digits, c :: cs)

/-- The end of `eval_lex`: `* endp = str`, `* character += str - * startp - 1`, and the
token is returned; `startp` and `endp` are the input from these positions on. -/
def lex_finish (character : Int) (token : Nat) (startp endp : List Char) (param : lex_param) :
    lex_result :=
  { token := token, text := startp.take (startp.length - endp.length), rest := endp,
    param := param,
    character := character + ((startp.length - endp.length : Nat) : Int) - 1 }

/-- The function `eval_lex` on the input `str` with the column counter `character`; `table` is
the array `operators`. -/
def eval_lex (table : List operator_token) (str : List Char) (character : Int) :
    Except Fault lex_result := do
  let str ← eval_skip_spaces str
  let finish := lex_finish character
  match str with
  | [] => pure { token := TOKEN_EOF, text := [], rest := [], param := .null,
                 character := character }
  | c :: cs =>
    if isalpha c || c == '_' then
      pure (finish TOKEN_NAME str (str.dropWhile (fun x => isalnum x || x == '_')) .null)
    else if isdigit c then
      let r := lex_number str
      pure (finish r.1 str r.2 .null)
    else if c = '(' then pure (finish TOKEN_LEFT_PARENT str cs .null)
    else if c = ')' then pure (finish TOKEN_RIGHT_PARENT str cs .null)
    else if c = '$' then
      match cs with
      | [] => pure (finish TOKEN_ERROR str str .null)
      | d :: _ =>
        if isalpha d || d == '_' then
          pure (finish TOKEN_VARIABLE cs (cs.dropWhile (fun x => isalnum x || x == '_')) .null)
        else pure (finish TOKEN_ERROR cs cs .null)
    else if c = '#' then do
      let s1 ← eval_skip_spaces cs
      let (id, found_digits, s2) ← lex_register_digits 0 false s1
      let s3 ← eval_skip_spaces s2
      let register_id := if found_digits then id else -1
      match s3 with
      | '!' :: s4 => pure (finish TOKEN_REGISTER_SAVE str s4 (.register register_id))
      | '?' :: s4 => pure (finish TOKEN_REGISTER_RECALL str s4 (.register register_id))
      | _ => pure (finish TOKEN_ERROR str s3 .null)
    else if c = ',' then pure (finish TOKEN_COMMA str cs .null)
    else
      match lex_operator table str with
      | some o => pure (finish TOKEN_OPERATOR str (str.drop o.length) (.operator o))
      | none => pure (finish TOKEN_ERROR str str .null)

/-! ## Parser -/

/-- The type `eval_callback`: the status returned and the value stored through `value`. -/
abbrev eval_callback (V : Type) := List Char → Int × V

/-- The number of entries that the block obtained by `eval_stack_alloc ( size, item_size )`
holds: the function asks for `size * sizeof ( eval_stack_entry * )` bytes, whatever
`item_size` is. -/
def eval_stack_alloc (size : Nat) : Nat := size * sizeof_pointer / sizeof_stack_entry

/-- The function `eval_stack_push` on a stack whose block holds `capacity` entries: the entry
is copied to the index `last_item + 1`.  The function enlarges the block only when
`last_item + 1 >= size`, and `size`, the number of entries asked for, is four times the
number that the block holds: no push gets there inside defined behaviour. -/
def eval_stack_push {α : Type} (capacity : Nat) (stack : List α) (item : α) :
    Except Fault (List α) :=
  if capacity ≤ stack.length then .error Fault.stack_overflow else .ok (item :: stack)

/-- The call `eval_stack_push ( output_stack, ... )`. -/
def push_output {V : Type} (output_stack : List (eval_stack_entry V))
    (item : eval_stack_entry V) : Except Fault (List (eval_stack_entry V)) :=
  eval_stack_push (eval_stack_alloc OUTPUT_STACK_SIZE) output_stack item

/-- The call `eval_stack_push ( operator_stack, ... )`. -/
def push_operator {V : Type} (operator_stack : List (eval_stack_entry V))
    (item : eval_stack_entry V) : Except Fault (List (eval_stack_entry V)) :=
  eval_stack_push (eval_stack_alloc OPERATOR_STACK_SIZE) operator_stack item

/-- The local variables of `eval_parse` that live across tokens.  Both stacks have their top
at the head.  The cells of `function_args` are never initialised before their first use
(`none`); the cells of `parentheses_nesting` above 0 are written by
`parentheses_nesting [ ++ nesting_level ] = 1` before they are read.  `bounds_set` records
that `eval_lex` has stored `startp` and `endp` at least once.  `max_token_length` is the
size of the block of `current_token`. -/
structure parse_state (V : Type) where
  output_stack : List (eval_stack_entry V)
  operator_stack : List (eval_stack_entry V)
  last_token : Nat
  character : Int
  line : Int
  parentheses_nesting : List Int
  function_args : List (Option Int)
  nesting_level : Int
  bounds_set : Bool
  max_token_length : Int

/-- The test `last_token & mask`. -/
def token_in (last_token mask : Nat) : Bool := last_token &&& mask != 0

/-- How the processing of one token leaves the `switch`: by `break`, or by
`goto ParseEnd` with the given `status`. -/
inductive parse_step (V : Type) where
  | next (sess : Session V) (st : parse_state V)
  | parse_end (status : Int) (sess : Session V) (st : parse_state V)

/-- The `while` loop of the operator case: operators are popped from the operator stack to
the output while the precedence rule holds.  `previous_op` is read from the union whatever
the entry is; its fields are read only where the short-circuit evaluation reaches them. -/
def shunt_operators {V : Type} (op : operator_token) :
    List (eval_stack_entry V) → List (eval_stack_entry V) →
    Except Fault (List (eval_stack_entry V) × List (eval_stack_entry V))
  | [], output => .ok ([], output)
  | top :: below, output =>
    let previous_op : Except Fault operator_token :=
      match top with
      | .operator o => .ok o
      | _ => .error Fault.marker_read_as_operator
    if op.associativity = ASSOC_LEFT then
      match previous_op with
      | .error f => .error f
      | .ok prev =>
        if op.precedence ≤ prev.precedence ∧ prev.type ≠ OP_LEFT_PARENT then
          match push_output output (.operator prev) with
          | .error f => .error f
          | .ok output => shunt_operators op below output
        else .ok (top :: below, output)
    else if op.associativity = ASSOC_RIGHT then
      match previous_op with
      | .error f => .error f
      | .ok prev =>
        if op.precedence > prev.precedence ∧ prev.type ≠ OP_LEFT_PARENT then
          match push_output output (.operator prev) with
          | .error f => .error f
          | .ok output => shunt_operators op below output
        else .ok (top :: below, output)
    else .ok (top :: below, output)

/-- The `while` loop of the right-parenthesis case: `found_left`, then both stacks. -/
def close_parenthesis {V : Type} (argc : Option Int) :
    List (eval_stack_entry V) → List (eval_stack_entry V) →
    Except Fault (Bool × List (eval_stack_entry V) × List (eval_stack_entry V))
  | [], output => .ok (false, [], output)
  | se :: below, output =>
    match se with
    | .function_call name _ =>
      match push_output output (.function_call name argc) with
      | .error f => .error f
      | .ok output => .ok (true, below, output)
    | .operator o =>
      if o.type = OP_LEFT_PARENT then .ok (true, below, output)
      else
        match push_output output se with
        | .error f => .error f
        | .ok output => close_parenthesis argc below output
    | _ =>
      match push_output output se with
      | .error f => .error f
      | .ok output => close_parenthesis argc below output

/-- The `while` loop of the comma case: `found_parent`, then both stacks.  A function-call
marker is popped and pushed back. -/
def separate_arguments {V : Type} :
    List (eval_stack_entry V) → List (eval_stack_entry V) →
    Except Fault (Bool × List (eval_stack_entry V) × List (eval_stack_entry V))
  | [], output => .ok (false, [], output)
  | se :: below, output =>
    match se with
    | .function_call name argc =>
      match push_operator below (.function_call name argc) with
      | .error f => .error f
      | .ok operator_stack => .ok (true, operator_stack, output)
    | .operator o =>
      if o.type = OP_LEFT_PARENT then .ok (true, below, output)
      else
        match push_output output se with
        | .error f => .error f
        | .ok output => separate_arguments below output
    | _ =>
      match push_output output se with
      | .error f => .error f
      | .ok output => separate_arguments below output

/-- The cell `array [ index ]` of one of the two arrays of `MAX_NESTED_FUNCTION_CALLS`
cells. -/
def nesting_cell {α : Type} (array : List α) (index : Int) : Except Fault α :=
  if index < 0 ∨ MAX_NESTED_FUNCTION_CALLS ≤ index then
    .error Fault.nesting_index_out_of_bounds
  else
    match array.get? index.toNat with
    | some a => .ok a
    | none => .error Fault.nesting_index_out_of_bounds

/-- The statement `function_args [ nesting_level ] ++`. -/
def function_args_increment (function_args : List (Option Int)) (nesting_level : Int) :
    Except Fault (List (Option Int)) := do
  let cell ← nesting_cell function_args nesting_level
  pure (function_args.set nesting_level.toNat (cell.map (fun n => n + 1)))

/-- The end of an iteration of the token loop: `str = endp`, the update of `last_token`
unless the token is inert, and `character += endp - startp`. -/
def token_done {V : Type} (sess : Session V) (st : parse_state V) (lx : lex_result)
    (inert_token : Bool) : parse_step V :=
  .next sess
    { st with
      last_token := if inert_token then st.last_token else lx.token
      character := lx.character + (lx.text.length : Int)
      bounds_set := true }

/-- An error raised inside the `switch`: `eval_error` at the current position, `status = 0`,
`goto ParseEnd`. -/
def token_error {V : Type} (sess : Session V) (st : parse_state V) (lx : lex_result)
    (err : Int) : parse_step V :=
  .parse_end 0 (eval_error sess err st.line lx.character)
    { st with character := lx.character, bounds_set := true }

/-- An error raised inside the `switch` whose message prints `current_token` with `%s` among
`format` other characters, where the token is not an operator. -/
def token_error_text {V : Type} (sess : Session V) (st : parse_state V) (lx : lex_result)
    (err : Int) (format : Nat) : Except Fault (parse_step V) :=
  if message_fits st.line lx.character (format + lx.text.length) then
    .ok (token_error sess st lx err)
  else .error Fault.message_buffer_overflow

/-- The case `TOKEN_NUMBER` of `eval_parse`. -/
def parse_number {V : Type} (P : Platform V) (sess : Session V) (st : parse_state V)
    (lx : lex_result) : Except Fault (parse_step V) :=
  if !token_in st.last_token (TOKEN_EOF ||| TOKEN_OPERATOR ||| TOKEN_COMMA ||| TOKEN_LEFT_PARENT)
  then token_error_text sess st lx E_EVAL_UNEXPECTED_NUMBER 20
  else
    match eval_double_value P lx.text lx.text.length with
    | some numeric_value =>
      match push_output st.output_stack (.numeric numeric_value) with
      | .error f => .error f
      | .ok output_stack => .ok (token_done sess { st with output_stack := output_stack } lx false)
    | none => token_error_text sess st lx E_EVAL_INVALID_NUMBER 24

/-- The case `TOKEN_OPERATOR` of `eval_parse`; `op` is the operator found by `eval_lex`.  The
token of an operator has one or two characters: its messages fit the buffer. -/
def parse_operator {V : Type} (P : Platform V) (sess : Session V) (st : parse_state V)
    (lx : lex_result) (op : operator_token) : Except Fault (parse_step V) :=
  let shunt (op : operator_token) : Except Fault (parse_step V) := do
    let (operator_stack, output_stack) ← shunt_operators op st.operator_stack st.output_stack
    let operator_stack ← push_operator operator_stack (.operator op)
    pure (token_done sess
      { st with operator_stack := operator_stack, output_stack := output_stack }
      lx false)
  if token_in st.last_token (TOKEN_OPERATOR ||| TOKEN_EOF ||| TOKEN_LEFT_PARENT) then
    if op.type = OP_PLUS then pure (token_done sess st lx false)
    else if op.type = OP_MINUS then shunt (unary_minus P.signed_bitfields)
    else if op.unary = 0 then pure (token_error sess st lx E_EVAL_UNEXPECTED_OPERATOR)
    else shunt op
  else if !token_in st.last_token
      (TOKEN_NUMBER ||| TOKEN_NAME ||| TOKEN_VARIABLE ||| TOKEN_RIGHT_PARENT) then
    pure (token_error sess st lx E_EVAL_UNEXPECTED_OPERATOR)
  else if op.unary ≠ 0 ∧ op.associativity = ASSOC_LEFT then do
    let output_stack ← push_output st.output_stack (.operator op)
    pure (token_done sess { st with output_stack := output_stack } lx true)
  else shunt op

/-- The case `TOKEN_LEFT_PARENT` of `eval_parse`. -/
def parse_left_parent {V : Type} (P : Platform V) (sess : Session V) (st : parse_state V)
    (lx : lex_result) : Except Fault (parse_step V) :=
  if token_in st.last_token TOKEN_NAME then
    if st.nesting_level + 1 > MAX_NESTED_FUNCTION_CALLS then
      pure (token_error sess st lx E_EVAL_TOO_MANY_NESTED_CALLS)
    else
      match st.output_stack with
      | .name string_value :: output_stack =>
        match push_operator st.operator_stack (.function_call string_value none) with
        | .error f => .error f
        | .ok operator_stack =>
          let nesting_level := st.nesting_level + 1
          if nesting_level < 0 ∨ MAX_NESTED_FUNCTION_CALLS ≤ nesting_level then
            .error Fault.nesting_index_out_of_bounds
          else
            pure (token_done sess
              { st with
                output_stack := output_stack
                operator_stack := operator_stack
                nesting_level := nesting_level
                parentheses_nesting := st.parentheses_nesting.set nesting_level.toNat 1
                function_args := st.function_args.set nesting_level.toNat (some 0) }
              lx false)
      | _ => .error Fault.retagged_non_name
  else if token_in st.last_token
      (TOKEN_EOF ||| TOKEN_LEFT_PARENT ||| TOKEN_OPERATOR ||| TOKEN_COMMA) then do
    let operator_stack ←
      push_operator st.operator_stack (.operator (left_parenthesis P.signed_bitfields))
    let depth ← nesting_cell st.parentheses_nesting st.nesting_level
    pure (token_done sess
      { st with
        operator_stack := operator_stack
        parentheses_nesting := st.parentheses_nesting.set st.nesting_level.toNat (depth + 1) }
      lx false)
  else pure (token_error sess st lx E_EVAL_UNEXPECTED_TOKEN)

/-- The case `TOKEN_RIGHT_PARENT` of `eval_parse`. -/
def parse_right_parent {V : Type} (sess : Session V) (st : parse_state V)
    (lx : lex_result) : Except Fault (parse_step V) := do
  let grouped := token_in st.last_token
    (TOKEN_NUMBER ||| TOKEN_RIGHT_PARENT ||| TOKEN_NAME ||| TOKEN_VARIABLE ||| TOKEN_LEFT_PARENT)
  let function_args ←
    if grouped && !token_in st.last_token TOKEN_LEFT_PARENT then
      function_args_increment st.function_args st.nesting_level
    else pure st.function_args
  let (found_left, operator_stack, output_stack) ←
    if grouped then do
      let argc ← nesting_cell function_args st.nesting_level
      close_parenthesis argc st.operator_stack st.output_stack
    else pure (false, st.operator_stack, st.output_stack)
  let depth ← nesting_cell st.parentheses_nesting st.nesting_level
  let found_left :=
    if !token_in st.last_token TOKEN_COMMA && decide (st.nesting_level > 0) && decide (depth = 1)
    then true else found_left
  let st1 := { st with
    function_args := function_args, operator_stack := operator_stack,
    output_stack := output_stack }
  if !found_left then pure (token_error sess st1 lx E_EVAL_UNEXPECTED_RIGHT_PARENT)
  else
    let depth := depth - 1
    pure (token_done sess
      { st1 with
        parentheses_nesting := st.parentheses_nesting.set st.nesting_level.toNat depth
        nesting_level :=
          if depth = 0 ∧ st.nesting_level > 0 then st.nesting_level - 1 else st.nesting_level }
      lx false)

/-- The case `TOKEN_COMMA` of `eval_parse`. -/
def parse_comma {V : Type} (sess : Session V) (st : parse_state V)
    (lx : lex_result) : Except Fault (parse_step V) :=
  if token_in st.last_token (TOKEN_NUMBER ||| TOKEN_NAME ||| TOKEN_RIGHT_PARENT) then do
    let function_args ← function_args_increment st.function_args st.nesting_level
    let (found_parent, operator_stack, output_stack) ←
      separate_arguments st.operator_stack st.output_stack
    let st1 := { st with
      function_args := function_args, operator_stack := operator_stack,
      output_stack := output_stack }
    if !found_parent then pure (token_error sess st1 lx E_EVAL_UNEXPECTED_ARG_SEPARATOR)
    else pure (token_done sess st1 lx false)
  else pure (token_error sess st lx E_EVAL_UNEXPECTED_ARG_SEPARATOR)

/-- The copy of the token into `current_token`, whose block has `max_token_length` bytes:
the block is replaced by one of twice the size, once, when
`current_token_length + 1 >= max_token_length`; then `strncpy` writes the characters of the
token and the assignment `current_token [ current_token_length ] = '\0'` the byte after
them. -/
def copy_token {V : Type} (st : parse_state V) (lx : lex_result) :
    Except Fault (parse_state V) :=
  let current_token_length : Int := lx.text.length
  let max_token_length :=
    if current_token_length + 1 ≥ st.max_token_length then st.max_token_length * 2
    else st.max_token_length
  if current_token_length + 1 > max_token_length then .error Fault.token_buffer_overflow
  else .ok { st with max_token_length := max_token_length }

/-- The `switch ( token )` of `eval_parse` for a token other than `TOKEN_EOF`. -/
def parse_switch {V : Type} (P : Platform V) (callback : Option (eval_callback V))
    (sess : Session V) (st : parse_state V) (lx : lex_result) : Except Fault (parse_step V) :=
  if lx.token = TOKEN_ERROR then
    pure (token_error sess st lx E_EVAL_UNEXPECTED_CHARACTER)
  else if lx.token = TOKEN_NUMBER then parse_number P sess st lx
  else if lx.token = TOKEN_OPERATOR then
    match lx.param with
    | .operator op => parse_operator P sess st lx op
    | _ => .error Fault.indeterminate_entry
  else if lx.token = TOKEN_LEFT_PARENT then parse_left_parent P sess st lx
  else if lx.token = TOKEN_RIGHT_PARENT then parse_right_parent sess st lx
  else if lx.token = TOKEN_NAME then
    if !token_in st.last_token
        (TOKEN_EOF ||| TOKEN_OPERATOR ||| TOKEN_COMMA ||| TOKEN_LEFT_PARENT) then
      token_error_text sess st lx E_EVAL_UNEXPECTED_NAME 18
    else do
      let output_stack ← push_output st.output_stack (.name lx.text)
      pure (token_done sess { st with output_stack := output_stack } lx false)
  else if lx.token = TOKEN_VARIABLE then
    if callback.isNone then token_error_text sess st lx E_EVAL_VARIABLES_NOT_ALLOWED 137
    else if !token_in st.last_token
        (TOKEN_EOF ||| TOKEN_OPERATOR ||| TOKEN_COMMA ||| TOKEN_LEFT_PARENT) then
      token_error_text sess st lx E_EVAL_UNEXPECTED_VARIABLE 32
    else do
      let output_stack ← push_output st.output_stack (.variable lx.text)
      pure (token_done sess { st with output_stack := output_stack } lx false)
  else if lx.token = TOKEN_REGISTER_SAVE then
    match lx.param with
    | .register register_id =>
      if register_id ≥ MAX_REGISTERS then
        pure (token_error sess st lx E_EVAL_INVALID_REGISTER_INDEX)
      else do
        let output_stack ← push_output st.output_stack (.register_save register_id)
        pure (token_done sess { st with output_stack := output_stack } lx true)
    | _ => .error Fault.indeterminate_entry
  else if lx.token = TOKEN_REGISTER_RECALL then
    match lx.param with
    | .register register_id =>
      if !token_in st.last_token
          (TOKEN_EOF ||| TOKEN_OPERATOR ||| TOKEN_COMMA ||| TOKEN_LEFT_PARENT) then
        token_error_text sess st lx E_EVAL_UNEXPECTED_TOKEN 35
      else if register_id ≥ MAX_REGISTERS then
        pure (token_error sess st lx E_EVAL_INVALID_REGISTER_INDEX)
      else do
        let output_stack ← push_output st.output_stack (.register_recall register_id)
        pure (token_done sess { st with output_stack := output_stack } lx false)
    | _ => .error Fault.indeterminate_entry
  else if lx.token = TOKEN_COMMA then parse_comma sess st lx
  else pure (token_error sess st lx E_EVAL_UNEXPECTED_TOKEN)

/-- The body of the token loop of `eval_parse` after `eval_lex` returned `lx`: the copy of
the token and the `switch`.  On `TOKEN_EOF` `eval_lex` has not stored `startp` and `endp`:
they are those of the token before, whose copy into a block that has not shrunk is
repeated, or they were never set. -/
def parse_token {V : Type} (P : Platform V) (callback : Option (eval_callback V))
    (sess : Session V) (st : parse_state V) (lx : lex_result) : Except Fault (parse_step V) :=
  if lx.token = TOKEN_EOF then
    if st.bounds_set then pure (.parse_end 1 sess st) else .error Fault.unset_token_bounds
  else
    match copy_token st lx with
    | .error f => .error f
    | .ok st => parse_switch P callback sess st lx

/-- The token loop `while ( * str )` of `eval_parse` up to the label `ParseEnd`: the `status`
reached there, the session and the local variables.  The array `operators` is in its sorted
state, since `eval_parse` only runs after `eval_initialize`.  `fuel` bounds the number of
iterations; `none` stands for exhausted fuel. -/
def parse_loop {V : Type} (P : Platform V) (callback : Option (eval_callback V)) :
    Nat → Session V → parse_state V → List Char →
    Except Fault (Option (Int × Session V × parse_state V))
  | _, sess, st, [] => pure (some (1, sess, st))
  | 0, _, _, _ :: _ => pure none
  | fuel + 1, sess, st, c :: cs => do
    let lx ← eval_lex (sorted_operators P.signed_bitfields) (c :: cs) st.character
    match ← parse_token P callback sess st lx with
    | .parse_end status sess st => pure (some (status, sess, st))
    | .next sess st => parse_loop P callback fuel sess st lx.rest

/-! ## Built-in helpers of `evalfuncs.h` used by the evaluator -/

/-- A conversion of a floating value to a signed integer type with the range `min .. max`:
the integral part, when the value is finite and the type can hold it. -/
def cast_integer {V : Type} (P : Platform V) (min max : Int) (value : V) : Except Fault Int :=
  if P.finite value ∧ min ≤ P.toInt value ∧ P.toInt value ≤ max then .ok (P.toInt value)
  else .error Fault.cast_out_of_range

/-- The function `eval_factorial`: the product `2 * 3 * ... ` up to the absolute value of the
operand converted to `int`.  `abs` has no result for `INT_MIN`, and the counter `i` of the
loop, an `int`, is incremented past the bound. -/
def eval_factorial {V : Type} (P : Platform V) (value : V) : Except Fault V := do
  let converted ← cast_integer P INT_MIN INT_MAX value
  if converted = INT_MIN ∨ converted.natAbs = INT_MAX then .error Fault.signed_overflow
  else
    pure ((List.range (converted.natAbs - 1)).foldl
      (fun result i => P.mul result (P.ofInt ((i : Int) + 2))) (P.ofInt 1))

/-! ## Evaluator -/

/-- The local variables of `eval_compute` that live across instructions: the value stack (top
at the head) and `result`, which is unset until an instruction assigns it. -/
structure compute_state (V : Type) where
  value_stack : List V
  result : Option V

/-- How an instruction of `eval_compute` ends: the loop goes on, or the function returns 0
after `eval_error`. -/
inductive compute_step (V : Type) where
  | next (sess : Session V) (cs : compute_state V)
  | failed (sess : Session V)

/-- The statement `value_stack [ ++ value_stack_top ] = result = v`. -/
def push_value {V : Type} (sess : Session V) (cs : compute_state V) (v : V) : compute_step V :=
  .next sess { value_stack := v :: cs.value_stack, result := some v }

/-- The conversion `( eval_int ) value`. -/
def cast_eval_int {V : Type} (P : Platform V) (value : V) : Except Fault Int :=
  cast_integer P LLONG_MIN LLONG_MAX value

/-- The expression `value << count` on `eval_int`. -/
def shift_left (value count : Int) : Except Fault Int :=
  if count < 0 ∨ 64 ≤ count ∨ value < 0 ∨ LLONG_MAX < value * 2 ^ count.toNat then
    .error Fault.invalid_shift
  else .ok (value * 2 ^ count.toNat)

/-- The expression `value >> count` on `eval_int`; the shift of a negative value is
arithmetic, as with the compilers of the LP64 platforms. -/
def shift_right (value count : Int) : Except Fault Int :=
  if count < 0 ∨ 64 ≤ count then .error Fault.invalid_shift
  else .ok (value / 2 ^ count.toNat)

/-- The inner `switch ( ot -> type )` of `eval_compute`: `result` after the operator, or
`none` for the `default` case.  `value2` is read by the binary operators only. -/
def apply_operator {V : Type} (P : Platform V) (type : Int) (value1 value2 : V)
    (result : Option V) : Except Fault (Option (Option V)) :=
  if type = OP_PLUS then pure (some (some (P.add value2 value1)))
  else if type = OP_MINUS then pure (some (some (P.sub value2 value1)))
  else if type = OP_MUL then pure (some (some (P.mul value1 value2)))
  else if type = OP_DIV then pure (some (some (P.div value2 value1)))
  else if type = OP_IDIV then pure (some (some (P.math1 .floor (P.div value2 value1))))
  else if type = OP_POWER then pure (some (some (P.math2 .pow value2 value1)))
  else if type = OP_MOD then pure (some (some (P.math2 .fmod value2 value1)))
  else if type = OP_AND then do
    let i1 ← cast_eval_int P value1
    let i2 ← cast_eval_int P value2
    pure (some (some (P.ofInt (Int.land i1 i2))))
  else if type = OP_OR then do
    let i1 ← cast_eval_int P value1
    let i2 ← cast_eval_int P value2
    pure (some (some (P.ofInt (Int.lor i1 i2))))
  else if type = OP_XOR then do
    let i1 ← cast_eval_int P value1
    let i2 ← cast_eval_int P value2
    pure (some (some (P.ofInt (Int.xor i1 i2))))
  else if type = OP_NOT then do
    let i1 ← cast_eval_int P value1
    pure (some (some (P.ofInt (-i1 - 1))))
  else if type = OP_UNARY_PLUS then pure (some result)
  else if type = OP_UNARY_MINUS then pure (some (some (P.neg value1)))
  else if type = OP_SHL then do
    let i2 ← cast_eval_int P value2
    let i1 ← cast_eval_int P value1
    let shifted ← shift_left i2 i1
    pure (some (some (P.ofInt shifted)))
  else if type = OP_SHR then do
    let i2 ← cast_eval_int P value2
    let i1 ← cast_eval_int P value1
    let shifted ← shift_right i2 i1
    pure (some (some (P.ofInt shifted)))
  else if type = OP_FACTORIAL then do
    let product ← eval_factorial P value1
    pure (some (some product))
  else pure none

/-- The case `STACK_ENTRY_OPERATOR` of `eval_compute`. -/
def compute_operator {V : Type} (P : Platform V) (sess : Session V) (cs : compute_state V)
    (ot : operator_token) : Except Fault (compute_step V) :=
  let finish (value1 value2 : V) (rest : List V) : Except Fault (compute_step V) :=
    match apply_operator P ot.type value1 value2 cs.result with
    | .error f => .error f
    | .ok none => pure (.failed (eval_error sess E_EVAL_UNDEFINED_OPERATOR (-1) (-1)))
    | .ok (some none) => .error Fault.indeterminate_result
    | .ok (some (some result)) =>
      pure (.next sess { value_stack := result :: rest, result := some result })
  if ot.unary ≠ 0 then
    match cs.value_stack with
    | [] => pure (.failed (eval_error sess E_EVAL_STACK_EMPTY (-1) (-1)))
    | value1 :: rest => finish value1 value1 rest
  else
    match cs.value_stack with
    | value1 :: value2 :: rest => finish value1 value2 rest
    | _ => pure (.failed (eval_error sess E_EVAL_STACK_EMPTY (-1) (-1)))

/-- The case `STACK_ENTRY_REGISTER_RECALL` of `eval_compute`. -/
def compute_register_recall {V : Type} (sess : Session V) (cs : compute_state V)
    (register_value : Int) : Except Fault (compute_step V) :=
  let regnum :=
    if register_value < 0 ∧ sess.eval_last_register ≥ 0 then sess.eval_last_register
    else register_value
  if regnum < 0 then pure (.failed (eval_error sess E_EVAL_INVALID_REGISTER_INDEX (-1) (-1)))
  else
    match sess.eval_registers_set.get? regnum.toNat, sess.eval_registers.get? regnum.toNat with
    | some set, some value =>
      if set then pure (push_value sess cs value)
      else pure (.failed (eval_error sess E_EVAL_INVALID_REGISTER_INDEX (-1) (-1)))
    | _, _ => .error Fault.register_index_out_of_bounds

/-- The case `STACK_ENTRY_REGISTER_SAVE` of `eval_compute`. -/
def compute_register_save {V : Type} (sess : Session V) (cs : compute_state V)
    (register_value : Int) : Except Fault (compute_step V) :=
  let regnum :=
    if register_value < 0 then
      if sess.eval_last_register < 0 then 0 else sess.eval_last_register + 1
    else register_value
  match cs.value_stack with
  | [] => .error Fault.value_stack_read_below
  | top :: _ =>
    if regnum < 0 ∨ MAX_REGISTERS ≤ regnum then .error Fault.register_index_out_of_bounds
    else
      pure (.next
        { sess with
          eval_registers := sess.eval_registers.set regnum.toNat top
          eval_registers_set := sess.eval_registers_set.set regnum.toNat true
          eval_last_register := regnum }
        cs)

/-- A failure of `eval_compute` whose message prints a name with `%s` among `body` other
characters: `eval_error` without position, then the return of 0. -/
def compute_error_text {V : Type} (sess : Session V) (err : Int) (body : Nat)
    (name : List Char) : Except Fault (compute_step V) :=
  if message_fits (-1) (-1) (body + name.length) then
    .ok (.failed (eval_error sess err (-1) (-1)))
  else .error Fault.message_buffer_overflow

/-- The case `STACK_ENTRY_FUNCTION_CALL` of `eval_compute`. -/
def compute_function_call {V : Type} (sess : Session V) (cs : compute_state V)
    (name : List Char) (argc : Option Int) : Except Fault (compute_step V) :=
  match eval_find_primitive (fun d => d.name) sess.eval_function_definitions name with
  | none => compute_error_text sess E_EVAL_UNDEFINED_FUNCTION 21 name
  | some definition =>
    match argc with
    | none => .error Fault.indeterminate_entry
    | some argc =>
      let stack_arguments : Int := cs.value_stack.length
      if stack_arguments < argc then
        compute_error_text sess E_EVAL_IMPLEMENTATION_ERROR
          (56 + printed_length stack_arguments) definition.name
      else if argc ≥ definition.min_args ∧ argc ≤ definition.max_args then
        let function_args := (cs.value_stack.take argc.toNat).reverse
        match definition.func sess.evaluator_use_degrees argc function_args with
        | .error f => .error f
        | .ok result =>
          pure (.next sess
            { value_stack := result :: cs.value_stack.drop argc.toNat, result := some result })
      else
        compute_error_text sess E_EVAL_BAD_ARGUMENT_COUNT
          (67 + printed_length argc + printed_length definition.min_args +
            printed_length definition.max_args)
          definition.name

/-- One iteration of the instruction loop of `eval_compute`. -/
def compute_entry {V : Type} (P : Platform V) (callback : Option (eval_callback V))
    (sess : Session V) (cs : compute_state V) (se : eval_stack_entry V) :
    Except Fault (compute_step V) :=
  match se with
  | .numeric double_value => pure (push_value sess cs double_value)
  | .operator ot => compute_operator P sess cs ot
  | .name string_value =>
    match eval_find_primitive (fun d => d.name) sess.eval_constant_definitions string_value with
    | some definition => pure (push_value sess cs definition.value)
    | none => compute_error_text sess E_EVAL_UNDEFINED_CONSTANT 21 string_value
  | .variable string_value =>
    match callback with
    | none => .error Fault.null_callback
    | some callback =>
      let r := callback string_value
      if r.1 = EVAL_CALLBACK_UNDEFINED then
        compute_error_text sess E_EVAL_UNDEFINED_VARIABLE 21 string_value
      else pure (push_value sess cs r.2)
  | .register_recall register_value => compute_register_recall sess cs register_value
  | .register_save register_value => compute_register_save sess cs register_value
  | .function_call name argc => compute_function_call sess cs name argc

/-- The instruction loop of `eval_compute` over the entries from index 0 upwards, followed by
the final check: the status, the session and `* output` when it is stored. -/
def compute_loop {V : Type} (P : Platform V) (callback : Option (eval_callback V)) :
    Session V → compute_state V → List (eval_stack_entry V) →
    Except Fault (Int × Session V × Option V)
  | sess, cs, [] =>
    if cs.value_stack.length > 1 then
      pure (0, eval_error sess E_EVAL_IMPLEMENTATION_ERROR (-1) (-1), none)
    else
      match cs.result with
      | none => .error Fault.indeterminate_result
      | some result => pure (1, sess, some result)
  | sess, cs, se :: rest => do
    match ← compute_entry P callback sess cs se with
    | .failed sess => pure (0, sess, none)
    | .next sess cs => compute_loop P callback sess cs rest

/-- The function `eval_compute` on the output stack (top at the head): status, session, and
the value stored through `output` if any. -/
def eval_compute {V : Type} (P : Platform V) (callback : Option (eval_callback V))
    (sess : Session V) (stack : List (eval_stack_entry V)) :
    Except Fault (Int × Session V × Option V) :=
  if stack.isEmpty then pure (0, sess, none)
  else compute_loop P callback sess { value_stack := [], result := none } stack.reverse

/-! ## `eval_parse` and the session facade -/

/-- The initial values of the local variables of `eval_parse`. -/
def parse_start (V : Type) : parse_state V :=
  { output_stack := [], operator_stack := [], last_token := TOKEN_EOF, character := 0,
    line := 1, parentheses_nesting := List.replicate 64 0,
    function_args := List.replicate 64 none, nesting_level := 0, bounds_set := false,
    max_token_length := DEFAULT_TOKEN_BUFFER_SIZE }

/-- What a top-level evaluation leaves: the returned status, the value stored through
`output`, and the global variables. -/
structure evaluation (V : Type) where
  status : Int
  output : V
  session : Session V

/-- The loop that pops the entries left on the operator stack and pushes them onto the
output stack. -/
def flush_operators {V : Type} :
    List (eval_stack_entry V) → List (eval_stack_entry V) →
    Except Fault (List (eval_stack_entry V))
  | [], output => .ok output
  | se :: below, output =>
    match push_output output se with
    | .error f => .error f
    | .ok output => flush_operators below output

/-- The part of `eval_parse` from the label `ParseEnd` on; `output` is `* value`, which
`eval_parse` sets to 0 before the token loop. -/
def parse_end {V : Type} (P : Platform V) (callback : Option (eval_callback V))
    (status : Int) (sess : Session V) (st : parse_state V) : Except Fault (evaluation V) :=
  if status = 0 then pure { status := status, output := P.ofInt 0, session := sess }
  else if st.nesting_level ≠ 0 then
    pure { status := 0, output := P.ofInt 0,
           session := eval_error sess E_EVAL_UNTERMINATED_FUNCTION_CALL st.line st.character }
  else do
    let depth ← nesting_cell st.parentheses_nesting 0
    if depth ≠ 0 then
      pure { status := 0, output := P.ofInt 0,
             session := eval_error sess E_EVAL_UNBALANCED_PARENTHESES st.line st.character }
    else
      let output_stack ← flush_operators st.operator_stack st.output_stack
      let (status, sess, value) ← eval_compute P callback sess output_stack
      pure { status := status, output := value.getD (P.ofInt 0), session := sess }

/-- The function `eval_parse`; the token loop gets one unit of fuel per character of the
input, and one more. -/
def eval_parse {V : Type} (P : Platform V) (callback : Option (eval_callback V))
    (sess : Session V) (str : List Char) : Except Fault (Option (evaluation V)) := do
  match ← parse_loop P callback (str.length + 1) sess (parse_start V) str with
  | none => pure none
  | some (status, sess, st) => do
    let r ← parse_end P callback status sess st
    pure (some r)

/-! ## Built-in functions and constants (`evalfuncs.h`) -/

/-- The element `argv [ i ]` of the argument buffer. -/
def arg {V : Type} (P : Platform V) (argv : List V) (i : Nat) : V := argv.getD i (P.ofInt 0)

def eval_deg2rad {V : Type} (P : Platform V) (value : V) : V :=
  P.div (P.mul (P.constant "M_PI") value) (P.ofInt 180)

def eval_degrees {V : Type} (P : Platform V) (evaluator_use_degrees : Int) (value : V) : V :=
  if evaluator_use_degrees ≠ 0 then eval_deg2rad P value else value

def eval_primitive_abs {V : Type} (P : Platform V) : eval_function V := fun _ _ argv =>
  .ok (if P.ge (arg P argv 0) (P.ofInt 0) then arg P argv 0 else P.neg (arg P argv 0))

/-- The function `sigma`, whose local variables `step`, `low`, `high` and `result` are
`double`. -/
def eval_primitive_sigma {V : Type} (P : Platform V) : eval_function V := fun _ argc argv =>
  let step := P.double (if argc = 3 then arg P argv 2 else P.ofInt 1)
  let low := P.double (arg P argv 0)
  let high := P.double (arg P argv 1)
  .ok (P.ddiv (P.dmul (P.dadd high low) (P.ddiv (P.dadd (P.dsub high low) (P.ofInt 1)) step))
    (P.ofInt 2))

def eval_primitive_avg {V : Type} (P : Platform V) : eval_function V := fun _ argc argv =>
  .ok (P.div ((argv.take argc.toNat).foldl (fun result x => P.add result x) (P.ofInt 0))
    (P.ofInt argc))

def eval_primitive_var {V : Type} (P : Platform V) : eval_function V := fun d argc argv => do
  let avg ← eval_primitive_avg P d argc argv
  pure (P.div
    ((argv.take argc.toNat).foldl
      (fun result x => P.add result (P.math2 .pow (P.sub x avg) (P.ofInt 2))) (P.ofInt 0))
    (P.ofInt argc))

def eval_primitive_dev {V : Type} (P : Platform V) : eval_function V := fun d argc argv => do
  let variance ← eval_primitive_var P d argc argv
  pure (P.math1 .sqrt variance)

def eval_primitive_arr {V : Type} (P : Platform V) : eval_function V := fun _ _ argv => do
  let numerator ← eval_factorial P (arg P argv 0)
  let denominator ← eval_factorial P (P.sub (arg P argv 1) (arg P argv 0))
  pure (P.div numerator denominator)

def eval_primitive_comb {V : Type} (P : Platform V) : eval_function V := fun _ _ argv => do
  let numerator ← eval_factorial P (arg P argv 0)
  let left ← eval_factorial P (P.sub (arg P argv 1) (arg P argv 0))
  let right ← eval_factorial P (arg P argv 1)
  pure (P.div numerator (P.mul left right))

def eval_primitive_dist {V : Type} (P : Platform V) : eval_function V := fun _ _ argv =>
  let x1 := arg P argv 0
  let y1 := arg P argv 1
  let x2 := arg P argv 2
  let y2 := arg P argv 3
  .ok (P.math1 .sqrt
    (P.add (P.math2 .pow (P.sub x2 x1) (P.ofInt 2)) (P.math2 .pow (P.sub y2 y1) (P.ofInt 2))))

def eval_primitive_slope {V : Type} (P : Platform V) : eval_function V := fun _ _ argv =>
  let x1 := arg P argv 0
  let y1 := arg P argv 1
  let x2 := arg P argv 2
  let y2 := arg P argv 3
  .ok (P.div (P.sub y2 y1) (P.sub x2 x1))

def eval_primitive_fib {V : Type} (P : Platform V) : eval_function V := fun _ _ argv =>
  let n := arg P argv 0
  .ok (P.div
    (P.sub (P.math2 .pow (P.constant "M_PHI") (P.double n))
      (P.math2 .pow (P.div (P.ofInt (-1)) (P.constant "M_PHI")) (P.double n)))
    (P.constant "2.2360679774997896964091736687313"))

def eval_primitive_delta1 {V : Type} (P : Platform V) : eval_function V := fun _ _ argv =>
  let a := arg P argv 0
  let b := arg P argv 1
  let c := arg P argv 2
  .ok (P.div
    (P.add (P.neg b) (P.math1 .sqrt (P.sub (P.mul b b) (P.mul (P.mul (P.ofInt 4) a) c))))
    (P.mul (P.ofInt 2) a))

def eval_primitive_delta2 {V : Type} (P : Platform V) : eval_function V := fun _ _ argv =>
  let a := arg P argv 0
  let b := arg P argv 1
  let c := arg P argv 2
  .ok (P.div
    (P.sub (P.neg b) (P.math1 .sqrt (P.sub (P.mul b b) (P.mul (P.mul (P.ofInt 4) a) c))))
    (P.mul (P.ofInt 2) a))

/-- The wrappers that pass their argument through `eval_degrees`: `acos`, `asin`, `atan`,
`cos`, `cosh`, `sin`, `sinh`, `tan`, `tanh`. -/
def eval_primitive_degrees {V : Type} (P : Platform V) (f : Math1) : eval_function V :=
  fun d _ argv => .ok (P.math1 f (eval_degrees P d (arg P argv 0)))

/-- The wrappers that pass their argument as it is: `ceil`, `exp`, `floor`, `log`, `log10`,
`sqrt`. -/
def eval_primitive_plain {V : Type} (P : Platform V) (f : Math1) : eval_function V :=
  fun _ _ argv => .ok (P.math1 f (arg P argv 0))

def eval_primitive_atan2 {V : Type} (P : Platform V) : eval_function V := fun d _ argv =>
  .ok (P.math2 .atan2 (eval_degrees P d (arg P argv 0)) (eval_degrees P d (arg P argv 1)))

def eval_primitive_log2 {V : Type} (P : Platform V) : eval_function V := fun _ _ argv =>
  .ok (P.div (P.math1 .log (arg P argv 0)) (P.math1 .log (P.ofInt 2)))

def default_constant_definitions {V : Type} (P : Platform V) :
    List (evaluator_constant_definition V) :=
  [ ⟨"PI".toList, P.constant "3.14159265358979323846"⟩,
    ⟨"PI_2".toList, P.constant "1.57079632679489661923"⟩,
    ⟨"PI_4".toList, P.constant "0.785398163397448309616"⟩,
    ⟨"E".toList, P.constant "2.71828182845904523536"⟩,
    ⟨"LOG2E".toList, P.constant "1.44269504088896340736"⟩,
    ⟨"LOG10E".toList, P.constant "0.434294481903251827651"⟩,
    ⟨"LN2".toList, P.constant "0.693147180559945309417"⟩,
    ⟨"LN10".toList, P.constant "2.30258509299404568402"⟩,
    ⟨"ONE_PI".toList, P.constant "0.318309886183790671538"⟩,
    ⟨"TWO_PI".toList, P.constant "0.636619772367581343076"⟩,
    ⟨"TWO_SQRTPI".toList, P.constant "1.12837916709551257390"⟩,
    ⟨"SQRT2".toList, P.constant "1.41421356237309504880"⟩,
    ⟨"ONE_SQRT2".toList, P.constant "0.707106781186547524401"⟩,
    ⟨"INTMIN".toList, P.constant "EVAL_INTMIN"⟩,
    ⟨"INTMAX".toList, P.constant "EVAL_INTMAX"⟩,
    ⟨"UINTMAX".toList, P.constant "EVAL_UINTMAX"⟩,
    ⟨"DBLMIN".toList, P.constant "EVAL_FLOATMIN"⟩,
    ⟨"DBLMAX".toList, P.constant "EVAL_FLOATMAX"⟩,
    ⟨"E_PI".toList, P.constant "23.140692632779269006"⟩,
    ⟨"PI_E".toList, P.constant "22.45915771836104547342715"⟩,
    ⟨"PHI".toList, P.constant "M_PHI"⟩ ]

def default_function_definitions {V : Type} (P : Platform V) :
    List (evaluator_function_definition V) :=
  [ ⟨"abs".toList, 1, 1, eval_primitive_abs P⟩,
    ⟨"acos".toList, 1, 1, eval_primitive_degrees P .acos⟩,
    ⟨"arr".toList, 2, 2, eval_primitive_arr P⟩,
    ⟨"asin".toList, 1, 1, eval_primitive_degrees P .asin⟩,
    ⟨"atan".toList, 1, 1, eval_primitive_degrees P .atan⟩,
    ⟨"atan2".toList, 2, 2, eval_primitive_degrees P .atan⟩,
    ⟨"ceil".toList, 1, 1, eval_primitive_plain P .ceil⟩,
    ⟨"comb".toList, 2, 2, eval_primitive_comb P⟩,
    ⟨"cos".toList, 1, 1, eval_primitive_degrees P .cos⟩,
    ⟨"cosh".toList, 1, 1, eval_primitive_degrees P .cosh⟩,
    ⟨"delta1".toList, 3, 3, eval_primitive_delta1 P⟩,
    ⟨"delta2".toList, 3, 3, eval_primitive_delta2 P⟩,
    ⟨"dev".toList, 1, 0x7FFFFFFF, eval_primitive_dev P⟩,
    ⟨"dist".toList, 4, 4, eval_primitive_dist P⟩,
    ⟨"exp".toList, 1, 1, eval_primitive_plain P .exp⟩,
    ⟨"fib".toList, 1, 1, eval_primitive_fib P⟩,
    ⟨"floor".toList, 1, 1, eval_primitive_plain P .floor⟩,
    ⟨"log".toList, 1, 1, eval_primitive_plain P .log⟩,
    ⟨"log2".toList, 1, 1, eval_primitive_log2 P⟩,
    ⟨"log10".toList, 1, 1, eval_primitive_plain P .log10⟩,
    ⟨"avg".toList, 1, 0x7FFFFFFF, eval_primitive_avg P⟩,
    ⟨"sigma".toList, 2, 3, eval_primitive_sigma P⟩,
    ⟨"sin".toList, 1, 1, eval_primitive_degrees P .sin⟩,
    ⟨"sinh".toList, 1, 1, eval_primitive_degrees P .sinh⟩,
    ⟨"slope".toList, 4, 4, eval_primitive_slope P⟩,
    ⟨"sqrt".toList, 1, 1, eval_primitive_plain P .sqrt⟩,
    ⟨"tan".toList, 1, 1, eval_primitive_degrees P .tan⟩,
    ⟨"tanh".toList, 1, 1, eval_primitive_degrees P .tanh⟩,
    ⟨"var".toList, 1, 0x7FFFFFFF, eval_primitive_var P⟩ ]

/-! ## Initialisation and entry points -/

/-- The global variables when the program starts: static storage is zero-initialised,
`eval_last_register` is -1 and `evaluator_use_degrees` is `EVALUATOR_USE_DEGREES` (1). -/
def Session.start {V : Type} (P : Platform V) : Session V :=
  { evaluator_errno := 0, evaluator_error := .empty,
    eval_registers := List.replicate 64 (P.ofInt 0),
    eval_registers_set := List.replicate 64 false,
    eval_last_register := -1, eval_initialized := false,
    eval_constant_definitions := [], eval_function_definitions := [],
    evaluator_use_degrees := 1 }

def evaluator_register_constants {V : Type} (sess : Session V)
    (newdefs : List (evaluator_constant_definition V)) : Session V :=
  { sess with
    eval_constant_definitions :=
      eval_register (fun d => d.name) sess.eval_constant_definitions newdefs }

def evaluator_register_functions {V : Type} (sess : Session V)
    (newdefs : List (evaluator_function_definition V)) : Session V :=
  { sess with
    eval_function_definitions :=
      eval_register (fun d => d.name) sess.eval_function_definitions newdefs }

/-- The function `eval_initialize`; the sort of `operators` is accounted for by
`sorted_operators`. -/
def eval_initialize {V : Type} (P : Platform V) (sess : Session V) : Session V :=
  if sess.eval_initialized then sess
  else
    { evaluator_register_functions
        (evaluator_register_constants sess (default_constant_definitions P))
        (default_function_definitions P) with
      eval_initialized := true }

/-- The function `eval_instance_initialize`.  The seeding of `rand` is left out: no function
of the program calls `rand`. -/
def eval_instance_initialize {V : Type} (P : Platform V) (sess : Session V) : Session V :=
  { sess with
    evaluator_errno := E_EVAL_OK
    evaluator_error := .empty
    eval_registers := List.replicate 64 (P.ofInt 0)
    eval_registers_set := List.replicate 64 false
    eval_last_register := -1 }

/-- The function `__evaluate__`: the result of `eval_parse`, an `eval_double`, is stored
through `output` as a `double`. -/
def __evaluate__ {V : Type} (P : Platform V) (sess : Session V) (str : List Char)
    (callback : Option (eval_callback V)) : Except Fault (Option (evaluation V)) := do
  let r ← eval_parse P callback ( eval_instance_initialize P ( eval_initialize P sess)) str
  pure (r.map (fun e => { e with output := P.double e.output }))

/-- The function `evaluate`. -/
def evaluate {V : Type} (P : Platform V) (sess : Session V) (str : List Char) :
    Except Fault (Option (evaluation V)) :=
  __evaluate__ P sess str none

/-- The function `evaluate_ex`; a `NULL` callback is `none`. -/
def evaluate_ex {V : Type} (P : Platform V) (sess : Session V) (str : List Char)
    (callback : Option (eval_callback V)) : Except Fault (Option (evaluation V)) :=
  __evaluate__ P sess str callback

/-! ## The registrations of `main.c` -/

def myconstants {V : Type} (P : Platform V) : List (evaluator_constant_definition V) :=
  [ ⟨"TESTC1".toList, P.ofInt 100⟩, ⟨"TESTC2".toList, P.ofInt 200⟩ ]

def eval_primitive_by2 {V : Type} (P : Platform V) : eval_function V := fun _ _ argv =>
  .ok (P.mul (arg P argv 0) (P.ofInt 2))

def myfunctions {V : Type} (P : Platform V) : List (evaluator_function_definition V) :=
  [ ⟨"by2".toList, 1, 1, eval_primitive_by2 P⟩ ]

/-- The session of `main` when it enters its loop. -/
def main_session {V : Type} (P : Platform V) : Session V :=
  evaluator_register_functions (evaluator_register_constants (Session.start P) (myconstants P))
    (myfunctions P)

/-! ## The platform of exact fractions -/

/-- A fraction `num / den` in lowest terms; `den = 0` marks a value that is not a finite
fraction (the result of a division by zero, or of a library function whose value is not
rational). -/
structure Fraction where
  num : Int
  den : Nat
  deriving DecidableEq, Repr

namespace Fraction

def normalize (n : Int) (d : Nat) : Fraction :=
  let g := Nat.gcd n.natAbs d
  ⟨n / (g : Int), d / g⟩

def ofInt (n : Int) : Fraction := ⟨n, 1⟩

/-- The marker of a value that is not a finite fraction. -/
def undefined : Fraction := ⟨0, 0⟩

def add (x y : Fraction) : Fraction := normalize (x.num * y.den + y.num * x.den) (x.den * y.den)

def neg (x : Fraction) : Fraction := ⟨-x.num, x.den⟩

def sub (x y : Fraction) : Fraction := add x (neg y)

def mul (x y : Fraction) : Fraction := normalize (x.num * y.num) (x.den * y.den)

def div (x y : Fraction) : Fraction :=
  normalize (x.num * Int.sign y.num * y.den) (x.den * y.num.natAbs)

def ge (x y : Fraction) : Bool := decide (y.num * x.den ≤ x.num * y.den)

/-- Truncation towards zero. -/
def toInt (x : Fraction) : Int := Int.tdiv x.num x.den

def floor (x : Fraction) : Fraction := if x.den = 0 then x else ofInt (x.num / x.den)

def ceil (x : Fraction) : Fraction := if x.den = 0 then x else ofInt (-((-x.num) / x.den))

/-- Powers with an integer exponent; other powers are not fractions. -/
def pow (x y : Fraction) : Fraction :=
  if y.den = 1 then
    if 0 ≤ y.num then normalize (x.num ^ y.num.natAbs) (x.den ^ y.num.natAbs)
    else div (ofInt 1) (normalize (x.num ^ y.num.natAbs) (x.den ^ y.num.natAbs))
  else undefined

def fmod (x y : Fraction) : Fraction := sub x (mul y (ofInt (toInt (div x y))))

/-- The value of a string of decimal digits read after the digits already in `acc`. -/
def digits_value (acc : Nat) : List Char → Nat
  | [] => acc
  | c :: cs => digits_value (acc * 10 + (c.toNat - '0'.toNat)) cs

/-- The function `strtod` on a decimal floating constant without sign: digits, an optional
fraction, an optional exponent; the value and the number of characters converted. -/
def strtod (str : List Char) : Fraction × Nat :=
  let int_part := str.takeWhile isdigit
  let s1 := str.dropWhile isdigit
  let frac_part := match s1 with
    | '.' :: s2 => s2.takeWhile isdigit
    | _ => []
  let s3 := match s1 with
    | '.' :: s2 => s2.dropWhile isdigit
    | _ => s1
  let dot := match s1 with
    | '.' :: _ => 1
    | _ => 0
  if int_part.isEmpty then (undefined, 0)
  else
    let mantissa :=
      normalize (digits_value 0 (int_part ++ frac_part)) (10 ^ frac_part.length)
    let after_e := match s3 with
      | 'e' :: s4 => some s4
      | 'E' :: s4 => some s4
      | _ => none
    let exponent : Option (Bool × List Char) := match after_e with
      | some ('+' :: s5) => if (s5.takeWhile isdigit).isEmpty then none else some (false, s5)
      | some ('-' :: s5) => if (s5.takeWhile isdigit).isEmpty then none else some (true, s5)
      | some s4 => if (s4.takeWhile isdigit).isEmpty then none else some (false, s4)
      | none => none
    match exponent with
    | none => (mantissa, int_part.length + dot + frac_part.length)
    | some (negative, s5) =>
      let e := digits_value 0 (s5.takeWhile isdigit)
      let value := if negative then div mantissa (ofInt (10 ^ e)) else mul mantissa (ofInt (10 ^ e))
      (value, str.length - (s5.dropWhile isdigit).length)

def math1 : Math1 → Fraction → Fraction
  | .floor, x => floor x
  | .ceil, x => ceil x
  | _, _ => undefined

def math2 : Math2 → Fraction → Fraction → Fraction
  | .pow, x, y => pow x y
  | .fmod, x, y => fmod x y
  | .atan2, _, _ => undefined

/-- The floating constants of the program text, by spelling; the macros of `<math.h>`,
`<limits.h>` and `<float.h>` by their (x86-64) values. -/
def constant (spelling : String) : Fraction :=
  if spelling = "M_PI" then (strtod "3.14159265358979323846".toList).1
  else if spelling = "M_PHI" then (strtod "1.6180339887498948482045868343".toList).1
  else if spelling = "EVAL_INTMIN" then ofInt (-(2 ^ 63))
  else if spelling = "EVAL_INTMAX" then ofInt (2 ^ 63 - 1)
  else if spelling = "EVAL_UINTMAX" then ofInt (2 ^ 64 - 1)
  else if spelling = "EVAL_FLOATMIN" then ⟨1, 2 ^ 16382⟩
  else if spelling = "EVAL_FLOATMAX" then ofInt ((2 ^ 64 - 1) * 2 ^ 16320)
  else (strtod spelling.toList).1

end Fraction

/-- The platform that computes with exact fractions and has signed bit-fields.  It agrees
with a floating-point platform as long as every value met is exactly representable there,
in `double` where the program computes in or converts to `double`. -/
def exact : Platform Fraction :=
  { ofInt := Fraction.ofInt, toInt := Fraction.toInt, finite := fun x => decide (x.den ≠ 0),
    double := fun x => x, add := Fraction.add, sub := Fraction.sub,
    mul := Fraction.mul, div := Fraction.div, neg := Fraction.neg, ge := Fraction.ge,
    dadd := Fraction.add, dsub := Fraction.sub, dmul := Fraction.mul, ddiv := Fraction.div,
    strtod := Fraction.strtod, math1 := Fraction.math1, math2 := Fraction.math2,
    constant := Fraction.constant, signed_bitfields := true }

/-- The exact platform on a compiler whose plain `int` bit-fields are unsigned. -/
def exact_unsigned : Platform Fraction := { exact with signed_bitfields := false }

/-! ## The platform of rounded fractions -/

namespace Fraction

/-- The number of binary digits of `n`; `fuel` bounds the number of halvings. -/
def bit_length : Nat → Nat → Nat
  | 0, _ => 0
  | fuel + 1, n => if n = 0 then 0 else bit_length fuel (n / 2) + 1

/-- Rounding to the nearest number whose significand has `precision` binary digits, a tie
going to the even significand.  The exponent is not bounded: nothing overflows, nothing is
denormal. -/
def round (precision : Nat) (x : Fraction) : Fraction :=
  if x.den = 0 ∨ x.num = 0 then x
  else
    let n := x.num.natAbs
    let bits : Int := (bit_length n n : Int) - (bit_length x.den x.den : Int)
    -- the exponent of the leading binary digit of `n / x.den`
    let exponent : Int :=
      if x.den * 2 ^ bits.toNat ≤ n * 2 ^ (-bits).toNat then bits else bits - 1
    -- the exponent of the last binary digit kept
    let shift : Int := exponent - (precision : Int) + 1
    let scaled_num := n * 2 ^ (-shift).toNat
    let scaled_den := x.den * 2 ^ shift.toNat
    let q := scaled_num / scaled_den
    let r := scaled_num % scaled_den
    let significand :=
      if scaled_den < 2 * r ∨ (2 * r = scaled_den ∧ q % 2 = 1) then q + 1 else q
    let magnitude := normalize ((significand : Int) * 2 ^ shift.toNat) (2 ^ (-shift).toNat)
    if x.num < 0 then neg magnitude else magnitude

end Fraction

/-- The platform that rounds as the x86-64 System V implementations of C do: `eval_double`
is `long double`, whose significand has 64 binary digits, `double` has 53, an operation gives
the exact result rounded to the nearest value of its type, and the functions of `<math.h>`
that the program calls take and return `double`.  A floating constant of the program text is
a `double`, the limits `EVAL_...` of `eval.h` are `long double`.  The range of the exponents
is not modelled; bit-fields are signed. -/
def rounded : Platform Fraction :=
  { ofInt := fun n => Fraction.round 64 (Fraction.ofInt n),
    toInt := Fraction.toInt, finite := fun x => decide (x.den ≠ 0),
    double := Fraction.round 53,
    add := fun x y => Fraction.round 64 (Fraction.add x y),
    sub := fun x y => Fraction.round 64 (Fraction.sub x y),
    mul := fun x y => Fraction.round 64 (Fraction.mul x y),
    div := fun x y => Fraction.round 64 (Fraction.div x y),
    neg := Fraction.neg, ge := Fraction.ge,
    dadd := fun x y => Fraction.round 53 (Fraction.add x y),
    dsub := fun x y => Fraction.round 53 (Fraction.sub x y),
    dmul := fun x y => Fraction.round 53 (Fraction.mul x y),
    ddiv := fun x y => Fraction.round 53 (Fraction.div x y),
    strtod := fun str => (Fraction.round 53 (Fraction.strtod str).1, (Fraction.strtod str).2),
    math1 := fun f x => Fraction.round 53 (Fraction.math1 f (Fraction.round 53 x)),
    math2 := fun f x y =>
      Fraction.round 53 (Fraction.math2 f (Fraction.round 53 x) (Fraction.round 53 y)),
    constant := fun spelling =>
      Fraction.round (if "EVAL_".toList.isPrefixOf spelling.toList then 64 else 53)
        (Fraction.constant spelling),
    signed_bitfields := true }
/-! ## Notions used to state the properties -/

/-- A character that cannot continue a number token: neither alphanumeric nor a point. -/
def delimiter (c : Char) : Bool := !(isalnum c || c == '.')

/-- The input `rest` is empty or starts with a delimiter. -/
def delimited (rest : List Char) : Prop :=
  match rest with
  | [] => True
  | c :: _ => delimiter c = true

/-- The token `text` fits the block of `current_token` as `eval_parse` first allocates it:
its copy leaves the block as it is. -/
def fits_token_buffer (text : List Char) : Prop :=
  (text.length : Int) + 1 < DEFAULT_TOKEN_BUFFER_SIZE

instance (text : List Char) : Decidable (fits_token_buffer text) :=
  Int.decLt ((text.length : Int) + 1) DEFAULT_TOKEN_BUFFER_SIZE

/-- The text `a` is a numeric literal of value `v` for the program, of fewer than 63
characters: wherever it stands in front of the end of the input or of a delimiter, `eval_lex`
returns it as one `TOKEN_NUMBER`, its copy fits the block of `current_token` as first
allocated, and `eval_double_value` converts it to `v`. -/
structure IsNumber {V : Type} (P : Platform V) (a : List Char) (v : V) : Prop where
  lex : ∀ (table : List operator_token) (rest : List Char) (character : Int), delimited rest →
    eval_lex table (a ++ rest) character =
      .ok { token := TOKEN_NUMBER, text := a, rest := rest, param := .null,
            character := character + (a.length : Int) - 1 }
  short : fits_token_buffer a
  value : eval_double_value P a (a.length : Int) = some v

/-- The state in which a top-level evaluation runs: `eval_initialize` (if still needed), then
`eval_instance_initialize`. -/
def Session.fresh {V : Type} (P : Platform V) (sess : Session V) : Session V :=
  eval_instance_initialize P ( eval_initialize P sess)

/-- A successful evaluation with result `v` that leaves the globals as initialised. -/
def succeeds {V : Type} (P : Platform V) (sess : Session V) (v : V) :
    Except Fault (Option (evaluation V)) :=
  .ok (some { status := 1, output := v, session := Session.fresh P sess })

/-- Parsing `str` succeeds and hands the postfix stream `stream` (first instruction first) to
`eval_compute`: the token loop ends without an error, no call and no parenthesis is open, and
the operators left are moved to the output stack, which then holds `stream`. -/
def parses_to {V : Type} (P : Platform V) (cb : Option (eval_callback V)) (sess : Session V)
    (str : List Char) (stream : List (eval_stack_entry V)) : Prop :=
  ∃ sess' st,
    parse_loop P cb (str.length + 1) (Session.fresh P sess) (parse_start V) str =
      .ok (some (1, sess', st)) ∧
    st.nesting_level = 0 ∧ nesting_cell st.parentheses_nesting 0 = .ok 0 ∧
    flush_operators st.operator_stack st.output_stack = .ok stream.reverse


/-- The global variables that an evaluation reads and never writes: the initialisation flag,
the two registries and the angle unit. -/
def Session.setup {V : Type} (s : Session V) :
    Bool × List (evaluator_constant_definition V) × List (evaluator_function_definition V) ×
      Int :=
  (s.eval_initialized, s.eval_constant_definitions, s.eval_function_definitions,
    s.evaluator_use_degrees)

/-- The global variables as an iteration of the token loop leaves them. -/
def parse_step.session {V : Type} : parse_step V → Session V
  | .next sess _ => sess
  | .parse_end _ sess _ => sess

/-- The global variables as an instruction of `eval_compute` leaves them. -/
def compute_step.session {V : Type} : compute_step V → Session V
  | .next sess _ => sess
  | .failed sess => sess

/-- One iteration of the token loop of `eval_parse` that goes on to the next token: from the
globals, the local variables and the input left, to the same after the token. -/
def loop_step {V : Type} (P : Platform V) (cb : Option (eval_callback V))
    (x y : Session V × parse_state V × List Char) : Prop :=
  x.2.2 ≠ [] ∧
    ∃ lx, eval_lex (sorted_operators P.signed_bitfields) x.2.2 x.2.1.character = .ok lx ∧
      parse_token P cb x.1 x.2.1 lx = .ok (.next y.1 y.2.1) ∧ y.2.2 = lx.rest

/-- The token loop of `eval_parse` gets from `x` to `y` in some number of iterations, none
of which jumps to `ParseEnd`. -/
def loop_reaches {V : Type} (P : Platform V) (cb : Option (eval_callback V))
    (x y : Session V × parse_state V × List Char) : Prop :=
  Relation.ReflTransGen (loop_step P cb) x y

/-- What an iteration of the `switch` that goes on keeps: the globals, the size of the array
`parentheses_nesting`, the line counter and the block of `current_token`. -/
def step_keeps {V : Type} (sess : Session V) (st : parse_state V) : parse_step V → Prop
  | .next sess1 st1 =>
    sess1 = sess ∧ st1.parentheses_nesting.length = st.parentheses_nesting.length ∧
      st1.line = st.line ∧ st1.max_token_length = st.max_token_length
  | .parse_end _ _ _ => True

/-- The spelling of a name token of fewer than 63 characters: a letter or an underscore, then
letters, digits and underscores, and the copy of the token fits the block of `current_token`
as first allocated. -/
def identifier : List Char → Bool
  | [] => false
  | c :: cs =>
    (isalpha c || c == '_') && cs.all (fun x => isalnum x || x == '_') &&
      decide (fits_token_buffer (c :: cs))

/-- The status with which an iteration leaves the token loop; 1 while the loop goes on. -/
def parse_step.status {V : Type} : parse_step V → Int
  | .next _ _ => 1
  | .parse_end status _ _ => status

/-- The status after an instruction of `eval_compute`: 1 while the loop goes on, 0 at a
`return ( 0 )` or a `goto ComputeEnd` after `eval_error`. -/
def compute_step.status {V : Type} : compute_step V → Int
  | .next _ _ => 1
  | .failed _ => 0

/-- The status and the error code agree: status 1 with the error code as it was, `code`, or
status 0 with an error code that is not `E_EVAL_OK`. -/
def code_agrees {V : Type} (code status : Int) (sess : Session V) : Prop :=
  (status = 1 ∧ sess.evaluator_errno = code) ∨
    (status = 0 ∧ sess.evaluator_errno ≠ E_EVAL_OK)

/-- The instruction loop of `eval_compute` over the instructions `done` alone, without the
final check: how the last of them leaves the `switch`, with the value stack at that point. -/
def compute_steps {V : Type} (P : Platform V) (callback : Option (eval_callback V)) :
    Session V → compute_state V → List (eval_stack_entry V) → Except Fault (compute_step V)
  | sess, cs, [] => pure (.next sess cs)
  | sess, cs, se :: rest => do
    match ← compute_entry P callback sess cs se with
    | .failed sess => pure (.failed sess)
    | .next sess cs => compute_steps P callback sess cs rest

/-- An entry of the operator stack at which the loop of the comma case stops: a function-call
marker or a left parenthesis. -/
def encloses {V : Type} : eval_stack_entry V → Bool
  | .function_call _ _ => true
  | .operator o => decide (o.type = OP_LEFT_PARENT)
  | _ => false
/-! ## Basic facts -/

theorem sorted_operators_eq (s : Bool) : sorted_operators s =
  [ operator_init s "**" 2 OP_POWER 9 ASSOC_RIGHT 0,
    operator_init s "<<" 2 OP_SHL 5 ASSOC_LEFT 0,
    operator_init s ">>" 2 OP_SHR 5 ASSOC_LEFT 0,
    operator_init s "+" 1 OP_PLUS 5 ASSOC_LEFT 0,
    operator_init s "-" 1 OP_MINUS 5 ASSOC_LEFT 0,
    operator_init s "*" 1 OP_MUL 8 ASSOC_LEFT 0,
    operator_init s "/" 1 OP_DIV 8 ASSOC_LEFT 0,
    operator_init s "\\" 1 OP_IDIV 8 ASSOC_LEFT 0,
    operator_init s "%" 1 OP_MOD 8 ASSOC_LEFT 0,
    operator_init s "&" 1 OP_AND 5 ASSOC_LEFT 0,
    operator_init s "|" 1 OP_OR 5 ASSOC_LEFT 0,
    operator_init s "^" 1 OP_XOR 5 ASSOC_LEFT 0,
    operator_init s "~" 1 OP_NOT 10 ASSOC_RIGHT 1,
    operator_init s "!" 1 OP_FACTORIAL 10 ASSOC_LEFT 1 ] := by
  cases s <;> rfl

theorem lex_finish_append (ch : Int) (tok : Nat) (pre rest : List Char) (p : lex_param) :
    lex_finish ch tok (pre ++ rest) rest p =
      { token := tok, text := pre, rest := rest, param := p,
        character := ch + (pre.length : Int) - 1 } := by
  simp [lex_finish]

theorem lex_finish_one (ch : Int) (tok : Nat) (c : Char) (rest : List Char) (p : lex_param) :
    lex_finish ch tok (c :: rest) rest p =
      { token := tok, text := [c], rest := rest, param := p, character := ch } := by
  have := lex_finish_append ch tok [c] rest p
  simpa using this

theorem lex_finish_two (ch : Int) (tok : Nat) (c d : Char) (rest : List Char)
    (p : lex_param) :
    lex_finish ch tok (c :: d :: rest) rest p =
      { token := tok, text := [c, d], rest := rest, param := p, character := ch + 1 } := by
  have := lex_finish_append ch tok [c, d] rest p
  simp only [List.cons_append, List.nil_append] at this
  rw [this]
  simp
  omega

/-! ### Stacks and buffers within their blocks -/

theorem eval_stack_alloc_output : eval_stack_alloc OUTPUT_STACK_SIZE = 16 := rfl

theorem eval_stack_alloc_operator : eval_stack_alloc OPERATOR_STACK_SIZE = 8 := rfl

/-- A list of fewer than `n` entries, by evaluation of the comparison. -/
theorem fits {α : Type} {n : Nat} {l : List α} (h : Nat.ble (l.length + 1) n = true) :
    l.length < n := Nat.le_of_ble_eq_true h

theorem push_output_ok {V : Type} {out : List (eval_stack_entry V)} (x : eval_stack_entry V)
    (h : out.length < 16) : push_output out x = .ok (x :: out) := by
  unfold push_output eval_stack_push
  rw [eval_stack_alloc_output, if_neg (by omega)]

theorem push_operator_ok {V : Type} {ops : List (eval_stack_entry V)} (x : eval_stack_entry V)
    (h : ops.length < 8) : push_operator ops x = .ok (x :: ops) := by
  unfold push_operator eval_stack_push
  rw [eval_stack_alloc_operator, if_neg (by omega)]

theorem push_output_full {V : Type} {out : List (eval_stack_entry V)} (x : eval_stack_entry V)
    (h : 16 ≤ out.length) : push_output out x = .error Fault.stack_overflow := by
  unfold push_output eval_stack_push
  rw [eval_stack_alloc_output, if_pos h]

theorem push_operator_full {V : Type} {ops : List (eval_stack_entry V)}
    (x : eval_stack_entry V) (h : 8 ≤ ops.length) :
    push_operator ops x = .error Fault.stack_overflow := by
  unfold push_operator eval_stack_push
  rw [eval_stack_alloc_operator, if_pos h]

/-- A push that returns has put the entry on top. -/
theorem push_output_eq {V : Type} {out out' : List (eval_stack_entry V)}
    {x : eval_stack_entry V} (h : push_output out x = .ok out') :
    out' = x :: out ∧ out.length < 16 := by
  unfold push_output eval_stack_push at h
  rw [eval_stack_alloc_output] at h
  split at h
  · cases h
  · cases h
    exact ⟨rfl, by omega⟩

theorem push_operator_eq {V : Type} {ops ops' : List (eval_stack_entry V)}
    {x : eval_stack_entry V} (h : push_operator ops x = .ok ops') :
    ops' = x :: ops ∧ ops.length < 8 := by
  unfold push_operator eval_stack_push at h
  rw [eval_stack_alloc_operator] at h
  split at h
  · cases h
  · cases h
    exact ⟨rfl, by omega⟩

/-- The copy of a token that fits the block as first allocated leaves the block as it is. -/
theorem copy_token_short {V : Type} {out ops : List (eval_stack_entry V)} {lt : Nat}
    {ch ln : Int} {pn : List Int} {fa : List (Option Int)} {nl : Int} {bs : Bool}
    (lx : lex_result) (h : fits_token_buffer lx.text) :
    copy_token (⟨out, ops, lt, ch, ln, pn, fa, nl, bs, 64⟩ : parse_state V) lx =
      .ok ⟨out, ops, lt, ch, ln, pn, fa, nl, bs, 64⟩ := by
  unfold fits_token_buffer DEFAULT_TOKEN_BUFFER_SIZE at h
  unfold copy_token
  simp only
  rw [if_neg (by omega), if_neg (by omega)]

/-- On a token that fits the block as first allocated, the body of the loop is the
`switch`. -/
theorem parse_token_short {V : Type} {P : Platform V} {cb : Option (eval_callback V)}
    {sess : Session V} {out ops : List (eval_stack_entry V)} {lt : Nat}
    {ch ln : Int} {pn : List Int} {fa : List (Option Int)} {nl : Int} {bs : Bool}
    {token : Nat} {text rest : List Char} {param : lex_param} {character : Int}
    (hne : token ≠ TOKEN_EOF) (h : fits_token_buffer text) :
    parse_token P cb sess ⟨out, ops, lt, ch, ln, pn, fa, nl, bs, 64⟩
        { token := token, text := text, rest := rest, param := param,
          character := character } =
      parse_switch P cb sess ⟨out, ops, lt, ch, ln, pn, fa, nl, bs, 64⟩
        { token := token, text := text, rest := rest, param := param,
          character := character } := by
  unfold parse_token
  rw [if_neg hne, copy_token_short ⟨token, text, rest, param, character⟩ h]

/-- What the loop of the final flush returns. -/
theorem flush_operators_eq {V : Type} :
    ∀ (ops out r : List (eval_stack_entry V)), flush_operators ops out = .ok r →
      r = ops.reverse ++ out
  | [], out, r, h => by
    cases h
    rfl
  | se :: below, out, r, h => by
    unfold flush_operators at h
    cases hp : push_output out se with
    | error f => rw [hp] at h; cases h
    | ok out' =>
      rw [hp] at h
      have := flush_operators_eq below out' r h
      rw [this, (push_output_eq hp).1]
      simp

/-- Fuel monotonicity of the token loop. -/
theorem parse_loop_mono {V : Type} (P : Platform V) (cb : Option (eval_callback V)) :
    ∀ (n : Nat) (sess : Session V) (st : parse_state V) (str : List Char)
      (r : Int × Session V × parse_state V),
      parse_loop P cb n sess st str = .ok (some r) →
      ∀ m, n ≤ m → parse_loop P cb m sess st str = .ok (some r) := by
  intro n
  induction n with
  | zero =>
    intro sess st str r h m _
    cases str with
    | nil => cases m <;> simpa [parse_loop] using h
    | cons c cs => simp [parse_loop, pure, Except.pure] at h
  | succ n ih =>
    intro sess st str r h m hm
    cases str with
    | nil => cases m <;> simpa [parse_loop] using h
    | cons c cs =>
      obtain ⟨m, rfl⟩ : ∃ k, m = k + 1 := ⟨m - 1, by omega⟩
      simp only [parse_loop, bind, Except.bind] at h ⊢
      cases hl : eval_lex (sorted_operators P.signed_bitfields) (c :: cs) st.character with
      | error f => simp [hl] at h
      | ok lx =>
        simp only [hl] at h ⊢
        cases ht : parse_token P cb sess st lx with
        | error f => simp [ht] at h
        | ok step =>
          simp only [ht] at h ⊢
          cases step with
          | parse_end status sess' st' => simpa using h
          | next sess' st' => exact ih sess' st' lx.rest r h m (by omega)

theorem IsNumber.ne_nil {V : Type} {P : Platform V} {a : List Char} {v : V}
    (h : IsNumber P a v) : a ≠ [] := by
  rintro rfl
  have := h.lex [] [] 0 trivial
  simp [eval_lex, eval_skip_spaces, bind, Except.bind, pure, Except.pure, TOKEN_EOF,
    TOKEN_NUMBER] at this

theorem IsNumber.length_pos {V : Type} {P : Platform V} {a : List Char} {v : V}
    (h : IsNumber P a v) : 1 ≤ a.length := by
  have := h.ne_nil
  cases a with
  | nil => exact absurd rfl this
  | cons c cs => simp

/-- The token loop on a number that may stand where it is. -/
theorem parse_loop_number {V : Type} {P : Platform V} {cb : Option (eval_callback V)}
    {a : List Char} {v : V} (ha : IsNumber P a v) {n : Nat} {sess : Session V}
    {out ops : List (eval_stack_entry V)} {lt : Nat} {ch ln : Int} {pn : List Int}
    {fa : List (Option Int)} {nl : Int} {bs : Bool} {rest : List Char} (hr : delimited rest)
    (hlt : token_in lt (TOKEN_EOF ||| TOKEN_OPERATOR ||| TOKEN_COMMA ||| TOKEN_LEFT_PARENT)
      = true)
    (hout : out.length < 16) :
    parse_loop P cb (n + 1) sess ⟨out, ops, lt, ch, ln, pn, fa, nl, bs, 64⟩ (a ++ rest) =
      parse_loop P cb n sess
        ⟨.numeric v :: out, ops, TOKEN_NUMBER, ch + (a.length : Int) - 1 + (a.length : Int),
          ln, pn, fa, nl, true, 64⟩ rest := by
  have hlex := ha.lex (sorted_operators P.signed_bitfields) rest ch hr
  obtain ⟨c, cs, rfl⟩ : ∃ c cs, a = c :: cs := by
    cases a with
    | nil => exact absurd rfl ha.ne_nil
    | cons c cs => exact ⟨c, cs, rfl⟩
  have hv := ha.value
  have hshort := ha.short
  rw [List.cons_append] at hlex ⊢
  simp only [parse_loop, bind, Except.bind, hlex]
  have ht : parse_token P cb sess ⟨out, ops, lt, ch, ln, pn, fa, nl, bs, 64⟩
      { token := TOKEN_NUMBER, text := c :: cs, rest := rest, param := lex_param.null,
        character := ch + ((c :: cs).length : Int) - 1 } =
      .ok (.next sess ⟨.numeric v :: out, ops, TOKEN_NUMBER,
        ch + ((c :: cs).length : Int) - 1 + ((c :: cs).length : Int), ln, pn, fa, nl, true,
        64⟩) := by
    rw [parse_token_short (show TOKEN_NUMBER ≠ TOKEN_EOF by decide) hshort]
    unfold parse_switch parse_number
    simp only [hlt, hv, push_output_ok _ hout]
    rfl
  rw [ht]

/-- The token loop skips a blank once a token has been read. -/
theorem parse_loop_space {V : Type} {P : Platform V} {cb : Option (eval_callback V)}
    {n : Nat} {sess : Session V}
    {out ops : List (eval_stack_entry V)} {lt : Nat} {ch ln : Int} {pn : List Int}
    {fa : List (Option Int)} {nl : Int} {rest : List Char} :
    parse_loop P cb (n + 1) sess ⟨out, ops, lt, ch, ln, pn, fa, nl, true, 64⟩ (' ' :: rest) =
      parse_loop P cb (n + 1) sess ⟨out, ops, lt, ch, ln, pn, fa, nl, true, 64⟩ rest := by
  have hl : ∀ t, eval_lex t (' ' :: rest) ch = eval_lex t rest ch := fun t => rfl
  cases rest with
  | nil =>
    simp only [parse_loop, bind, Except.bind, hl]
    rfl
  | cons c cs =>
    simp only [parse_loop, bind, Except.bind, hl]
/-- The token loop on a binary operator that follows a value. -/
theorem parse_loop_binary {V : Type} {P : Platform V} {cb : Option (eval_callback V)}
    {s : Bool} (hs : P.signed_bitfields = s) {n : Nat} {sess : Session V}
    {out ops : List (eval_stack_entry V)} (out' ops' : List (eval_stack_entry V)) {lt : Nat}
    {ch ch' ln : Int} {pn : List Int} {fa : List (Option Int)} {nl : Int} {bs : Bool}
    {c : Char} {cs text rest : List Char} {op : operator_token}
    (hlex : eval_lex (sorted_operators s) (c :: cs) ch =
      .ok { token := TOKEN_OPERATOR, text := text, rest := rest, param := .operator op,
            character := ch' })
    (hlt1 : token_in lt (TOKEN_OPERATOR ||| TOKEN_EOF ||| TOKEN_LEFT_PARENT) = false)
    (hlt2 : token_in lt (TOKEN_NUMBER ||| TOKEN_NAME ||| TOKEN_VARIABLE ||| TOKEN_RIGHT_PARENT)
      = true)
    (hpost : ¬ (op.unary ≠ 0 ∧ op.associativity = ASSOC_LEFT))
    (hsh : shunt_operators op ops out = .ok (ops', out'))
    (htext : fits_token_buffer text) (hops : ops'.length < 8) :
    parse_loop P cb (n + 1) sess ⟨out, ops, lt, ch, ln, pn, fa, nl, bs, 64⟩ (c :: cs) =
      parse_loop P cb n sess
        ⟨out', .operator op :: ops', TOKEN_OPERATOR, ch' + (text.length : Int),
          ln, pn, fa, nl, true, 64⟩ rest := by
  simp only [parse_loop, bind, Except.bind, hs, hlex]
  have ht : parse_token P cb sess ⟨out, ops, lt, ch, ln, pn, fa, nl, bs, 64⟩
      { token := TOKEN_OPERATOR, text := text, rest := rest, param := .operator op,
        character := ch' } =
      .ok (.next sess ⟨out', .operator op :: ops', TOKEN_OPERATOR, ch' + (text.length : Int),
          ln, pn, fa, nl, true, 64⟩) := by
    rw [parse_token_short (show TOKEN_OPERATOR ≠ TOKEN_EOF by decide) htext]
    unfold parse_switch parse_operator
    simp only [hlt1, hlt2, hsh, if_neg hpost, bind, Except.bind, push_operator_ok _ hops]
    rfl
  rw [ht]

/-- The token loop on a minus sign in unary position. -/
theorem parse_loop_unary_minus {V : Type} {P : Platform V} {cb : Option (eval_callback V)}
    {s : Bool} (hs : P.signed_bitfields = s) {n : Nat} {sess : Session V}
    {out ops : List (eval_stack_entry V)} (out' ops' : List (eval_stack_entry V)) {lt : Nat}
    {ch ch' ln : Int} {pn : List Int} {fa : List (Option Int)} {nl : Int} {bs : Bool}
    {c : Char} {cs text rest : List Char} {op : operator_token}
    (hlex : eval_lex (sorted_operators s) (c :: cs) ch =
      .ok { token := TOKEN_OPERATOR, text := text, rest := rest, param := .operator op,
            character := ch' })
    (hlt1 : token_in lt (TOKEN_OPERATOR ||| TOKEN_EOF ||| TOKEN_LEFT_PARENT) = true)
    (hop : op.type = OP_MINUS)
    (hsh : shunt_operators (unary_minus s) ops out = .ok (ops', out'))
    (htext : fits_token_buffer text) (hops : ops'.length < 8) :
    parse_loop P cb (n + 1) sess ⟨out, ops, lt, ch, ln, pn, fa, nl, bs, 64⟩ (c :: cs) =
      parse_loop P cb n sess
        ⟨out', .operator (unary_minus s) :: ops', TOKEN_OPERATOR, ch' + (text.length : Int),
          ln, pn, fa, nl, true, 64⟩ rest := by
  simp only [parse_loop, bind, Except.bind, hs, hlex]
  have ht : parse_token P cb sess ⟨out, ops, lt, ch, ln, pn, fa, nl, bs, 64⟩
      { token := TOKEN_OPERATOR, text := text, rest := rest, param := .operator op,
        character := ch' } =
      .ok (.next sess ⟨out', .operator (unary_minus s) :: ops', TOKEN_OPERATOR,
          ch' + (text.length : Int), ln, pn, fa, nl, true, 64⟩) := by
    rw [parse_token_short (show TOKEN_OPERATOR ≠ TOKEN_EOF by decide) htext]
    unfold parse_switch parse_operator
    simp only [hlt1, hs, hsh, hop, bind, Except.bind, push_operator_ok _ hops]
    rfl
  rw [ht]

/-- The token loop on a grouping parenthesis. -/
theorem parse_loop_left_parent {V : Type} {P : Platform V} {cb : Option (eval_callback V)}
    {s : Bool} (hs : P.signed_bitfields = s) {n : Nat} {sess : Session V}
    {out ops : List (eval_stack_entry V)} {lt : Nat} {ch ln : Int}
    {pn : List Int} {fa : List (Option Int)} {nl : Int} {bs : Bool} {rest : List Char}
    (depth : Int)
    (hlt1 : token_in lt TOKEN_NAME = false)
    (hlt2 : token_in lt (TOKEN_EOF ||| TOKEN_LEFT_PARENT ||| TOKEN_OPERATOR ||| TOKEN_COMMA)
      = true)
    (hd : nesting_cell pn nl = .ok depth) (hops : ops.length < 8) :
    parse_loop P cb (n + 1) sess ⟨out, ops, lt, ch, ln, pn, fa, nl, bs, 64⟩ ('(' :: rest) =
      parse_loop P cb n sess
        ⟨out, .operator (left_parenthesis s) :: ops, TOKEN_LEFT_PARENT, ch + 1,
          ln, pn.set nl.toNat (depth + 1), fa, nl, true, 64⟩ rest := by
  have hlex : eval_lex (sorted_operators s) ('(' :: rest) ch =
      .ok (lex_finish ch TOKEN_LEFT_PARENT ('(' :: rest) rest .null) := rfl
  rw [lex_finish_one] at hlex
  simp only [parse_loop, bind, Except.bind, hs, hlex]
  have ht : parse_token P cb sess ⟨out, ops, lt, ch, ln, pn, fa, nl, bs, 64⟩
      { token := TOKEN_LEFT_PARENT, text := ['('], rest := rest, param := .null,
        character := ch } =
      .ok (.next sess ⟨out, .operator (left_parenthesis s) :: ops, TOKEN_LEFT_PARENT, ch + 1,
          ln, pn.set nl.toNat (depth + 1), fa, nl, true, 64⟩) := by
    rw [parse_token_short (show TOKEN_LEFT_PARENT ≠ TOKEN_EOF by decide)
      (show fits_token_buffer ['('] by decide)]
    unfold parse_switch parse_left_parent
    simp only [hlt1, hlt2, hs, hd, bind, Except.bind, push_operator_ok _ hops]
    simp [token_done, TOKEN_LEFT_PARENT, TOKEN_EOF, TOKEN_ERROR, TOKEN_NUMBER, TOKEN_OPERATOR,
      pure, Except.pure]
  rw [ht]

/-- The token loop on a closing parenthesis after a value, inside a group. -/
theorem parse_loop_right_parent {V : Type} {P : Platform V} {cb : Option (eval_callback V)}
    {s : Bool} (hs : P.signed_bitfields = s) {n : Nat} {sess : Session V}
    {out ops : List (eval_stack_entry V)} (out' ops' : List (eval_stack_entry V)) {lt : Nat}
    {ch ln : Int} {pn : List Int} {fa : List (Option Int)} (fa' : List (Option Int))
    {nl : Int} {bs : Bool} {rest : List Char} (depth : Int) (argc : Option Int)
    (hlt1 : token_in lt (TOKEN_NUMBER ||| TOKEN_RIGHT_PARENT ||| TOKEN_NAME ||| TOKEN_VARIABLE
      ||| TOKEN_LEFT_PARENT) = true)
    (hlt2 : token_in lt TOKEN_LEFT_PARENT = false)
    (hfa : function_args_increment fa nl = .ok fa')
    (hargc : nesting_cell fa' nl = .ok argc)
    (hcl : close_parenthesis argc ops out = .ok (true, ops', out'))
    (hd : nesting_cell pn nl = .ok depth) :
    parse_loop P cb (n + 1) sess ⟨out, ops, lt, ch, ln, pn, fa, nl, bs, 64⟩ (')' :: rest) =
      parse_loop P cb n sess
        ⟨out', ops', TOKEN_RIGHT_PARENT, ch + 1, ln, pn.set nl.toNat (depth - 1), fa',
          (if depth - 1 = 0 ∧ nl > 0 then nl - 1 else nl), true, 64⟩ rest := by
  have hlex : eval_lex (sorted_operators s) (')' :: rest) ch =
      .ok (lex_finish ch TOKEN_RIGHT_PARENT (')' :: rest) rest .null) := rfl
  rw [lex_finish_one] at hlex
  simp only [parse_loop, bind, Except.bind, hs, hlex]
  have ht : parse_token P cb sess ⟨out, ops, lt, ch, ln, pn, fa, nl, bs, 64⟩
      { token := TOKEN_RIGHT_PARENT, text := [')'], rest := rest, param := .null,
        character := ch } =
      .ok (.next sess ⟨out', ops', TOKEN_RIGHT_PARENT, ch + 1, ln, pn.set nl.toNat (depth - 1),
          fa', (if depth - 1 = 0 ∧ nl > 0 then nl - 1 else nl), true, 64⟩) := by
    rw [parse_token_short (show TOKEN_RIGHT_PARENT ≠ TOKEN_EOF by decide)
      (show fits_token_buffer [')'] by decide)]
    unfold parse_switch parse_right_parent
    simp only [hlt1, hlt2, hfa, hargc, hcl, hd, bind, Except.bind]
    simp [token_done, TOKEN_RIGHT_PARENT, TOKEN_LEFT_PARENT, TOKEN_EOF, TOKEN_ERROR,
      TOKEN_NUMBER, TOKEN_OPERATOR, pure, Except.pure]
  rw [ht]

/-- From the token loop to the entry point: enough fuel, then the part after `ParseEnd`. -/
theorem evaluate_of_loop {V : Type} {P : Platform V} {cb : Option (eval_callback V)}
    {sess sess' : Session V} {str : List Char} {n : Nat} {status : Int} {st : parse_state V}
    (hn : n ≤ str.length + 1)
    (h : parse_loop P cb n (Session.fresh P sess) (parse_start V) str =
      .ok (some (status, sess', st))) :
    __evaluate__ P sess str cb =
      (parse_end P cb status sess' st).map
        (fun e => some { e with output := P.double e.output }) := by
  have := parse_loop_mono P cb n _ _ _ _ h (str.length + 1) hn
  unfold __evaluate__ eval_parse
  simp only [Session.fresh] at this
  simp only [this, bind, Except.bind]
  cases parse_end P cb status sess' st <;> rfl

/-! ### Lexing of the operators used below -/

theorem lex_plus (s : Bool) (rest : List Char) (ch : Int) :
    eval_lex (sorted_operators s) ('+' :: rest) ch =
      .ok { token := TOKEN_OPERATOR, text := ['+'], rest := rest,
            param := .operator (operator_init s "+" 1 OP_PLUS 5 ASSOC_LEFT 0),
            character := ch } := by
  rw [← lex_finish_one]
  cases s <;> exact rfl

theorem lex_minus (s : Bool) (rest : List Char) (ch : Int) :
    eval_lex (sorted_operators s) ('-' :: rest) ch =
      .ok { token := TOKEN_OPERATOR, text := ['-'], rest := rest,
            param := .operator (operator_init s "-" 1 OP_MINUS 5 ASSOC_LEFT 0),
            character := ch } := by
  rw [← lex_finish_one]
  cases s <;> exact rfl

/-- The branch of `eval_lex` taken by a character that starts no other kind of token. -/
theorem eval_lex_operator_branch (table : List operator_token) (c : Char) (cs : List Char)
    (ch : Int) (h1 : isspace c = false) (h2 : (isalpha c || c == '_') = false)
    (h3 : isdigit c = false) (h4 : c ≠ '(') (h5 : c ≠ ')') (h6 : c ≠ '$') (h7 : c ≠ '#')
    (h8 : c ≠ ',') :
    eval_lex table (c :: cs) ch =
      match lex_operator table (c :: cs) with
      | some o => .ok (lex_finish ch TOKEN_OPERATOR (c :: cs) ((c :: cs).drop o.length)
          (.operator o))
      | none => .ok (lex_finish ch TOKEN_ERROR (c :: cs) (c :: cs) .null) := by
  unfold eval_lex
  simp only [eval_skip_spaces, h1, bind, Except.bind, Bool.false_eq_true, if_false, h2, h3,
    if_neg h4, if_neg h5, if_neg h6, if_neg h7, if_neg h8]
  cases lex_operator table (c :: cs) <;> rfl

/-- A `*` that is not followed by another `*` is the multiplication operator. -/
theorem lex_star (s : Bool) (d : Char) (rest : List Char) (ch : Int) (hd : d ≠ '*') :
    eval_lex (sorted_operators s) ('*' :: d :: rest) ch =
      .ok { token := TOKEN_OPERATOR, text := ['*'], rest := d :: rest,
            param := .operator (operator_init s "*" 1 OP_MUL 8 ASSOC_LEFT 0),
            character := ch } := by
  rw [← lex_finish_one]
  have hne : (strncmp ('*' :: d :: rest) ['*', '*'] 2 == 0) = false := by
    have hcode : code d - code '*' ≠ 0 := by
      intro h
      apply hd
      have h1 : d.toNat = '*'.toNat := by
        simp only [code] at h
        omega
      exact Char.ext (UInt32.ext (by simpa [Char.toNat, UInt32.toNat] using h1))
    simp [strncmp, hd, hcode]
  have hop : lex_operator (sorted_operators s) ('*' :: d :: rest) =
      some (operator_init s "*" 1 OP_MUL 8 ASSOC_LEFT 0) := by
    rw [sorted_operators_eq]
    unfold lex_operator
    rw [List.find?_cons_of_neg _ (by cases s <;> simpa [operator_init] using hne)]
    cases s <;> exact rfl
  rw [eval_lex_operator_branch _ _ _ _ (by decide) (by decide) (by decide) (by decide)
    (by decide) (by decide) (by decide) (by decide), hop]
  rfl

/-- The token loop on a number that ends the input. -/
theorem parse_loop_number_last {V : Type} {P : Platform V} {cb : Option (eval_callback V)}
    {a : List Char} {v : V} (ha : IsNumber P a v) {n : Nat} {sess : Session V}
    {out ops : List (eval_stack_entry V)} {lt : Nat} {ch ln : Int} {pn : List Int}
    {fa : List (Option Int)} {nl : Int} {bs : Bool}
    (hlt : token_in lt (TOKEN_EOF ||| TOKEN_OPERATOR ||| TOKEN_COMMA ||| TOKEN_LEFT_PARENT)
      = true)
    (hout : out.length < 16) :
    parse_loop P cb (n + 1) sess ⟨out, ops, lt, ch, ln, pn, fa, nl, bs, 64⟩ a =
      .ok (some (1, sess,
        ⟨.numeric v :: out, ops, TOKEN_NUMBER, ch + (a.length : Int) - 1 + (a.length : Int),
          ln, pn, fa, nl, true, 64⟩)) := by
  have := @parse_loop_number V P cb a v ha n sess out ops lt ch ln pn fa nl bs [] trivial hlt
    hout
  rw [List.append_nil] at this
  rw [this]
  cases n <;> rfl


/-! ### Lexing and parsing of the register tokens -/

theorem eval_skip_spaces_cons (c : Char) (cs : List Char) (h : isspace c = false) :
    eval_skip_spaces (c :: cs) = .ok (c :: cs) := by
  simp [eval_skip_spaces, h]

theorem digit_code_nonneg (d : Char) (h : isdigit d = true) : 0 ≤ code d - code '0' := by
  simp only [isdigit, Bool.and_eq_true, decide_eq_true_eq] at h
  have h1 : '0'.toNat ≤ d.toNat := h.1
  simp only [code]
  omega

/-- The number that the digit loop of the register branch builds grows with every digit. -/
theorem register_digits_grow (ds : List Char) :
    ∀ (id : Int), ds.all isdigit = true → 0 ≤ id →
      id ≤ ds.foldl (fun id d => id * 10 + (code d - code '0')) id := by
  induction ds with
  | nil => intro id _ _; exact Int.le_refl _
  | cons d ds ih =>
    intro id h h0
    simp only [List.all_cons, Bool.and_eq_true] at h
    have hd := digit_code_nonneg d h.1
    have := ih (id * 10 + (code d - code '0')) h.2 (by omega)
    simp only [List.foldl_cons]
    omega

theorem lex_register_digits_append (ds : List Char) (c : Char) (rest : List Char)
    (hc : isdigit c = false) :
    ∀ (id : Int) (fd : Bool), ds.all isdigit = true → 0 ≤ id →
      ds.foldl (fun id d => id * 10 + (code d - code '0')) id ≤ INT_MAX →
      lex_register_digits id fd (ds ++ c :: rest) =
        .ok (ds.foldl (fun id d => id * 10 + (code d - code '0')) id,
          fd || !ds.isEmpty, c :: rest) := by
  induction ds with
  | nil =>
    intro id fd _ _ _
    simp [lex_register_digits, hc]
  | cons d ds ih =>
    intro id fd h h0 hmax
    simp only [List.all_cons, Bool.and_eq_true] at h
    have hd := digit_code_nonneg d h.1
    simp only [List.foldl_cons] at hmax
    have hgrow := register_digits_grow ds (id * 10 + (code d - code '0')) h.2 (by omega)
    have hstep : id * 10 + (code d - code '0') ≤ INT_MAX := Int.le_trans hgrow hmax
    simp only [List.cons_append, lex_register_digits, h.1, if_true, List.foldl_cons,
      if_pos hstep]
    show lex_register_digits _ true (ds ++ c :: rest) = _
    rw [ih _ _ h.2 (by omega) hmax]
    simp

/-- The decimal digits of a register number below `MAX_REGISTERS`, as `eval_lex` reads
them. -/
theorem register_digits (k : Nat) (hk : k < 64) :
    (Nat.repr k).toList.all isdigit = true ∧
      (Nat.repr k).toList.isEmpty = false ∧
      (Nat.repr k).toList.foldl (fun id d => id * 10 + (code d - code '0')) 0 = (k : Int) := by
  revert k
  decide

/-- A register token with a number below `MAX_REGISTERS` fits the block of
`current_token`. -/
theorem register_token_fits (k : Nat) (hk : k < 64) (c : Char) :
    fits_token_buffer ('#' :: ((Nat.repr k).toList ++ [c])) := by
  have h : (Nat.repr k).toList.length ≤ 2 := by
    revert k
    decide
  unfold fits_token_buffer DEFAULT_TOKEN_BUFFER_SIZE
  simp only [List.length_cons, List.length_append, List.length_nil]
  omega

theorem lex_register_digits_repr (k : Nat) (hk : k < 64) (c : Char) (rest : List Char)
    (hc : isdigit c = false) :
    lex_register_digits 0 false ((Nat.repr k).toList ++ c :: rest) =
      .ok ((k : Int), true, c :: rest) := by
  obtain ⟨h1, h2, h3⟩ := register_digits k hk
  rw [lex_register_digits_append _ c rest hc 0 false h1 (Int.le_refl 0)
    (by rw [h3]; unfold INT_MAX; omega), h3, h2]
  rfl

theorem repr_head_not_space (k : Nat) (hk : k < 64) (rest : List Char) :
    eval_skip_spaces ((Nat.repr k).toList ++ rest) = .ok ((Nat.repr k).toList ++ rest) := by
  have h : ∀ k, k < 64 → ∃ d ds, (Nat.repr k).toList = d :: ds ∧ isspace d = false := by
    intro k hk
    have : (match (Nat.repr k).toList with
        | [] => false
        | d :: _ => !isspace d) = true := by
      revert k
      decide
    cases hd : (Nat.repr k).toList with
    | nil => rw [hd] at this; cases this
    | cons d ds =>
      rw [hd] at this
      exact ⟨d, ds, rfl, by simpa using this⟩
  obtain ⟨d, ds, h1, h2⟩ := h k hk
  rw [h1, List.cons_append, eval_skip_spaces_cons _ _ h2]

/-- The token `#k!` for a register number `k` below `MAX_REGISTERS`. -/
theorem lex_register_save (table : List operator_token) (k : Nat) (hk : k < 64)
    (rest : List Char) (ch : Int) :
    eval_lex table ('#' :: ((Nat.repr k).toList ++ '!' :: rest)) ch =
      .ok { token := TOKEN_REGISTER_SAVE, text := '#' :: ((Nat.repr k).toList ++ ['!']),
            rest := rest, param := .register k,
            character := ch + (('#' :: ((Nat.repr k).toList ++ ['!'])).length : Int) - 1 } := by
  rw [← lex_finish_append]
  unfold eval_lex
  simp only [eval_skip_spaces_cons '#' _ (by decide), bind, Except.bind]
  simp only [repr_head_not_space k hk, lex_register_digits_repr k hk '!' rest (by decide),
    eval_skip_spaces_cons '!' _ (by decide)]
  simp [isalpha, isupper, islower, isdigit, pure, Except.pure]

/-- The token `#k?` for a register number `k` below `MAX_REGISTERS`. -/
theorem lex_register_recall (table : List operator_token) (k : Nat) (hk : k < 64)
    (rest : List Char) (ch : Int) :
    eval_lex table ('#' :: ((Nat.repr k).toList ++ '?' :: rest)) ch =
      .ok { token := TOKEN_REGISTER_RECALL, text := '#' :: ((Nat.repr k).toList ++ ['?']),
            rest := rest, param := .register k,
            character := ch + (('#' :: ((Nat.repr k).toList ++ ['?'])).length : Int) - 1 } := by
  rw [← lex_finish_append]
  unfold eval_lex
  simp only [eval_skip_spaces_cons '#' _ (by decide), bind, Except.bind]
  simp only [repr_head_not_space k hk, lex_register_digits_repr k hk '?' rest (by decide),
    eval_skip_spaces_cons '?' _ (by decide)]
  simp [isalpha, isupper, islower, isdigit, pure, Except.pure]

/-- The token `#!`, a save with an implicit register number. -/
theorem lex_implicit_save (table : List operator_token) (rest : List Char) (ch : Int) :
    eval_lex table ('#' :: '!' :: rest) ch =
      .ok { token := TOKEN_REGISTER_SAVE, text := ['#', '!'], rest := rest,
            param := .register (-1), character := ch + 1 } := by
  rw [← lex_finish_two]
  rfl

/-- The token `#?`, a recall with an implicit register number. -/
theorem lex_implicit_recall (table : List operator_token) (rest : List Char) (ch : Int) :
    eval_lex table ('#' :: '?' :: rest) ch =
      .ok { token := TOKEN_REGISTER_RECALL, text := ['#', '?'], rest := rest,
            param := .register (-1), character := ch + 1 } := by
  rw [← lex_finish_two]
  rfl

/-- The token loop on a register save: the token is inert, `last_token` stays. -/
theorem parse_loop_register_save {V : Type} {P : Platform V} {cb : Option (eval_callback V)}
    {n : Nat} {sess : Session V} {out ops : List (eval_stack_entry V)} {lt : Nat}
    {ch ch' ln : Int} {pn : List Int} {fa : List (Option Int)} {nl : Int} {bs : Bool}
    {c : Char} {cs text rest : List Char} {id : Int}
    (hlex : eval_lex (sorted_operators P.signed_bitfields) (c :: cs) ch =
      .ok { token := TOKEN_REGISTER_SAVE, text := text, rest := rest, param := .register id,
            character := ch' })
    (hid : ¬ id ≥ MAX_REGISTERS) (htext : fits_token_buffer text) (hout : out.length < 16) :
    parse_loop P cb (n + 1) sess ⟨out, ops, lt, ch, ln, pn, fa, nl, bs, 64⟩ (c :: cs) =
      parse_loop P cb n sess
        ⟨.register_save id :: out, ops, lt, ch' + (text.length : Int), ln, pn, fa, nl, true, 64⟩
        rest := by
  simp only [parse_loop, bind, Except.bind, hlex]
  have ht : parse_token P cb sess ⟨out, ops, lt, ch, ln, pn, fa, nl, bs, 64⟩
      { token := TOKEN_REGISTER_SAVE, text := text, rest := rest, param := .register id,
        character := ch' } =
      .ok (.next sess ⟨.register_save id :: out, ops, lt, ch' + (text.length : Int),
          ln, pn, fa, nl, true, 64⟩) := by
    rw [parse_token_short (show TOKEN_REGISTER_SAVE ≠ TOKEN_EOF by decide) htext]
    unfold parse_switch
    simp only [if_neg hid, push_output_ok _ hout, bind, Except.bind]
    rfl
  rw [ht]

/-- The token loop on a register recall where an operand may stand. -/
theorem parse_loop_register_recall {V : Type} {P : Platform V}
    {cb : Option (eval_callback V)}
    {n : Nat} {sess : Session V} {out ops : List (eval_stack_entry V)} {lt : Nat}
    {ch ch' ln : Int} {pn : List Int} {fa : List (Option Int)} {nl : Int} {bs : Bool}
    {c : Char} {cs text rest : List Char} {id : Int}
    (hlex : eval_lex (sorted_operators P.signed_bitfields) (c :: cs) ch =
      .ok { token := TOKEN_REGISTER_RECALL, text := text, rest := rest,
            param := .register id, character := ch' })
    (hlt : token_in lt (TOKEN_EOF ||| TOKEN_OPERATOR ||| TOKEN_COMMA ||| TOKEN_LEFT_PARENT)
      = true)
    (hid : ¬ id ≥ MAX_REGISTERS) (htext : fits_token_buffer text) (hout : out.length < 16) :
    parse_loop P cb (n + 1) sess ⟨out, ops, lt, ch, ln, pn, fa, nl, bs, 64⟩ (c :: cs) =
      parse_loop P cb n sess
        ⟨.register_recall id :: out, ops, TOKEN_REGISTER_RECALL, ch' + (text.length : Int),
          ln, pn, fa, nl, true, 64⟩ rest := by
  simp only [parse_loop, bind, Except.bind, hlex]
  have ht : parse_token P cb sess ⟨out, ops, lt, ch, ln, pn, fa, nl, bs, 64⟩
      { token := TOKEN_REGISTER_RECALL, text := text, rest := rest, param := .register id,
        character := ch' } =
      .ok (.next sess ⟨.register_recall id :: out, ops, TOKEN_REGISTER_RECALL,
          ch' + (text.length : Int), ln, pn, fa, nl, true, 64⟩) := by
    rw [parse_token_short (show TOKEN_REGISTER_RECALL ≠ TOKEN_EOF by decide) htext]
    unfold parse_switch
    simp only [hlt, if_neg hid, push_output_ok _ hout, bind, Except.bind]
    rfl
  rw [ht]

/-- The token loop once the input is used up. -/
theorem parse_loop_nil {V : Type} (P : Platform V) (cb : Option (eval_callback V)) (n : Nat)
    (sess : Session V) (st : parse_state V) :
    parse_loop P cb n sess st [] = .ok (some (1, sess, st)) := by
  cases n <;> rfl

/-- The instruction `#k!` of the evaluator on a non-empty value stack, for a register number
`k` below `MAX_REGISTERS`. -/
theorem compute_register_save_explicit {V : Type} (sess : Session V) (top : V)
    (below : List V) (result : Option V) (k : Nat) (hk : k < 64) :
    compute_register_save sess { value_stack := top :: below, result := result } (k : Int) =
      .ok (.next
        { sess with
          eval_registers := sess.eval_registers.set k top
          eval_registers_set := sess.eval_registers_set.set k true
          eval_last_register := (k : Int) }
        { value_stack := top :: below, result := result }) := by
  have h1 : ¬ ((k : Int) < 0) := by omega
  have h2 : ¬ ((k : Int) < 0 ∨ MAX_REGISTERS ≤ (k : Int)) := by
    unfold MAX_REGISTERS
    omega
  simp only [compute_register_save, if_neg h1, if_neg h2, Int.toNat_ofNat]
  rfl

/-- The instruction `#k?` of the evaluator when cell `k` is unassigned. -/
theorem compute_register_recall_unset {V : Type} (sess : Session V)
    (cs : compute_state V) (k : Nat) (v : V)
    (hset : sess.eval_registers_set.get? k = some false)
    (hval : sess.eval_registers.get? k = some v) :
    compute_register_recall sess cs (k : Int) =
      .ok (.failed (eval_error sess E_EVAL_INVALID_REGISTER_INDEX (-1) (-1))) := by
  have h1 : ¬ ((k : Int) < 0 ∧ sess.eval_last_register ≥ 0) := by omega
  have h2 : ¬ ((k : Int) < 0) := by omega
  simp only [compute_register_recall, if_neg h1, if_neg h2, Int.toNat_ofNat, hset, hval]
  rfl
/-! ### Characters -/

theorem char_eq_of_toNat {a b : Char} (h : a.toNat = b.toNat) : a = b :=
  Char.ext (UInt32.ext (by simpa [Char.toNat, UInt32.toNat] using h))

theorem char_le_iff (a b : Char) : a ≤ b ↔ a.toNat ≤ b.toNat := Iff.rfl

theorem isdigit_iff (c : Char) : isdigit c = true ↔ 48 ≤ c.toNat ∧ c.toNat ≤ 57 := by
  simp only [isdigit, Bool.and_eq_true, decide_eq_true_eq, char_le_iff]
  exact Iff.rfl

theorem toupper_of_not_islower {c : Char} (h : islower c = false) : toupper c = c := by
  simp [toupper, h]

theorem islower_iff (c : Char) : islower c = true ↔ 97 ≤ c.toNat ∧ c.toNat ≤ 122 := by
  simp only [islower, Bool.and_eq_true, decide_eq_true_eq, char_le_iff]
  exact Iff.rfl

theorem isupper_iff (c : Char) : isupper c = true ↔ 65 ≤ c.toNat ∧ c.toNat ≤ 90 := by
  simp only [isupper, Bool.and_eq_true, decide_eq_true_eq, char_le_iff]
  exact Iff.rfl

theorem islower_false_iff (c : Char) :
    islower c = false ↔ ¬ (97 ≤ c.toNat ∧ c.toNat ≤ 122) := by
  rw [← islower_iff]
  simp

theorem isupper_false_iff (c : Char) :
    isupper c = false ↔ ¬ (65 ≤ c.toNat ∧ c.toNat ≤ 90) := by
  rw [← isupper_iff]
  simp

theorem isdigit_false_iff (c : Char) :
    isdigit c = false ↔ ¬ (48 ≤ c.toNat ∧ c.toNat ≤ 57) := by
  rw [← isdigit_iff]
  simp

theorem char_ne_of_toNat {a b : Char} (h : a.toNat ≠ b.toNat) : a ≠ b := by
  rintro rfl
  exact h rfl

/-- What a delimiter is, in character codes. -/
theorem delimiter_iff (c : Char) :
    delimiter c = true ↔
      ¬ (65 ≤ c.toNat ∧ c.toNat ≤ 90) ∧ ¬ (97 ≤ c.toNat ∧ c.toNat ≤ 122) ∧
      ¬ (48 ≤ c.toNat ∧ c.toNat ≤ 57) ∧ c.toNat ≠ 46 := by
  simp only [delimiter, isalnum, isalpha, Bool.not_eq_true', Bool.or_eq_false_iff,
    isupper_false_iff, islower_false_iff, isdigit_false_iff, beq_eq_false_iff_ne, ne_eq]
  constructor
  · rintro ⟨⟨⟨h1, h2⟩, h3⟩, h4⟩
    exact ⟨h1, h2, h3, fun h => h4 (char_eq_of_toNat h)⟩
  · rintro ⟨h1, h2, h3, h4⟩
    exact ⟨⟨⟨h1, h2⟩, h3⟩, fun h => h4 (by rw [h]; rfl)⟩

/-! ### Number tokens -/

/-- The digit loop stops in front of a delimiter. -/
theorem lex_number_loop_delimiter (base : Int) (fb fd fe : Bool) (c : Char) (cs : List Char)
    (hc : delimiter c = true) :
    lex_number_loop base fb fd fe (c :: cs) = (TOKEN_NUMBER, c :: cs) := by
  rw [delimiter_iff] at hc
  obtain ⟨h1, h2, h3, h4⟩ := hc
  have hl : islower c = false := (islower_false_iff c).2 h2
  have hu : toupper c = c := toupper_of_not_islower hl
  have e1 : c ≠ 'X' := char_ne_of_toNat (fun h => h1 (by rw [h]; decide))
  have e2 : c ≠ 'B' := char_ne_of_toNat (fun h => h1 (by rw [h]; decide))
  have e3 : c ≠ 'D' := char_ne_of_toNat (fun h => h1 (by rw [h]; decide))
  have e4 : c ≠ 'O' := char_ne_of_toNat (fun h => h1 (by rw [h]; decide))
  have e5 : c ≠ '.' := char_ne_of_toNat h4
  have e6 : c ≠ 'E' := char_ne_of_toNat (fun h => h1 (by rw [h]; decide))
  have e7 : ¬ (('0' ≤ c ∧ c ≤ '9') ∨ ('A' ≤ c ∧ c ≤ 'F')) := by
    simp only [char_le_iff]
    have a0 : ('0' : Char).toNat = 48 := rfl
    have a9 : ('9' : Char).toNat = 57 := rfl
    have aA : ('A' : Char).toNat = 65 := rfl
    have aF : ('F' : Char).toNat = 70 := rfl
    rw [a0, a9, aA, aF]
    omega
  unfold lex_number_loop
  simp only [hu, e1, e2, e3, e4, e5, e6, e7, false_or, if_false, false_and]

/-- The digit loop in base 10 or more runs over decimal digits up to a delimiter. -/
theorem lex_number_loop_digits (base : Int) (hbase : 10 ≤ base) (fb fd fe : Bool) :
    ∀ (ds rest : List Char), (∀ c ∈ ds, isdigit c = true) → delimited rest →
      lex_number_loop base fb fd fe (ds ++ rest) = (TOKEN_NUMBER, rest) := by
  intro ds
  induction ds with
  | nil =>
    intro rest _ hr
    cases rest with
    | nil => rfl
    | cons c cs => exact lex_number_loop_delimiter base fb fd fe c cs hr
  | cons d ds ih =>
    intro rest hds hr
    have hd : isdigit d = true := hds d (List.mem_cons_self _ _)
    have hd' := (isdigit_iff d).1 hd
    have hl : islower d = false := (islower_false_iff d).2 (by omega)
    have hu : toupper d = d := toupper_of_not_islower hl
    have e1 : d ≠ 'X' := char_ne_of_toNat (by have : ('X' : Char).toNat = 88 := rfl; omega)
    have e2 : d ≠ 'B' := char_ne_of_toNat (by have : ('B' : Char).toNat = 66 := rfl; omega)
    have e3 : d ≠ 'D' := char_ne_of_toNat (by have : ('D' : Char).toNat = 68 := rfl; omega)
    have e4 : d ≠ 'O' := char_ne_of_toNat (by have : ('O' : Char).toNat = 79 := rfl; omega)
    have e5 : d ≠ '.' := char_ne_of_toNat (by have : ('.' : Char).toNat = 46 := rfl; omega)
    have e6 : d ≠ 'E' := char_ne_of_toNat (by have : ('E' : Char).toNat = 69 := rfl; omega)
    have e7 : ('0' ≤ d ∧ d ≤ '9') := by
      simp only [char_le_iff]
      exact hd'
    have e8 : ¬ ('A' ≤ d) := by
      simp only [char_le_iff]
      have aA : ('A' : Char).toNat = 65 := rfl
      omega
    have e9 : ¬ (code d - code '0' ≥ base) := by
      have a0 : code '0' = 48 := rfl
      simp only [code, a0] at *
      omega
    rw [List.cons_append]
    unfold lex_number_loop
    simp only [hu, e1, e2, e3, e4, e5, e6, e7, e8, e9, false_or, if_false, false_and, true_or,
      if_true, and_self]
    exact ih rest (fun c hc => hds c (List.mem_cons_of_mem _ hc)) hr

/-- The branch of `eval_lex` taken by a digit. -/
theorem eval_lex_number_branch (table : List operator_token) (c : Char) (cs : List Char)
    (ch : Int) (hc : isdigit c = true) :
    eval_lex table (c :: cs) ch =
      .ok (lex_finish ch (lex_number (c :: cs)).1 (c :: cs) (lex_number (c :: cs)).2 .null) := by
  have hd := (isdigit_iff c).1 hc
  have h1 : isspace c = false := by
    have e : ∀ x : Char, x.toNat < 48 → c ≠ x := fun x hx => char_ne_of_toNat (by omega)
    simp [isspace, e ' ' (by decide), e '\t' (by decide), e '\n' (by decide),
      e '\x0b' (by decide), e '\x0c' (by decide), e '\r' (by decide)]
  have h2 : (isalpha c || c == '_') = false := by
    have e : c ≠ '_' := char_ne_of_toNat (by have : ('_' : Char).toNat = 95 := rfl; omega)
    simp only [isalpha, Bool.or_eq_false_iff, isupper_false_iff, islower_false_iff,
      beq_eq_false_iff_ne, ne_eq]
    exact ⟨⟨by omega, by omega⟩, e⟩
  unfold eval_lex
  simp only [eval_skip_spaces, h1, bind, Except.bind, Bool.false_eq_true, if_false, h2, hc,
    if_true]
  rfl

/-- A number that does not start with `0` is scanned in base 10 from its first digit. -/
theorem lex_number_of_ne_zero (d : Char) (s : List Char) (hd : d ≠ '0') :
    lex_number (d :: s) = lex_number_loop 10 false false false (d :: s) := by
  unfold lex_number
  split
  · rename_i h
    exact absurd (List.cons.inj h).1 hd
  · rfl

/-- A decimal literal without a leading zero is a numeric literal for the program, with the
value `strtod` gives it. -/
theorem IsNumber.decimal {V : Type} (P : Platform V) (d : Char) (ds : List Char) (v : V)
    (hd : isdigit d = true) (hd0 : d ≠ '0') (hds : ∀ c ∈ ds, isdigit c = true)
    (hv : P.strtod (d :: ds) = (v, (d :: ds).length))
    (hshort : fits_token_buffer (d :: ds)) : IsNumber P (d :: ds) v := by
  refine ⟨?_, hshort, ?_⟩
  · intro table rest ch hr
    rw [List.cons_append, eval_lex_number_branch table d (ds ++ rest) ch hd,
      lex_number_of_ne_zero d _ hd0]
    have := lex_number_loop_digits 10 (le_refl _) false false false (d :: ds) rest
      (fun c hc => by
        rcases List.mem_cons.1 hc with h | h
        · rw [h]; exact hd
        · exact hds c h) hr
    rw [List.cons_append] at this
    rw [this]
    exact congrArg Except.ok (lex_finish_append ch TOKEN_NUMBER (d :: ds) rest .null)
  · unfold eval_double_value
    have : ¬ (d = '0' ∧ ((d :: ds).length : Int) > 1) := fun h => hd0 h.1
    simp only [this, if_false, hv]
    simp

/-- The literal `0` is a numeric literal for the program, with the value `strtod` gives it. -/
theorem IsNumber.zero {V : Type} (P : Platform V) (v : V)
    (hv : P.strtod ['0'] = (v, 1)) : IsNumber P ['0'] v := by
  refine ⟨?_, by decide, ?_⟩
  · intro table rest ch hr
    rw [List.singleton_append, eval_lex_number_branch table '0' rest ch (by decide)]
    have hn : lex_number ('0' :: rest) = (TOKEN_NUMBER, rest) := by
      cases rest with
      | nil => rfl
      | cons c cs =>
        have hc : delimiter c = true := hr
        have hx : isxdigit c = false := by
          have h := (delimiter_iff c).1 hc
          simp only [isxdigit, Bool.or_eq_false_iff, isdigit_false_iff, Bool.and_eq_false_iff,
            decide_eq_false_iff_not, char_le_iff]
          have aA : ('A' : Char).toNat = 65 := rfl
          have aF : ('F' : Char).toNat = 70 := rfl
          have la : ('a' : Char).toNat = 97 := rfl
          have lf : ('f' : Char).toNat = 102 := rfl
          rw [aA, aF, la, lf]
          omega
        have h0 : lex_number ('0' :: c :: cs) =
            lex_number_loop 10 false false false ('0' :: c :: cs) := by
          unfold lex_number
          simp [hx]
        rw [h0]
        exact lex_number_loop_digits 10 (le_refl _) false false false ['0'] (c :: cs)
          (fun x hx => by
            rw [List.mem_singleton.1 hx]
            decide) hr
    rw [hn]
    exact congrArg Except.ok (lex_finish_append ch TOKEN_NUMBER ['0'] rest .null)
  · unfold eval_double_value
    simp [hv]

/-! ### Literals of the exact platform used in the examples -/

theorem exact_zero : IsNumber exact ['0'] ⟨0, 1⟩ := IsNumber.zero exact _ rfl

theorem exact_one : IsNumber exact ['1'] ⟨1, 1⟩ :=
  IsNumber.decimal exact '1' [] _ (by decide) (by decide) (by simp) rfl (by decide)

theorem exact_two : IsNumber exact ['2'] ⟨2, 1⟩ :=
  IsNumber.decimal exact '2' [] _ (by decide) (by decide) (by simp) rfl (by decide)

theorem exact_five : IsNumber exact ['5'] ⟨5, 1⟩ :=
  IsNumber.decimal exact '5' [] _ (by decide) (by decide) (by simp) rfl (by decide)

/-! ### From the token loop to the result -/

/-- A token loop that ends balanced, and the run of `eval_compute` on its stream, give the
postfix stream and the result of the entry point. -/
theorem run_of_loop {V : Type} {P : Platform V} {cb : Option (eval_callback V)}
    {sess sess' sess'' : Session V} {str : List Char} {n : Nat} {st : parse_state V}
    (stream : List (eval_stack_entry V)) (v : V)
    (hn : n ≤ str.length + 1)
    (key : parse_loop P cb n (Session.fresh P sess) (parse_start V) str =
      .ok (some (1, sess', st)))
    (hnl : st.nesting_level = 0) (hpn : nesting_cell st.parentheses_nesting 0 = .ok 0)
    (hstream : flush_operators st.operator_stack st.output_stack = .ok stream.reverse)
    (hne : stream ≠ [])
    (hc : compute_loop P cb sess' { value_stack := [], result := none } stream =
      .ok (1, sess'', some v)) :
    parses_to P cb sess str stream ∧
      __evaluate__ P sess str cb =
        .ok (some { status := 1, output := P.double v, session := sess'' }) := by
  refine ⟨⟨sess', st, parse_loop_mono P cb n _ _ _ _ key _ hn, hnl, hpn, hstream⟩, ?_⟩
  rw [evaluate_of_loop hn key]
  unfold parse_end
  have hemp : stream.reverse.isEmpty = false := by
    cases h : stream with
    | nil => exact absurd h hne
    | cons x xs => simp
  simp only [hpn, hnl, bind, Except.bind, eval_compute, hemp, hstream, hc, List.reverse_reverse]
  simp [Except.map, pure, Except.pure]


/-- A token loop that ends balanced, and any run of `eval_compute` on its stream that
returns, give the outcome of the entry point; the output is 0 unless the run stores one. -/
theorem outcome_of_loop {V : Type} {P : Platform V} {cb : Option (eval_callback V)}
    {sess sess' sess'' : Session V} {str : List Char} {n : Nat} {st : parse_state V}
    (stream : List (eval_stack_entry V)) (status : Int) (value : Option V)
    (hn : n ≤ str.length + 1)
    (key : parse_loop P cb n (Session.fresh P sess) (parse_start V) str =
      .ok (some (1, sess', st)))
    (hnl : st.nesting_level = 0) (hpn : nesting_cell st.parentheses_nesting 0 = .ok 0)
    (hstream : flush_operators st.operator_stack st.output_stack = .ok stream.reverse)
    (hne : stream ≠ [])
    (hc : compute_loop P cb sess' { value_stack := [], result := none } stream =
      .ok (status, sess'', value)) :
    __evaluate__ P sess str cb =
      .ok (some { status := status, output := P.double (value.getD (P.ofInt 0)),
                  session := sess'' }) := by
  rw [evaluate_of_loop hn key]
  unfold parse_end
  have hemp : stream.reverse.isEmpty = false := by
    cases h : stream with
    | nil => exact absurd h hne
    | cons x xs => simp
  simp only [hpn, hnl, bind, Except.bind, eval_compute, hemp, hstream, hc, List.reverse_reverse]
  simp [Except.map, pure, Except.pure]

/-! ## What an evaluation leaves untouched -/

theorem parse_operator_setup {V : Type} (P : Platform V) (sess : Session V)
    (st : parse_state V) (lx : lex_result) (op : operator_token) (step : parse_step V)
    (h : parse_operator P sess st lx op = .ok step) : step.session.setup = sess.setup := by
  unfold parse_operator at h
  simp only [bind, Except.bind, pure, Except.pure] at h
  repeat' split at h
  all_goals first | (cases h; rfl) | cases h

theorem parse_left_parent_setup {V : Type} (P : Platform V) (sess : Session V)
    (st : parse_state V) (lx : lex_result) (step : parse_step V)
    (h : parse_left_parent P sess st lx = .ok step) : step.session.setup = sess.setup := by
  unfold parse_left_parent at h
  simp only [bind, Except.bind, pure, Except.pure] at h
  repeat' split at h
  all_goals first | (cases h; rfl) | cases h

theorem parse_right_parent_setup {V : Type} (sess : Session V)
    (st : parse_state V) (lx : lex_result) (step : parse_step V)
    (h : parse_right_parent sess st lx = .ok step) : step.session.setup = sess.setup := by
  unfold parse_right_parent at h
  simp only [bind, Except.bind, pure, Except.pure] at h
  repeat' split at h
  all_goals first | (cases h; rfl) | cases h

theorem parse_comma_setup {V : Type} (sess : Session V)
    (st : parse_state V) (lx : lex_result) (step : parse_step V)
    (h : parse_comma sess st lx = .ok step) : step.session.setup = sess.setup := by
  unfold parse_comma at h
  simp only [bind, Except.bind, pure, Except.pure] at h
  repeat' split at h
  all_goals first | (cases h; rfl) | cases h

theorem parse_number_setup {V : Type} (P : Platform V) (sess : Session V)
    (st : parse_state V) (lx : lex_result) (step : parse_step V)
    (h : parse_number P sess st lx = .ok step) : step.session.setup = sess.setup := by
  unfold parse_number token_error_text at h
  repeat' split at h
  all_goals first | (cases h; rfl) | cases h

theorem parse_switch_setup {V : Type} (P : Platform V) (cb : Option (eval_callback V))
    (sess : Session V) (st : parse_state V) (lx : lex_result) (step : parse_step V)
    (h : parse_switch P cb sess st lx = .ok step) : step.session.setup = sess.setup := by
  unfold parse_switch token_error_text at h
  simp only [bind, Except.bind, pure, Except.pure] at h
  by_cases h2 : lx.token = TOKEN_ERROR
  · rw [if_pos h2] at h
    cases h
    rfl
  rw [if_neg h2] at h
  by_cases h3 : lx.token = TOKEN_NUMBER
  · rw [if_pos h3] at h
    exact parse_number_setup P sess st lx step h
  rw [if_neg h3] at h
  by_cases h4 : lx.token = TOKEN_OPERATOR
  · rw [if_pos h4] at h
    split at h
    · exact parse_operator_setup P sess st lx _ step h
    · cases h
  rw [if_neg h4] at h
  by_cases h5 : lx.token = TOKEN_LEFT_PARENT
  · rw [if_pos h5] at h
    exact parse_left_parent_setup P sess st lx step h
  rw [if_neg h5] at h
  by_cases h6 : lx.token = TOKEN_RIGHT_PARENT
  · rw [if_pos h6] at h
    exact parse_right_parent_setup sess st lx step h
  rw [if_neg h6] at h
  by_cases h7 : lx.token = TOKEN_NAME
  · rw [if_pos h7] at h
    repeat' split at h
    all_goals cases h
    all_goals rfl
  rw [if_neg h7] at h
  by_cases h8 : lx.token = TOKEN_VARIABLE
  · rw [if_pos h8] at h
    repeat' split at h
    all_goals cases h
    all_goals rfl
  rw [if_neg h8] at h
  by_cases h9 : lx.token = TOKEN_REGISTER_SAVE
  · rw [if_pos h9] at h
    repeat' split at h
    all_goals cases h
    all_goals rfl
  rw [if_neg h9] at h
  by_cases h10 : lx.token = TOKEN_REGISTER_RECALL
  · rw [if_pos h10] at h
    repeat' split at h
    all_goals cases h
    all_goals rfl
  rw [if_neg h10] at h
  by_cases h11 : lx.token = TOKEN_COMMA
  · rw [if_pos h11] at h
    exact parse_comma_setup sess st lx step h
  rw [if_neg h11] at h
  cases h
  rfl

theorem parse_token_setup {V : Type} (P : Platform V) (cb : Option (eval_callback V))
    (sess : Session V) (st : parse_state V) (lx : lex_result) (step : parse_step V)
    (h : parse_token P cb sess st lx = .ok step) : step.session.setup = sess.setup := by
  unfold parse_token at h
  by_cases h1 : lx.token = TOKEN_EOF
  · rw [if_pos h1] at h
    split at h
    · cases h
      rfl
    · cases h
  rw [if_neg h1] at h
  cases hc : copy_token st lx with
  | error f =>
    rw [hc] at h
    cases h
  | ok st1 =>
    rw [hc] at h
    exact parse_switch_setup P cb sess st1 lx step h

theorem parse_loop_setup {V : Type} (P : Platform V) (cb : Option (eval_callback V)) :
    ∀ (n : Nat) (sess : Session V) (st : parse_state V) (str : List Char)
      (r : Int × Session V × parse_state V),
      parse_loop P cb n sess st str = .ok (some r) → r.2.1.setup = sess.setup := by
  intro n
  induction n with
  | zero =>
    intro sess st str r h
    cases str with
    | nil =>
      simp only [parse_loop, pure, Except.pure] at h
      cases h
      rfl
    | cons c cs =>
      simp only [parse_loop, pure, Except.pure] at h
      cases h
  | succ n ih =>
    intro sess st str r h
    cases str with
    | nil =>
      simp only [parse_loop, pure, Except.pure] at h
      cases h
      rfl
    | cons c cs =>
      simp only [parse_loop, bind, Except.bind] at h
      cases hl : eval_lex (sorted_operators P.signed_bitfields) (c :: cs) st.character with
      | error f =>
        rw [hl] at h
        cases h
      | ok lx =>
        rw [hl] at h
        simp only at h
        cases ht : parse_token P cb sess st lx with
        | error f =>
          rw [ht] at h
          cases h
        | ok step =>
          rw [ht] at h
          have hstep := parse_token_setup P cb sess st lx step ht
          cases step with
          | next sess1 st1 =>
            simp only at h
            exact (ih sess1 st1 lx.rest r h).trans hstep
          | parse_end status sess1 st1 =>
            simp only [pure, Except.pure] at h
            cases h
            exact hstep

theorem compute_entry_setup {V : Type} (P : Platform V) (cb : Option (eval_callback V))
    (sess : Session V) (cs : compute_state V) (se : eval_stack_entry V)
    (step : compute_step V) (h : compute_entry P cb sess cs se = .ok step) :
    step.session.setup = sess.setup := by
  cases se <;>
    simp only [compute_entry, compute_operator, compute_register_recall,
      compute_register_save, compute_function_call, compute_error_text,
      pure, Except.pure] at h <;>
    (repeat' split at h) <;>
    first | (cases h; rfl) | cases h

theorem compute_loop_setup {V : Type} (P : Platform V) (cb : Option (eval_callback V)) :
    ∀ (stream : List (eval_stack_entry V)) (sess : Session V) (cs : compute_state V)
      (r : Int × Session V × Option V),
      compute_loop P cb sess cs stream = .ok r → r.2.1.setup = sess.setup := by
  intro stream
  induction stream with
  | nil =>
    intro sess cs r h
    simp only [compute_loop, pure, Except.pure] at h
    repeat' split at h
    all_goals first | (cases h; rfl) | cases h
  | cons se rest ih =>
    intro sess cs r h
    simp only [compute_loop, bind, Except.bind] at h
    cases he : compute_entry P cb sess cs se with
    | error f =>
      rw [he] at h
      cases h
    | ok step =>
      rw [he] at h
      have hstep := compute_entry_setup P cb sess cs se step he
      cases step with
      | next sess1 cs1 =>
        simp only at h
        exact (ih sess1 cs1 r h).trans hstep
      | failed sess1 =>
        simp only [pure, Except.pure] at h
        cases h
        exact hstep

theorem parse_end_setup {V : Type} (P : Platform V) (cb : Option (eval_callback V))
    (status : Int) (sess : Session V) (st : parse_state V) (r : evaluation V)
    (h : parse_end P cb status sess st = .ok r) : r.session.setup = sess.setup := by
  simp only [parse_end, eval_compute, bind, Except.bind, pure, Except.pure] at h
  split at h
  · cases h
    rfl
  split at h
  · cases h
    rfl
  cases hd : nesting_cell st.parentheses_nesting 0 with
  | error f =>
    rw [hd] at h
    cases h
  | ok depth =>
    rw [hd] at h
    simp only at h
    split at h
    · cases h
      rfl
    cases hf : flush_operators st.operator_stack st.output_stack with
    | error f =>
      rw [hf] at h
      cases h
    | ok out =>
      rw [hf] at h
      simp only at h
      split at h
      · cases h
      rename_i v hv
      cases h
      split at hv
      · cases hv
        rfl
      · exact compute_loop_setup P cb _ _ _ _ hv

/-- An evaluation that returns leaves the registries, the initialisation flag and the angle
unit as `eval_initialize` set them. -/
theorem evaluate_setup {V : Type} (P : Platform V) (cb : Option (eval_callback V))
    (sess : Session V) (str : List Char) (r : evaluation V)
    (h : __evaluate__ P sess str cb = .ok (some r)) :
    r.session.setup = (Session.fresh P sess).setup := by
  simp only [__evaluate__, eval_parse, bind, Except.bind, pure, Except.pure] at h
  cases hl : parse_loop P cb (str.length + 1)
      ( eval_instance_initialize P ( eval_initialize P sess)) (parse_start V) str with
  | error f =>
    rw [hl] at h
    cases h
  | ok o =>
    rw [hl] at h
    cases o with
    | none =>
      simp only at h
      cases h
    | some t =>
      obtain ⟨status, sess1, st1⟩ := t
      simp only at h
      have h1 := parse_loop_setup P cb _ _ _ _ _ hl
      cases he : parse_end P cb status sess1 st1 with
      | error f =>
        rw [he] at h
        cases h
      | ok r1 =>
        rw [he] at h
        have hr : ({ r1 with output := P.double r1.output } : evaluation V) = r := by
          simpa using h
        rw [← hr]
        exact (parse_end_setup P cb status sess1 st1 r1 he).trans h1

theorem eval_initialize_initialized {V : Type} (P : Platform V) (sess : Session V) :
    ( eval_initialize P sess).eval_initialized = true := by
  unfold eval_initialize
  split
  · assumption
  · rfl

/-- Two sessions that agree on what evaluations leave untouched, the first of them
initialised, start their evaluations from the same state. -/
theorem fresh_of_setup {V : Type} (P : Platform V) (s1 s : Session V)
    (h : s1.setup = (Session.fresh P s).setup) : Session.fresh P s1 = Session.fresh P s := by
  have hi : s1.eval_initialized = true := by
    have := congrArg Prod.fst h
    exact this.trans (eval_initialize_initialized P s)
  have e1 : eval_initialize P s1 = s1 := by
    unfold eval_initialize
    rw [if_pos hi]
  unfold Session.fresh
  rw [e1]
  obtain ⟨a1, b1, c1, d1, e1, f1, g1, h1, i1⟩ := s1
  simp only [Session.setup, Session.fresh, eval_instance_initialize, Prod.mk.injEq] at h
  obtain ⟨hf, hg, hh, hi'⟩ := h
  simp only [ eval_instance_initialize]
  congr 1

/-! ## Progress of the lexer -/

theorem eval_skip_spaces_length : ∀ (str s : List Char),
    eval_skip_spaces str = .ok s → s.length ≤ str.length := by
  intro str
  induction str with
  | nil =>
    intro s h
    cases h
    exact Nat.le_refl _
  | cons c cs ih =>
    intro s h
    unfold eval_skip_spaces at h
    split at h
    · split at h
      · cases h
      · exact Nat.le_succ_of_le (ih s h)
    · cases h
      exact Nat.le_refl _

theorem lex_register_digits_length : ∀ (l : List Char) (id : Int) (fd : Bool)
    (r : Int × Bool × List Char), lex_register_digits id fd l = .ok r →
    r.2.2.length ≤ l.length := by
  intro l
  induction l with
  | nil =>
    intro id fd r h
    cases h
    exact Nat.le_refl _
  | cons c cs ih =>
    intro id fd r h
    unfold lex_register_digits at h
    split at h
    · split at h
      · exact Nat.le_succ_of_le (ih _ _ r h)
      · cases h
    · cases h
      exact Nat.le_refl _

theorem lex_number_loop_length : ∀ (n : Nat) (l : List Char), l.length ≤ n →
    ∀ (base : Int) (fb fd fe : Bool),
      (lex_number_loop base fb fd fe l).2.length ≤ l.length := by
  intro n
  induction n with
  | zero =>
    intro l hl base fb fd fe
    cases l with
    | nil => exact Nat.le_refl _
    | cons c cs => simp at hl
  | succ n ih =>
    intro l hl base fb fd fe
    cases l with
    | nil => exact Nat.le_refl _
    | cons c cs =>
      have hcs : cs.length ≤ n := by simpa using hl
      unfold lex_number_loop
      simp only []
      split_ifs
      all_goals first
        | exact Nat.le_refl _
        | exact Nat.le_succ_of_le (ih cs hcs _ _ _ _)
        | skip
      cases cs with
      | nil => exact Nat.le_succ_of_le (ih [] (Nat.zero_le _) _ _ _ _)
      | cons sign cs1 =>
        have h1 : cs1.length ≤ n := by
          simp only [List.length_cons] at hcs
          omega
        simp only []
        split_ifs
        · have := ih cs1 h1 base fb fd true
          simp only [List.length_cons]
          omega
        · have := ih (sign :: cs1) hcs base fb fd true
          simp only [List.length_cons] at this ⊢
          omega

theorem lex_number_loop_digit_step (base : Int) (hbase : 10 ≤ base) (fb fd fe : Bool)
    (d : Char) (cs : List Char) (hd : isdigit d = true) :
    lex_number_loop base fb fd fe (d :: cs) = lex_number_loop base fb fd fe cs := by
  have hd' := (isdigit_iff d).1 hd
  have hl : islower d = false := (islower_false_iff d).2 (by omega)
  have hu : toupper d = d := toupper_of_not_islower hl
  have e1 : d ≠ 'X' := char_ne_of_toNat (by have : ('X' : Char).toNat = 88 := rfl; omega)
  have e2 : d ≠ 'B' := char_ne_of_toNat (by have : ('B' : Char).toNat = 66 := rfl; omega)
  have e3 : d ≠ 'D' := char_ne_of_toNat (by have : ('D' : Char).toNat = 68 := rfl; omega)
  have e4 : d ≠ 'O' := char_ne_of_toNat (by have : ('O' : Char).toNat = 79 := rfl; omega)
  have e5 : d ≠ '.' := char_ne_of_toNat (by have : ('.' : Char).toNat = 46 := rfl; omega)
  have e6 : d ≠ 'E' := char_ne_of_toNat (by have : ('E' : Char).toNat = 69 := rfl; omega)
  have e7 : ('0' ≤ d ∧ d ≤ '9') := by
    simp only [char_le_iff]
    exact hd'
  have e8 : ¬ ('A' ≤ d) := by
    simp only [char_le_iff]
    have aA : ('A' : Char).toNat = 65 := rfl
    omega
  have e9 : ¬ (code d - code '0' ≥ base) := by
    have a0 : code '0' = 48 := rfl
    simp only [code, a0] at *
    omega
  conv_lhs => unfold lex_number_loop
  simp only [hu, e1, e2, e3, e4, e5, e6, e7, e8, e9, false_or, if_false, false_and, true_or,
    if_true, and_self]

/-- The number branch of `eval_lex` moves past the digit it is entered with. -/
theorem lex_number_length (c : Char) (cs : List Char) (hc : isdigit c = true) :
    (lex_number (c :: cs)).2.length ≤ cs.length := by
  have base10 : (lex_number_loop 10 false false false (c :: cs)).2.length ≤ cs.length := by
    rw [lex_number_loop_digit_step 10 (by decide) _ _ _ c cs hc]
    exact lex_number_loop_length _ cs (Nat.le_refl _) _ _ _ _
  unfold lex_number
  split
  · rename_i c1 cs1 heq
    obtain ⟨rfl, rfl⟩ := List.cons.inj heq
    split_ifs
    · exact base10
    · exact lex_number_loop_length _ _ (Nat.le_refl _) _ _ _ _
    · exact base10
  · exact base10

theorem dropWhile_length_le {α : Type} (p : α → Bool) (l : List α) :
    (l.dropWhile p).length ≤ l.length :=
  (List.dropWhile_sublist p).length_le

theorem dropWhile_length_lt {α : Type} (p : α → Bool) (d : α) (ds : List α)
    (h : p d = true) : ((d :: ds).dropWhile p).length < (d :: ds).length := by
  rw [List.dropWhile_cons, if_pos h]
  exact Nat.lt_succ_of_le (dropWhile_length_le p ds)

/-- Every token of `eval_lex` other than the end of the input and an error takes at least
one character, as long as no operator of the table is empty. -/
theorem eval_lex_progress (table : List operator_token) (hlen : ∀ o ∈ table, 1 ≤ o.length)
    (str : List Char) (ch : Int) (lx : lex_result)
    (h : eval_lex table str ch = .ok lx)
    (h1 : lx.token ≠ TOKEN_EOF) (h2 : lx.token ≠ TOKEN_ERROR) :
    lx.rest.length < str.length := by
  unfold eval_lex at h
  simp only [bind, Except.bind, pure, Except.pure] at h
  cases hs : eval_skip_spaces str with
  | error f =>
    rw [hs] at h
    cases h
  | ok s =>
    have hsl := eval_skip_spaces_length _ _ hs
    rw [hs] at h
    simp only at h
    cases s with
    | nil =>
      simp only at h
      cases h
      exact absurd rfl h1
    | cons d ds =>
      simp only at h
      have hd : ds.length < str.length := by
        simp only [List.length_cons] at hsl
        omega
      by_cases c1 : (isalpha d || d == '_') = true
      · rw [if_pos c1] at h
        cases h
        have hp : (isalnum d || d == '_') = true := by
          simp only [isalnum, Bool.or_eq_true] at c1 ⊢
          rcases c1 with c1 | c1
          · exact Or.inl (Or.inl c1)
          · exact Or.inr c1
        have := dropWhile_length_lt (fun x => isalnum x || x == '_') d ds hp
        exact Nat.lt_of_lt_of_le this hsl
      rw [if_neg c1] at h
      by_cases c2 : isdigit d = true
      · rw [if_pos c2] at h
        cases h
        exact Nat.lt_of_le_of_lt (lex_number_length d ds c2) hd
      rw [if_neg c2] at h
      by_cases c3 : d = '('
      · rw [if_pos c3] at h
        cases h
        exact hd
      rw [if_neg c3] at h
      by_cases c4 : d = ')'
      · rw [if_pos c4] at h
        cases h
        exact hd
      rw [if_neg c4] at h
      by_cases c5 : d = '$'
      · rw [if_pos c5] at h
        cases ds with
        | nil =>
          cases h
          exact absurd rfl h2
        | cons e es =>
          simp only at h
          split at h
          · cases h
            exact Nat.lt_of_le_of_lt (dropWhile_length_le _ _) hd
          · cases h
            exact absurd rfl h2
      rw [if_neg c5] at h
      by_cases c6 : d = '#'
      · rw [if_pos c6] at h
        cases hs1 : eval_skip_spaces ds with
        | error f =>
          rw [hs1] at h
          cases h
        | ok s1 =>
          rw [hs1] at h
          simp only at h
          have l1 := eval_skip_spaces_length _ _ hs1
          cases hdg : lex_register_digits 0 false s1 with
          | error f =>
            rw [hdg] at h
            cases h
          | ok r =>
            have l2 := lex_register_digits_length s1 0 false r hdg
            rw [hdg] at h
            simp only at h
            cases hs3 : eval_skip_spaces r.2.2 with
            | error f =>
              rw [hs3] at h
              cases h
            | ok s3 =>
              rw [hs3] at h
              simp only at h
              have l3 := eval_skip_spaces_length _ _ hs3
              split at h
              · cases h
                show _ < _
                simp only [lex_finish, List.length_cons] at l3 ⊢
                omega
              · cases h
                show _ < _
                simp only [lex_finish, List.length_cons] at l3 ⊢
                omega
              · cases h
                exact absurd rfl h2
      rw [if_neg c6] at h
      by_cases c7 : d = ','
      · rw [if_pos c7] at h
        cases h
        exact hd
      rw [if_neg c7] at h
      cases ho : lex_operator table (d :: ds) with
      | none =>
        rw [ho] at h
        cases h
        exact absurd rfl h2
      | some o =>
        rw [ho] at h
        cases h
        have hm : o ∈ table := List.mem_of_find?_eq_some ho
        have := hlen o hm
        show ((d :: ds).drop o.length).length < str.length
        rw [List.length_drop]
        simp only [List.length_cons] at hsl ⊢
        omega

theorem sorted_operators_length (s : Bool) : ∀ o ∈ sorted_operators s, 1 ≤ o.length := by
  rw [sorted_operators_eq]
  cases s <;> decide

/-! ## What an iteration of the token loop keeps -/

theorem parse_operator_keeps {V : Type} (P : Platform V) (sess : Session V)
    (st : parse_state V) (lx : lex_result) (op : operator_token) (step : parse_step V)
    (h : parse_operator P sess st lx op = .ok step) : step_keeps sess st step := by
  unfold parse_operator at h
  simp only [bind, Except.bind, pure, Except.pure] at h
  repeat' split at h
  all_goals first
    | (cases h; exact trivial)
    | (cases h; exact ⟨rfl, rfl, rfl, rfl⟩)
    | cases h

theorem parse_left_parent_keeps {V : Type} (P : Platform V) (sess : Session V)
    (st : parse_state V) (lx : lex_result) (step : parse_step V)
    (h : parse_left_parent P sess st lx = .ok step) : step_keeps sess st step := by
  unfold parse_left_parent at h
  simp only [bind, Except.bind, pure, Except.pure] at h
  repeat' split at h
  all_goals first
    | (cases h; exact trivial)
    | (cases h; exact ⟨rfl, List.length_set _ _ _, rfl, rfl⟩)
    | cases h

theorem parse_right_parent_keeps {V : Type} (sess : Session V)
    (st : parse_state V) (lx : lex_result) (step : parse_step V)
    (h : parse_right_parent sess st lx = .ok step) : step_keeps sess st step := by
  unfold parse_right_parent at h
  simp only [bind, Except.bind, pure, Except.pure] at h
  repeat' split at h
  all_goals first
    | (cases h; exact trivial)
    | (cases h; exact ⟨rfl, List.length_set _ _ _, rfl, rfl⟩)
    | cases h

theorem parse_comma_keeps {V : Type} (sess : Session V)
    (st : parse_state V) (lx : lex_result) (step : parse_step V)
    (h : parse_comma sess st lx = .ok step) : step_keeps sess st step := by
  unfold parse_comma at h
  simp only [bind, Except.bind, pure, Except.pure] at h
  repeat' split at h
  all_goals first
    | (cases h; exact trivial)
    | (cases h; exact ⟨rfl, rfl, rfl, rfl⟩)
    | cases h

theorem parse_number_keeps {V : Type} (P : Platform V) (sess : Session V)
    (st : parse_state V) (lx : lex_result) (step : parse_step V)
    (h : parse_number P sess st lx = .ok step) : step_keeps sess st step := by
  unfold parse_number token_error_text at h
  repeat' split at h
  all_goals first
    | (cases h; exact trivial)
    | (cases h; exact ⟨rfl, rfl, rfl, rfl⟩)
    | cases h

/-- An iteration of the `switch` that goes on has read a token other than an error, and keeps
the globals, the line and the block of `current_token`. -/
theorem parse_switch_next {V : Type} (P : Platform V) (cb : Option (eval_callback V))
    (sess : Session V) (st : parse_state V) (lx : lex_result) (step : parse_step V)
    (h : parse_switch P cb sess st lx = .ok step) :
    step_keeps sess st step ∧
      (∀ sess1 st1, step = .next sess1 st1 → lx.token ≠ TOKEN_ERROR) := by
  unfold parse_switch token_error_text at h
  simp only [bind, Except.bind, pure, Except.pure] at h
  by_cases h2 : lx.token = TOKEN_ERROR
  · rw [if_pos h2] at h
    cases h
    exact ⟨trivial, fun _ _ e => by cases e⟩
  rw [if_neg h2] at h
  refine ⟨?_, fun _ _ _ => h2⟩
  by_cases h3 : lx.token = TOKEN_NUMBER
  · rw [if_pos h3] at h
    exact parse_number_keeps P sess st lx step h
  rw [if_neg h3] at h
  by_cases h4 : lx.token = TOKEN_OPERATOR
  · rw [if_pos h4] at h
    split at h
    · exact parse_operator_keeps P sess st lx _ step h
    · cases h
  rw [if_neg h4] at h
  by_cases h5 : lx.token = TOKEN_LEFT_PARENT
  · rw [if_pos h5] at h
    exact parse_left_parent_keeps P sess st lx step h
  rw [if_neg h5] at h
  by_cases h6 : lx.token = TOKEN_RIGHT_PARENT
  · rw [if_pos h6] at h
    exact parse_right_parent_keeps sess st lx step h
  rw [if_neg h6] at h
  by_cases h7 : lx.token = TOKEN_NAME
  · rw [if_pos h7] at h
    repeat' split at h
    all_goals cases h
    all_goals first | exact trivial | exact ⟨rfl, rfl, rfl, rfl⟩
  rw [if_neg h7] at h
  by_cases h8 : lx.token = TOKEN_VARIABLE
  · rw [if_pos h8] at h
    repeat' split at h
    all_goals cases h
    all_goals first | exact trivial | exact ⟨rfl, rfl, rfl, rfl⟩
  rw [if_neg h8] at h
  by_cases h9 : lx.token = TOKEN_REGISTER_SAVE
  · rw [if_pos h9] at h
    repeat' split at h
    all_goals cases h
    all_goals first | exact trivial | exact ⟨rfl, rfl, rfl, rfl⟩
  rw [if_neg h9] at h
  by_cases h10 : lx.token = TOKEN_REGISTER_RECALL
  · rw [if_pos h10] at h
    repeat' split at h
    all_goals cases h
    all_goals first | exact trivial | exact ⟨rfl, rfl, rfl, rfl⟩
  rw [if_neg h10] at h
  by_cases h11 : lx.token = TOKEN_COMMA
  · rw [if_pos h11] at h
    exact parse_comma_keeps sess st lx step h
  rw [if_neg h11] at h
  cases h
  exact trivial

/-- What the copy of a token leaves as it is, and how it changes the block of
`current_token`. -/
theorem copy_token_keeps {V : Type} (st st1 : parse_state V) (lx : lex_result)
    (h : copy_token st lx = .ok st1) :
    st1.parentheses_nesting = st.parentheses_nesting ∧ st1.line = st.line ∧
      st1.character = st.character ∧
      (64 ≤ st.max_token_length → 64 ≤ st1.max_token_length) := by
  unfold copy_token at h
  simp only at h
  by_cases hc : (lx.text.length : Int) + 1 ≥ st.max_token_length
  · simp only [if_pos hc] at h
    split at h
    · cases h
    · cases h
      exact ⟨rfl, rfl, rfl, fun h64 => by show 64 ≤ st.max_token_length * 2; omega⟩
  · simp only [if_neg hc] at h
    split at h
    · cases h
    · cases h
      exact ⟨rfl, rfl, rfl, fun h64 => h64⟩

/-- The copy of a token of fewer than 128 characters fits the block of `current_token`, which
has 64 bytes or more. -/
theorem copy_token_fits {V : Type} (st : parse_state V) (lx : lex_result)
    (hmax : 64 ≤ st.max_token_length) (hlen : lx.text.length < 128) :
    ∃ max_token_length,
      copy_token st lx = .ok { st with max_token_length := max_token_length } := by
  unfold copy_token
  simp only
  by_cases hc : (lx.text.length : Int) + 1 ≥ st.max_token_length
  · simp only [if_pos hc]
    rw [if_neg (by omega)]
    exact ⟨_, rfl⟩
  · simp only [if_neg hc]
    rw [if_neg (by omega)]
    exact ⟨_, rfl⟩

/-- An iteration of the token loop that goes on has read a token other than the end of the
input and an error, and keeps the globals. -/
theorem parse_token_next {V : Type} (P : Platform V) (cb : Option (eval_callback V))
    (sess : Session V) (st : parse_state V) (lx : lex_result) (step : parse_step V)
    (h : parse_token P cb sess st lx = .ok step) :
    (∀ sess1 st1, step = .next sess1 st1 →
      (sess1 = sess ∧ st1.parentheses_nesting.length = st.parentheses_nesting.length ∧
        st1.line = st.line ∧ (64 ≤ st.max_token_length → 64 ≤ st1.max_token_length)) ∧
      lx.token ≠ TOKEN_EOF ∧ lx.token ≠ TOKEN_ERROR) := by
  unfold parse_token at h
  by_cases h1 : lx.token = TOKEN_EOF
  · rw [if_pos h1] at h
    split at h
    · cases h
      intro _ _ e
      cases e
    · cases h
  rw [if_neg h1] at h
  cases hc : copy_token st lx with
  | error f =>
    rw [hc] at h
    cases h
  | ok st' =>
    rw [hc] at h
    simp only at h
    obtain ⟨c1, c2, _, c4⟩ := copy_token_keeps st st' lx hc
    obtain ⟨hk, hn⟩ := parse_switch_next P cb sess st' lx step h
    intro sess1 st1 e
    subst e
    obtain ⟨k1, k2, k3, k4⟩ := hk
    refine ⟨⟨k1, ?_, k3.trans c2, ?_⟩, h1, hn _ _ rfl⟩
    · rw [k2, c1]
    · intro h64
      rw [k4]
      exact c4 h64

/-- What one iteration of the token loop that goes on does to the run of the loop, to the
globals and to the input. -/
theorem loop_step_spec {V : Type} (P : Platform V) (cb : Option (eval_callback V))
    (x y : Session V × parse_state V × List Char) (h : loop_step P cb x y) :
    (∀ n, parse_loop P cb (n + 1) x.1 x.2.1 x.2.2 = parse_loop P cb n y.1 y.2.1 y.2.2) ∧
      y.1 = x.1 ∧
      y.2.1.parentheses_nesting.length = x.2.1.parentheses_nesting.length ∧
      y.2.2.length < x.2.2.length ∧
      y.2.1.line = x.2.1.line ∧
      (64 ≤ x.2.1.max_token_length → 64 ≤ y.2.1.max_token_length) := by
  obtain ⟨sess, st, str⟩ := x
  obtain ⟨sess1, st1, str1⟩ := y
  obtain ⟨hne, lx, hlex, htok, hrest⟩ := h
  simp only at hne hlex htok hrest
  obtain ⟨⟨k1, k2, k3, k4⟩, hn1, hn2⟩ := parse_token_next P cb sess st lx _ htok sess1 st1 rfl
  have hp := eval_lex_progress _ (sorted_operators_length P.signed_bitfields) str
    st.character lx hlex hn1 hn2
  refine ⟨?_, k1, k2, ?_, k3, k4⟩
  · intro n
    cases str with
    | nil => exact absurd rfl hne
    | cons c cs =>
      simp only [parse_loop, bind, Except.bind, hlex, htok, hrest]
  · simp only [hrest]
    exact hp

/-- A run of the token loop that reaches, without an error, a point where `eval_lex` returns
a variable of fewer than 128 characters while no callback is given: the copy of the token
fits the block of `current_token`, and where the message fits its buffer the loop ends there
with status 0 and `E_EVAL_VARIABLES_NOT_ALLOWED`, however much fuel above the length of the
input it has. -/
theorem parse_loop_variable {V : Type} (P : Platform V)
    (x y : Session V × parse_state V × List Char) (lx : lex_result)
    (hreach : loop_reaches P none x y)
    (hlex : eval_lex (sorted_operators P.signed_bitfields) y.2.2 y.2.1.character = .ok lx)
    (hvar : lx.token = TOKEN_VARIABLE)
    (hmax : 64 ≤ x.2.1.max_token_length) (hname : lx.text.length < 128)
    (hfit : message_fits x.2.1.line lx.character (137 + lx.text.length) = true) :
    y.1 = x.1 ∧
      y.2.1.parentheses_nesting.length = x.2.1.parentheses_nesting.length ∧
      y.2.1.line = x.2.1.line ∧
      ∀ n, x.2.2.length ≤ n → ∃ max_token_length,
        parse_loop P none n x.1 x.2.1 x.2.2 =
          .ok (some (0, eval_error x.1 E_EVAL_VARIABLES_NOT_ALLOWED y.2.1.line lx.character,
            { y.2.1 with character := lx.character, bounds_set := true,
                         max_token_length := max_token_length })) := by
  induction hreach using Relation.ReflTransGen.head_induction_on with
  | refl =>
    refine ⟨rfl, rfl, rfl, ?_⟩
    intro n hn
    obtain ⟨sess, st, str⟩ := y
    simp only at hlex hn hmax hfit ⊢
    cases str with
    | nil =>
      have : lx.token = TOKEN_EOF := by
        have e : eval_lex (sorted_operators P.signed_bitfields) [] st.character =
            .ok { token := TOKEN_EOF, text := [], rest := [], param := .null,
                  character := st.character } := rfl
        rw [e] at hlex
        cases hlex
        rfl
      rw [hvar] at this
      exact absurd this (by decide)
    | cons c cs =>
      obtain ⟨m, rfl⟩ : ∃ m, n = m + 1 := ⟨n - 1, by
        simp only [List.length_cons] at hn
        omega⟩
      have hne : lx.token ≠ TOKEN_EOF := by
        rw [hvar]
        decide
      have ht : ∃ max_token_length, parse_token P none sess st lx =
          .ok (.parse_end 0 (eval_error sess E_EVAL_VARIABLES_NOT_ALLOWED st.line lx.character)
            { st with character := lx.character, bounds_set := true,
                      max_token_length := max_token_length }) := by
        obtain ⟨mx, hc⟩ := copy_token_fits st lx hmax hname
        refine ⟨mx, ?_⟩
        unfold parse_token
        rw [if_neg hne, hc]
        unfold parse_switch token_error_text
        simp only [hvar, hfit]
        rfl
      obtain ⟨mx, ht⟩ := ht
      refine ⟨mx, ?_⟩
      simp only [parse_loop, bind, Except.bind, hlex, ht]
      rfl
  | head hstep _ ih =>
    obtain ⟨h1, h2, h3, h4, h5, h6⟩ := loop_step_spec P none _ _ hstep
    obtain ⟨i1, i2, i3, i4⟩ := ih (h6 hmax) (by rw [h5]; exact hfit)
    refine ⟨i1.trans h2, i2.trans h3, i3.trans h5, ?_⟩
    intro n hn
    obtain ⟨m, rfl⟩ : ∃ m, n = m + 1 := ⟨n - 1, by omega⟩
    obtain ⟨mx, i5⟩ := i4 m (by omega)
    exact ⟨mx, by rw [h1 m, i5, h2]⟩

/-! ## Function calls -/

theorem isspace_of_name_start (c : Char) (h : (isalpha c || c == '_') = true) :
    isspace c = false := by
  have hc : 65 ≤ c.toNat := by
    simp only [Bool.or_eq_true, isalpha, beq_iff_eq] at h
    rcases h with (h | h) | h
    · exact ((isupper_iff c).1 h).1
    · have := ((islower_iff c).1 h).1
      omega
    · rw [h]
      decide
  have e : ∀ x : Char, x.toNat < 65 → c ≠ x := fun x hx => char_ne_of_toNat (by omega)
  simp [isspace, e ' ' (by decide), e '\t' (by decide), e '\n' (by decide),
    e '\x0b' (by decide), e '\x0c' (by decide), e '\r' (by decide)]

theorem dropWhile_append_stop {α : Type} (p : α → Bool) (c : α) (rest : List α)
    (hc : p c = false) : ∀ (l : List α), l.all p = true →
      (l ++ c :: rest).dropWhile p = c :: rest := by
  intro l
  induction l with
  | nil =>
    intro _
    simp [List.dropWhile, hc]
  | cons d ds ih =>
    intro h
    simp only [List.all_cons, Bool.and_eq_true] at h
    rw [List.cons_append, List.dropWhile_cons, if_pos h.1]
    exact ih h.2

theorem identifier_fits (f : List Char) (hf : identifier f = true) : fits_token_buffer f := by
  cases f with
  | nil => cases hf
  | cons d ds =>
    simp only [identifier, Bool.and_eq_true, decide_eq_true_eq] at hf
    exact hf.2

/-- The name token: an identifier followed by a character that cannot continue it. -/
theorem lex_name (table : List operator_token) (f : List Char) (c : Char)
    (rest : List Char) (ch : Int) (hf : identifier f = true)
    (hc : (isalnum c || c == '_') = false) :
    eval_lex table (f ++ c :: rest) ch =
      .ok { token := TOKEN_NAME, text := f, rest := c :: rest, param := .null,
            character := ch + (f.length : Int) - 1 } := by
  cases f with
  | nil => cases hf
  | cons d ds =>
    simp only [identifier, Bool.and_eq_true] at hf
    replace hf := hf.1
    have hd : (isalnum d || d == '_') = true := by
      have := hf.1
      simp only [isalnum, Bool.or_eq_true] at this ⊢
      rcases this with h | h
      · exact Or.inl (Or.inl h)
      · exact Or.inr h
    have hall : (d :: ds).all (fun x => isalnum x || x == '_') = true := by
      simp only [List.all_cons, Bool.and_eq_true]
      exact ⟨hd, hf.2⟩
    rw [← lex_finish_append]
    have hdrop := dropWhile_append_stop (fun x => isalnum x || x == '_') c rest hc
      (d :: ds) hall
    rw [List.cons_append] at hdrop ⊢
    unfold eval_lex
    simp only [eval_skip_spaces_cons d _ (isspace_of_name_start d hf.1), bind, Except.bind,
      hf.1, if_true, hdrop]
    rfl

/-- The token loop on a name where an operand may stand. -/
theorem parse_loop_name {V : Type} {P : Platform V} {cb : Option (eval_callback V)}
    {n : Nat} {sess : Session V} {out ops : List (eval_stack_entry V)} {lt : Nat}
    {ch ch' ln : Int} {pn : List Int} {fa : List (Option Int)} {nl : Int} {bs : Bool}
    {c : Char} {cs text rest : List Char}
    (hlex : eval_lex (sorted_operators P.signed_bitfields) (c :: cs) ch =
      .ok { token := TOKEN_NAME, text := text, rest := rest, param := .null,
            character := ch' })
    (hlt : token_in lt (TOKEN_EOF ||| TOKEN_OPERATOR ||| TOKEN_COMMA ||| TOKEN_LEFT_PARENT)
      = true)
    (htext : fits_token_buffer text) (hout : out.length < 16) :
    parse_loop P cb (n + 1) sess ⟨out, ops, lt, ch, ln, pn, fa, nl, bs, 64⟩ (c :: cs) =
      parse_loop P cb n sess
        ⟨.name text :: out, ops, TOKEN_NAME, ch' + (text.length : Int), ln, pn, fa, nl, true, 64⟩
        rest := by
  simp only [parse_loop, bind, Except.bind, hlex]
  have ht : parse_token P cb sess ⟨out, ops, lt, ch, ln, pn, fa, nl, bs, 64⟩
      { token := TOKEN_NAME, text := text, rest := rest, param := .null,
        character := ch' } =
      .ok (.next sess ⟨.name text :: out, ops, TOKEN_NAME, ch' + (text.length : Int),
          ln, pn, fa, nl, true, 64⟩) := by
    rw [parse_token_short (show TOKEN_NAME ≠ TOKEN_EOF by decide) htext]
    unfold parse_switch
    simp only [hlt, push_output_ok _ hout, bind, Except.bind]
    rfl
  rw [ht]

/-- The token loop on the parenthesis that opens the argument list of an outermost call. -/
theorem parse_loop_call_open {V : Type} {P : Platform V} {cb : Option (eval_callback V)}
    {n : Nat} {sess : Session V} {out ops : List (eval_stack_entry V)} {f : List Char}
    {ch ln : Int} {pn : List Int} {fa : List (Option Int)} {bs : Bool} {rest : List Char}
    (hops : ops.length < 8) :
    parse_loop P cb (n + 1) sess ⟨.name f :: out, ops, TOKEN_NAME, ch, ln, pn, fa, 0, bs, 64⟩
        ('(' :: rest) =
      parse_loop P cb n sess
        ⟨out, .function_call f none :: ops, TOKEN_LEFT_PARENT, ch + 1, ln, pn.set 1 1,
          fa.set 1 (some 0), 1, true, 64⟩ rest := by
  have hlex : eval_lex (sorted_operators P.signed_bitfields) ('(' :: rest) ch =
      .ok (lex_finish ch TOKEN_LEFT_PARENT ('(' :: rest) rest .null) := rfl
  rw [lex_finish_one] at hlex
  simp only [parse_loop, bind, Except.bind, hlex]
  have ht : parse_token P cb sess
      ⟨.name f :: out, ops, TOKEN_NAME, ch, ln, pn, fa, 0, bs, 64⟩
      { token := TOKEN_LEFT_PARENT, text := ['('], rest := rest, param := .null,
        character := ch } =
      .ok (.next sess ⟨out, .function_call f none :: ops, TOKEN_LEFT_PARENT, ch + 1, ln,
          pn.set 1 1, fa.set 1 (some 0), 1, true, 64⟩) := by
    rw [parse_token_short (show TOKEN_LEFT_PARENT ≠ TOKEN_EOF by decide)
      (show fits_token_buffer ['('] by decide)]
    unfold parse_switch parse_left_parent
    have h1 : token_in TOKEN_NAME TOKEN_NAME = true := rfl
    have h2 : ¬ ((0 : Int) + 1 > MAX_NESTED_FUNCTION_CALLS) := by decide
    have h3 : ¬ ((0 : Int) + 1 < 0 ∨ MAX_NESTED_FUNCTION_CALLS ≤ (0 : Int) + 1) := by decide
    simp only [h1, if_true, if_neg h2, if_neg h3, push_operator_ok _ hops]
    simp [token_done, TOKEN_NAME, TOKEN_LEFT_PARENT, TOKEN_EOF, TOKEN_ERROR,
      TOKEN_NUMBER, TOKEN_OPERATOR, pure, Except.pure]
  rw [ht]

/-- The token loop on a comma that separates two arguments. -/
theorem parse_loop_comma {V : Type} {P : Platform V} {cb : Option (eval_callback V)}
    {n : Nat} {sess : Session V} {out ops : List (eval_stack_entry V)}
    (out' ops' : List (eval_stack_entry V)) {lt : Nat}
    {ch ln : Int} {pn : List Int} {fa : List (Option Int)} (fa' : List (Option Int))
    {nl : Int} {bs : Bool} {rest : List Char}
    (hlt : token_in lt (TOKEN_NUMBER ||| TOKEN_NAME ||| TOKEN_RIGHT_PARENT) = true)
    (hfa : function_args_increment fa nl = .ok fa')
    (hsep : separate_arguments ops out = .ok (true, ops', out')) :
    parse_loop P cb (n + 1) sess ⟨out, ops, lt, ch, ln, pn, fa, nl, bs, 64⟩ (',' :: rest) =
      parse_loop P cb n sess
        ⟨out', ops', TOKEN_COMMA, ch + 1, ln, pn, fa', nl, true, 64⟩ rest := by
  have hlex : eval_lex (sorted_operators P.signed_bitfields) (',' :: rest) ch =
      .ok (lex_finish ch TOKEN_COMMA (',' :: rest) rest .null) := rfl
  rw [lex_finish_one] at hlex
  simp only [parse_loop, bind, Except.bind, hlex]
  have ht : parse_token P cb sess ⟨out, ops, lt, ch, ln, pn, fa, nl, bs, 64⟩
      { token := TOKEN_COMMA, text := [','], rest := rest, param := .null,
        character := ch } =
      .ok (.next sess ⟨out', ops', TOKEN_COMMA, ch + 1, ln, pn, fa', nl, true, 64⟩) := by
    rw [parse_token_short (show TOKEN_COMMA ≠ TOKEN_EOF by decide)
      (show fits_token_buffer [','] by decide)]
    unfold parse_switch parse_comma
    simp only [hlt, hfa, hsep, bind, Except.bind]
    rfl
  rw [ht]

/-- With signed plain bit-fields no descriptor is right-associative for the shunting loop of
`eval_parse`: `ASSOC_RIGHT` is read back from the two-bit field as -2. -/
theorem signed_associativity_never_right :
    ∀ o ∈ unary_minus true :: sorted_operators true, o.associativity ≠ ASSOC_RIGHT := by
  decide

/-- With unsigned plain bit-fields the descriptor of the unary minus is right-associative for
the shunting loop, which then moves the pending `*` to the output before the operand of the
minus sign: `2*-3` fails with `E_EVAL_STACK_EMPTY`. -/
theorem unsigned_bitfields_unary_minus :
    evaluate exact_unsigned (Session.start exact_unsigned) "2*-3".toList =
      .ok (some ⟨0, ⟨0, 1⟩,
        eval_error (Session.fresh exact_unsigned (Session.start exact_unsigned))
          E_EVAL_STACK_EMPTY (-1) (-1)⟩) :=
  rfl

/-! ## The lookup of a registered name -/

/-- C8: every top-level evaluation, through `evaluate` or `evaluate_ex`, runs the parser and
the evaluator, the result of which it hands over as a `double`, from a state in which every
register cell is zero and unassigned,
`eval_last_register` is -1 and `evaluator_errno` is `E_EVAL_OK`, whatever the session held
before; consequently, after any earlier evaluation that returned, an evaluation gives the same
status, result and final state as it gives without that earlier evaluation. -/
theorem every_evaluation_starts_reset {V : Type} (P : Platform V) (sess : Session V)
    (str0 : List Char) (cb0 : Option (eval_callback V)) (r0 : evaluation V)
    (h0 : evaluate_ex P sess str0 cb0 = .ok (some r0))
    (str : List Char) (cb : Option (eval_callback V)) :
    (∀ s : Session V,
      evaluate_ex P s str cb =
        (eval_parse P cb (Session.fresh P s) str).map
          (Option.map (fun e => { e with output := P.double e.output })) ∧
      evaluate P s str =
        (eval_parse P none (Session.fresh P s) str).map
          (Option.map (fun e => { e with output := P.double e.output })) ∧
      (Session.fresh P s).eval_registers = List.replicate 64 (P.ofInt 0) ∧
      (Session.fresh P s).eval_registers_set = List.replicate 64 false ∧
      (Session.fresh P s).eval_last_register = -1 ∧
      (Session.fresh P s).evaluator_errno = E_EVAL_OK) ∧
    evaluate_ex P r0.session str cb = evaluate_ex P sess str cb ∧
    evaluate P r0.session str = evaluate P sess str := by
  have hf : Session.fresh P r0.session = Session.fresh P sess :=
    fresh_of_setup P r0.session sess (evaluate_setup P cb0 sess str0 r0 h0)
  have hrun : ∀ (s : Session V) (c : Option (eval_callback V)),
      __evaluate__ P s str c =
        (eval_parse P c (Session.fresh P s) str).map
          (Option.map (fun e => { e with output := P.double e.output })) := by
    intro s c
    unfold __evaluate__ Session.fresh
    cases eval_parse P c ( eval_instance_initialize P ( eval_initialize P s)) str <;> rfl
  refine ⟨fun s => ⟨hrun s cb, hrun s none, rfl, rfl, rfl, rfl⟩, ?_, ?_⟩
  · show __evaluate__ P r0.session str cb = __evaluate__ P sess str cb
    rw [hrun, hrun, hf]
  · show __evaluate__ P r0.session str none = __evaluate__ P sess str none
    rw [hrun, hrun, hf]

/-- Witness of C8: after `5 #0!` has left 5 in register 0, the evaluation of `2 * 3` starts
from cleared registers and gives the same result as in the starting session. -/
theorem every_evaluation_starts_reset_witness :
    evaluate_ex exact (Session.start exact) "5 #0!".toList none =
      .ok (some ⟨1, ⟨5, 1⟩,
        { (Session.fresh exact (Session.start exact)) with
          eval_registers := (List.replicate 64 (⟨0, 1⟩ : Fraction)).set 0 ⟨5, 1⟩
          eval_registers_set := (List.replicate 64 false).set 0 true
          eval_last_register := 0 }⟩) ∧
    ((∀ s : Session Fraction,
      evaluate_ex exact s "2 * 3".toList none =
        (eval_parse exact none (Session.fresh exact s) "2 * 3".toList).map
          (Option.map (fun e => { e with output := exact.double e.output })) ∧
      evaluate exact s "2 * 3".toList =
        (eval_parse exact none (Session.fresh exact s) "2 * 3".toList).map
          (Option.map (fun e => { e with output := exact.double e.output })) ∧
      (Session.fresh exact s).eval_registers = List.replicate 64 (exact.ofInt 0) ∧
      (Session.fresh exact s).eval_registers_set = List.replicate 64 false ∧
      (Session.fresh exact s).eval_last_register = -1 ∧
      (Session.fresh exact s).evaluator_errno = E_EVAL_OK) ∧
    evaluate_ex exact
        { (Session.fresh exact (Session.start exact)) with
          eval_registers := (List.replicate 64 (⟨0, 1⟩ : Fraction)).set 0 ⟨5, 1⟩
          eval_registers_set := (List.replicate 64 false).set 0 true
          eval_last_register := 0 } "2 * 3".toList none =
      evaluate_ex exact (Session.start exact) "2 * 3".toList none ∧
    evaluate exact
        { (Session.fresh exact (Session.start exact)) with
          eval_registers := (List.replicate 64 (⟨0, 1⟩ : Fraction)).set 0 ⟨5, 1⟩
          eval_registers_set := (List.replicate 64 false).set 0 true
          eval_last_register := 0 } "2 * 3".toList =
      evaluate exact (Session.start exact) "2 * 3".toList) :=
  ⟨rfl, every_evaluation_starts_reset exact (Session.start exact) "5 #0!".toList none _ rfl
    "2 * 3".toList none⟩

/-- Counterexample to C9: with exact arithmetic, `5 #0!` evaluates to 5 and leaves 5 in
register 0, and in the session it leaves the evaluation of `#0? * 2` returns status 0 and
output 0 instead of 10; `2 * #0?`, in which no operator follows the recall, returns status 0
there as well, register 0 being unassigned again. -/
theorem registers_do_not_carry_over_counterexample :
    evaluate exact (Session.start exact) "5 #0!".toList =
      .ok (some ⟨1, ⟨5, 1⟩,
        { (Session.fresh exact (Session.start exact)) with
          eval_registers := (List.replicate 64 (⟨0, 1⟩ : Fraction)).set 0 ⟨5, 1⟩
          eval_registers_set := (List.replicate 64 false).set 0 true
          eval_last_register := 0 }⟩) ∧
    evaluate exact
        { (Session.fresh exact (Session.start exact)) with
          eval_registers := (List.replicate 64 (⟨0, 1⟩ : Fraction)).set 0 ⟨5, 1⟩
          eval_registers_set := (List.replicate 64 false).set 0 true
          eval_last_register := 0 } "#0? * 2".toList =
      .ok (some ⟨0, ⟨0, 1⟩,
        eval_error (Session.fresh exact (Session.start exact)) E_EVAL_UNEXPECTED_OPERATOR
          1 5⟩) ∧
    evaluate exact
        { (Session.fresh exact (Session.start exact)) with
          eval_registers := (List.replicate 64 (⟨0, 1⟩ : Fraction)).set 0 ⟨5, 1⟩
          eval_registers_set := (List.replicate 64 false).set 0 true
          eval_last_register := 0 } "2 * #0?".toList =
      .ok (some ⟨0, ⟨0, 1⟩,
        eval_error (Session.fresh exact (Session.start exact)) E_EVAL_INVALID_REGISTER_INDEX
          (-1) (-1)⟩) :=
  ⟨rfl, rfl, rfl⟩

/-- C9, as amended: registers do not carry a value from one evaluation to the next.  For
all numeric literals `a`, `b` of fewer than 63 characters each and every register number `k`
in 0..63, `a #k!` evaluates to `a`, handed over as a `double`, and ends with `a` in register
`k`; in the session it leaves, every expression evaluates as it does in the session before,
and `b * #k?`, which recalls the register before any save, does not evaluate: it returns
status 0 and output 0, with an error code other than `E_EVAL_OK` and the rest of the state as
the evaluation started. -/
theorem registers_do_not_carry_over {V : Type} (P : Platform V) (sess : Session V)
    (k : Nat) (hk : k < 64) (a b : List Char) (va vb : V)
    (ha : IsNumber P a va) (hb : IsNumber P b vb) :
    evaluate P sess (a ++ " #".toList ++ (Nat.repr k).toList ++ "!".toList) =
      .ok (some ⟨1, P.double va,
        { (Session.fresh P sess) with
          eval_registers := (List.replicate 64 (P.ofInt 0)).set k va
          eval_registers_set := (List.replicate 64 false).set k true
          eval_last_register := (k : Int) }⟩) ∧
    (∀ str : List Char,
      evaluate P
          { (Session.fresh P sess) with
            eval_registers := (List.replicate 64 (P.ofInt 0)).set k va
            eval_registers_set := (List.replicate 64 false).set k true
            eval_last_register := (k : Int) } str =
        evaluate P sess str) ∧
    ∃ code : Int, code ≠ E_EVAL_OK ∧
      evaluate P
          { (Session.fresh P sess) with
            eval_registers := (List.replicate 64 (P.ofInt 0)).set k va
            eval_registers_set := (List.replicate 64 false).set k true
            eval_last_register := (k : Int) }
          (b ++ " * #".toList ++ (Nat.repr k).toList ++ "?".toList) =
        .ok (some ⟨0, P.double (P.ofInt 0),
          eval_error (Session.fresh P sess) code (-1) (-1)⟩) := by
  have hla := ha.length_pos
  have hlb := hb.length_pos
  have hid : ¬ ((k : Int) ≥ MAX_REGISTERS) := by
    unfold MAX_REGISTERS
    omega
  have hf : Session.fresh P
      { (Session.fresh P sess) with
        eval_registers := (List.replicate 64 (P.ofInt 0)).set k va
        eval_registers_set := (List.replicate 64 false).set k true
        eval_last_register := (k : Int) } = Session.fresh P sess :=
    fresh_of_setup P _ sess rfl
  unfold evaluate
  generalize hs : P.signed_bitfields = s
  have key1 : ∃ ch, parse_loop P none 2 (Session.fresh P sess) (parse_start V)
      (a ++ " #".toList ++ (Nat.repr k).toList ++ "!".toList) =
      .ok (some (1, Session.fresh P sess,
        ⟨[.register_save (k : Int), .numeric va], [],
         TOKEN_NUMBER, ch, 1, List.replicate 64 0, List.replicate 64 none, 0, true, 64⟩)) := by
    refine ⟨?_, ?_⟩
    swap
    simp only [List.append_assoc, parse_start]
    show parse_loop P none 2 _ _ (a ++ ' ' :: '#' :: ((Nat.repr k).toList ++ '!' :: [])) = _
    rw [parse_loop_number ha (by exact rfl) (by rfl) (by exact fits rfl), parse_loop_space,
      parse_loop_register_save (lex_register_save _ k hk _ _) hid
        (register_token_fits k hk '!') (by exact fits rfl), parse_loop_nil]
    exact rfl
  have key2 : ∃ ch, parse_loop P none 3
      (Session.fresh P
        { (Session.fresh P sess) with
          eval_registers := (List.replicate 64 (P.ofInt 0)).set k va
          eval_registers_set := (List.replicate 64 false).set k true
          eval_last_register := (k : Int) })
      (parse_start V)
      (b ++ " * #".toList ++ (Nat.repr k).toList ++ "?".toList) =
      .ok (some (1, Session.fresh P sess,
        ⟨[.register_recall (k : Int), .numeric vb],
         [.operator (operator_init s "*" 1 OP_MUL 8 ASSOC_LEFT 0)],
         TOKEN_REGISTER_RECALL, ch, 1, List.replicate 64 0, List.replicate 64 none, 0,
         true, 64⟩)) := by
    rw [hf]
    refine ⟨?_, ?_⟩
    swap
    simp only [List.append_assoc, parse_start]
    show parse_loop P none 3 _ _
      (b ++ ' ' :: '*' :: ' ' :: '#' :: ((Nat.repr k).toList ++ '?' :: [])) = _
    rw [parse_loop_number hb (by exact rfl) (by rfl) (by exact fits rfl), parse_loop_space,
      parse_loop_binary hs [.numeric vb] [] (lex_star s ' ' _ _ (by decide))
        (by rfl) (by rfl) (by cases s <;> decide) (by cases s <;> exact rfl) (by decide)
        (by exact fits rfl),
      parse_loop_space,
      parse_loop_register_recall (lex_register_recall _ k hk _ _) (by rfl) hid
        (register_token_fits k hk '?') (by exact fits rfl),
      parse_loop_nil]
    exact rfl
  obtain ⟨ch1, key1⟩ := key1
  obtain ⟨ch2, key2⟩ := key2
  have hc1 : compute_loop P none (Session.fresh P sess) { value_stack := [], result := none }
      [.numeric va, .register_save (k : Int)] =
      .ok (1, { (Session.fresh P sess) with
          eval_registers := (List.replicate 64 (P.ofInt 0)).set k va
          eval_registers_set := (List.replicate 64 false).set k true
          eval_last_register := (k : Int) }, some va) := by
    simp only [compute_loop, compute_entry, bind, Except.bind, pure, Except.pure, push_value,
      compute_register_save_explicit _ va [] (some va) k hk]
    rfl
  have hset : (Session.fresh P sess).eval_registers_set.get? k = some false := by
    show (List.replicate 64 false).get? k = some false
    rw [List.get?_eq_getElem?, List.getElem?_replicate_of_lt hk]
  have hval : (Session.fresh P sess).eval_registers.get? k = some (P.ofInt 0) := by
    show (List.replicate 64 (P.ofInt 0)).get? k = some (P.ofInt 0)
    rw [List.get?_eq_getElem?, List.getElem?_replicate_of_lt hk]
  have hc2 : compute_loop P none (Session.fresh P sess) { value_stack := [], result := none }
      [.numeric vb, .register_recall (k : Int),
        .operator (operator_init s "*" 1 OP_MUL 8 ASSOC_LEFT 0)] =
      .ok (0, eval_error (Session.fresh P sess) E_EVAL_INVALID_REGISTER_INDEX (-1) (-1),
        none) := by
    simp only [compute_loop, compute_entry, bind, Except.bind, pure, Except.pure, push_value,
      compute_register_recall_unset _ _ k _ hset hval]
  have r1 := outcome_of_loop [.numeric va, .register_save (k : Int)] 1 (some va)
    (by simp; omega) key1 rfl rfl rfl (by simp) hc1
  have r2 := outcome_of_loop
    [.numeric vb, .register_recall (k : Int),
      .operator (operator_init s "*" 1 OP_MUL 8 ASSOC_LEFT 0)]
    0 none (by simp; omega) key2 rfl rfl rfl (by simp) hc2
  refine ⟨r1, ?_, E_EVAL_INVALID_REGISTER_INDEX, by decide, r2⟩
  intro str
  show eval_parse P none (Session.fresh P _) str >>= _ =
    eval_parse P none (Session.fresh P sess) str >>= _
  rw [hf]

/-- Witness of C9 as amended: with exact arithmetic, `5 #0!` evaluates to 5 and ends with 5
in register 0, and in the session it leaves every expression evaluates as before and
`2 * #0?` returns status 0. -/
theorem registers_do_not_carry_over_witness :
    (0 : Nat) < 64 ∧ IsNumber exact ['5'] ⟨5, 1⟩ ∧ IsNumber exact ['2'] ⟨2, 1⟩ ∧
    (evaluate exact (Session.start exact) "5 #0!".toList =
      .ok (some ⟨1, ⟨5, 1⟩,
        { (Session.fresh exact (Session.start exact)) with
          eval_registers := (List.replicate 64 (⟨0, 1⟩ : Fraction)).set 0 ⟨5, 1⟩
          eval_registers_set := (List.replicate 64 false).set 0 true
          eval_last_register := 0 }⟩) ∧
    (∀ str : List Char,
      evaluate exact
          { (Session.fresh exact (Session.start exact)) with
            eval_registers := (List.replicate 64 (⟨0, 1⟩ : Fraction)).set 0 ⟨5, 1⟩
            eval_registers_set := (List.replicate 64 false).set 0 true
            eval_last_register := 0 } str =
        evaluate exact (Session.start exact) str) ∧
    ∃ code : Int, code ≠ E_EVAL_OK ∧
      evaluate exact
          { (Session.fresh exact (Session.start exact)) with
            eval_registers := (List.replicate 64 (⟨0, 1⟩ : Fraction)).set 0 ⟨5, 1⟩
            eval_registers_set := (List.replicate 64 false).set 0 true
            eval_last_register := 0 } "2 * #0?".toList =
        .ok (some ⟨0, ⟨0, 1⟩,
          eval_error (Session.fresh exact (Session.start exact)) code (-1) (-1)⟩)) :=
  ⟨by decide, exact_five, exact_two,
    registers_do_not_carry_over exact (Session.start exact) 0 (by decide) ['5'] ['2'] _ _
      exact_five exact_two⟩

/-- C10: the entry point without a callback rejects variables: for every expression in which
the token loop of the parser reaches, without an earlier error, a point where the lexer
returns a variable token of fewer than 128 characters, the size to which the block of
`current_token` can grow for one token, and the error message with the name fits the 1024
bytes of `evaluator_error`, `evaluate` returns status 0 and output 0 with
`E_EVAL_VARIABLES_NOT_ALLOWED` as the error code, at the position of that token; nothing is
evaluated, the rest of the state being as the evaluation started.  A longer name is copied
past the end of the block of `current_token` before the callback is tested. -/
theorem variables_not_allowed_without_callback {V : Type} (P : Platform V)
    (sess : Session V) (str : List Char) (sess1 : Session V) (st1 : parse_state V)
    (rest : List Char) (lx : lex_result)
    (hreach : loop_reaches P none (Session.fresh P sess, parse_start V, str)
      (sess1, st1, rest))
    (hlex : eval_lex (sorted_operators P.signed_bitfields) rest st1.character = .ok lx)
    (hvar : lx.token = TOKEN_VARIABLE) (hname : lx.text.length < 128)
    (hfit : message_fits 1 lx.character (137 + lx.text.length) = true) :
    evaluate P sess str =
      .ok (some ⟨0, P.double (P.ofInt 0),
        eval_error (Session.fresh P sess) E_EVAL_VARIABLES_NOT_ALLOWED st1.line
          lx.character⟩) := by
  obtain ⟨_, _, _, hloop⟩ := parse_loop_variable P _ _ lx hreach hlex hvar
    (show (64 : Int) ≤ 64 by decide) hname hfit
  obtain ⟨mx, key⟩ := hloop (str.length + 1) (Nat.le_succ _)
  simp only at key
  unfold evaluate
  rw [evaluate_of_loop (Nat.le_refl _) key]
  rfl

/-- Witness of C10: `$TIME + 1` given to `evaluate` fails with
`E_EVAL_VARIABLES_NOT_ALLOWED` at its first token. -/
theorem variables_not_allowed_without_callback_witness :
    loop_reaches exact none
        (Session.fresh exact (Session.start exact), parse_start Fraction, "$TIME + 1".toList)
        (Session.fresh exact (Session.start exact), parse_start Fraction,
          "$TIME + 1".toList) ∧
      eval_lex (sorted_operators exact.signed_bitfields) "$TIME + 1".toList
          (parse_start Fraction).character =
        .ok { token := TOKEN_VARIABLE, text := "TIME".toList, rest := " + 1".toList,
              param := .null, character := 3 } ∧
      TOKEN_VARIABLE = TOKEN_VARIABLE ∧ "TIME".toList.length < 128 ∧
      message_fits 1 3 (137 + "TIME".toList.length) = true ∧
      evaluate exact (Session.start exact) "$TIME + 1".toList =
        .ok (some ⟨0, ⟨0, 1⟩,
          eval_error (Session.fresh exact (Session.start exact))
            E_EVAL_VARIABLES_NOT_ALLOWED 1 3⟩) :=
  ⟨Relation.ReflTransGen.refl, rfl, rfl, by decide, by decide,
    variables_not_allowed_without_callback exact (Session.start exact) "$TIME + 1".toList
      _ _ _ _ Relation.ReflTransGen.refl
      (rfl : eval_lex (sorted_operators exact.signed_bitfields) "$TIME + 1".toList
          (parse_start Fraction).character =
        .ok { token := TOKEN_VARIABLE, text := "TIME".toList, rest := " + 1".toList,
              param := .null, character := 3 })
      rfl (by decide) (by decide)⟩


/-! ## Variables -/

/-- The variable token: `$`, then an identifier followed by a character that cannot continue
it; the text handed on is the identifier without the `$`. -/
theorem lex_variable (table : List operator_token) (v : List Char) (c : Char)
    (rest : List Char) (ch : Int) (hv : identifier v = true)
    (hc : (isalnum c || c == '_') = false) :
    eval_lex table ('$' :: (v ++ c :: rest)) ch =
      .ok { token := TOKEN_VARIABLE, text := v, rest := c :: rest, param := .null,
            character := ch + (v.length : Int) - 1 } := by
  cases v with
  | nil => cases hv
  | cons d ds =>
    simp only [identifier, Bool.and_eq_true] at hv
    have hd : (isalnum d || d == '_') = true := by
      have := hv.1
      simp only [isalnum, Bool.or_eq_true] at this ⊢
      rcases this with h | h
      · exact Or.inl (Or.inl h)
      · exact Or.inr h
    have hall : (d :: ds).all (fun x => isalnum x || x == '_') = true := by
      simp only [List.all_cons, Bool.and_eq_true]
      exact ⟨hd, hv.1.2⟩
    rw [← lex_finish_append]
    have hdrop := dropWhile_append_stop (fun x => isalnum x || x == '_') c rest hc
      (d :: ds) hall
    rw [List.cons_append] at hdrop ⊢
    unfold eval_lex
    simp only [eval_skip_spaces_cons '$' _ (by decide), bind, Except.bind]
    have h1 : (isalpha '$' || '$' == '_') = false := by decide
    have h2 : isdigit '$' = false := by decide
    simp only [h1, h2, Bool.false_eq_true, if_false, hv.1.1, if_true, hdrop,
      if_neg (show ¬ ('$' = '(') by decide), if_neg (show ¬ ('$' = ')') by decide)]
    rfl

/-- The token loop on a variable where an operand may stand, a callback being given. -/
theorem parse_loop_variable_token {V : Type} {P : Platform V} {cb : eval_callback V}
    {n : Nat} {sess : Session V} {out ops : List (eval_stack_entry V)} {lt : Nat}
    {ch ch' ln : Int} {pn : List Int} {fa : List (Option Int)} {nl : Int} {bs : Bool}
    {c : Char} {cs text rest : List Char}
    (hlex : eval_lex (sorted_operators P.signed_bitfields) (c :: cs) ch =
      .ok { token := TOKEN_VARIABLE, text := text, rest := rest, param := .null,
            character := ch' })
    (hlt : token_in lt (TOKEN_EOF ||| TOKEN_OPERATOR ||| TOKEN_COMMA ||| TOKEN_LEFT_PARENT)
      = true)
    (htext : fits_token_buffer text) (hout : out.length < 16) :
    parse_loop P (some cb) (n + 1) sess ⟨out, ops, lt, ch, ln, pn, fa, nl, bs, 64⟩ (c :: cs) =
      parse_loop P (some cb) n sess
        ⟨.variable text :: out, ops, TOKEN_VARIABLE, ch' + (text.length : Int), ln, pn, fa,
          nl, true, 64⟩ rest := by
  simp only [parse_loop, bind, Except.bind, hlex]
  have ht : parse_token P (some cb) sess ⟨out, ops, lt, ch, ln, pn, fa, nl, bs, 64⟩
      { token := TOKEN_VARIABLE, text := text, rest := rest, param := .null,
        character := ch' } =
      .ok (.next sess ⟨.variable text :: out, ops, TOKEN_VARIABLE,
          ch' + (text.length : Int), ln, pn, fa, nl, true, 64⟩) := by
    rw [parse_token_short (show TOKEN_VARIABLE ≠ TOKEN_EOF by decide) htext]
    unfold parse_switch
    simp only [hlt, push_output_ok _ hout, bind, Except.bind]
    rfl
  rw [ht]

/-! ## Rejected tokens -/

/-- The copy of a token that fits the block of `current_token` as first allocated, the block
being as first allocated: it stays so. -/
theorem copy_token_same {V : Type} (st : parse_state V) (lx : lex_result)
    (hmax : st.max_token_length = DEFAULT_TOKEN_BUFFER_SIZE)
    (hshort : fits_token_buffer lx.text) : copy_token st lx = .ok st := by
  unfold fits_token_buffer at hshort
  unfold copy_token
  simp only [hmax]
  rw [if_neg (by omega), if_neg (by omega), ← hmax]

/-- The token loop on an error token of `eval_lex` that fits the block of `current_token`:
it ends with status 0 and `E_EVAL_UNEXPECTED_CHARACTER`. -/
theorem parse_loop_error_token {V : Type} {P : Platform V} {cb : Option (eval_callback V)}
    {n : Nat} {sess : Session V} {st : parse_state V} {c : Char} {cs : List Char}
    (lx : lex_result)
    (hlex : eval_lex (sorted_operators P.signed_bitfields) (c :: cs) st.character = .ok lx)
    (htok : lx.token = TOKEN_ERROR)
    (hmax : st.max_token_length = DEFAULT_TOKEN_BUFFER_SIZE)
    (hshort : fits_token_buffer lx.text) :
    parse_loop P cb (n + 1) sess st (c :: cs) =
      .ok (some (0, eval_error sess E_EVAL_UNEXPECTED_CHARACTER st.line lx.character,
        { st with character := lx.character, bounds_set := true })) := by
  have ht : parse_token P cb sess st lx =
      .ok (token_error sess st lx E_EVAL_UNEXPECTED_CHARACTER) := by
    unfold parse_token
    rw [if_neg (by rw [htok]; decide), copy_token_same st lx hmax hshort]
    unfold parse_switch
    simp only [htok]
    rfl
  simp only [parse_loop, bind, Except.bind, hlex, ht]
  rfl

/-- The token loop on a number token that fits the block of `current_token` and that
`eval_double_value` does not convert, where the message fits its buffer: it ends with status 0
and `E_EVAL_INVALID_NUMBER`. -/
theorem parse_loop_invalid_number {V : Type} {P : Platform V}
    {cb : Option (eval_callback V)} {n : Nat} {sess : Session V} {st : parse_state V}
    {c : Char} {cs : List Char} (lx : lex_result)
    (hlex : eval_lex (sorted_operators P.signed_bitfields) (c :: cs) st.character = .ok lx)
    (htok : lx.token = TOKEN_NUMBER)
    (hlt : token_in st.last_token
      (TOKEN_EOF ||| TOKEN_OPERATOR ||| TOKEN_COMMA ||| TOKEN_LEFT_PARENT) = true)
    (hval : eval_double_value P lx.text lx.text.length = none)
    (hmax : st.max_token_length = DEFAULT_TOKEN_BUFFER_SIZE)
    (hshort : fits_token_buffer lx.text)
    (hfit : message_fits st.line lx.character (24 + lx.text.length) = true) :
    parse_loop P cb (n + 1) sess st (c :: cs) =
      .ok (some (0, eval_error sess E_EVAL_INVALID_NUMBER st.line lx.character,
        { st with character := lx.character, bounds_set := true })) := by
  have ht : parse_token P cb sess st lx =
      .ok (token_error sess st lx E_EVAL_INVALID_NUMBER) := by
    unfold parse_token
    rw [if_neg (by rw [htok]; decide), copy_token_same st lx hmax hshort]
    unfold parse_switch parse_number token_error_text
    simp only [htok, hlt, hval, hfit]
    rfl
  simp only [parse_loop, bind, Except.bind, hlex, ht]
  rfl

/-- An evaluation whose token loop ends with status 0 returns 0 and leaves the output at 0. -/
theorem evaluate_of_failed_loop {V : Type} {P : Platform V} {cb : Option (eval_callback V)}
    {sess sess' : Session V} {str : List Char} (n : Nat) {st : parse_state V}
    (hn : n ≤ str.length + 1)
    (h : parse_loop P cb n (Session.fresh P sess) (parse_start V) str =
      .ok (some (0, sess', st))) :
    __evaluate__ P sess str cb = .ok (some ⟨0, P.double (P.ofInt 0), sess'⟩) := by
  rw [evaluate_of_loop hn h]
  rfl

/-! ## Operators at the end of the input -/

/-- Every operator of the table, followed by a blank or by the end of the input, is lexed as
itself. -/
theorem lex_operator_token (s : Bool) (op : operator_token) (hop : op ∈ sorted_operators s)
    (tail : List Char) (htail : tail = [] ∨ ∃ r, tail = ' ' :: r) (ch : Int) :
    eval_lex (sorted_operators s) (op.token ++ tail) ch =
      .ok { token := TOKEN_OPERATOR, text := op.token, rest := tail, param := .operator op,
            character := ch + (op.token.length : Int) - 1 } := by
  rw [← lex_finish_append]
  rw [sorted_operators_eq] at hop
  simp only [List.mem_cons, List.mem_singleton, List.not_mem_nil, or_false] at hop
  rcases htail with rfl | ⟨r, rfl⟩
  · cases s <;> rcases hop with h | h | h | h | h | h | h | h | h | h | h | h | h | h <;>
      subst h <;> exact rfl
  · cases s <;> rcases hop with h | h | h | h | h | h | h | h | h | h | h | h | h | h <;>
      subst h <;> exact rfl

theorem operator_token_ne_nil (s : Bool) (op : operator_token)
    (hop : op ∈ sorted_operators s) : op.token ≠ [] := by
  rw [sorted_operators_eq] at hop
  simp only [List.mem_cons, List.mem_singleton, List.not_mem_nil, or_false] at hop
  cases s <;> rcases hop with h | h | h | h | h | h | h | h | h | h | h | h | h | h <;>
    subst h <;> decide

/-- The token loop on a blank that ends the input, once a token has been read: `eval_lex`
returns the end of the input and the loop is left with status 1. -/
theorem parse_loop_trailing_space {V : Type} {P : Platform V}
    {cb : Option (eval_callback V)} {n : Nat} {sess : Session V}
    {out ops : List (eval_stack_entry V)} {lt : Nat} {ch ln : Int} {pn : List Int}
    {fa : List (Option Int)} {nl : Int} :
    parse_loop P cb (n + 1) sess ⟨out, ops, lt, ch, ln, pn, fa, nl, true, 64⟩ [' '] =
      .ok (some (1, sess, ⟨out, ops, lt, ch, ln, pn, fa, nl, true, 64⟩)) := by
  have hlex : eval_lex (sorted_operators P.signed_bitfields) [' '] ch =
      .ok { token := TOKEN_EOF, text := [], rest := [], param := .null, character := ch } :=
    rfl
  simp only [parse_loop, bind, Except.bind, hlex]
  rfl

/-- The evaluator on a binary operator that finds a single value: `E_EVAL_STACK_EMPTY`. -/
theorem compute_loop_missing_operand {V : Type} (P : Platform V)
    (cb : Option (eval_callback V)) (sess : Session V) (v : V) (op : operator_token)
    (hun : op.unary = 0) :
    compute_loop P cb sess { value_stack := [], result := none }
        [.numeric v, .operator op] =
      .ok (0, eval_error sess E_EVAL_STACK_EMPTY (-1) (-1), none) := by
  simp only [compute_loop, compute_entry, compute_operator, bind, Except.bind, pure,
    Except.pure, push_value, hun, ne_eq, not_true_eq_false, if_false]

/-! ## Calls: the whole token loop -/

/-- The number of digits of a number below a power of ten. -/
theorem decimal_digits_le : ∀ (fuel n k : Nat), n < 10 ^ (k + 1) →
    decimal_digits fuel n ≤ k + 1
  | 0, _, _, _ => by
    unfold decimal_digits
    omega
  | fuel + 1, n, k, h => by
    unfold decimal_digits
    by_cases hn : n < 10
    · rw [if_pos hn]
      omega
    · rw [if_neg hn]
      cases k with
      | zero =>
        simp only [zero_add, pow_one] at h
        exact absurd h hn
      | succ k =>
        have hdiv : n / 10 < 10 ^ (k + 1) := by
          apply Nat.div_lt_of_lt_mul
          rw [pow_succ] at h
          rw [Nat.mul_comm]
          exact h
        have := decimal_digits_le fuel (n / 10) k hdiv
        omega

/-- What `%d` prints for an `int` has at most 11 characters. -/
theorem printed_length_le (x : Int) (h1 : INT_MIN ≤ x) (h2 : x ≤ INT_MAX) :
    printed_length x ≤ 11 := by
  unfold INT_MIN at h1
  unfold INT_MAX at h2
  unfold printed_length
  have := decimal_digits_le x.natAbs x.natAbs 9 (by norm_num; omega)
  split <;> omega

/-- A message of `eval_compute`, which has no position, fits `evaluator_error` when its text
has at most 1010 characters. -/
theorem message_fits_compute (body : Nat) (h : body ≤ 1010) :
    message_fits (-1) (-1) body = true := by
  unfold message_fits EVALUATOR_ERROR_SIZE
  rw [if_pos rfl]
  exact decide_eq_true (by omega)

/-- A message of `eval_parse` on line 1 fits `evaluator_error` when the column is an `int`
and its text has at most 984 characters. -/
theorem message_fits_parse (character : Int) (body : Nat) (h1 : INT_MIN ≤ character + 1)
    (h2 : character + 1 ≤ INT_MAX) (h : body ≤ 984) :
    message_fits 1 character body = true := by
  have hp := printed_length_le (character + 1) h1 h2
  have h1 : printed_length 1 = 1 := by decide
  unfold message_fits EVALUATOR_ERROR_SIZE
  rw [if_neg (by decide), h1]
  exact decide_eq_true (by omega)

theorem digits_value_append (acc : Nat) (a b : List Char) :
    Fraction.digits_value acc (a ++ b) = Fraction.digits_value (Fraction.digits_value acc a) b := by
  induction a generalizing acc with
  | nil => rfl
  | cons c cs ih => exact ih _

theorem digitChar_spec (k : Nat) (hk : k < 10) :
    isdigit (Nat.digitChar k) = true ∧ (Nat.digitChar k).toNat - '0'.toNat = k ∧
      (k ≠ 0 → Nat.digitChar k ≠ '0') := by
  interval_cases k <;> decide

/-- The digits that `Nat.toDigitsCore` puts in front of its accumulator: decimal digits, no
leading zero for a positive number, as many as the number needs, and the value
`digits_value` reads back. -/
theorem toDigitsCore_spec (fuel : Nat) : ∀ (n : Nat) (ds : List Char), n < fuel →
    ∃ d pre, Nat.toDigitsCore 10 fuel n ds = d :: pre ++ ds ∧
      (∀ c ∈ d :: pre, isdigit c = true) ∧
      (∀ acc, Fraction.digits_value acc (d :: pre) = acc * 10 ^ (pre.length + 1) + n) ∧
      (n ≠ 0 → d ≠ '0') ∧ (n = 0 → pre = []) ∧ (n ≠ 0 → 10 ^ pre.length ≤ n) := by
  induction fuel with
  | zero => intro n ds h; omega
  | succ fuel ih =>
    intro n ds hn
    obtain ⟨hdig, hval, hne⟩ := digitChar_spec (n % 10) (Nat.mod_lt _ (by decide))
    by_cases h0 : n / 10 = 0
    · have hlt : n < 10 := by omega
      have hmod : n % 10 = n := Nat.mod_eq_of_lt hlt
      refine ⟨Nat.digitChar (n % 10), [], ?_, ?_, ?_, ?_, fun _ => rfl, ?_⟩
      · simp [Nat.toDigitsCore, h0]
      · intro c hc
        rw [List.mem_singleton] at hc
        rw [hc]; exact hdig
      · intro acc
        show acc * 10 + ((Nat.digitChar (n % 10)).toNat - '0'.toNat) = _
        rw [hval, hmod]; simp
      · intro hn0
        exact hne (by rw [hmod]; exact hn0)
      · intro hn0
        simp only [List.length_nil, pow_zero]
        omega
    · obtain ⟨d, pre, heq, hall, hv, hd, _, hlen⟩ :=
        ih (n / 10) (Nat.digitChar (n % 10) :: ds) (by omega)
      refine ⟨d, pre ++ [Nat.digitChar (n % 10)], ?_, ?_, ?_, fun _ => hd h0, ?_, ?_⟩
      · simp [Nat.toDigitsCore, h0, heq]
      · intro c hc
        rw [← List.cons_append, List.mem_append, List.mem_singleton] at hc
        rcases hc with hc | hc
        · exact hall c hc
        · rw [hc]; exact hdig
      · intro acc
        rw [← List.cons_append, digits_value_append, hv]
        show (acc * 10 ^ (pre.length + 1) + n / 10) * 10 +
          ((Nat.digitChar (n % 10)).toNat - '0'.toNat) = _
        rw [hval, List.length_append, List.length_singleton, pow_succ _ (pre.length + 1)]
        have := Nat.div_add_mod n 10
        nlinarith
      · intro hn0
        omega
      · intro _
        rw [List.length_append, List.length_singleton, pow_succ]
        have h10 : 10 ^ pre.length ≤ n / 10 := hlen h0
        omega

theorem takeWhile_all {α : Type} (p : α → Bool) (l : List α) (h : ∀ c ∈ l, p c = true) :
    l.takeWhile p = l := by
  induction l with
  | nil => rfl
  | cons c cs ih =>
    rw [List.takeWhile_cons, h c (List.mem_cons_self _ _)]
    simp only [if_true]
    rw [ih (fun x hx => h x (List.mem_cons_of_mem _ hx))]

theorem dropWhile_all {α : Type} (p : α → Bool) (l : List α) (h : ∀ c ∈ l, p c = true) :
    l.dropWhile p = [] := by
  induction l with
  | nil => rfl
  | cons c cs ih =>
    rw [List.dropWhile_cons, h c (List.mem_cons_self _ _)]
    simp only [if_true]
    exact ih (fun x hx => h x (List.mem_cons_of_mem _ hx))

theorem normalize_one (n : Int) : Fraction.normalize n 1 = ⟨n, 1⟩ := by
  simp [Fraction.normalize]

/-- The function `strtod` of the exact platform on a string of decimal digits. -/
theorem strtod_digits (d : Char) (ds : List Char) (h : ∀ c ∈ d :: ds, isdigit c = true) :
    Fraction.strtod (d :: ds) =
      (⟨(Fraction.digits_value 0 (d :: ds) : Int), 1⟩, (d :: ds).length) := by
  unfold Fraction.strtod
  rw [takeWhile_all _ _ h, dropWhile_all _ _ h]
  simp [normalize_one]

/-- The decimal numeral of a natural number has as many digits as the number needs. -/
theorem repr_length (n k : Nat) (hn : n < 10 ^ k) (hk : 0 < k) :
    (Nat.repr n).toList.length ≤ k := by
  obtain ⟨d, pre, heq, _, _, _, hz, hlen⟩ :=
    toDigitsCore_spec (n + 1) n [] (Nat.lt_succ_self n)
  have hrepr : (Nat.repr n).toList = d :: pre := by
    show Nat.toDigitsCore 10 (n + 1) n [] = _
    rw [heq, List.append_nil]
  rw [hrepr, List.length_cons]
  by_cases h0 : n = 0
  · rw [hz h0, List.length_nil]
    omega
  · by_contra hcon
    have hle : k ≤ pre.length := by omega
    have h1 : 10 ^ k ≤ 10 ^ pre.length := Nat.pow_le_pow_right (by decide) hle
    have h2 := hlen h0
    omega

/-- The decimal numeral of a natural number of at most 62 digits is a numeric literal for the
program, with that number as its value on the exact platform. -/
theorem exact_decimal (n : Nat) (hn : n < 10 ^ 62) :
    IsNumber exact (Nat.repr n).toList ⟨(n : Int), 1⟩ := by
  have hshort : fits_token_buffer (Nat.repr n).toList := by
    have := repr_length n 62 hn (by decide)
    unfold fits_token_buffer DEFAULT_TOKEN_BUFFER_SIZE
    omega
  obtain ⟨d, pre, heq, hall, hv, hd, hz, _⟩ :=
    toDigitsCore_spec (n + 1) n [] (Nat.lt_succ_self n)
  have hrepr : (Nat.repr n).toList = d :: pre := by
    show Nat.toDigitsCore 10 (n + 1) n [] = _
    rw [heq, List.append_nil]
  rw [hrepr] at hshort ⊢
  have hval : Fraction.digits_value 0 (d :: pre) = n := by rw [hv 0]; simp
  by_cases hn : n = 0
  · have hp := hz hn
    subst hp
    have hd0 : d = '0' := by
      subst hn
      have : Nat.toDigitsCore 10 1 0 [] = ['0'] := rfl
      rw [this] at heq
      exact (List.cons.inj heq).1.symm
    subst hd0
    subst hn
    exact exact_zero
  · rename_i hn'
    refine IsNumber.decimal exact d pre _ (hall d (List.mem_cons_self _ _)) (hd hn)
      (fun c hc => hall c (List.mem_cons_of_mem _ hc)) ?_ hshort
    show Fraction.strtod (d :: pre) = _
    rw [strtod_digits d pre hall, hval]

/-! ### Decimal literals with a fraction -/

theorem lex_number_loop_skip_digits (base : Int) (hbase : 10 ≤ base) (fb fd fe : Bool)
    (ds tail : List Char) (hds : ∀ c ∈ ds, isdigit c = true) :
    lex_number_loop base fb fd fe (ds ++ tail) = lex_number_loop base fb fd fe tail := by
  induction ds with
  | nil => rfl
  | cons d ds ih =>
    rw [List.cons_append,
      lex_number_loop_digit_step base hbase fb fd fe d _ (hds d (List.mem_cons_self _ _))]
    exact ih (fun c hc => hds c (List.mem_cons_of_mem _ hc))

theorem lex_number_loop_point (base : Int) (cs : List Char) :
    lex_number_loop base false false false ('.' :: cs) =
      lex_number_loop base false true false cs := by
  conv_lhs => unfold lex_number_loop
  simp [show toupper '.' = '.' from rfl]

/-- A decimal literal with a fraction and without a leading zero, of fewer than 63
characters, is a numeric literal for the program, with the value `strtod` gives it. -/
theorem IsNumber.fractional {V : Type} (P : Platform V) (d : Char) (ds fs : List Char) (v : V)
    (hd : isdigit d = true) (hd0 : d ≠ '0') (hds : ∀ c ∈ ds, isdigit c = true)
    (hfs : ∀ c ∈ fs, isdigit c = true)
    (hv : P.strtod (d :: ds ++ '.' :: fs) = (v, (d :: ds ++ '.' :: fs).length))
    (hshort : fits_token_buffer (d :: ds ++ '.' :: fs)) :
    IsNumber P (d :: ds ++ '.' :: fs) v := by
  refine ⟨?_, hshort, ?_⟩
  · intro table rest ch hr
    rw [List.cons_append, List.cons_append,
      eval_lex_number_branch table d (ds ++ '.' :: fs ++ rest) ch hd,
      lex_number_of_ne_zero d _ hd0,
      lex_number_loop_digit_step 10 (le_refl _) false false false d _ hd,
      List.append_assoc, lex_number_loop_skip_digits 10 (le_refl _) false false false ds _ hds,
      List.cons_append, lex_number_loop_point,
      lex_number_loop_digits 10 (le_refl _) false true false fs rest hfs hr]
    have := lex_finish_append ch TOKEN_NUMBER (d :: ds ++ '.' :: fs) rest .null
    simp only [List.cons_append, List.append_assoc] at this ⊢
    exact congrArg Except.ok this
  · unfold eval_double_value
    have : ¬ (d = '0' ∧ ((d :: (ds ++ '.' :: fs)).length : Int) > 1) := fun h => hd0 h.1
    simp only [List.cons_append, this, if_false] at hv ⊢
    simp only [hv]
    simp

theorem exact_two_and_a_half : IsNumber exact "2.5".toList ⟨5, 2⟩ :=
  IsNumber.fractional exact '2' [] ['5'] _ (by decide) (by decide) (by simp) (by decide) rfl
    (by decide)

theorem rounded_two_and_a_half : IsNumber rounded "2.5".toList ⟨5, 2⟩ :=
  IsNumber.fractional rounded '2' [] ['5'] _ (by decide) (by decide) (by simp) (by decide)
    rfl (by decide)

/-! ### The factorial -/

theorem exact_mul_integers (a b : Int) :
    exact.mul ⟨a, 1⟩ (exact.ofInt b) = ⟨a * b, 1⟩ := by
  show Fraction.normalize (a * b) (1 * 1) = _
  rw [Nat.mul_one, normalize_one]

theorem factorial_fold (m : Nat) :
    (List.range m).foldl (fun result i => exact.mul result (exact.ofInt ((i : Int) + 2)))
      (exact.ofInt 1) = ⟨((m + 1).factorial : Int), 1⟩ := by
  induction m with
  | zero => rfl
  | succ m ih =>
    rw [List.range_succ]
    simp only [List.bind_eq_flatMap, List.flatMap_append, List.foldl_append] at ih ⊢
    rw [ih]
    show exact.mul _ (exact.ofInt ((m : Int) + 2)) = _
    rw [exact_mul_integers, Nat.factorial_succ (m + 1)]
    congr 1
    push_cast
    ring

/-- The function `eval_factorial` on a finite operand whose integral part is an `int` other
than `INT_MIN`, `-INT_MAX` and `INT_MAX`: the product that its loop accumulates. -/
theorem eval_factorial_fold {V : Type} (P : Platform V) (x : V) (hfin : P.finite x = true)
    (hrange : (P.toInt x).natAbs < 2147483647) :
    eval_factorial P x =
      .ok ((List.range ((P.toInt x).natAbs - 1)).foldl
        (fun result i => P.mul result (P.ofInt ((i : Int) + 2))) (P.ofInt 1)) := by
  have h1 : INT_MIN ≤ P.toInt x ∧ P.toInt x ≤ INT_MAX := by
    unfold INT_MIN INT_MAX
    omega
  have h2 : ¬ (P.toInt x = INT_MIN ∨ ((P.toInt x).natAbs : Int) = INT_MAX) := by
    unfold INT_MIN INT_MAX
    omega
  unfold eval_factorial cast_integer
  rw [if_pos ⟨hfin, h1⟩]
  simp only [bind, Except.bind, if_neg h2]
  rfl

/-- The function `eval_factorial` on the exact platform: the factorial of the absolute value
of the operand truncated towards zero. -/
theorem eval_factorial_exact (x : Fraction) (hden : x.den ≠ 0)
    (hrange : (Int.tdiv x.num x.den).natAbs < 2147483647) :
    eval_factorial exact x =
      .ok ⟨(((Int.tdiv x.num x.den).natAbs).factorial : Int), 1⟩ := by
  rw [eval_factorial_fold exact x (decide_eq_true hden) hrange]
  have hk : (exact.toInt x).natAbs = (Int.tdiv x.num x.den).natAbs := rfl
  rw [hk]
  generalize (Int.tdiv x.num x.den).natAbs = k
  have h := factorial_fold (k - 1)
  cases k with
  | zero => exact congrArg Except.ok h
  | succ k => exact congrArg Except.ok h

theorem eval_factorial_exact_nat (n : Nat) (hn : n < 2147483647) :
    eval_factorial exact ⟨(n : Int), 1⟩ = .ok ⟨(n.factorial : Int), 1⟩ := by
  rw [eval_factorial_exact _ (show (1 : Nat) ≠ 0 by decide) (by simpa using hn)]
  simp

/-- The function `eval_factorial` on the rounding platform, for an operand whose integral
part lies between -22 and 22: the factorial of its absolute value, which the 64 binary digits
of a `long double` hold exactly. -/
theorem eval_factorial_rounded (x : Fraction) (hden : x.den ≠ 0)
    (hrange : (Int.tdiv x.num x.den).natAbs ≤ 22) :
    eval_factorial rounded x =
      .ok ⟨(((Int.tdiv x.num x.den).natAbs).factorial : Int), 1⟩ := by
  have hk : (rounded.toInt x).natAbs = (Int.tdiv x.num x.den).natAbs := rfl
  rw [eval_factorial_fold rounded x (decide_eq_true hden) (by rw [hk]; omega), hk]
  generalize (Int.tdiv x.num x.den).natAbs = k at hrange
  interval_cases k <;> rfl

/-- The factorials up to 22! are values of `double`. -/
theorem rounded_double_factorial (k : Nat) (hk : k ≤ 22) :
    rounded.double ⟨(k.factorial : Int), 1⟩ = ⟨(k.factorial : Int), 1⟩ := by
  interval_cases k <;> rfl

/-! ### Postfix operators -/

/-- The token loop on a unary left-associative operator after an operand: the operator goes
straight to the output and `last_token` stays. -/
theorem parse_loop_postfix {V : Type} {P : Platform V} {cb : Option (eval_callback V)}
    {s : Bool} (hs : P.signed_bitfields = s) {n : Nat} {sess : Session V}
    {out ops : List (eval_stack_entry V)} {lt : Nat}
    {ch ch' ln : Int} {pn : List Int} {fa : List (Option Int)} {nl : Int} {bs : Bool}
    {c : Char} {cs text rest : List Char} {op : operator_token}
    (hlex : eval_lex (sorted_operators s) (c :: cs) ch =
      .ok { token := TOKEN_OPERATOR, text := text, rest := rest, param := .operator op,
            character := ch' })
    (hlt1 : token_in lt (TOKEN_OPERATOR ||| TOKEN_EOF ||| TOKEN_LEFT_PARENT) = false)
    (hlt2 : token_in lt (TOKEN_NUMBER ||| TOKEN_NAME ||| TOKEN_VARIABLE ||| TOKEN_RIGHT_PARENT)
      = true)
    (hpost : op.unary ≠ 0 ∧ op.associativity = ASSOC_LEFT)
    (htext : fits_token_buffer text) (hout : out.length < 16) :
    parse_loop P cb (n + 1) sess ⟨out, ops, lt, ch, ln, pn, fa, nl, bs, 64⟩ (c :: cs) =
      parse_loop P cb n sess
        ⟨.operator op :: out, ops, lt, ch' + (text.length : Int), ln, pn, fa, nl, true, 64⟩
        rest := by
  simp only [parse_loop, bind, Except.bind, hs, hlex]
  have ht : parse_token P cb sess ⟨out, ops, lt, ch, ln, pn, fa, nl, bs, 64⟩
      { token := TOKEN_OPERATOR, text := text, rest := rest, param := .operator op,
        character := ch' } =
      .ok (.next sess ⟨.operator op :: out, ops, lt, ch' + (text.length : Int),
          ln, pn, fa, nl, true, 64⟩) := by
    rw [parse_token_short (show TOKEN_OPERATOR ≠ TOKEN_EOF by decide) htext]
    unfold parse_switch parse_operator
    simp only [hlt1, hlt2, if_pos hpost, bind, Except.bind, push_output_ok _ hout]
    rfl
  rw [ht]

/-- The sign `!` at the end of the input is the factorial operator. -/
theorem lex_factorial (s : Bool) (ch : Int) :
    eval_lex (sorted_operators s) ['!'] ch =
      .ok { token := TOKEN_OPERATOR, text := ['!'], rest := [],
            param := .operator (operator_init s "!" 1 OP_FACTORIAL 10 ASSOC_LEFT 1),
            character := ch } := by
  rw [← lex_finish_one]
  cases s <;> exact rfl

/-- A numeric literal followed by `!`: the postfix stream is the operand, then the factorial
operator, and the result is what `eval_factorial` returns for the operand. -/
theorem factorial_of_literal {V : Type} (P : Platform V) (sess : Session V) (a : List Char)
    (va r : V) (ha : IsNumber P a va) (hr : eval_factorial P va = .ok r) :
    parses_to P none sess (a ++ "!".toList)
        [.numeric va,
          .operator (operator_init P.signed_bitfields "!" 1 OP_FACTORIAL 10 ASSOC_LEFT 1)] ∧
      evaluate P sess (a ++ "!".toList) = succeeds P sess (P.double r) := by
  have hla := ha.length_pos
  unfold evaluate succeeds
  generalize hs : P.signed_bitfields = s
  have key : ∃ ch, parse_loop P none 2 (Session.fresh P sess) (parse_start V)
      (a ++ "!".toList) = .ok (some (1, Session.fresh P sess,
        ⟨[.operator (operator_init s "!" 1 OP_FACTORIAL 10 ASSOC_LEFT 1), .numeric va], [],
         TOKEN_NUMBER, ch, 1, List.replicate 64 0, List.replicate 64 none, 0, true, 64⟩)) := by
    refine ⟨?_, ?_⟩
    swap
    simp only [parse_start]
    show parse_loop P none 2 _ _ (a ++ ['!']) = _
    rw [parse_loop_number ha (by exact rfl) (by rfl) (by exact fits rfl),
      parse_loop_postfix hs (lex_factorial s _) (by rfl) (by rfl) (by cases s <;> decide)
        (by decide) (by exact fits rfl),
      parse_loop_nil]
    exact rfl
  obtain ⟨ch, key⟩ := key
  have hc : compute_loop P none (Session.fresh P sess) { value_stack := [], result := none }
      [.numeric va, .operator (operator_init s "!" 1 OP_FACTORIAL 10 ASSOC_LEFT 1)] =
      .ok (1, Session.fresh P sess, some r) := by
    have hop : ∀ t : Bool, (operator_init t "!" 1 OP_FACTORIAL 10 ASSOC_LEFT 1).unary ≠ 0 ∧
        (operator_init t "!" 1 OP_FACTORIAL 10 ASSOC_LEFT 1).type = OP_FACTORIAL := by
      intro t
      cases t <;> decide
    simp only [compute_loop, compute_entry, compute_operator, apply_operator, push_value, bind,
      Except.bind, pure, Except.pure, (hop s).1, (hop s).2, hr, ne_eq, not_false_eq_true,
      if_true, if_false]
    rfl
  exact run_of_loop
    [.numeric va, .operator (operator_init s "!" 1 OP_FACTORIAL 10 ASSOC_LEFT 1)]
    r (by simp) key rfl rfl rfl (by simp) hc

/-- A negated numeric literal in parentheses followed by `!`, on a platform with signed
bit-fields: the result is what `eval_factorial` returns for the negated operand. -/
theorem factorial_of_negated_literal {V : Type} (P : Platform V) (sess : Session V)
    (hs : P.signed_bitfields = true) (a : List Char) (va r : V) (ha : IsNumber P a va)
    (hr : eval_factorial P (P.neg va) = .ok r) :
    evaluate P sess ("(-".toList ++ a ++ ")!".toList) = succeeds P sess (P.double r) := by
  have hla := ha.length_pos
  unfold evaluate succeeds
  have key : ∃ ch, parse_loop P none 5 (Session.fresh P sess) (parse_start V)
      ("(-".toList ++ a ++ ")!".toList) = .ok (some (1, Session.fresh P sess,
        ⟨[.operator (operator_init true "!" 1 OP_FACTORIAL 10 ASSOC_LEFT 1),
           .operator (unary_minus true), .numeric va], [],
         TOKEN_RIGHT_PARENT, ch, 1, ((List.replicate 64 (0 : Int)).set 0 1).set 0 0,
         (List.replicate 64 none).set 0 none, 0, true, 64⟩)) := by
    refine ⟨?_, ?_⟩
    swap
    simp only [List.append_assoc, parse_start]
    show parse_loop P none 5 _ _ ('(' :: '-' :: (a ++ [')', '!'])) = _
    rw [parse_loop_left_parent hs 0 (by rfl) (by rfl) (by exact rfl) (by exact fits rfl),
      parse_loop_unary_minus hs [] [.operator (left_parenthesis true)]
        (lex_minus true _ _) (by rfl) (by rfl) (by exact rfl) (by decide) (by exact fits rfl),
      parse_loop_number ha (by exact rfl) (by rfl) (by exact fits rfl),
      parse_loop_right_parent hs
        [.operator (unary_minus true), .numeric va] []
        ((List.replicate 64 none).set 0 none) 1 none
        (by rfl) (by rfl) (by exact rfl) (by exact rfl) (by exact rfl) (by exact rfl),
      parse_loop_postfix hs (lex_factorial true _) (by rfl) (by rfl) (by decide)
        (by decide) (by exact fits rfl),
      parse_loop_nil]
    exact rfl
  obtain ⟨ch, key⟩ := key
  have hc : compute_loop P none (Session.fresh P sess) { value_stack := [], result := none }
      [.numeric va, .operator (unary_minus true),
        .operator (operator_init true "!" 1 OP_FACTORIAL 10 ASSOC_LEFT 1)] =
      .ok (1, Session.fresh P sess, some r) := by
    have e : compute_loop P none (Session.fresh P sess)
        { value_stack := [], result := none }
        [.numeric va, .operator (unary_minus true),
          .operator (operator_init true "!" 1 OP_FACTORIAL 10 ASSOC_LEFT 1)] =
        compute_loop P none (Session.fresh P sess)
          { value_stack := [P.neg va], result := some (P.neg va) }
          [.operator (operator_init true "!" 1 OP_FACTORIAL 10 ASSOC_LEFT 1)] := rfl
    rw [e]
    have hop : (operator_init true "!" 1 OP_FACTORIAL 10 ASSOC_LEFT 1).unary ≠ 0 ∧
        (operator_init true "!" 1 OP_FACTORIAL 10 ASSOC_LEFT 1).type = OP_FACTORIAL := by
      decide
    simp only [compute_loop, compute_entry, compute_operator, apply_operator, push_value, bind,
      Except.bind, pure, Except.pure, hop.1, hop.2, hr, ne_eq, not_false_eq_true,
      if_true, if_false]
    rfl
  exact (run_of_loop
    [.numeric va, .operator (unary_minus true),
      .operator (operator_init true "!" 1 OP_FACTORIAL 10 ASSOC_LEFT 1)]
    r (by simp) key rfl rfl rfl (by simp) hc).2

/-! ### Calls with two arguments separated by a comma and a blank -/

/-- The evaluator on a call entry with two arguments on the value stack. -/
theorem compute_loop_call_two {V : Type} (P : Platform V) (cb : Option (eval_callback V))
    (sess : Session V) (f : List Char) (d : evaluator_function_definition V) (x y : V)
    (r : Option V)
    (hd : eval_find_primitive (fun d => d.name) sess.eval_function_definitions f = some d)
    (hmin : d.min_args ≤ 2) (hmax : 2 ≤ d.max_args) :
    compute_loop P cb sess { value_stack := [y, x], result := r }
        [.function_call f (some 2)] =
      (d.func sess.evaluator_use_degrees 2 [x, y]).map
        (fun result => (1, sess, some result)) := by
  have h1 : ¬ ((([y, x] : List V).length : Int) < 2) := by simp
  have h2 : (2 : Int) ≥ d.min_args ∧ (2 : Int) ≤ d.max_args := ⟨hmin, hmax⟩
  have h3 : (([y, x] : List V).take (2 : Int).toNat).reverse = [x, y] := rfl
  simp only [compute_loop, compute_entry, compute_function_call, hd, bind, Except.bind,
    if_neg h1, if_pos h2, pure, Except.pure, h3]
  cases d.func sess.evaluator_use_degrees 2 [x, y] with
  | error f => rfl
  | ok result => simp [Except.map]

/-- The call `f(a, b)` of a function that the lookup finds, on two numeric literals, where
the function returns `result`. -/
theorem spaced_call_two {V : Type} (P : Platform V) (sess : Session V) (f a b : List Char)
    (va vb result : V) (d : evaluator_function_definition V) (hf : identifier f = true)
    (ha : IsNumber P a va) (hb : IsNumber P b vb)
    (hd : eval_find_primitive (fun d => d.name)
      (Session.fresh P sess).eval_function_definitions f = some d)
    (hmin : d.min_args ≤ 2) (hmax : 2 ≤ d.max_args)
    (hres : d.func (Session.fresh P sess).evaluator_use_degrees 2 [va, vb] = .ok result) :
    evaluate P sess (f ++ "(".toList ++ a ++ ", ".toList ++ b ++ ")".toList) =
      succeeds P sess (P.double result) := by
  have hla := ha.length_pos
  have hlb := hb.length_pos
  unfold evaluate succeeds
  have key : ∃ ch, parse_loop P none 6 (Session.fresh P sess) (parse_start V)
      (f ++ "(".toList ++ a ++ ", ".toList ++ b ++ ")".toList) =
      .ok (some (1, Session.fresh P sess,
        ⟨[.function_call f (some 2), .numeric vb, .numeric va], [], TOKEN_RIGHT_PARENT, ch, 1,
         ((List.replicate 64 (0 : Int)).set 1 1).set 1 0,
         (((List.replicate 64 none).set 1 (some 0)).set 1 (some 1)).set 1 (some 2),
         0, true, 64⟩)) := by
    obtain ⟨c, cs, rfl⟩ : ∃ c cs, f = c :: cs := by
      cases f with
      | nil => cases hf
      | cons c cs => exact ⟨c, cs, rfl⟩
    refine ⟨?_, ?_⟩
    swap
    simp only [List.append_assoc, parse_start]
    show parse_loop P none 6 _ _ (c :: cs ++ '(' :: (a ++ ',' :: ' ' :: (b ++ [')']))) = _
    rw [List.cons_append,
      parse_loop_name
        (by
          rw [← List.cons_append]
          exact lex_name _ (c :: cs) '(' _ _ hf (by decide))
        (by rfl) (identifier_fits _ hf) (by exact fits rfl),
      parse_loop_call_open (by exact fits rfl),
      parse_loop_number ha (by exact rfl) (by rfl) (by exact fits rfl),
      parse_loop_comma [.numeric va] [.function_call (c :: cs) none]
        (((List.replicate 64 none).set 1 (some 0)).set 1 (some 1))
        (by rfl) (by exact rfl) (by exact rfl),
      parse_loop_space,
      parse_loop_number hb (by exact rfl) (by rfl) (by exact fits rfl),
      parse_loop_right_parent rfl
        [.function_call (c :: cs) (some 2), .numeric vb, .numeric va] []
        ((((List.replicate 64 none).set 1 (some 0)).set 1 (some 1)).set 1 (some 2)) 1 (some 2)
        (by rfl) (by rfl) (by exact rfl) (by exact rfl) (by exact rfl) (by exact rfl),
      parse_loop_nil]
    exact rfl
  obtain ⟨ch, key⟩ := key
  have hc := compute_loop_call_two P none _ f d va vb (some vb) hd hmin hmax
  rw [hres] at hc
  exact (run_of_loop
    [.numeric va, .numeric vb, .function_call f (some 2)]
    result (by simp; omega) key rfl rfl rfl (by simp) hc).2

/-- The call `f(-a, b)` of a function that the lookup finds, on two numeric literals, on a
platform with signed bit-fields, where the function returns `result`. -/
theorem spaced_call_two_negated {V : Type} (P : Platform V) (sess : Session V)
    (hs : P.signed_bitfields = true) (f a b : List Char)
    (va vb result : V) (d : evaluator_function_definition V) (hf : identifier f = true)
    (ha : IsNumber P a va) (hb : IsNumber P b vb)
    (hd : eval_find_primitive (fun d => d.name)
      (Session.fresh P sess).eval_function_definitions f = some d)
    (hmin : d.min_args ≤ 2) (hmax : 2 ≤ d.max_args)
    (hres : d.func (Session.fresh P sess).evaluator_use_degrees 2 [P.neg va, vb] =
      .ok result) :
    evaluate P sess (f ++ "(-".toList ++ a ++ ", ".toList ++ b ++ ")".toList) =
      succeeds P sess (P.double result) := by
  have hla := ha.length_pos
  have hlb := hb.length_pos
  unfold evaluate succeeds
  have key : ∃ ch, parse_loop P none 7 (Session.fresh P sess) (parse_start V)
      (f ++ "(-".toList ++ a ++ ", ".toList ++ b ++ ")".toList) =
      .ok (some (1, Session.fresh P sess,
        ⟨[.function_call f (some 2), .numeric vb, .operator (unary_minus true), .numeric va],
         [], TOKEN_RIGHT_PARENT, ch, 1,
         ((List.replicate 64 (0 : Int)).set 1 1).set 1 0,
         (((List.replicate 64 none).set 1 (some 0)).set 1 (some 1)).set 1 (some 2),
         0, true, 64⟩)) := by
    obtain ⟨c, cs, rfl⟩ : ∃ c cs, f = c :: cs := by
      cases f with
      | nil => cases hf
      | cons c cs => exact ⟨c, cs, rfl⟩
    refine ⟨?_, ?_⟩
    swap
    simp only [List.append_assoc, parse_start]
    show parse_loop P none 7 _ _
      (c :: cs ++ '(' :: '-' :: (a ++ ',' :: ' ' :: (b ++ [')']))) = _
    rw [List.cons_append,
      parse_loop_name
        (by
          rw [← List.cons_append]
          exact lex_name _ (c :: cs) '(' _ _ hf (by decide))
        (by rfl) (identifier_fits _ hf) (by exact fits rfl),
      parse_loop_call_open (by exact fits rfl),
      parse_loop_unary_minus hs [] [.function_call (c :: cs) none]
        (lex_minus true _ _) (by rfl) (by rfl) (by exact rfl) (by decide) (by exact fits rfl),
      parse_loop_number ha (by exact rfl) (by rfl) (by exact fits rfl),
      parse_loop_comma [.operator (unary_minus true), .numeric va]
        [.function_call (c :: cs) none]
        (((List.replicate 64 none).set 1 (some 0)).set 1 (some 1))
        (by rfl) (by exact rfl) (by exact rfl),
      parse_loop_space,
      parse_loop_number hb (by exact rfl) (by rfl) (by exact fits rfl),
      parse_loop_right_parent hs
        [.function_call (c :: cs) (some 2), .numeric vb, .operator (unary_minus true),
          .numeric va] []
        ((((List.replicate 64 none).set 1 (some 0)).set 1 (some 1)).set 1 (some 2)) 1 (some 2)
        (by rfl) (by rfl) (by exact rfl) (by exact rfl) (by exact rfl) (by exact rfl),
      parse_loop_nil]
    exact rfl
  obtain ⟨ch, key⟩ := key
  have e : compute_loop P none (Session.fresh P sess) { value_stack := [], result := none }
      [.numeric va, .operator (unary_minus true), .numeric vb, .function_call f (some 2)] =
      compute_loop P none (Session.fresh P sess)
        { value_stack := [vb, P.neg va], result := some vb }
        [.function_call f (some 2)] := rfl
  have hc := e.trans (compute_loop_call_two P none _ f d (P.neg va) vb _ hd hmin hmax)
  rw [hres] at hc
  exact (run_of_loop
    [.numeric va, .operator (unary_minus true), .numeric vb, .function_call f (some 2)]
    result (by simp; omega) key rfl rfl rfl (by simp) hc).2

/-! ### Integers of the exact platform -/

theorem exact_add_integers (a b : Int) : exact.add ⟨a, 1⟩ ⟨b, 1⟩ = ⟨a + b, 1⟩ := by
  show Fraction.normalize (a * ((1 : Nat) : Int) + b * ((1 : Nat) : Int)) (1 * 1) = _
  simp [normalize_one]

theorem exact_sub_integers (a b : Int) : exact.sub ⟨a, 1⟩ ⟨b, 1⟩ = ⟨a - b, 1⟩ := by
  show exact.add ⟨a, 1⟩ ⟨-b, 1⟩ = _
  rw [exact_add_integers]
  rfl

/-! ### Small numerals of the rounding platform -/

/-- The decimal numerals of the natural numbers up to 22 are numeric literals for the
program, with these numbers as their values on the rounding platform. -/
theorem rounded_decimal (n : Nat) (hn : n ≤ 22) :
    IsNumber rounded (Nat.repr n).toList ⟨(n : Int), 1⟩ := by
  interval_cases n
  · exact IsNumber.zero rounded _ rfl
  all_goals
    exact IsNumber.decimal rounded _ _ _ (by decide) (by decide) (by decide) rfl (by decide)

/-! ## Variables, literals and errors -/

/-- C12, at the failing input: on every platform the hexadecimal literal `0xD` is rejected
with `E_EVAL_UNEXPECTED_CHARACTER`, and so is `0xB`, the digit being taken for a second base
specifier by the number loop of `eval_lex`; with exact arithmetic `0xFF & 0x0F` evaluates to
15 and `0xE` to 14. -/
theorem hexadecimal_digits_b_and_d_rejected :
    (∀ (V : Type) (P : Platform V) (sess : Session V),
      evaluate P sess "0xD".toList =
          .ok (some ⟨0, P.double (P.ofInt 0),
            eval_error (Session.fresh P sess) E_EVAL_UNEXPECTED_CHARACTER 1 1⟩) ∧
        evaluate P sess "0xB".toList =
          .ok (some ⟨0, P.double (P.ofInt 0),
            eval_error (Session.fresh P sess) E_EVAL_UNEXPECTED_CHARACTER 1 1⟩)) ∧
      evaluate exact (Session.start exact) "0xFF & 0x0F".toList =
        succeeds exact (Session.start exact) ⟨15, 1⟩ ∧
      evaluate exact (Session.start exact) "0xE".toList =
        succeeds exact (Session.start exact) ⟨14, 1⟩ := by
  refine ⟨?_, rfl, rfl⟩
  intro V P sess
  constructor
  · exact evaluate_of_failed_loop 1 (by decide)
      (parse_loop_error_token ⟨TOKEN_ERROR, ['0', 'x'], ['D'], .null, 1⟩ rfl rfl rfl
        (by decide))
  · exact evaluate_of_failed_loop 1 (by decide)
      (parse_loop_error_token ⟨TOKEN_ERROR, ['0', 'x'], ['B'], .null, 1⟩ rfl rfl rfl
        (by decide))

/-- C13, at the failing input: the leading-zero literal `017` evaluates to 7, not 15, and
`010` to 0, not 8: `eval_double_value` steps over the first digit after the leading zero as
it steps over a base letter, so that on every platform the value of `017` is built from the
digit 7 alone. -/
theorem leading_zero_octal_drops_first_digit :
    evaluate exact (Session.start exact) "017".toList =
        succeeds exact (Session.start exact) ⟨7, 1⟩ ∧
      evaluate exact (Session.start exact) "010".toList =
        succeeds exact (Session.start exact) ⟨0, 1⟩ ∧
      (∀ (V : Type) (P : Platform V),
        eval_double_value P "017".toList 3 =
          some (P.dadd (P.dmul (P.ofInt 0) (P.ofInt 8)) (P.ofInt 7))) :=
  ⟨rfl, rfl, fun _ _ => rfl⟩

/-- C14, at the failing inputs: on every platform `0.5` is lexed as a number and then
rejected by `eval_double_value` with `E_EVAL_INVALID_NUMBER`, and `1.5e3` is rejected by the
number loop of `eval_lex` with `E_EVAL_UNEXPECTED_CHARACTER`; with exact arithmetic `1.5` and
`1e3` evaluate to 3/2 and 1000. -/
theorem float_literals_rejected :
    (∀ (V : Type) (P : Platform V) (sess : Session V),
      evaluate P sess "0.5".toList =
          .ok (some ⟨0, P.double (P.ofInt 0),
            eval_error (Session.fresh P sess) E_EVAL_INVALID_NUMBER 1 2⟩) ∧
        evaluate P sess "1.5e3".toList =
          .ok (some ⟨0, P.double (P.ofInt 0),
            eval_error (Session.fresh P sess) E_EVAL_UNEXPECTED_CHARACTER 1 2⟩)) ∧
      evaluate exact (Session.start exact) "1.5".toList =
        succeeds exact (Session.start exact) ⟨3, 2⟩ ∧
      evaluate exact (Session.start exact) "1e3".toList =
        succeeds exact (Session.start exact) ⟨1000, 1⟩ := by
  refine ⟨?_, rfl, rfl⟩
  intro V P sess
  constructor
  · exact evaluate_of_failed_loop 1 (by decide)
      (parse_loop_invalid_number ⟨TOKEN_NUMBER, ['0', '.', '5'], [], .null, 2⟩
        rfl rfl (show token_in TOKEN_EOF _ = true from rfl) rfl rfl (by decide) rfl)
  · exact evaluate_of_failed_loop 1 (by decide)
      (parse_loop_error_token ⟨TOKEN_ERROR, ['1', '.', '5'], ['e', '3'], .null, 2⟩
        rfl rfl rfl (by decide))

/-- C15, at the failing input: `1 + ` is not rejected by the parser, which hands the postfix
stream `1 +` to the evaluator; the evaluator finds one value where `+` needs two and raises
`E_EVAL_STACK_EMPTY`, the code of an internal error, without a position, where the syntax
error `E_EVAL_UNEXPECTED_TOKEN` is expected; `1 +` without the blank does the same. -/
theorem missing_right_operand_reaches_evaluator :
    parses_to exact none (Session.start exact) "1 + ".toList
        [.numeric ⟨1, 1⟩, .operator (operator_init true "+" 1 OP_PLUS 5 ASSOC_LEFT 0)] ∧
      evaluate exact (Session.start exact) "1 + ".toList =
        .ok (some ⟨0, ⟨0, 1⟩,
          eval_error (Session.fresh exact (Session.start exact)) E_EVAL_STACK_EMPTY
            (-1) (-1)⟩) ∧
      evaluate exact (Session.start exact) "1 +".toList =
        .ok (some ⟨0, ⟨0, 1⟩,
          eval_error (Session.fresh exact (Session.start exact)) E_EVAL_STACK_EMPTY
            (-1) (-1)⟩) ∧
      E_EVAL_STACK_EMPTY ≠ E_EVAL_UNEXPECTED_TOKEN :=
  ⟨⟨_, _, rfl, rfl, rfl, rfl⟩, rfl, rfl, by decide⟩

/-- C18: after the registrations of `main.c`, `TESTC1` evaluates to 100, `TESTC2` to 200,
`by2(4)` to 8 and `PI` still resolves; but a constant registered under the lower-case name `a`
is in the registry, after every built-in name in the byte order of `strcmp`, and the binary
search of `eval_find_primitive`, which compares with `strcasecompare`, does not find it:
the expression `a` fails with `E_EVAL_UNDEFINED_CONSTANT`. -/
theorem registered_lower_case_constant_not_found :
    evaluate exact (main_session exact) "TESTC1".toList =
      succeeds exact (main_session exact) ⟨100, 1⟩ ∧
    evaluate exact (main_session exact) "TESTC2".toList =
      succeeds exact (main_session exact) ⟨200, 1⟩ ∧
    evaluate exact (main_session exact) "by2(4)".toList =
      succeeds exact (main_session exact) ⟨8, 1⟩ ∧
    evaluate exact (main_session exact) "PI".toList =
      succeeds exact (main_session exact) (exact.constant "3.14159265358979323846") ∧
    (Session.fresh exact (evaluator_register_constants (main_session exact)
        [⟨"a".toList, ⟨1, 1⟩⟩])).eval_constant_definitions.map (fun d => d.name) =
      ["DBLMAX", "DBLMIN", "E", "E_PI", "INTMAX", "INTMIN", "LN10", "LN2", "LOG10E", "LOG2E",
        "ONE_PI", "ONE_SQRT2", "PHI", "PI", "PI_2", "PI_4", "PI_E", "SQRT2", "TESTC1",
        "TESTC2", "TWO_PI", "TWO_SQRTPI", "UINTMAX", "a"].map String.toList ∧
    eval_find_primitive (fun d => d.name)
      (Session.fresh exact (evaluator_register_constants (main_session exact)
        [⟨"a".toList, ⟨1, 1⟩⟩])).eval_constant_definitions "a".toList = none ∧
    evaluate exact
        (evaluator_register_constants (main_session exact) [⟨"a".toList, ⟨1, 1⟩⟩])
        "a".toList =
      .ok (some ⟨0, ⟨0, 1⟩,
        eval_error
          (Session.fresh exact
            (evaluator_register_constants (main_session exact) [⟨"a".toList, ⟨1, 1⟩⟩]))
          E_EVAL_UNDEFINED_CONSTANT (-1) (-1)⟩) :=
  ⟨rfl, rfl, rfl, rfl, by decide, rfl, rfl⟩

set_option maxRecDepth 100000 in
/-- Counterexample to C19: `23!` does not evaluate to the product `1 * 2 * ... * 23`.  On
the platform that rounds as x86-64 does, the product is still exact in the `long double` that
`eval_factorial` accumulates, and the conversion of the result to `double`, whose significand
has 53 binary digits, rounds it to 25852016738884978212864. -/
theorem postfix_factorial_counterexample :
    evaluate rounded (Session.start rounded) "23!".toList =
        succeeds rounded (Session.start rounded) ⟨25852016738884978212864, 1⟩ ∧
      eval_factorial rounded ⟨23, 1⟩ = .ok ⟨25852016738884976640000, 1⟩ ∧
      ∏ i in Finset.range 23, ((i : Int) + 1) = 25852016738884976640000 ∧
      (25852016738884978212864 : Int) ≠ 25852016738884976640000 :=
  ⟨rfl, rfl, rfl, by decide⟩

/-- C19, as amended: postfix factorial.  On every platform, for every numeric literal `a` of
fewer than 63 characters for whose value `eval_factorial` returns `r`, the input `a!` parses
to the operand followed by the factorial operator and evaluates to `r`, handed over as a
`double`.  On the platform that rounds as x86-64 does, for every natural number `n` up to 22
the decimal numeral of `n` followed by `!` evaluates to `n!`, the product `1 * 2 * ... * n`
(so `0!` is 1), `(-n)!` evaluates to `n!` as well, and for every literal of finite value `x`,
fractional or not, whose integral part lies between -22 and 22, the result is the factorial
of the absolute value of `x` truncated towards zero.  From `23!` on the result is the product
as rounded. -/
theorem postfix_factorial {V : Type} (P : Platform V) (sess : Session V) (a : List Char)
    (va r : V) (ha : IsNumber P a va) (hr : eval_factorial P va = .ok r)
    (rsess : Session Fraction) (n : Nat) (hn : n ≤ 22) (b : List Char) (x : Fraction)
    (hb : IsNumber rounded b x) (hx : x.den ≠ 0)
    (hrange : (Int.tdiv x.num x.den).natAbs ≤ 22) :
    parses_to P none sess (a ++ "!".toList)
        [.numeric va,
          .operator (operator_init P.signed_bitfields "!" 1 OP_FACTORIAL 10 ASSOC_LEFT 1)] ∧
    evaluate P sess (a ++ "!".toList) = succeeds P sess (P.double r) ∧
    evaluate rounded rsess ((Nat.repr n).toList ++ "!".toList) =
      succeeds rounded rsess ⟨(n.factorial : Int), 1⟩ ∧
    n.factorial = ∏ i in Finset.range n, (i + 1) ∧
    evaluate rounded rsess ("(-".toList ++ (Nat.repr n).toList ++ ")!".toList) =
      succeeds rounded rsess ⟨(n.factorial : Int), 1⟩ ∧
    evaluate rounded rsess (b ++ "!".toList) =
      succeeds rounded rsess ⟨(((Int.tdiv x.num x.den).natAbs).factorial : Int), 1⟩ := by
  have hnum := rounded_decimal n hn
  have hfact : eval_factorial rounded ⟨(n : Int), 1⟩ = .ok ⟨(n.factorial : Int), 1⟩ := by
    have h := eval_factorial_rounded ⟨(n : Int), 1⟩ (show (1 : Nat) ≠ 0 by decide)
      (by simpa using hn)
    simpa using h
  have hneg : eval_factorial rounded (rounded.neg ⟨(n : Int), 1⟩) =
      .ok ⟨(n.factorial : Int), 1⟩ := by
    have h := eval_factorial_rounded (rounded.neg ⟨(n : Int), 1⟩)
      (show (1 : Nat) ≠ 0 by decide)
      (by
        show (Int.tdiv (-(n : Int)) ((1 : Nat) : Int)).natAbs ≤ 22
        simpa using hn)
    have e : (Int.tdiv (rounded.neg ⟨(n : Int), 1⟩).num
        ((rounded.neg ⟨(n : Int), 1⟩).den : Int)).natAbs = n := by
      show (Int.tdiv (-(n : Int)) ((1 : Nat) : Int)).natAbs = n
      simp
    rw [e] at h
    exact h
  refine ⟨(factorial_of_literal P sess a va r ha hr).1,
    (factorial_of_literal P sess a va r ha hr).2, ?_,
    (Finset.prod_range_add_one_eq_factorial n).symm, ?_, ?_⟩
  · rw [(factorial_of_literal rounded rsess _ _ _ hnum hfact).2,
      rounded_double_factorial n hn]
  · rw [factorial_of_negated_literal rounded rsess rfl _ _ _ hnum hneg,
      rounded_double_factorial n hn]
  · rw [(factorial_of_literal rounded rsess b x _ hb
        (eval_factorial_rounded x hx hrange)).2,
      rounded_double_factorial _ hrange]

/-- Witness of C19 as amended: `5!` is 120, `0!` is 1, `(-5)!` is 120 and `2.5!` is 2. -/
theorem postfix_factorial_witness :
    IsNumber rounded ['5'] ⟨5, 1⟩ ∧ eval_factorial rounded ⟨5, 1⟩ = .ok ⟨120, 1⟩ ∧
    (5 : Nat) ≤ 22 ∧ IsNumber rounded "2.5".toList ⟨5, 2⟩ ∧ (2 : Nat) ≠ 0 ∧
    (Int.tdiv 5 2).natAbs ≤ 22 ∧
    evaluate rounded (Session.start rounded) "5!".toList =
      succeeds rounded (Session.start rounded) ⟨120, 1⟩ ∧
    evaluate rounded (Session.start rounded) "0!".toList =
      succeeds rounded (Session.start rounded) ⟨1, 1⟩ ∧
    evaluate rounded (Session.start rounded) "(-5)!".toList =
      succeeds rounded (Session.start rounded) ⟨120, 1⟩ ∧
    evaluate rounded (Session.start rounded) "2.5!".toList =
      succeeds rounded (Session.start rounded) ⟨2, 1⟩ :=
  ⟨rounded_decimal 5 (by decide), rfl, by decide, rounded_two_and_a_half, by decide,
    by decide,
    (postfix_factorial rounded (Session.start rounded) ['5'] ⟨5, 1⟩ ⟨120, 1⟩
      (rounded_decimal 5 (by decide)) rfl (Session.start rounded) 5 (by decide)
      "2.5".toList ⟨5, 2⟩ rounded_two_and_a_half (by decide) (by decide)).2.2.1,
    rfl,
    (postfix_factorial rounded (Session.start rounded) ['5'] ⟨5, 1⟩ ⟨120, 1⟩
      (rounded_decimal 5 (by decide)) rfl (Session.start rounded) 5 (by decide)
      "2.5".toList ⟨5, 2⟩ rounded_two_and_a_half (by decide) (by decide)).2.2.2.2.1,
    (postfix_factorial rounded (Session.start rounded) ['5'] ⟨5, 1⟩ ⟨120, 1⟩
      (rounded_decimal 5 (by decide)) rfl (Session.start rounded) 5 (by decide)
      "2.5".toList ⟨5, 2⟩ rounded_two_and_a_half (by decide) (by decide)).2.2.2.2.2⟩

/-- C20, at the failing input: with low = -5 and high = -2 the input `sigma(-5, -2)` does not
evaluate to the sum -14 of the integers from -5 to -2.  The minus sign of `-5`, after the
opening parenthesis, is taken as unary; the minus sign of `-2`, after the comma, is not, and
the evaluation returns status 0 with `E_EVAL_UNEXPECTED_OPERATOR` at that sign.  With the
upper bound written without a sign, `sigma(-5, 2)` and `sigma(1, 10)` give the sums -12 and
55. -/
theorem sigma_negative_upper_bound_rejected :
    (-5 : Int) ≤ -2 ∧ ∑ i in Finset.Icc (-5 : Int) (-2), i = -14 ∧
    evaluate exact (Session.start exact) "sigma(-5, -2)".toList =
      .ok (some ⟨0, ⟨0, 1⟩,
        eval_error (Session.fresh exact (Session.start exact))
          E_EVAL_UNEXPECTED_OPERATOR 1 13⟩) ∧
    evaluate exact (Session.start exact) "sigma(-5, 2)".toList =
      succeeds exact (Session.start exact) ⟨-12, 1⟩ ∧
    evaluate exact (Session.start exact) "sigma(1, 10)".toList =
      succeeds exact (Session.start exact) ⟨55, 1⟩ :=
  ⟨by decide, by decide, rfl, rfl, rfl⟩

/-! ### Combinations -/

theorem normalize_multiple (a d : Nat) (hd : 0 < d) :
    Fraction.normalize ((a * d : Nat) : Int) d = ⟨(a : Int), 1⟩ := by
  unfold Fraction.normalize
  have hg : Nat.gcd ((a * d : Nat) : Int).natAbs d = d := by
    rw [Int.natAbs_ofNat]
    exact Nat.gcd_mul_left_left a d
  simp only [hg]
  congr 1
  · push_cast
    exact Int.mul_ediv_cancel a (by exact_mod_cast hd.ne')
  · exact Nat.div_self hd

theorem exact_div_naturals (a d : Nat) (hd : 0 < d) :
    exact.div ⟨((a * d : Nat) : Int), 1⟩ ⟨(d : Int), 1⟩ = ⟨(a : Int), 1⟩ := by
  show Fraction.normalize (((a * d : Nat) : Int) * Int.sign (d : Int) * ((1 : Nat) : Int))
    (1 * (d : Int).natAbs) = _
  have hs : Int.sign (d : Int) = 1 := Int.sign_eq_one_of_pos (by exact_mod_cast hd)
  rw [hs, Int.natAbs_ofNat, Nat.one_mul, Nat.cast_one, mul_one, mul_one]
  exact normalize_multiple a d hd

/-- The function `comb` of the program on two natural numbers of the exact platform, below
`INT_MAX`: the first argument is `n`, the second `p`. -/
theorem comb_exact (deg argc : Int) (n p : Nat) (hp : p ≤ n) (hn : n < 2147483647) :
    eval_primitive_comb exact deg argc [⟨(n : Int), 1⟩, ⟨(p : Int), 1⟩] =
      .ok ⟨(Nat.choose n p : Int), 1⟩ := by
  have h1 : (Int.tdiv ((p : Int) - (n : Int)) ((1 : Nat) : Int)).natAbs = n - p := by
    simp only [Nat.cast_one, Int.tdiv_one]
    omega
  have e1 := eval_factorial_exact_nat n hn
  have e2 := eval_factorial_exact_nat p (by omega)
  have e3 := eval_factorial_exact ⟨(p : Int) - (n : Int), 1⟩ (show (1 : Nat) ≠ 0 by decide)
    (by
      show (Int.tdiv ((p : Int) - (n : Int)) ((1 : Nat) : Int)).natAbs < 2147483647
      rw [h1]
      omega)
  have e4 : (Int.tdiv (⟨(p : Int) - (n : Int), 1⟩ : Fraction).num
      ((⟨(p : Int) - (n : Int), 1⟩ : Fraction).den : Int)).natAbs = n - p := h1
  rw [e4] at e3
  have h0 : arg exact [⟨(n : Int), 1⟩, ⟨(p : Int), 1⟩] 0 = ⟨(n : Int), 1⟩ := rfl
  have h1' : arg exact [⟨(n : Int), 1⟩, ⟨(p : Int), 1⟩] 1 = ⟨(p : Int), 1⟩ := rfl
  unfold eval_primitive_comb
  simp only [h0, h1', e1, e2, bind, Except.bind, pure, Except.pure]
  rw [exact_sub_integers, e3]
  simp only
  congr 1
  have h2 : (⟨((p.factorial : Nat) : Int), 1⟩ : Fraction) = exact.ofInt (p.factorial : Int) :=
    rfl
  rw [h2, exact_mul_integers]
  have h3 : (n.factorial : Int) =
      ((Nat.choose n p * ((n - p).factorial * p.factorial) : Nat) : Int) := by
    have := Nat.choose_mul_factorial_mul_factorial hp
    rw [← this]
    push_cast
    ring
  have h4 : ((n - p).factorial : Int) * (p.factorial : Int) =
      (((n - p).factorial * p.factorial : Nat) : Int) := by push_cast; rfl
  rw [h3, h4]
  exact exact_div_naturals _ _ (Nat.mul_pos (Nat.factorial_pos _) (Nat.factorial_pos _))

/-! ### The registry depends on the names only -/

theorem eval_find_primitive_loop_map {α β : Type} (g : α → β) (name : β → List Char)
    (l : List α) (value : List Char) :
    ∀ (fuel : Nat) (low high : Int),
      eval_find_primitive_loop name (l.map g) value fuel low high =
        (eval_find_primitive_loop (fun a => name (g a)) l value fuel low high).map g := by
  intro fuel
  induction fuel with
  | zero => intro low high; rfl
  | succ fuel ih =>
    intro low high
    unfold eval_find_primitive_loop
    by_cases h : low ≤ high
    · simp only [if_pos h, List.get?_eq_getElem?, List.getElem?_map]
      cases l[(low + (high - low) / 2).toNat]? with
      | none => rfl
      | some p =>
        simp only [Option.map_some']
        by_cases h1 : strcasecompare (name (g p)) value < 0
        · simp only [if_pos h1]
          exact ih _ _
        · by_cases h2 : strcasecompare (name (g p)) value > 0
          · simp only [if_neg h1, if_pos h2]
            exact ih _ _
          · simp only [if_neg h1, if_neg h2, Option.map_some']
    · simp only [if_neg h, Option.map_none']

/-- Looking a name up in the image of a list goes through the names of the images. -/
theorem eval_find_primitive_map {α β : Type} (g : α → β) (name : β → List Char)
    (l : List α) (value : List Char) :
    eval_find_primitive name (l.map g) value =
      (eval_find_primitive (fun a => name (g a)) l value).map g := by
  unfold eval_find_primitive
  rw [List.length_map]
  exact eval_find_primitive_loop_map g name l value _ _ _

/-- Registering the images of definitions sorts them as their names sort. -/
theorem eval_register_map {α β : Type} (g : α → β) (name : β → List Char)
    (l0 l : List α) :
    eval_register name (l0.map g) (l.map g) =
      (eval_register (fun a => name (g a)) l0 l).map g := by
  unfold eval_register
  rw [← List.map_append]
  exact (List.map_insertionSort _ _ g (l0 ++ l) (fun _ _ _ _ => Iff.rfl)).symm

/-- The function registry in which the first evaluation of a session runs. -/
theorem fresh_function_definitions {V : Type} (P : Platform V) (sess : Session V)
    (h : sess.eval_initialized = false) :
    (Session.fresh P sess).eval_function_definitions =
      eval_register (fun d => d.name) sess.eval_function_definitions
        (default_function_definitions P) := by
  unfold Session.fresh eval_instance_initialize eval_initialize
  rw [h]
  rfl

/-- The names of the built-in functions in the order of the table, each with its index. -/
theorem default_functions_by_name {V : Type} (P : Platform V) :
    default_function_definitions P =
      (["abs", "acos", "arr", "asin", "atan", "atan2", "ceil", "comb", "cos", "cosh", "delta1",
        "delta2", "dev", "dist", "exp", "fib", "floor", "log", "log2", "log10", "avg", "sigma",
        "sin", "sinh", "slope", "sqrt", "tan", "tanh", "var"].enum).map
        (fun x => { (default_function_definitions P).getD x.1
          ⟨[], 0, 0, fun _ _ _ => .ok (P.ofInt 0)⟩ with name := x.2.toList }) := rfl

/-- The built-in function found under a name at program start, on every platform: the entry
of the table whose index the search over the names gives. -/
theorem find_default_function {V : Type} (P : Platform V) (value : List Char) :
    eval_find_primitive (fun d => d.name)
        (Session.fresh P (Session.start P)).eval_function_definitions value =
      (eval_find_primitive (fun x : Nat × String => x.2.toList)
        (eval_register (fun x : Nat × String => x.2.toList) []
          (["abs", "acos", "arr", "asin", "atan", "atan2", "ceil", "comb", "cos", "cosh",
            "delta1", "delta2", "dev", "dist", "exp", "fib", "floor", "log", "log2", "log10",
            "avg", "sigma", "sin", "sinh", "slope", "sqrt", "tan", "tanh", "var"].enum))
        value).map
        (fun x => { (default_function_definitions P).getD x.1
          ⟨[], 0, 0, fun _ _ _ => .ok (P.ofInt 0)⟩ with name := x.2.toList }) := by
  have h : (Session.fresh P (Session.start P)).eval_function_definitions =
      eval_register (fun d => d.name) [] (default_function_definitions P) :=
    fresh_function_definitions P (Session.start P) rfl
  have hm := eval_register_map
    (fun x : Nat × String => ({ (default_function_definitions P).getD x.1
      ⟨[], 0, 0, fun _ _ _ => .ok (P.ofInt 0)⟩ with name := x.2.toList } :
        evaluator_function_definition V))
    (fun d => d.name) []
    (["abs", "acos", "arr", "asin", "atan", "atan2", "ceil", "comb", "cos", "cosh",
      "delta1", "delta2", "dev", "dist", "exp", "fib", "floor", "log", "log2", "log10",
      "avg", "sigma", "sin", "sinh", "slope", "sqrt", "tan", "tanh", "var"].enum)
  rw [List.map_nil, ← default_functions_by_name P] at hm
  rw [h, hm, eval_find_primitive_map]

/-- On every platform the name `atan2` is found at program start, bound to the wrapper of
`atan`. -/
theorem find_atan2 {V : Type} (P : Platform V) :
    eval_find_primitive (fun d => d.name)
        (Session.fresh P (Session.start P)).eval_function_definitions "atan2".toList =
      some ⟨"atan2".toList, 2, 2, eval_primitive_degrees P .atan⟩ := by
  rw [find_default_function]
  have : eval_find_primitive (fun x : Nat × String => x.2.toList)
        (eval_register (fun x : Nat × String => x.2.toList) []
          (["abs", "acos", "arr", "asin", "atan", "atan2", "ceil", "comb", "cos", "cosh",
            "delta1", "delta2", "dev", "dist", "exp", "fib", "floor", "log", "log2", "log10",
            "avg", "sigma", "sin", "sinh", "slope", "sqrt", "tan", "tanh", "var"].enum))
        "atan2".toList = some (5, "atan2") := by decide
  rw [this]
  rfl

/-! ### More steps of the token loop -/

/-- The token loop on an operator whose shunting loop reaches undefined behaviour. -/
theorem parse_loop_operator_fault {V : Type} {P : Platform V} {cb : Option (eval_callback V)}
    {s : Bool} (hs : P.signed_bitfields = s) {n : Nat} {sess : Session V}
    {out ops : List (eval_stack_entry V)} {lt : Nat}
    {ch ch' ln : Int} {pn : List Int} {fa : List (Option Int)} {nl : Int} {bs : Bool}
    {c : Char} {cs text rest : List Char} {op : operator_token} (fault : Fault)
    (hlex : eval_lex (sorted_operators s) (c :: cs) ch =
      .ok { token := TOKEN_OPERATOR, text := text, rest := rest, param := .operator op,
            character := ch' })
    (hlt1 : token_in lt (TOKEN_OPERATOR ||| TOKEN_EOF ||| TOKEN_LEFT_PARENT) = false)
    (hlt2 : token_in lt (TOKEN_NUMBER ||| TOKEN_NAME ||| TOKEN_VARIABLE ||| TOKEN_RIGHT_PARENT)
      = true)
    (hpost : ¬ (op.unary ≠ 0 ∧ op.associativity = ASSOC_LEFT))
    (hsh : shunt_operators op ops out = .error fault) (htext : fits_token_buffer text) :
    parse_loop P cb (n + 1) sess ⟨out, ops, lt, ch, ln, pn, fa, nl, bs, 64⟩ (c :: cs) =
      .error fault := by
  simp only [parse_loop, bind, Except.bind, hs, hlex]
  have ht : parse_token P cb sess ⟨out, ops, lt, ch, ln, pn, fa, nl, bs, 64⟩
      { token := TOKEN_OPERATOR, text := text, rest := rest, param := .operator op,
        character := ch' } = .error fault := by
    rw [parse_token_short (show TOKEN_OPERATOR ≠ TOKEN_EOF by decide) htext]
    unfold parse_switch parse_operator
    simp only [hlt1, hlt2, hsh, if_neg hpost, bind, Except.bind]
    rfl
  rw [ht]

/-- The token loop on a closing parenthesis that follows an operator directly under a call
marker: nothing is popped, and the parenthesis is taken to end the call. -/
theorem parse_loop_right_parent_ungrouped {V : Type} {P : Platform V}
    {cb : Option (eval_callback V)} {n : Nat} {sess : Session V}
    {out ops : List (eval_stack_entry V)} {lt : Nat}
    {ch ln : Int} {pn : List Int} {fa : List (Option Int)}
    {nl : Int} {bs : Bool} {rest : List Char}
    (hlt1 : token_in lt (TOKEN_NUMBER ||| TOKEN_RIGHT_PARENT ||| TOKEN_NAME ||| TOKEN_VARIABLE
      ||| TOKEN_LEFT_PARENT) = false)
    (hlt2 : token_in lt TOKEN_COMMA = false)
    (hnl : nl > 0)
    (hd : nesting_cell pn nl = .ok 1) :
    parse_loop P cb (n + 1) sess ⟨out, ops, lt, ch, ln, pn, fa, nl, bs, 64⟩ (')' :: rest) =
      parse_loop P cb n sess
        ⟨out, ops, TOKEN_RIGHT_PARENT, ch + 1, ln, pn.set nl.toNat 0, fa, nl - 1, true, 64⟩
        rest := by
  have hlex : eval_lex (sorted_operators P.signed_bitfields) (')' :: rest) ch =
      .ok (lex_finish ch TOKEN_RIGHT_PARENT (')' :: rest) rest .null) := rfl
  rw [lex_finish_one] at hlex
  simp only [parse_loop, bind, Except.bind, hlex]
  have ht : parse_token P cb sess ⟨out, ops, lt, ch, ln, pn, fa, nl, bs, 64⟩
      { token := TOKEN_RIGHT_PARENT, text := [')'], rest := rest, param := .null,
        character := ch } =
      .ok (.next sess ⟨out, ops, TOKEN_RIGHT_PARENT, ch + 1, ln, pn.set nl.toNat 0, fa,
          nl - 1, true, 64⟩) := by
    rw [parse_token_short (show TOKEN_RIGHT_PARENT ≠ TOKEN_EOF by decide)
      (show fits_token_buffer [')'] by decide)]
    unfold parse_switch parse_right_parent
    simp only [hlt1, hlt2, hd, bind, Except.bind]
    simp [token_done, TOKEN_RIGHT_PARENT, TOKEN_LEFT_PARENT, TOKEN_EOF, TOKEN_ERROR,
      TOKEN_NUMBER, TOKEN_OPERATOR, pure, Except.pure, hnl]
  rw [ht]

theorem lex_tilde (s : Bool) (rest : List Char) (ch : Int) :
    eval_lex (sorted_operators s) ('~' :: rest) ch =
      .ok { token := TOKEN_OPERATOR, text := ['~'], rest := rest,
            param := .operator (operator_init s "~" 1 OP_NOT 10 ASSOC_RIGHT 1),
            character := ch } := by
  rw [← lex_finish_one]
  cases s <;> exact rfl

/-- An evaluation whose token loop reaches undefined behaviour. -/
theorem evaluate_of_fault {V : Type} {P : Platform V} {cb : Option (eval_callback V)}
    {sess : Session V} {str : List Char} (fault : Fault)
    (h : parse_loop P cb (str.length + 1) (Session.fresh P sess) (parse_start V) str =
      .error fault) :
    __evaluate__ P sess str cb = .error fault := by
  unfold __evaluate__ eval_parse
  simp only [Session.fresh] at h
  simp only [h, bind, Except.bind]

/-- The evaluator on a call entry that claims more arguments than the value stack holds,
where the message with the name of the definition fits its buffer. -/
theorem compute_loop_call_short {V : Type} (P : Platform V) (cb : Option (eval_callback V))
    (sess : Session V) (f : List Char) (d : evaluator_function_definition V) (x : V)
    (hd : eval_find_primitive (fun d => d.name) sess.eval_function_definitions f = some d)
    (hname : d.name.length ≤ 900) :
    compute_loop P cb sess { value_stack := [], result := none }
        [.numeric x, .function_call f (some 2)] =
      .ok (0, eval_error sess E_EVAL_IMPLEMENTATION_ERROR (-1) (-1), none) := by
  have h1 : ((([x] : List V).length : Int) < 2) := by simp
  have hfit : message_fits (-1) (-1)
      (56 + printed_length (([x] : List V).length : Int) + d.name.length) = true :=
    message_fits_compute _ (by
      have : printed_length (([x] : List V).length : Int) = 1 := rfl
      omega)
  simp only [compute_loop, compute_entry, compute_function_call, push_value, hd, bind,
    Except.bind, if_pos h1, pure, Except.pure, compute_error_text, hfit, if_true]

/-! ### The status returned and the error code -/

theorem eval_error_code {V : Type} (sess : Session V) (err line character : Int) :
    (eval_error sess err line character).evaluator_errno = err := rfl

theorem parse_operator_code {V : Type} (P : Platform V) (sess : Session V)
    (st : parse_state V) (lx : lex_result) (op : operator_token) (step : parse_step V)
    (h : parse_operator P sess st lx op = .ok step) :
    code_agrees sess.evaluator_errno step.status step.session := by
  unfold parse_operator at h
  simp only [bind, Except.bind, pure, Except.pure] at h
  repeat' split at h
  all_goals first
    | (cases h; exact Or.inl ⟨rfl, rfl⟩)
    | (cases h; exact Or.inr ⟨rfl, fun e => by cases e⟩)
    | cases h

theorem parse_left_parent_code {V : Type} (P : Platform V) (sess : Session V)
    (st : parse_state V) (lx : lex_result) (step : parse_step V)
    (h : parse_left_parent P sess st lx = .ok step) :
    code_agrees sess.evaluator_errno step.status step.session := by
  unfold parse_left_parent at h
  simp only [bind, Except.bind, pure, Except.pure] at h
  repeat' split at h
  all_goals first
    | (cases h; exact Or.inl ⟨rfl, rfl⟩)
    | (cases h; exact Or.inr ⟨rfl, fun e => by cases e⟩)
    | cases h

theorem parse_right_parent_code {V : Type} (sess : Session V)
    (st : parse_state V) (lx : lex_result) (step : parse_step V)
    (h : parse_right_parent sess st lx = .ok step) :
    code_agrees sess.evaluator_errno step.status step.session := by
  unfold parse_right_parent at h
  simp only [bind, Except.bind, pure, Except.pure] at h
  repeat' split at h
  all_goals first
    | (cases h; exact Or.inl ⟨rfl, rfl⟩)
    | (cases h; exact Or.inr ⟨rfl, fun e => by cases e⟩)
    | cases h

theorem parse_comma_code {V : Type} (sess : Session V)
    (st : parse_state V) (lx : lex_result) (step : parse_step V)
    (h : parse_comma sess st lx = .ok step) :
    code_agrees sess.evaluator_errno step.status step.session := by
  unfold parse_comma at h
  simp only [bind, Except.bind, pure, Except.pure] at h
  repeat' split at h
  all_goals first
    | (cases h; exact Or.inl ⟨rfl, rfl⟩)
    | (cases h; exact Or.inr ⟨rfl, fun e => by cases e⟩)
    | cases h

theorem parse_number_code {V : Type} (P : Platform V) (sess : Session V)
    (st : parse_state V) (lx : lex_result) (step : parse_step V)
    (h : parse_number P sess st lx = .ok step) :
    code_agrees sess.evaluator_errno step.status step.session := by
  unfold parse_number token_error_text at h
  repeat' split at h
  all_goals first
    | (cases h; exact Or.inl ⟨rfl, rfl⟩)
    | (cases h; exact Or.inr ⟨rfl, fun e => by cases e⟩)
    | cases h

theorem parse_switch_code {V : Type} (P : Platform V) (cb : Option (eval_callback V))
    (sess : Session V) (st : parse_state V) (lx : lex_result) (step : parse_step V)
    (h : parse_switch P cb sess st lx = .ok step) :
    code_agrees sess.evaluator_errno step.status step.session := by
  unfold parse_switch token_error_text at h
  simp only [bind, Except.bind, pure, Except.pure] at h
  by_cases h2 : lx.token = TOKEN_ERROR
  · rw [if_pos h2] at h
    cases h
    exact Or.inr ⟨rfl, fun e => by cases e⟩
  rw [if_neg h2] at h
  by_cases h3 : lx.token = TOKEN_NUMBER
  · rw [if_pos h3] at h
    exact parse_number_code P sess st lx step h
  rw [if_neg h3] at h
  by_cases h4 : lx.token = TOKEN_OPERATOR
  · rw [if_pos h4] at h
    split at h
    · exact parse_operator_code P sess st lx _ step h
    · cases h
  rw [if_neg h4] at h
  by_cases h5 : lx.token = TOKEN_LEFT_PARENT
  · rw [if_pos h5] at h
    exact parse_left_parent_code P sess st lx step h
  rw [if_neg h5] at h
  by_cases h6 : lx.token = TOKEN_RIGHT_PARENT
  · rw [if_pos h6] at h
    exact parse_right_parent_code sess st lx step h
  rw [if_neg h6] at h
  by_cases h7 : lx.token = TOKEN_NAME
  · rw [if_pos h7] at h
    repeat' split at h
    all_goals cases h
    all_goals first
      | exact Or.inl ⟨rfl, rfl⟩
      | exact Or.inr ⟨rfl, fun e => by cases e⟩
  rw [if_neg h7] at h
  by_cases h8 : lx.token = TOKEN_VARIABLE
  · rw [if_pos h8] at h
    repeat' split at h
    all_goals cases h
    all_goals first
      | exact Or.inl ⟨rfl, rfl⟩
      | exact Or.inr ⟨rfl, fun e => by cases e⟩
  rw [if_neg h8] at h
  by_cases h9 : lx.token = TOKEN_REGISTER_SAVE
  · rw [if_pos h9] at h
    repeat' split at h
    all_goals cases h
    all_goals first
      | exact Or.inl ⟨rfl, rfl⟩
      | exact Or.inr ⟨rfl, fun e => by cases e⟩
  rw [if_neg h9] at h
  by_cases h10 : lx.token = TOKEN_REGISTER_RECALL
  · rw [if_pos h10] at h
    repeat' split at h
    all_goals cases h
    all_goals first
      | exact Or.inl ⟨rfl, rfl⟩
      | exact Or.inr ⟨rfl, fun e => by cases e⟩
  rw [if_neg h10] at h
  by_cases h11 : lx.token = TOKEN_COMMA
  · rw [if_pos h11] at h
    exact parse_comma_code sess st lx step h
  rw [if_neg h11] at h
  cases h
  exact Or.inr ⟨rfl, fun e => by cases e⟩

theorem parse_token_code {V : Type} (P : Platform V) (cb : Option (eval_callback V))
    (sess : Session V) (st : parse_state V) (lx : lex_result) (step : parse_step V)
    (h : parse_token P cb sess st lx = .ok step) :
    code_agrees sess.evaluator_errno step.status step.session := by
  unfold parse_token at h
  by_cases h1 : lx.token = TOKEN_EOF
  · rw [if_pos h1] at h
    split at h
    · cases h
      exact Or.inl ⟨rfl, rfl⟩
    · cases h
  rw [if_neg h1] at h
  cases hc : copy_token st lx with
  | error f =>
    rw [hc] at h
    cases h
  | ok st1 =>
    rw [hc] at h
    exact parse_switch_code P cb sess st1 lx step h

/-- The token loop ends with status 1 and the error code as it was, or with status 0 and an
error code that is not `E_EVAL_OK`. -/
theorem parse_loop_code {V : Type} (P : Platform V) (cb : Option (eval_callback V)) :
    ∀ (n : Nat) (sess : Session V) (st : parse_state V) (str : List Char)
      (r : Int × Session V × parse_state V),
      parse_loop P cb n sess st str = .ok (some r) →
      code_agrees sess.evaluator_errno r.1 r.2.1 := by
  intro n
  induction n with
  | zero =>
    intro sess st str r h
    cases str with
    | nil =>
      simp only [parse_loop, pure, Except.pure] at h
      cases h
      exact Or.inl ⟨rfl, rfl⟩
    | cons c cs =>
      simp only [parse_loop, pure, Except.pure] at h
      cases h
  | succ n ih =>
    intro sess st str r h
    cases str with
    | nil =>
      simp only [parse_loop, pure, Except.pure] at h
      cases h
      exact Or.inl ⟨rfl, rfl⟩
    | cons c cs =>
      simp only [parse_loop, bind, Except.bind] at h
      cases hl : eval_lex (sorted_operators P.signed_bitfields) (c :: cs) st.character with
      | error f =>
        rw [hl] at h
        cases h
      | ok lx =>
        rw [hl] at h
        simp only at h
        cases ht : parse_token P cb sess st lx with
        | error f =>
          rw [ht] at h
          cases h
        | ok step =>
          rw [ht] at h
          have hstep := parse_token_code P cb sess st lx step ht
          cases step with
          | next sess1 st1 =>
            simp only at h
            have h1 : sess1.evaluator_errno = sess.evaluator_errno := by
              rcases hstep with ⟨_, e⟩ | ⟨e, _⟩
              · exact e
              · cases e
            rw [← h1]
            exact ih sess1 st1 lx.rest r h
          | parse_end status sess1 st1 =>
            simp only [pure, Except.pure] at h
            cases h
            exact hstep

theorem compute_entry_code {V : Type} (P : Platform V) (cb : Option (eval_callback V))
    (sess : Session V) (cs : compute_state V) (se : eval_stack_entry V)
    (step : compute_step V) (h : compute_entry P cb sess cs se = .ok step) :
    code_agrees sess.evaluator_errno step.status step.session := by
  cases se <;>
    simp only [compute_entry, compute_operator, compute_register_recall,
      compute_register_save, compute_function_call, compute_error_text,
      pure, Except.pure] at h <;>
    (repeat' split at h) <;>
    first
      | (cases h; exact Or.inl ⟨rfl, rfl⟩)
      | (cases h; exact Or.inr ⟨rfl, fun e => by cases e⟩)
      | cases h

/-- The instruction loop of `eval_compute` ends with status 1 and the error code as it was,
or with status 0 and an error code that is not `E_EVAL_OK`. -/
theorem compute_loop_code {V : Type} (P : Platform V) (cb : Option (eval_callback V)) :
    ∀ (stream : List (eval_stack_entry V)) (sess : Session V) (cs : compute_state V)
      (r : Int × Session V × Option V),
      compute_loop P cb sess cs stream = .ok r →
      code_agrees sess.evaluator_errno r.1 r.2.1 := by
  intro stream
  induction stream with
  | nil =>
    intro sess cs r h
    simp only [compute_loop, pure, Except.pure] at h
    repeat' split at h
    all_goals first
      | (cases h; exact Or.inl ⟨rfl, rfl⟩)
      | (cases h; exact Or.inr ⟨rfl, fun e => by cases e⟩)
      | cases h
  | cons se rest ih =>
    intro sess cs r h
    simp only [compute_loop, bind, Except.bind] at h
    cases he : compute_entry P cb sess cs se with
    | error f =>
      rw [he] at h
      cases h
    | ok step =>
      rw [he] at h
      have hstep := compute_entry_code P cb sess cs se step he
      cases step with
      | next sess1 cs1 =>
        simp only at h
        have h1 : sess1.evaluator_errno = sess.evaluator_errno := by
          rcases hstep with ⟨_, e⟩ | ⟨e, _⟩
          · exact e
          · cases e
        rw [← h1]
        exact ih sess1 cs1 r h
      | failed sess1 =>
        simp only [pure, Except.pure] at h
        cases h
        exact hstep

/-- The part of `eval_parse` after `ParseEnd`: success with the error code as it was, failure
with an error code, or the silent failure of `eval_compute` on an empty stream. -/
theorem parse_end_code {V : Type} (P : Platform V) (cb : Option (eval_callback V))
    (status : Int) (sess : Session V) (st : parse_state V) (r : evaluation V) (code : Int)
    (hloop : code_agrees code status sess)
    (h : parse_end P cb status sess st = .ok r) :
    code_agrees code r.status r.session ∨
      (r.status = 0 ∧ r.session = sess ∧ sess.evaluator_errno = code ∧ status = 1 ∧
        st.nesting_level = 0 ∧ nesting_cell st.parentheses_nesting 0 = .ok 0 ∧
        flush_operators st.operator_stack st.output_stack = .ok []) := by
  simp only [parse_end, eval_compute, bind, Except.bind, pure, Except.pure] at h
  rcases hloop with ⟨hs, hc⟩ | ⟨hs, hc⟩
  · subst hs
    rw [if_neg (by decide)] at h
    split at h
    · cases h
      exact Or.inl (Or.inr ⟨rfl, fun e => by cases e⟩)
    rename_i hnl
    cases hd : nesting_cell st.parentheses_nesting 0 with
    | error f =>
      rw [hd] at h
      cases h
    | ok depth =>
      rw [hd] at h
      simp only at h
      split at h
      · cases h
        exact Or.inl (Or.inr ⟨rfl, fun e => by cases e⟩)
      rename_i hdepth
      cases hf : flush_operators st.operator_stack st.output_stack with
      | error f =>
        rw [hf] at h
        cases h
      | ok out =>
        rw [hf] at h
        simp only at h
        split at h
        · cases h
        rename_i v hv
        cases h
        split at hv
        · rename_i hempty
          cases hv
          refine Or.inr ⟨rfl, rfl, hc, rfl, by simpa using hnl, ?_, ?_⟩
          · have : depth = 0 := by simpa using hdepth
            rw [this]
          · have he := List.isEmpty_iff.1 hempty
            rw [he]
        · have := compute_loop_code P cb _ _ _ _ hv
          rw [hc] at this
          exact Or.inl this
  · subst hs
    rw [if_pos rfl] at h
    cases h
    exact Or.inl (Or.inr ⟨rfl, hc⟩)

/-- The three ways an evaluation that returns can end: success with `E_EVAL_OK`, failure
with an error code, or the silent failure on an empty postfix stream. -/
theorem evaluate_code {V : Type} (P : Platform V) (cb : Option (eval_callback V))
    (sess : Session V) (str : List Char) (r : evaluation V)
    (h : __evaluate__ P sess str cb = .ok (some r)) :
    (r.status = 1 ∧ r.session.evaluator_errno = E_EVAL_OK) ∨
      (r.status = 0 ∧ r.session.evaluator_errno ≠ E_EVAL_OK ∧ ¬ parses_to P cb sess str []) ∨
      (r.status = 0 ∧ r.session.evaluator_errno = E_EVAL_OK ∧ parses_to P cb sess str []) := by
  simp only [__evaluate__, eval_parse, bind, Except.bind, pure, Except.pure] at h
  cases hl : parse_loop P cb (str.length + 1)
      ( eval_instance_initialize P ( eval_initialize P sess)) (parse_start V) str with
  | error f =>
    rw [hl] at h
    cases h
  | ok o =>
    rw [hl] at h
    cases o with
    | none =>
      simp only at h
      cases h
    | some t =>
      obtain ⟨status, sess1, st1⟩ := t
      simp only at h
      have h1 : code_agrees E_EVAL_OK status sess1 :=
        parse_loop_code P cb _ _ _ _ _ hl
      cases he : parse_end P cb status sess1 st1 with
      | error f =>
        rw [he] at h
        cases h
      | ok r1 =>
        rw [he] at h
        have hr : ({ r1 with output := P.double r1.output } : evaluation V) = r := by
          simpa using h
        subst hr
        simp only
        rcases parse_end_code P cb status sess1 st1 r1 E_EVAL_OK h1 he with
          (⟨e1, e2⟩ | ⟨e1, e2⟩) | ⟨e1, e2, e3, e4, e5, e6, e7⟩
        · exact Or.inl ⟨e1, e2⟩
        · refine Or.inr (Or.inl ⟨e1, e2, ?_⟩)
          rintro ⟨s', st', hp, hnl, hcell, hstream⟩
          have hp' : parse_loop P cb (str.length + 1)
              ( eval_instance_initialize P ( eval_initialize P sess)) (parse_start V) str =
              .ok (some (1, s', st')) := hp
          rw [hl] at hp'
          have hst : status = 1 ∧ sess1 = s' ∧ st1 = st' := by simpa using hp'
          obtain ⟨rfl, rfl, rfl⟩ := hst
          have hflush : flush_operators st1.operator_stack st1.output_stack = .ok [] :=
            hstream
          have hne : ¬ ((1 : Int) = 0) := by decide
          simp only [parse_end, eval_compute, hnl, hcell, hflush, bind, Except.bind, pure,
            Except.pure, if_neg hne, ne_eq, not_true_eq_false, if_false, if_true,
            List.isEmpty_nil] at he
          cases he
          rcases h1 with ⟨_, e⟩ | ⟨e, _⟩
          · exact e2 e
          · exact hne e
        · subst e4
          refine Or.inr (Or.inr ⟨e1, by rw [e2]; exact e3, ?_⟩)
          exact ⟨sess1, st1, hl, e5, e6, e7⟩

/-! ## Built-in functions, internal errors and the shunting loop -/

/-- C21: with exact arithmetic, for all natural numbers `p ≤ n` (with `n` below `INT_MAX`),
`comb` applied to `n` and `p` is the binomial coefficient `n! / (p! * (n-p)!)`, and in a
session where the name `comb` resolves to the built-in function the input `comb(n, p)`, the
arguments written as decimal numerals, evaluates to it. -/
theorem comb_is_binomial_coefficient (sess : Session Fraction) (n p : Nat) (hp : p ≤ n)
    (hn : n < 2147483647)
    (hfind : eval_find_primitive (fun d => d.name)
        (Session.fresh exact sess).eval_function_definitions "comb".toList =
      some ⟨"comb".toList, 2, 2, eval_primitive_comb exact⟩) :
    (∀ deg argc : Int,
      eval_primitive_comb exact deg argc [⟨(n : Int), 1⟩, ⟨(p : Int), 1⟩] =
        .ok ⟨(Nat.choose n p : Int), 1⟩) ∧
    Nat.choose n p * (p.factorial * (n - p).factorial) = n.factorial ∧
    evaluate exact sess
        ("comb(".toList ++ (Nat.repr n).toList ++ ", ".toList ++ (Nat.repr p).toList ++
          ")".toList) =
      succeeds exact sess ⟨(Nat.choose n p : Int), 1⟩ := by
  have h62 : (2147483647 : Nat) < 10 ^ 62 := by norm_num
  refine ⟨fun deg argc => comb_exact deg argc n p hp hn, ?_, ?_⟩
  · rw [← Nat.choose_mul_factorial_mul_factorial hp, Nat.mul_assoc]
  · exact spaced_call_two exact sess "comb".toList _ _ _ _ _ _ (by decide)
      (exact_decimal n (by omega)) (exact_decimal p (by omega)) hfind (by decide) (by decide)
      (comb_exact (Session.fresh exact sess).evaluator_use_degrees 2 n p hp hn)

/-- Witness of C21: `comb(5, 2)` is 10. -/
theorem comb_is_binomial_coefficient_witness :
    (2 : Nat) ≤ 5 ∧ (5 : Nat) < 2147483647 ∧
    eval_find_primitive (fun d => d.name)
        (Session.fresh exact (Session.start exact)).eval_function_definitions
        "comb".toList =
      some ⟨"comb".toList, 2, 2, eval_primitive_comb exact⟩ ∧
    evaluate exact (Session.start exact) "comb(5, 2)".toList =
      succeeds exact (Session.start exact) ⟨10, 1⟩ :=
  ⟨by decide, by decide, rfl,
    (comb_is_binomial_coefficient (Session.start exact) 5 2 (by decide) (by decide) rfl).2.2⟩

/-- C22, at the failing input: on every platform the default table binds the name `atan2`
to the wrapper of `atan`, not to `eval_primitive_atan2`: for all numeric literals `a` and `b`
of fewer than 63 characters each the input `atan2(a, b)` at program start evaluates to the
arc tangent of `a` (converted by `eval_degrees`) given by the one-argument `atan`, handed
over as a `double`, whatever `b` is. -/
theorem atan2_bound_to_atan {V : Type} (P : Platform V) (a b : List Char) (va vb : V)
    (ha : IsNumber P a va) (hb : IsNumber P b vb) :
    eval_find_primitive (fun d => d.name)
        (Session.fresh P (Session.start P)).eval_function_definitions "atan2".toList =
      some ⟨"atan2".toList, 2, 2, eval_primitive_degrees P .atan⟩ ∧
    evaluate P (Session.start P) ("atan2(".toList ++ a ++ ", ".toList ++ b ++ ")".toList) =
      succeeds P (Session.start P) (P.double (P.math1 .atan (eval_degrees P 1 va))) ∧
    eval_primitive_atan2 P 1 2 [va, vb] =
      .ok (P.math2 .atan2 (eval_degrees P 1 va) (eval_degrees P 1 vb)) :=
  ⟨find_atan2 P,
    spaced_call_two P (Session.start P) "atan2".toList a b va vb _ _ (by decide) ha hb
      (find_atan2 P) (Int.le_refl 2) (Int.le_refl 2) rfl,
    rfl⟩

/-- Witness of C22: `atan2(1, 2)` on the exact platform. -/
theorem atan2_bound_to_atan_witness :
    IsNumber exact ['1'] ⟨1, 1⟩ ∧ IsNumber exact ['2'] ⟨2, 1⟩ ∧
    evaluate exact (Session.start exact) "atan2(1, 2)".toList =
      succeeds exact (Session.start exact)
        (exact.math1 .atan (eval_degrees exact 1 ⟨1, 1⟩)) :=
  ⟨exact_one, exact_two,
    (atan2_bound_to_atan exact ['1'] ['2'] ⟨1, 1⟩ ⟨2, 1⟩ exact_one exact_two).2.1⟩

/-- The token loop ends balanced and the run of `eval_compute` on its stream reaches
undefined behaviour: so does the entry point. -/
theorem fault_of_loop {V : Type} {P : Platform V} {cb : Option (eval_callback V)}
    {sess sess' : Session V} {str : List Char} {n : Nat} {st : parse_state V}
    (stream : List (eval_stack_entry V)) (fault : Fault)
    (hn : n ≤ str.length + 1)
    (key : parse_loop P cb n (Session.fresh P sess) (parse_start V) str =
      .ok (some (1, sess', st)))
    (hnl : st.nesting_level = 0) (hpn : nesting_cell st.parentheses_nesting 0 = .ok 0)
    (hstream : flush_operators st.operator_stack st.output_stack = .ok stream.reverse)
    (hne : stream ≠ [])
    (hc : compute_loop P cb sess' { value_stack := [], result := none } stream =
      .error fault) :
    __evaluate__ P sess str cb = .error fault := by
  rw [evaluate_of_loop hn key]
  unfold parse_end
  have hemp : stream.reverse.isEmpty = false := by
    cases h : stream with
    | nil => exact absurd h hne
    | cons x xs => simp
  simp only [hpn, hnl, bind, Except.bind, eval_compute, hemp, hstream, hc, List.reverse_reverse]
  simp [Except.map]

/-- C23, at the failing input: for all numeric literals `a` and `b`, of fewer than 63
characters each, the parser accepts the input `a ~ b` (the unary operator `~` after an
operand goes to the operator stack like a binary one) and hands the postfix `a b ~` to the
evaluator, which converts the value of `b` to `eval_int`, undefined behaviour when the value
has no such conversion, and ends with two values on the value stack: the evaluation fails
with `E_EVAL_IMPLEMENTATION_ERROR`. -/
theorem unary_operator_after_operand_leaves_two_values {V : Type} (P : Platform V)
    (sess : Session V) (a b : List Char) (va vb : V)
    (ha : IsNumber P a va) (hb : IsNumber P b vb) :
    parses_to P none sess (a ++ " ~ ".toList ++ b)
        [.numeric va, .numeric vb,
          .operator (operator_init P.signed_bitfields "~" 1 OP_NOT 10 ASSOC_RIGHT 1)] ∧
      evaluate P sess (a ++ " ~ ".toList ++ b) =
        (cast_eval_int P vb).bind (fun _ =>
          .ok (some ⟨0, P.double (P.ofInt 0),
            eval_error (Session.fresh P sess) E_EVAL_IMPLEMENTATION_ERROR (-1) (-1)⟩)) := by
  have hla := ha.length_pos
  have hlb := hb.length_pos
  unfold evaluate
  generalize hs : P.signed_bitfields = s
  have key : ∃ ch, parse_loop P none 3 (Session.fresh P sess) (parse_start V)
      (a ++ " ~ ".toList ++ b) = .ok (some (1, Session.fresh P sess,
        ⟨[.numeric vb, .numeric va],
         [.operator (operator_init s "~" 1 OP_NOT 10 ASSOC_RIGHT 1)],
         TOKEN_NUMBER, ch, 1, List.replicate 64 0, List.replicate 64 none, 0, true, 64⟩)) := by
    refine ⟨?_, ?_⟩
    swap
    simp only [List.append_assoc, parse_start]
    show parse_loop P none 3 _ _ (a ++ ' ' :: '~' :: ' ' :: b) = _
    rw [parse_loop_number ha (by exact rfl) (by rfl) (by exact fits rfl), parse_loop_space,
      parse_loop_binary hs [.numeric va] [] (lex_tilde s _ _) (by rfl) (by rfl)
        (by cases s <;> decide) (by cases s <;> exact rfl) (by decide) (by exact fits rfl),
      parse_loop_space, parse_loop_number_last hb (by rfl) (by exact fits rfl)]
    exact rfl
  obtain ⟨ch, key⟩ := key
  have hn : 3 ≤ (a ++ " ~ ".toList ++ b).length + 1 := by simp; omega
  refine ⟨⟨_, _, parse_loop_mono P none 3 _ _ _ _ key _ hn, rfl, rfl, rfl⟩, ?_⟩
  have hop : (operator_init s "~" 1 OP_NOT 10 ASSOC_RIGHT 1).unary ≠ 0 ∧
      (operator_init s "~" 1 OP_NOT 10 ASSOC_RIGHT 1).type = OP_NOT := by
    cases s <;> decide
  cases hcast : cast_eval_int P vb with
  | error fault =>
    refine fault_of_loop
      [.numeric va, .numeric vb, .operator (operator_init s "~" 1 OP_NOT 10 ASSOC_RIGHT 1)]
      fault hn key rfl rfl rfl (by simp) ?_
    simp only [compute_loop, compute_entry, compute_operator, apply_operator, push_value,
      bind, Except.bind, pure, Except.pure, hop.1, hop.2, hcast, ne_eq, not_false_eq_true,
      if_true]
    rfl
  | ok i1 =>
    refine outcome_of_loop
      [.numeric va, .numeric vb, .operator (operator_init s "~" 1 OP_NOT 10 ASSOC_RIGHT 1)]
      0 none hn key rfl rfl rfl (by simp) ?_
    simp only [compute_loop, compute_entry, compute_operator, apply_operator, push_value,
      bind, Except.bind, pure, Except.pure, hop.1, hop.2, hcast, ne_eq, not_false_eq_true,
      if_true]
    rfl

/-- Witness of C23: `1 ~ 2` is accepted by the parser and fails in the evaluator with
`E_EVAL_IMPLEMENTATION_ERROR`. -/
theorem unary_operator_after_operand_leaves_two_values_witness :
    IsNumber exact ['1'] ⟨1, 1⟩ ∧ IsNumber exact ['2'] ⟨2, 1⟩ ∧
    evaluate exact (Session.start exact) "1 ~ 2".toList =
      .ok (some ⟨0, ⟨0, 1⟩,
        eval_error (Session.fresh exact (Session.start exact))
          E_EVAL_IMPLEMENTATION_ERROR (-1) (-1)⟩) :=
  ⟨exact_one, exact_two,
    (unary_operator_after_operand_leaves_two_values exact (Session.start exact) ['1'] ['2']
      ⟨1, 1⟩ ⟨2, 1⟩ exact_one exact_two).2⟩

/-- C24, at the failing inputs: the parser accepts inputs whose instructions lack operands.
For every numeric literal `a` of fewer than 63 characters, the input `a+` parses to the
postfix `a +` and `+` finds one value where it needs two: the evaluation fails with
`E_EVAL_STACK_EMPTY`.  For every identifier `f` of fewer than 63 characters that the
function registry knows, under a name of at most 900 characters, which the message printed
has room for, the input `f((a))` parses to the postfix `a CALL(f, 2)`, both closing
parentheses having counted an argument, and the call finds one value where `argc` is 2: the
evaluation fails with `E_EVAL_IMPLEMENTATION_ERROR`. -/
theorem instructions_lack_operands {V : Type} (P : Platform V) (sess : Session V)
    (f a : List Char) (va : V) (d : evaluator_function_definition V)
    (hf : identifier f = true) (ha : IsNumber P a va)
    (hd : eval_find_primitive (fun d => d.name)
      (Session.fresh P sess).eval_function_definitions f = some d)
    (hname : d.name.length ≤ 900) :
    parses_to P none sess (a ++ "+".toList)
        [.numeric va,
          .operator (operator_init P.signed_bitfields "+" 1 OP_PLUS 5 ASSOC_LEFT 0)] ∧
      evaluate P sess (a ++ "+".toList) =
        .ok (some ⟨0, P.double (P.ofInt 0),
          eval_error (Session.fresh P sess) E_EVAL_STACK_EMPTY (-1) (-1)⟩) ∧
      parses_to P none sess (f ++ "((".toList ++ a ++ "))".toList)
        [.numeric va, .function_call f (some 2)] ∧
      evaluate P sess (f ++ "((".toList ++ a ++ "))".toList) =
        .ok (some ⟨0, P.double (P.ofInt 0),
          eval_error (Session.fresh P sess) E_EVAL_IMPLEMENTATION_ERROR (-1) (-1)⟩) := by
  have hla := ha.length_pos
  unfold evaluate
  generalize hs : P.signed_bitfields = s
  have key1 : ∃ ch, parse_loop P none 2 (Session.fresh P sess) (parse_start V)
      (a ++ "+".toList) = .ok (some (1, Session.fresh P sess,
        ⟨[.numeric va], [.operator (operator_init s "+" 1 OP_PLUS 5 ASSOC_LEFT 0)],
         TOKEN_OPERATOR, ch, 1, List.replicate 64 0, List.replicate 64 none, 0, true, 64⟩)) := by
    refine ⟨?_, ?_⟩
    swap
    simp only [parse_start]
    show parse_loop P none 2 _ _ (a ++ ['+']) = _
    rw [parse_loop_number ha (by exact rfl) (by rfl) (by exact fits rfl),
      parse_loop_binary hs [.numeric va] [] (lex_plus s _ _) (by rfl) (by rfl)
        (by cases s <;> decide) (by cases s <;> exact rfl) (by decide) (by exact fits rfl),
      parse_loop_nil]
    exact rfl
  have key2 : ∃ ch, parse_loop P none 6 (Session.fresh P sess) (parse_start V)
      (f ++ "((".toList ++ a ++ "))".toList) = .ok (some (1, Session.fresh P sess,
        ⟨[.function_call f (some 2), .numeric va], [], TOKEN_RIGHT_PARENT, ch, 1,
         (((List.replicate 64 (0 : Int)).set 1 1).set 1 2).set 1 1 |>.set 1 0,
         (((List.replicate 64 none).set 1 (some 0)).set 1 (some 1)).set 1 (some 2),
         0, true, 64⟩)) := by
    obtain ⟨c, cs, rfl⟩ : ∃ c cs, f = c :: cs := by
      cases f with
      | nil => cases hf
      | cons c cs => exact ⟨c, cs, rfl⟩
    refine ⟨?_, ?_⟩
    swap
    simp only [List.append_assoc, parse_start]
    show parse_loop P none 6 _ _ (c :: cs ++ '(' :: '(' :: (a ++ [')', ')'])) = _
    rw [List.cons_append,
      parse_loop_name
        (by
          rw [← List.cons_append]
          exact lex_name _ (c :: cs) '(' _ _ hf (by decide))
        (by rfl) (identifier_fits _ hf) (by exact fits rfl),
      parse_loop_call_open (by exact fits rfl),
      parse_loop_left_parent hs 1 (by rfl) (by rfl) (by exact rfl) (by exact fits rfl),
      parse_loop_number ha (by exact rfl) (by rfl) (by exact fits rfl),
      parse_loop_right_parent hs [.numeric va] [.function_call (c :: cs) none]
        (((List.replicate 64 none).set 1 (some 0)).set 1 (some 1)) 2 (some 1)
        (by rfl) (by rfl) (by exact rfl) (by exact rfl) (by cases s <;> exact rfl)
        (by exact rfl),
      parse_loop_right_parent hs [.function_call (c :: cs) (some 2), .numeric va] []
        ((((List.replicate 64 none).set 1 (some 0)).set 1 (some 1)).set 1 (some 2)) 1 (some 2)
        (by rfl) (by rfl) (by exact rfl) (by exact rfl) (by exact rfl) (by exact rfl),
      parse_loop_nil]
    exact rfl
  obtain ⟨ch1, key1⟩ := key1
  obtain ⟨ch2, key2⟩ := key2
  have hn1 : 2 ≤ (a ++ "+".toList).length + 1 := by simp
  have hn2 : 6 ≤ (f ++ "((".toList ++ a ++ "))".toList).length + 1 := by
    have : 1 ≤ f.length := by
      cases f with
      | nil => cases hf
      | cons c cs => simp
    simp
    omega
  exact ⟨⟨_, _, parse_loop_mono P none 2 _ _ _ _ key1 _ hn1, rfl, rfl, rfl⟩,
    outcome_of_loop [.numeric va, .operator (operator_init s "+" 1 OP_PLUS 5 ASSOC_LEFT 0)]
      0 none hn1 key1 rfl rfl rfl (by simp)
      (compute_loop_missing_operand P none _ va _ (by cases s <;> rfl)),
    ⟨_, _, parse_loop_mono P none 6 _ _ _ _ key2 _ hn2, rfl, rfl, rfl⟩,
    outcome_of_loop [.numeric va, .function_call f (some 2)]
      0 none hn2 key2 rfl rfl rfl (by simp)
      (compute_loop_call_short P none _ f d va hd hname)⟩

/-- Witness of C24: `1+` fails with `E_EVAL_STACK_EMPTY` and `sigma((1))` with
`E_EVAL_IMPLEMENTATION_ERROR`. -/
theorem instructions_lack_operands_witness :
    identifier "sigma".toList = true ∧ IsNumber exact ['1'] ⟨1, 1⟩ ∧
    eval_find_primitive (fun d => d.name)
        (Session.fresh exact (Session.start exact)).eval_function_definitions
        "sigma".toList =
      some ⟨"sigma".toList, 2, 3, eval_primitive_sigma exact⟩ ∧
    "sigma".toList.length ≤ 900 ∧
    evaluate exact (Session.start exact) "1+".toList =
      .ok (some ⟨0, ⟨0, 1⟩,
        eval_error (Session.fresh exact (Session.start exact))
          E_EVAL_STACK_EMPTY (-1) (-1)⟩) ∧
    evaluate exact (Session.start exact) "sigma((1))".toList =
      .ok (some ⟨0, ⟨0, 1⟩,
        eval_error (Session.fresh exact (Session.start exact))
          E_EVAL_IMPLEMENTATION_ERROR (-1) (-1)⟩) :=
  ⟨by decide, exact_one, rfl, by decide,
    (instructions_lack_operands exact (Session.start exact) "sigma".toList ['1'] ⟨1, 1⟩ _
      (by decide) exact_one rfl (by decide)).2.1,
    (instructions_lack_operands exact (Session.start exact) "sigma".toList ['1'] ⟨1, 1⟩ _
      (by decide) exact_one rfl (by decide)).2.2.2⟩

/-- C25, at the failing inputs: recalling a register that no save has assigned in the
evaluation fails, but with `E_EVAL_INVALID_REGISTER_INDEX`, not `E_EVAL_REGISTER_NOT_SET`:
on every platform and in every session, for every register number `k` in 0..63 the input
`#k?` fails with that code, and so does the implicit recall `#?`. -/
theorem unset_register_reported_as_invalid_index {V : Type} (P : Platform V)
    (sess : Session V) (k : Nat) (hk : k < 64) :
    evaluate P sess ("#".toList ++ (Nat.repr k).toList ++ "?".toList) =
        .ok (some ⟨0, P.double (P.ofInt 0),
          eval_error (Session.fresh P sess) E_EVAL_INVALID_REGISTER_INDEX (-1) (-1)⟩) ∧
      evaluate P sess "#?".toList =
        .ok (some ⟨0, P.double (P.ofInt 0),
          eval_error (Session.fresh P sess) E_EVAL_INVALID_REGISTER_INDEX (-1) (-1)⟩) ∧
      E_EVAL_INVALID_REGISTER_INDEX ≠ E_EVAL_REGISTER_NOT_SET := by
  unfold evaluate
  have hid : ¬ ((k : Int) ≥ MAX_REGISTERS) := by
    have : MAX_REGISTERS = 64 := rfl
    omega
  have key1 : ∃ ch, parse_loop P none 1 (Session.fresh P sess) (parse_start V)
      ("#".toList ++ (Nat.repr k).toList ++ "?".toList) = .ok (some (1, Session.fresh P sess,
        ⟨[.register_recall (k : Int)], [], TOKEN_REGISTER_RECALL, ch, 1,
         List.replicate 64 0, List.replicate 64 none, 0, true, 64⟩)) := by
    refine ⟨?_, ?_⟩
    swap
    simp only [List.append_assoc, parse_start]
    show parse_loop P none 1 _ _ ('#' :: ((Nat.repr k).toList ++ '?' :: [])) = _
    rw [parse_loop_register_recall (lex_register_recall _ k hk _ _)
        (show token_in TOKEN_EOF _ = true from rfl) hid
        (register_token_fits k hk '?') (by exact fits rfl),
      parse_loop_nil]
    exact rfl
  have key2 : ∃ ch, parse_loop P none 1 (Session.fresh P sess) (parse_start V)
      "#?".toList = .ok (some (1, Session.fresh P sess,
        ⟨[.register_recall (-1)], [], TOKEN_REGISTER_RECALL, ch, 1,
         List.replicate 64 0, List.replicate 64 none, 0, true, 64⟩)) := by
    refine ⟨?_, ?_⟩
    swap
    simp only [parse_start]
    show parse_loop P none 1 _ _ ('#' :: '?' :: []) = _
    rw [parse_loop_register_recall (lex_implicit_recall _ _ _)
        (show token_in TOKEN_EOF _ = true from rfl) (by decide) (by decide)
        (by exact fits rfl),
      parse_loop_nil]
    exact rfl
  obtain ⟨ch1, key1⟩ := key1
  obtain ⟨ch2, key2⟩ := key2
  have hset : (Session.fresh P sess).eval_registers_set.get? k = some false := by
    show (List.replicate 64 false).get? k = some false
    rw [List.get?_eq_getElem?, List.getElem?_replicate_of_lt hk]
  have hval : (Session.fresh P sess).eval_registers.get? k = some (P.ofInt 0) := by
    show (List.replicate 64 (P.ofInt 0)).get? k = some (P.ofInt 0)
    rw [List.get?_eq_getElem?, List.getElem?_replicate_of_lt hk]
  have hc1 : compute_loop P none (Session.fresh P sess) { value_stack := [], result := none }
      [.register_recall (k : Int)] =
      .ok (0, eval_error (Session.fresh P sess) E_EVAL_INVALID_REGISTER_INDEX (-1) (-1),
        none) := by
    simp only [compute_loop, compute_entry, bind, Except.bind, pure, Except.pure, push_value,
      compute_register_recall_unset _ _ k _ hset hval]
  have hc2 : compute_loop P none (Session.fresh P sess) { value_stack := [], result := none }
      [.register_recall (-1)] =
      .ok (0, eval_error (Session.fresh P sess) E_EVAL_INVALID_REGISTER_INDEX (-1) (-1),
        none) := rfl
  exact ⟨outcome_of_loop [.register_recall (k : Int)] 0 none (by simp) key1 rfl rfl rfl
      (by simp) hc1,
    outcome_of_loop [.register_recall (-1)] 0 none (by decide) key2 rfl rfl rfl (by simp) hc2,
    by decide⟩

/-- Witness of C25: `#0?` fails with `E_EVAL_INVALID_REGISTER_INDEX`. -/
theorem unset_register_reported_as_invalid_index_witness :
    (0 : Nat) < 64 ∧
    evaluate exact (Session.start exact) "#0?".toList =
      .ok (some ⟨0, ⟨0, 1⟩,
        eval_error (Session.fresh exact (Session.start exact))
          E_EVAL_INVALID_REGISTER_INDEX (-1) (-1)⟩) :=
  ⟨by decide,
    (unset_register_reported_as_invalid_index exact (Session.start exact) 0 (by decide)).1⟩

/-- C26, counterexample: the empty expression fails, and `evaluator_errno` is `E_EVAL_OK`
after the call; so do `+` and `()`. -/
theorem status_and_error_code_counterexample :
    evaluate exact (Session.start exact) [] =
        .ok (some ⟨0, ⟨0, 1⟩, Session.fresh exact (Session.start exact)⟩) ∧
      evaluate exact (Session.start exact) "+".toList =
        .ok (some ⟨0, ⟨0, 1⟩, Session.fresh exact (Session.start exact)⟩) ∧
      evaluate exact (Session.start exact) "()".toList =
        .ok (some ⟨0, ⟨0, 1⟩, Session.fresh exact (Session.start exact)⟩) ∧
      (Session.fresh exact (Session.start exact)).evaluator_errno = E_EVAL_OK :=
  ⟨rfl, rfl, rfl, rfl⟩

/-- C26, amended: on every platform, in every session, with or without a callback, an
evaluation that returns has status 1 or 0; with status 1 `evaluator_errno` is `E_EVAL_OK`
after the call; with status 0 `evaluator_errno` is `E_EVAL_OK` exactly when the parser
accepted the input with an empty postfix stream, where `eval_compute` returns 0 without a
call of `eval_error`.  The empty expression is such an input. -/
theorem status_and_error_code {V : Type} (P : Platform V) (sess : Session V)
    (str : List Char) (cb : Option (eval_callback V)) (r : evaluation V)
    (h : evaluate_ex P sess str cb = .ok (some r)) :
    (r.status = 1 ∨ r.status = 0) ∧
      (r.status = 1 → r.session.evaluator_errno = E_EVAL_OK) ∧
      (r.status = 0 →
        (r.session.evaluator_errno = E_EVAL_OK ↔ parses_to P cb sess str [])) ∧
      evaluate_ex P sess [] cb = .ok (some ⟨0, P.double (P.ofInt 0), Session.fresh P sess⟩) ∧
      (Session.fresh P sess).evaluator_errno = E_EVAL_OK := by
  have key := evaluate_code P cb sess str r h
  refine ⟨?_, ?_, ?_, rfl, rfl⟩
  · rcases key with ⟨e, _⟩ | ⟨e, _⟩ | ⟨e, _⟩
    · exact Or.inl e
    · exact Or.inr e
    · exact Or.inr e
  · intro h1
    rcases key with ⟨_, e⟩ | ⟨e, _⟩ | ⟨e, _⟩
    · exact e
    · rw [h1] at e
      cases e
    · rw [h1] at e
      cases e
  · intro h0
    rcases key with ⟨e, _⟩ | ⟨_, e1, e2⟩ | ⟨_, e1, e2⟩
    · rw [h0] at e
      cases e
    · exact ⟨fun e => absurd e e1, fun p => absurd p e2⟩
    · exact ⟨fun _ => e2, fun _ => e1⟩

/-- Witness of C26 as amended: the empty expression and `1 ~ 2`, which fails with an error
code. -/
theorem status_and_error_code_witness :
    evaluate_ex exact (Session.start exact) [] none =
        .ok (some ⟨0, ⟨0, 1⟩, Session.fresh exact (Session.start exact)⟩) ∧
      parses_to exact none (Session.start exact) [] [] ∧
      ¬ parses_to exact none (Session.start exact) "1 ~ 2".toList [] :=
  ⟨rfl,
    ((status_and_error_code exact (Session.start exact) [] none
      ⟨0, ⟨0, 1⟩, Session.fresh exact (Session.start exact)⟩ rfl).2.2.1 rfl).1 rfl,
    fun p => absurd
      (((status_and_error_code exact (Session.start exact) "1 ~ 2".toList none
        ⟨0, ⟨0, 1⟩, eval_error (Session.fresh exact (Session.start exact))
          E_EVAL_IMPLEMENTATION_ERROR (-1) (-1)⟩ rfl).2.2.1 rfl).2 p)
      (by decide)⟩

/-- C27, at the failing input: `-2 ** 2` evaluates to -4, not to 4: the unary minus on the
operator stack, of precedence 10, is not popped when `**`, of precedence 9, is read.  Where
plain `int` bit-fields are signed, `ASSOC_RIGHT`, which is 2, does not fit the field
`associativity:2` and reads back as -2, so that a right-associative operator (`**`, `~`,
unary minus) meets neither branch of the loop condition and pops nothing, whatever the
operator stack holds: `1 + 2 ** 3` evaluates to 9.  Where they are unsigned the loop pops
while the precedence of the new operator is greater than that of the top, the rule of its
comment: `-2 ** 2` evaluates to -4 again, and `1 + 2 ** 3` to 27. -/
theorem right_associative_operator_pops_nothing :
    bitfield true 2 ASSOC_RIGHT = -2 ∧
    (∀ (V : Type), ∀ op ∈ [operator_init true "**" 2 OP_POWER 9 ASSOC_RIGHT 0,
        operator_init true "~" 1 OP_NOT 10 ASSOC_RIGHT 1, unary_minus true],
      ∀ ops out : List (eval_stack_entry V), shunt_operators op ops out = .ok (ops, out)) ∧
    evaluate exact (Session.start exact) "-2 ** 2".toList =
      succeeds exact (Session.start exact) ⟨-4, 1⟩ ∧
    evaluate exact (Session.start exact) "1 + 2 ** 3".toList =
      succeeds exact (Session.start exact) ⟨9, 1⟩ ∧
    evaluate exact_unsigned (Session.start exact_unsigned) "-2 ** 2".toList =
      succeeds exact_unsigned (Session.start exact_unsigned) ⟨-4, 1⟩ ∧
    evaluate exact_unsigned (Session.start exact_unsigned) "1 + 2 ** 3".toList =
      succeeds exact_unsigned (Session.start exact_unsigned) ⟨27, 1⟩ := by
  refine ⟨by decide, ?_, rfl, rfl, rfl, rfl⟩
  intro V op hop ops out
  simp only [List.mem_cons, List.mem_singleton, List.not_mem_nil, or_false] at hop
  cases ops with
  | nil => rcases hop with h | h | h <;> subst h <;> rfl
  | cons top below => rcases hop with h | h | h <;> subst h <;> rfl

/-- C28, at the failing input: the shunting loop reads the entry on top of the operator
stack as an operator without looking at its type.  For every identifier `f`, registered or
not, and all numeric literals `a` and `b`, of fewer than 63 characters each, in the input
`f(a+b)` the operator `+` finds the call marker of `f` on top of the stack and compares its
precedence with that of an `operator_token` that is not there: on every platform the
evaluation reaches undefined behaviour, and no postfix stream is produced. -/
theorem call_marker_read_as_operator {V : Type} (P : Platform V) (sess : Session V)
    (f a b : List Char) (va vb : V) (hf : identifier f = true)
    (ha : IsNumber P a va) (hb : IsNumber P b vb) :
    (∀ (argc : Option Int) (below out : List (eval_stack_entry V)),
      shunt_operators (operator_init P.signed_bitfields "+" 1 OP_PLUS 5 ASSOC_LEFT 0)
        (.function_call f argc :: below) out = .error Fault.marker_read_as_operator) ∧
    evaluate P sess (f ++ "(".toList ++ a ++ "+".toList ++ b ++ ")".toList) =
      .error Fault.marker_read_as_operator := by
  have hla := ha.length_pos
  have hlb := hb.length_pos
  generalize hs : P.signed_bitfields = s
  refine ⟨fun argc below out => by cases s <;> rfl, ?_⟩
  unfold evaluate
  apply evaluate_of_fault
  obtain ⟨c, cs, rfl⟩ : ∃ c cs, f = c :: cs := by
    cases f with
    | nil => cases hf
    | cons c cs => exact ⟨c, cs, rfl⟩
  obtain ⟨m, hm⟩ : ∃ m, (c :: cs ++ "(".toList ++ a ++ "+".toList ++ b ++ ")".toList).length
      + 1 = m + 4 := ⟨cs.length + a.length + b.length + 1, by simp; omega⟩
  rw [hm]
  simp only [List.append_assoc, parse_start]
  show parse_loop P none (m + 4) _ _ (c :: cs ++ '(' :: (a ++ '+' :: (b ++ [')']))) = _
  rw [List.cons_append,
    parse_loop_name
      (by
        rw [← List.cons_append]
        exact lex_name _ (c :: cs) '(' _ _ hf (by decide))
      (by rfl) (identifier_fits _ hf) (by exact fits rfl),
    parse_loop_call_open (by exact fits rfl),
    parse_loop_number ha (by exact rfl) (by rfl) (by exact fits rfl),
    parse_loop_operator_fault hs Fault.marker_read_as_operator (lex_plus s _ _)
      (by rfl) (by rfl) (by cases s <;> decide) (by cases s <;> exact rfl) (by decide)]

/-- Witness of C28: `abs(1+2)` reaches undefined behaviour. -/
theorem call_marker_read_as_operator_witness :
    identifier "abs".toList = true ∧ IsNumber exact ['1'] ⟨1, 1⟩ ∧
    IsNumber exact ['2'] ⟨2, 1⟩ ∧
    evaluate exact (Session.start exact) "abs(1+2)".toList =
      .error Fault.marker_read_as_operator :=
  ⟨by decide, exact_one, exact_two,
    (call_marker_read_as_operator exact (Session.start exact) "abs".toList ['1'] ['2']
      ⟨1, 1⟩ ⟨2, 1⟩ (by decide) exact_one exact_two).2⟩

/-- C29, at the failing input: where plain `int` bit-fields are signed, for every
identifier `f` of fewer than 63 characters the parser accepts the input `f(-)`: the closing
parenthesis follows an operator, nothing is popped, and since the parenthesis depth of the
level is 1 the parenthesis is taken to end the call.  Parsing succeeds with the call marker still on the
operator stack, and the final flush sends it to the output with its argument count unset:
the postfix stream is `NEG CALL(f)`.  The evaluation then fails in the evaluator with
`E_EVAL_STACK_EMPTY`.  The input `abs(1+)` is not rejected by the parser either: its `+`
reads the call marker as an operator, which is undefined behaviour. -/
theorem call_marker_left_on_operator_stack {V : Type} (P : Platform V) (sess : Session V)
    (hs : P.signed_bitfields = true) (f : List Char) (hf : identifier f = true) :
    (∃ ch pn fa, parse_loop P none ((f ++ "(-)".toList).length + 1) (Session.fresh P sess)
        (parse_start V) (f ++ "(-)".toList) =
      .ok (some (1, Session.fresh P sess,
        ⟨[], [.operator (unary_minus true), .function_call f none], TOKEN_RIGHT_PARENT, ch,
          1, pn, fa, 0, true, 64⟩))) ∧
    parses_to P none sess (f ++ "(-)".toList)
      [.operator (unary_minus true), .function_call f none] ∧
    evaluate P sess (f ++ "(-)".toList) =
      .ok (some ⟨0, P.double (P.ofInt 0),
        eval_error (Session.fresh P sess) E_EVAL_STACK_EMPTY (-1) (-1)⟩) ∧
    evaluate exact (Session.start exact) "abs(1+)".toList =
      .error Fault.marker_read_as_operator := by
  unfold evaluate
  have key : ∃ ch, parse_loop P none 4 (Session.fresh P sess) (parse_start V)
      (f ++ "(-)".toList) = .ok (some (1, Session.fresh P sess,
        ⟨[], [.operator (unary_minus true), .function_call f none], TOKEN_RIGHT_PARENT, ch,
          1, ((List.replicate 64 (0 : Int)).set 1 1).set 1 0,
          (List.replicate 64 none).set 1 (some 0), 0, true, 64⟩)) := by
    obtain ⟨c, cs, rfl⟩ : ∃ c cs, f = c :: cs := by
      cases f with
      | nil => cases hf
      | cons c cs => exact ⟨c, cs, rfl⟩
    refine ⟨?_, ?_⟩
    swap
    simp only [parse_start]
    show parse_loop P none 4 _ _ (c :: cs ++ '(' :: '-' :: ')' :: []) = _
    rw [List.cons_append,
      parse_loop_name
        (by
          rw [← List.cons_append]
          exact lex_name _ (c :: cs) '(' _ _ hf (by decide))
        (by rfl) (identifier_fits _ hf) (by exact fits rfl),
      parse_loop_call_open (by exact fits rfl),
      parse_loop_unary_minus hs [] [.function_call (c :: cs) none]
        (lex_minus true _ _) (by rfl) (by rfl) (by exact rfl) (by decide) (by exact fits rfl),
      parse_loop_right_parent_ungrouped (by rfl) (by rfl) (by decide) (by exact rfl),
      parse_loop_nil]
    exact rfl
  obtain ⟨ch, key⟩ := key
  have hn : 4 ≤ (f ++ "(-)".toList).length + 1 := by simp
  exact ⟨⟨ch, _, _, parse_loop_mono P none 4 _ _ _ _ key _ hn⟩,
    ⟨_, _, parse_loop_mono P none 4 _ _ _ _ key _ hn, rfl, rfl, rfl⟩,
    outcome_of_loop [.operator (unary_minus true), .function_call f none]
      0 none hn key rfl rfl rfl (by simp) rfl, rfl⟩

/-- Witness of C29: `abs(-)` is accepted by the parser and fails in the evaluator. -/
theorem call_marker_left_on_operator_stack_witness :
    exact.signed_bitfields = true ∧ identifier "abs".toList = true ∧
    parses_to exact none (Session.start exact) "abs(-)".toList
      [.operator (unary_minus true), .function_call "abs".toList none] ∧
    evaluate exact (Session.start exact) "abs(-)".toList =
      .ok (some ⟨0, ⟨0, 1⟩,
        eval_error (Session.fresh exact (Session.start exact))
          E_EVAL_STACK_EMPTY (-1) (-1)⟩) :=
  ⟨rfl, by decide,
    (call_marker_left_on_operator_stack exact (Session.start exact) rfl "abs".toList
      (by decide)).2.1,
    (call_marker_left_on_operator_stack exact (Session.start exact) rfl "abs".toList
      (by decide)).2.2.1⟩

set_option maxRecDepth 100000 in
/-- C30, at the failing input: 65 nested calls `a(a(...`, more than the 64 cells of the
arrays `parentheses_nesting` and `function_args`, do not fail with
`E_EVAL_TOO_MANY_NESTED_CALLS`, nor do 64 or nine of them: the ninth call marker is pushed
past the end of the block of the operator stack, which holds 8 entries, long before the test
on the nesting level can apply.  Eight nested calls stay inside the block, and end with
`E_EVAL_UNTERMINATED_FUNCTION_CALL`. -/
theorem ninth_nested_call_overruns_operator_stack :
    evaluate exact (Session.start exact) (List.replicate 65 "a(".toList).flatten =
      .error Fault.stack_overflow ∧
    evaluate exact (Session.start exact) (List.replicate 64 "a(".toList).flatten =
      .error Fault.stack_overflow ∧
    evaluate exact (Session.start exact) (List.replicate 9 "a(".toList).flatten =
      .error Fault.stack_overflow ∧
    evaluate exact (Session.start exact) (List.replicate 8 "a(".toList).flatten =
      .ok (some ⟨0, ⟨0, 1⟩,
        eval_error (Session.fresh exact (Session.start exact))
          E_EVAL_UNTERMINATED_FUNCTION_CALL 1 16⟩) :=
  ⟨rfl, rfl, rfl, rfl⟩
/-! ## Operator lexing -/

theorem code_sub_eq_zero (a b : Char) : code a - code b = 0 ↔ a = b := by
  constructor
  · intro h
    have h1 : a.toNat = b.toNat := by
      simp only [code] at h
      omega
    exact Char.ext (UInt32.ext (by simpa [Char.toNat, UInt32.toNat] using h1))
  · intro h
    rw [h]
    omega

/-- `strncmp` over the length of a spelling without NUL is 0 exactly when the spelling is a
prefix of the input. -/
theorem strncmp_eq_zero_iff (tok : List Char) (h : ∀ b ∈ tok, code b ≠ 0) (str : List Char) :
    strncmp str tok tok.length = 0 ↔ tok <+: str := by
  induction tok generalizing str with
  | nil => simp [strncmp]
  | cons b bs ih =>
    have hb : code b ≠ 0 := h b (List.mem_cons_self _ _)
    have hbs : ∀ x ∈ bs, code x ≠ 0 := fun x hx => h x (List.mem_cons_of_mem _ hx)
    cases str with
    | nil =>
      simp only [List.length_cons, strncmp, List.prefix_nil, reduceCtorEq, iff_false]
      omega
    | cons a as =>
      simp only [List.length_cons, strncmp, List.cons_prefix_cons]
      by_cases hab : a = b
      · subst hab
        simp only [if_true, true_and]
        exact ih hbs as
      · rw [if_neg hab]
        constructor
        · intro h0
          exact absurd ((code_sub_eq_zero a b).1 h0) hab
        · intro h1
          exact absurd h1.1.symm hab

theorem operators_spelling (s : Bool) (o : operator_token) (ho : o ∈ operators s) :
    o.length = o.token.length ∧ ∀ b ∈ o.token, code b ≠ 0 := by
  simp only [operators, List.mem_cons, List.mem_singleton, List.not_mem_nil, or_false] at ho
  cases s <;> rcases ho with h | h | h | h | h | h | h | h | h | h | h | h | h | h <;>
    subst h <;> decide

theorem sorted_operators_perm (s : Bool) : (sorted_operators s).Perm (operators s) :=
  List.perm_insertionSort _ _

theorem sorted_operators_pairwise (s : Bool) :
    List.Pairwise (fun a b => b.length ≤ a.length) (sorted_operators s) := by
  rw [sorted_operators_eq]
  cases s <;> decide

theorem find_congr_mem {α : Type} (l : List α) (p q : α → Bool) (h : ∀ a ∈ l, p a = q a) :
    l.find? p = l.find? q := by
  induction l with
  | nil => rfl
  | cons x xs ih =>
    have hx := h x (List.mem_cons_self _ _)
    have hxs := ih (fun a ha => h a (List.mem_cons_of_mem _ ha))
    simp only [List.find?_cons, hx, hxs]

/-- On every arrangement of the table the operator branch of `eval_lex` returns the first
entry whose spelling is a prefix of the input. -/
theorem lex_operator_eq_find (s : Bool) (table : List operator_token)
    (hperm : table.Perm (operators s)) (str : List Char) :
    lex_operator table str = table.find? (fun o => decide (o.token <+: str)) := by
  unfold lex_operator
  apply find_congr_mem
  intro o ho
  have hsp := operators_spelling s o (hperm.mem_iff.1 ho)
  rw [hsp.1]
  have := strncmp_eq_zero_iff o.token hsp.2 str
  by_cases hp : o.token <+: str
  · simp [hp, this.2 hp]
  · have hne : strncmp str o.token o.token.length ≠ 0 := fun h0 => hp (this.1 h0)
    simp [hp, hne]

theorem operators_token_injective (s : Bool) :
    ∀ o ∈ operators s, ∀ o' ∈ operators s, o.token = o'.token → o = o' := by
  cases s <;> decide

theorem operators_length_le_two (s : Bool) : ∀ o ∈ operators s, o.length ≤ 2 := by
  cases s <;> decide

/-- On a table ordered by non-increasing length, the operator found by `eval_lex` is an
operator whose spelling starts the input, and no operator of a longer spelling does. -/
theorem lex_operator_some (s : Bool) (table : List operator_token)
    (hperm : table.Perm (operators s))
    (hsorted : List.Pairwise (fun a b => b.length ≤ a.length) table)
    (str : List Char) (o : operator_token)
    (h : lex_operator table str = some o) :
    o ∈ operators s ∧ o.token <+: str ∧
      ∀ o' ∈ operators s, o'.token <+: str → o'.length ≤ o.length := by
  rw [lex_operator_eq_find s table hperm, List.find?_eq_some] at h
  obtain ⟨hp, as, bs, hl, has⟩ := h
  have hmem : o ∈ table := by
    rw [hl]
    simp
  have hpw := hsorted
  rw [hl, List.pairwise_append] at hpw
  refine ⟨hperm.mem_iff.1 hmem, by simpa using hp, ?_⟩
  intro o' ho' hp'
  have ho'' : o' ∈ as ++ o :: bs := by
    rw [← hl]
    exact hperm.mem_iff.2 ho'
  rcases List.mem_append.1 ho'' with h1 | h1
  · have := has o' h1
    simp [hp'] at this
  · rcases List.mem_cons.1 h1 with h2 | h2
    · rw [h2]
    · exact (List.pairwise_cons.1 hpw.2.1).1 o' h2

/-- The operator branch of `eval_lex` finds no operator exactly when no spelling starts the
input. -/
theorem lex_operator_none (s : Bool) (table : List operator_token)
    (hperm : table.Perm (operators s)) (str : List Char) :
    lex_operator table str = none ↔ ∀ o ∈ operators s, ¬ o.token <+: str := by
  rw [lex_operator_eq_find s table hperm, List.find?_eq_none]
  constructor
  · intro h o ho
    simpa using h o (hperm.mem_iff.2 ho)
  · intro h o ho
    simpa using h o (hperm.mem_iff.1 ho)

/-- The operator found does not depend on the order in which the sort leaves the entries of
equal length. -/
theorem lex_operator_order_free (s : Bool) (t1 t2 : List operator_token)
    (hp1 : t1.Perm (operators s)) (hs1 : List.Pairwise (fun a b => b.length ≤ a.length) t1)
    (hp2 : t2.Perm (operators s)) (hs2 : List.Pairwise (fun a b => b.length ≤ a.length) t2)
    (str : List Char) : lex_operator t1 str = lex_operator t2 str := by
  cases h1 : lex_operator t1 str with
  | none =>
    exact ((lex_operator_none s t2 hp2 str).2 ((lex_operator_none s t1 hp1 str).1 h1)).symm
  | some o1 =>
    cases h2 : lex_operator t2 str with
    | none =>
      have := (lex_operator_none s t1 hp1 str).2 ((lex_operator_none s t2 hp2 str).1 h2)
      rw [this] at h1
      cases h1
    | some o2 =>
      obtain ⟨m1, p1, l1⟩ := lex_operator_some s t1 hp1 hs1 str o1 h1
      obtain ⟨m2, p2, l2⟩ := lex_operator_some s t2 hp2 hs2 str o2 h2
      have e1 := (operators_spelling s o1 m1).1
      have e2 := (operators_spelling s o2 m2).1
      have hle1 := l1 o2 m2 p2
      have hle2 := l2 o1 m1 p1
      have htok : o1.token = o2.token :=
        (List.prefix_of_prefix_length_le p1 p2 (by omega)).eq_of_length (by omega)
      rw [operators_token_injective s o1 m1 o2 m2 htok]

/-! ## The value stack of `eval_compute` -/

/-- An instruction leaves at most one value more on the value stack than it found. -/
theorem compute_entry_push {V : Type} (P : Platform V) (cb : Option (eval_callback V))
    (sess sess' : Session V) (cs cs' : compute_state V) (se : eval_stack_entry V)
    (h : compute_entry P cb sess cs se = .ok (.next sess' cs')) :
    cs'.value_stack.length ≤ cs.value_stack.length + 1 := by
  match se, h with
  | .numeric v, h =>
    simp only [compute_entry, push_value, pure, Except.pure] at h
    cases h
    simp
  | .operator ot, h =>
    simp only [compute_entry, compute_operator, pure, Except.pure] at h
    repeat' split at h
    all_goals cases h
    all_goals simp_all
  | .name n, h =>
    simp only [compute_entry, compute_error_text, push_value, pure, Except.pure] at h
    repeat' split at h
    all_goals cases h
    all_goals simp
  | .variable n, h =>
    simp only [compute_entry, compute_error_text, push_value, pure, Except.pure] at h
    repeat' split at h
    all_goals cases h
    all_goals simp
  | .register_recall r, h =>
    simp only [compute_entry, compute_register_recall, push_value, pure, Except.pure] at h
    repeat' split at h
    all_goals cases h
    all_goals simp
  | .register_save r, h =>
    simp only [compute_entry, compute_register_save, pure, Except.pure] at h
    repeat' split at h
    all_goals cases h
    all_goals simp
  | .function_call name argc, h =>
    simp only [compute_entry, compute_function_call, compute_error_text, pure,
      Except.pure] at h
    repeat' split at h
    all_goals cases h
    all_goals simp

/-- The instructions `pre` leave at most one value each on the value stack. -/
theorem compute_steps_length {V : Type} (P : Platform V) (cb : Option (eval_callback V))
    (pre : List (eval_stack_entry V)) (sess sess' : Session V) (cs cs' : compute_state V)
    (h : compute_steps P cb sess cs pre = .ok (.next sess' cs')) :
    cs'.value_stack.length ≤ cs.value_stack.length + pre.length := by
  induction pre generalizing sess cs with
  | nil =>
    simp only [compute_steps, pure, Except.pure, Except.ok.injEq,
      compute_step.next.injEq] at h
    rw [← h.2]
    simp
  | cons se rest ih =>
    simp only [compute_steps, bind, Except.bind] at h
    cases he : compute_entry P cb sess cs se with
    | error f =>
      rw [he] at h
      cases h
    | ok step =>
      rw [he] at h
      cases step with
      | failed s1 => cases h
      | next s1 c1 =>
        have h1 := compute_entry_push P cb sess s1 cs c1 se he
        have h2 := ih s1 c1 h
        simp only [List.length_cons]
        omega

/-- The run of `eval_compute` over a stream is the run over its first instructions followed
by the run over the others. -/
theorem compute_loop_append {V : Type} (P : Platform V) (cb : Option (eval_callback V))
    (pre post : List (eval_stack_entry V)) (sess sess' : Session V) (cs cs' : compute_state V)
    (h : compute_steps P cb sess cs pre = .ok (.next sess' cs')) :
    compute_loop P cb sess cs (pre ++ post) = compute_loop P cb sess' cs' post := by
  induction pre generalizing sess cs with
  | nil =>
    simp only [compute_steps, pure, Except.pure, Except.ok.injEq,
      compute_step.next.injEq] at h
    rw [← h.1, ← h.2]
    rfl
  | cons se rest ih =>
    simp only [compute_steps, bind, Except.bind] at h
    cases he : compute_entry P cb sess cs se with
    | error f =>
      rw [he] at h
      cases h
    | ok step =>
      rw [he] at h
      cases step with
      | failed s1 => cases h
      | next s1 c1 =>
        simp only [List.cons_append, compute_loop, bind, Except.bind, he]
        exact ih s1 c1 h


/-! ## Runs that leave defined behaviour in `eval_compute`, and tokens that end the parse -/

/-- The token loop on a token at which the `switch` jumps to `ParseEnd`. -/
theorem parse_loop_end {V : Type} {P : Platform V} {cb : Option (eval_callback V)}
    {n : Nat} {sess sess' : Session V} {st st' : parse_state V} {c : Char} {cs : List Char}
    (lx : lex_result) {status : Int}
    (hlex : eval_lex (sorted_operators P.signed_bitfields) (c :: cs) st.character = .ok lx)
    (ht : parse_token P cb sess st lx = .ok (.parse_end status sess' st')) :
    parse_loop P cb (n + 1) sess st (c :: cs) = .ok (some (status, sess', st')) := by
  simp only [parse_loop, bind, Except.bind, hlex, ht]
  rfl

/-- The token loop on an operator that follows neither an operand nor a place where a unary
operator may stand: `E_EVAL_UNEXPECTED_OPERATOR` at the position of the token. -/
theorem parse_loop_operator_rejected {V : Type} {P : Platform V}
    {cb : Option (eval_callback V)} {s : Bool} (hs : P.signed_bitfields = s) {n : Nat}
    {sess : Session V} {out ops : List (eval_stack_entry V)} {lt : Nat}
    {ch ch' ln : Int} {pn : List Int} {fa : List (Option Int)} {nl : Int} {bs : Bool}
    {c : Char} {cs text rest : List Char} {op : operator_token}
    (hlex : eval_lex (sorted_operators s) (c :: cs) ch =
      .ok { token := TOKEN_OPERATOR, text := text, rest := rest, param := .operator op,
            character := ch' })
    (hlt1 : token_in lt (TOKEN_OPERATOR ||| TOKEN_EOF ||| TOKEN_LEFT_PARENT) = false)
    (hlt2 : token_in lt (TOKEN_NUMBER ||| TOKEN_NAME ||| TOKEN_VARIABLE ||| TOKEN_RIGHT_PARENT)
      = false) (htext : fits_token_buffer text) :
    parse_loop P cb (n + 1) sess ⟨out, ops, lt, ch, ln, pn, fa, nl, bs, 64⟩ (c :: cs) =
      .ok (some (0, eval_error sess E_EVAL_UNEXPECTED_OPERATOR ln ch',
        ⟨out, ops, lt, ch', ln, pn, fa, nl, true, 64⟩)) := by
  simp only [parse_loop, bind, Except.bind, hs, hlex]
  have ht : parse_token P cb sess ⟨out, ops, lt, ch, ln, pn, fa, nl, bs, 64⟩
      { token := TOKEN_OPERATOR, text := text, rest := rest, param := .operator op,
        character := ch' } =
      .ok (.parse_end 0 (eval_error sess E_EVAL_UNEXPECTED_OPERATOR ln ch')
        ⟨out, ops, lt, ch', ln, pn, fa, nl, true, 64⟩) := by
    rw [parse_token_short (show TOKEN_OPERATOR ≠ TOKEN_EOF by decide) htext]
    unfold parse_switch parse_operator
    simp only [hlt1, hlt2]
    rfl
  rw [ht]
  rfl

/-- The token `#63!`. -/
theorem lex_register_save_63 (table : List operator_token) (rest : List Char) (ch : Int) :
    eval_lex table ('#' :: '6' :: '3' :: '!' :: rest) ch =
      .ok { token := TOKEN_REGISTER_SAVE, text := ['#', '6', '3', '!'], rest := rest,
            param := .register 63, character := ch + 3 } := by
  have h := lex_register_save table 63 (by decide) rest ch
  have h63 : (Nat.repr 63).toList = ['6', '3'] := by decide
  rw [h63] at h
  have e : ch + ((('#' :: (['6', '3'] ++ ['!'])).length : Nat) : Int) - 1 = ch + 3 := by
    simp only [List.cons_append, List.nil_append, List.length_cons, List.length_nil]
    omega
  rw [e] at h
  exact h

/-- The instructions `v #63! #!` of the evaluator: the second save resolves its register
number to `eval_last_register + 1`, which is 64. -/
theorem compute_loop_save_past_last {V : Type} (P : Platform V)
    (cb : Option (eval_callback V)) (sess : Session V) (v : V) :
    compute_loop P cb sess { value_stack := [], result := none }
        [.numeric v, .register_save 63, .register_save (-1)] =
      .error Fault.register_index_out_of_bounds := by
  have e1 : compute_loop P cb sess { value_stack := [], result := none }
        [.numeric v, .register_save 63, .register_save (-1)] =
      compute_loop P cb sess { value_stack := [v], result := some v }
        [.register_save 63, .register_save (-1)] := rfl
  rw [e1]
  simp only [compute_loop, compute_entry, bind, Except.bind,
    compute_register_save_explicit sess v [] (some v) 63 (by decide)]
  rfl

/-- The instruction `#k!` at the start of the stream reads the value stack below its first
cell. -/
theorem compute_loop_save_first {V : Type} (P : Platform V)
    (cb : Option (eval_callback V)) (sess : Session V) (id : Int)
    (rest : List (eval_stack_entry V)) :
    compute_loop P cb sess { value_stack := [], result := none }
        (.register_save id :: rest) =
      .error Fault.value_stack_read_below := rfl

/-! ## Calls with a parenthesised argument, and operators where none may stand -/

/-- The token loop on `f((a))`: both closing parentheses count an argument. -/
theorem parse_grouped_argument {V : Type} (P : Platform V) (sess : Session V)
    (f a : List Char) (va : V) (hf : identifier f = true) (ha : IsNumber P a va) :
    ∃ ch, parse_loop P none 6 sess (parse_start V)
      (f ++ "((".toList ++ a ++ "))".toList) = .ok (some (1, sess,
        ⟨[.function_call f (some 2), .numeric va], [], TOKEN_RIGHT_PARENT, ch, 1,
         (((List.replicate 64 (0 : Int)).set 1 1).set 1 2).set 1 1 |>.set 1 0,
         (((List.replicate 64 none).set 1 (some 0)).set 1 (some 1)).set 1 (some 2),
         0, true, 64⟩)) := by
  generalize hs : P.signed_bitfields = s
  obtain ⟨c, cs, rfl⟩ : ∃ c cs, f = c :: cs := by
    cases f with
    | nil => cases hf
    | cons c cs => exact ⟨c, cs, rfl⟩
  refine ⟨?_, ?_⟩
  swap
  simp only [List.append_assoc, parse_start]
  show parse_loop P none 6 _ _ (c :: cs ++ '(' :: '(' :: (a ++ [')', ')'])) = _
  rw [List.cons_append,
    parse_loop_name
      (by
        rw [← List.cons_append]
        exact lex_name _ (c :: cs) '(' _ _ hf (by decide))
      (by rfl) (identifier_fits _ hf) (by exact fits rfl),
    parse_loop_call_open (by exact fits rfl),
    parse_loop_left_parent hs 1 (by rfl) (by rfl) (by exact rfl) (by exact fits rfl),
    parse_loop_number ha (by exact rfl) (by rfl) (by exact fits rfl),
    parse_loop_right_parent hs [.numeric va] [.function_call (c :: cs) none]
      (((List.replicate 64 none).set 1 (some 0)).set 1 (some 1)) 2 (some 1)
      (by rfl) (by rfl) (by exact rfl) (by exact rfl) (by cases s <;> exact rfl)
      (by exact rfl),
    parse_loop_right_parent hs [.function_call (c :: cs) (some 2), .numeric va] []
      ((((List.replicate 64 none).set 1 (some 0)).set 1 (some 1)).set 1 (some 2)) 1 (some 2)
      (by rfl) (by rfl) (by exact rfl) (by exact rfl) (by exact rfl) (by exact rfl),
    parse_loop_nil]
  exact rfl

/-- The token loop on `f((a), b)`: the parenthesis that closes the group, the comma and the
parenthesis that closes the call count an argument each. -/
theorem parse_grouped_first_argument {V : Type} (P : Platform V) (sess : Session V)
    (f a b : List Char) (va vb : V) (hf : identifier f = true) (ha : IsNumber P a va)
    (hb : IsNumber P b vb) :
    ∃ ch, parse_loop P none 8 sess (parse_start V)
      (f ++ "((".toList ++ a ++ "), ".toList ++ b ++ ")".toList) = .ok (some (1, sess,
        ⟨[.function_call f (some 3), .numeric vb, .numeric va], [], TOKEN_RIGHT_PARENT, ch, 1,
         (((List.replicate 64 (0 : Int)).set 1 1).set 1 2).set 1 1 |>.set 1 0,
         ((((List.replicate 64 none).set 1 (some 0)).set 1 (some 1)).set 1 (some 2)).set 1
           (some 3),
         0, true, 64⟩)) := by
  generalize hs : P.signed_bitfields = s
  obtain ⟨c, cs, rfl⟩ : ∃ c cs, f = c :: cs := by
    cases f with
    | nil => cases hf
    | cons c cs => exact ⟨c, cs, rfl⟩
  refine ⟨?_, ?_⟩
  swap
  simp only [List.append_assoc, parse_start]
  show parse_loop P none 8 _ _
    (c :: cs ++ '(' :: '(' :: (a ++ ')' :: ',' :: ' ' :: (b ++ [')']))) = _
  rw [List.cons_append,
    parse_loop_name
      (by
        rw [← List.cons_append]
        exact lex_name _ (c :: cs) '(' _ _ hf (by decide))
      (by rfl) (identifier_fits _ hf) (by exact fits rfl),
    parse_loop_call_open (by exact fits rfl),
    parse_loop_left_parent hs 1 (by rfl) (by rfl) (by exact rfl) (by exact fits rfl),
    parse_loop_number ha (by exact rfl) (by rfl) (by exact fits rfl),
    parse_loop_right_parent hs [.numeric va] [.function_call (c :: cs) none]
      (((List.replicate 64 none).set 1 (some 0)).set 1 (some 1)) 2 (some 1)
      (by rfl) (by rfl) (by exact rfl) (by exact rfl) (by cases s <;> exact rfl)
      (by exact rfl),
    parse_loop_comma [.numeric va] [.function_call (c :: cs) none]
      ((((List.replicate 64 none).set 1 (some 0)).set 1 (some 1)).set 1 (some 2))
      (by rfl) (by exact rfl) (by exact rfl),
    parse_loop_space,
    parse_loop_number hb (by exact rfl) (by rfl) (by exact fits rfl),
    parse_loop_right_parent hs
      [.function_call (c :: cs) (some 3), .numeric vb, .numeric va] []
      (((((List.replicate 64 none).set 1 (some 0)).set 1 (some 1)).set 1 (some 2)).set 1
        (some 3)) 1 (some 3)
      (by rfl) (by rfl) (by exact rfl) (by exact rfl) (by exact rfl) (by exact rfl),
    parse_loop_nil]
  exact rfl

/-- The evaluator on a call entry that claims three arguments where the value stack holds
two. -/
theorem compute_loop_call_short_two {V : Type} (P : Platform V)
    (cb : Option (eval_callback V)) (sess : Session V) (f : List Char)
    (d : evaluator_function_definition V) (x y : V)
    (hd : eval_find_primitive (fun d => d.name) sess.eval_function_definitions f = some d)
    (hname : d.name.length ≤ 900) :
    compute_loop P cb sess { value_stack := [], result := none }
        [.numeric x, .numeric y, .function_call f (some 3)] =
      .ok (0, eval_error sess E_EVAL_IMPLEMENTATION_ERROR (-1) (-1), none) := by
  have h1 : ((([y, x] : List V).length : Int) < 3) := by simp
  have hfit : message_fits (-1) (-1)
      (56 + printed_length (([y, x] : List V).length : Int) + d.name.length) = true :=
    message_fits_compute _ (by
      have : printed_length (([y, x] : List V).length : Int) = 1 := rfl
      omega)
  simp only [compute_loop, compute_entry, compute_function_call, push_value, hd, bind,
    Except.bind, if_pos h1, pure, Except.pure, compute_error_text, hfit, if_true]

/-! ## Commas, positions and literals -/

/-- The loop of the comma case, where it returns, has found a stop exactly when the operator
stack holds a function-call marker or a left parenthesis. -/
theorem separate_arguments_found {V : Type} (ops out : List (eval_stack_entry V))
    (r : Bool × List (eval_stack_entry V) × List (eval_stack_entry V))
    (h : separate_arguments ops out = .ok r) : r.1 = ops.any encloses := by
  induction ops generalizing out with
  | nil =>
    cases h
    rfl
  | cons se below ih =>
    have step : ∀ out', push_output out se = .ok out' → encloses se = false →
        separate_arguments below out' = .ok r → r.1 = (se :: below).any encloses := by
      intro out' _ he hr
      rw [List.any_cons, he, Bool.false_or]
      exact ih out' hr
    match se, h, step with
    | .function_call name argc, h, _ =>
      simp only [separate_arguments] at h
      split at h
      · cases h
      · cases h
        simp [encloses]
    | .operator o, h, step =>
      by_cases ho : o.type = OP_LEFT_PARENT
      · simp only [separate_arguments, if_pos ho] at h
        cases h
        simp [encloses, ho]
      · simp only [separate_arguments, if_neg ho] at h
        split at h
        · cases h
        · exact step _ (by assumption) (by simp [encloses, ho]) h
    | .numeric v, h, step =>
      simp only [separate_arguments] at h
      split at h
      · cases h
      · exact step _ (by assumption) rfl h
    | .name n, h, step =>
      simp only [separate_arguments] at h
      split at h
      · cases h
      · exact step _ (by assumption) rfl h
    | .variable n, h, step =>
      simp only [separate_arguments] at h
      split at h
      · cases h
      · exact step _ (by assumption) rfl h
    | .register_save r', h, step =>
      simp only [separate_arguments] at h
      split at h
      · cases h
      · exact step _ (by assumption) rfl h
    | .register_recall r', h, step =>
      simp only [separate_arguments] at h
      split at h
      · cases h
      · exact step _ (by assumption) rfl h

/-- The loop of the comma case returns where every entry that it moves finds room in the
output stack, and the function-call marker that it pushes back finds the room it left. -/
theorem separate_arguments_returns {V : Type} (ops out : List (eval_stack_entry V))
    (hops : ops.length ≤ 8) (hout : out.length + ops.length ≤ 16) :
    ∃ r, separate_arguments ops out = .ok r := by
  induction ops generalizing out with
  | nil => exact ⟨_, rfl⟩
  | cons se below ih =>
    simp only [List.length_cons] at hops hout
    have hpush : push_output out se = .ok (se :: out) := push_output_ok se (by omega)
    have hnext : ∃ r, separate_arguments below (se :: out) = .ok r :=
      ih (se :: out) (by omega) (by simp only [List.length_cons]; omega)
    match se, hpush, hnext with
    | .function_call name argc, _, _ =>
      have hp : push_operator below (eval_stack_entry.function_call name argc) =
          .ok (eval_stack_entry.function_call name argc :: below) :=
        push_operator_ok _ (by omega)
      simp only [separate_arguments, hp]
      exact ⟨_, rfl⟩
    | .operator o, hpush, hnext =>
      by_cases ho : o.type = OP_LEFT_PARENT
      · simp only [separate_arguments, if_pos ho]
        exact ⟨_, rfl⟩
      · simp only [separate_arguments, if_neg ho, hpush]
        exact hnext
    | .numeric v, hpush, hnext =>
      simp only [separate_arguments, hpush]
      exact hnext
    | .name n, hpush, hnext =>
      simp only [separate_arguments, hpush]
      exact hnext
    | .variable n, hpush, hnext =>
      simp only [separate_arguments, hpush]
      exact hnext
    | .register_save r', hpush, hnext =>
      simp only [separate_arguments, hpush]
      exact hnext
    | .register_recall r', hpush, hnext =>
      simp only [separate_arguments, hpush]
      exact hnext

/-- The copy of a token that leaves a byte of the block of `current_token` unused: the block
is not replaced. -/
theorem copy_token_unchanged {V : Type} (st : parse_state V) (lx : lex_result)
    (h : (lx.text.length : Int) + 1 < st.max_token_length) : copy_token st lx = .ok st := by
  unfold copy_token
  simp only
  rw [if_neg (by omega), if_neg (by omega)]

/-- The case `TOKEN_COMMA` is the one that the `switch` takes on a comma. -/
theorem parse_switch_comma {V : Type} (P : Platform V) (cb : Option (eval_callback V))
    (sess : Session V) (st : parse_state V) (lx : lex_result) (htok : lx.token = TOKEN_COMMA) :
    parse_switch P cb sess st lx = parse_comma sess st lx := by
  unfold parse_switch
  rw [htok]
  rfl

/-- On a comma whose copy leaves the block of `current_token` as it is, the body of the loop
is the case `TOKEN_COMMA`. -/
theorem parse_token_comma {V : Type} (P : Platform V) (cb : Option (eval_callback V))
    (sess : Session V) (st : parse_state V) (lx : lex_result) (htok : lx.token = TOKEN_COMMA)
    (hcopy : (lx.text.length : Int) + 1 < st.max_token_length) :
    parse_token P cb sess st lx = parse_comma sess st lx := by
  unfold parse_token
  rw [if_neg (by rw [htok]; decide), copy_token_unchanged st lx hcopy]
  exact parse_switch_comma P cb sess st lx htok

/-- The token loop on a number token that `eval_double_value` converts. -/
theorem parse_loop_number_token {V : Type} {P : Platform V}
    {cb : Option (eval_callback V)} {n : Nat} {sess : Session V}
    {out ops : List (eval_stack_entry V)} {lt : Nat} {ch ch' ln : Int} {pn : List Int}
    {fa : List (Option Int)} {nl : Int} {bs : Bool} {c : Char} {cs text rest : List Char}
    (v : V)
    (hlex : eval_lex (sorted_operators P.signed_bitfields) (c :: cs) ch =
      .ok { token := TOKEN_NUMBER, text := text, rest := rest, param := .null,
            character := ch' })
    (hlt : token_in lt (TOKEN_EOF ||| TOKEN_OPERATOR ||| TOKEN_COMMA ||| TOKEN_LEFT_PARENT)
      = true)
    (hv : eval_double_value P text (text.length : Int) = some v)
    (htext : fits_token_buffer text) (hout : out.length < 16) :
    parse_loop P cb (n + 1) sess ⟨out, ops, lt, ch, ln, pn, fa, nl, bs, 64⟩ (c :: cs) =
      parse_loop P cb n sess
        ⟨.numeric v :: out, ops, TOKEN_NUMBER, ch' + (text.length : Int), ln, pn, fa, nl,
          true, 64⟩ rest := by
  simp only [parse_loop, bind, Except.bind, hlex]
  have ht : parse_token P cb sess ⟨out, ops, lt, ch, ln, pn, fa, nl, bs, 64⟩
      { token := TOKEN_NUMBER, text := text, rest := rest, param := lex_param.null,
        character := ch' } =
      .ok (.next sess ⟨.numeric v :: out, ops, TOKEN_NUMBER, ch' + (text.length : Int),
        ln, pn, fa, nl, true, 64⟩) := by
    rw [parse_token_short (show TOKEN_NUMBER ≠ TOKEN_EOF by decide) htext]
    unfold parse_switch parse_number
    simp only [hlt, hv, push_output_ok _ hout]
    rfl
  rw [ht]

/-- The evaluator on a stream of one number. -/
theorem compute_loop_one {V : Type} (P : Platform V) (cb : Option (eval_callback V))
    (sess : Session V) (v : V) :
    compute_loop P cb sess { value_stack := [], result := none } [.numeric v] =
      .ok (1, sess, some v) := rfl

/-- A closing parenthesis after a number at the outermost level, with no group open: the
parse ends with `E_EVAL_UNEXPECTED_RIGHT_PARENT` at the value of the column counter. -/
theorem parse_loop_right_parent_unopened {V : Type} {P : Platform V}
    {cb : Option (eval_callback V)} {n : Nat} {sess : Session V} {v : V} {ch : Int}
    {rest : List Char} :
    parse_loop P cb (n + 1) sess
        ⟨[.numeric v], [], TOKEN_NUMBER, ch, 1, List.replicate 64 0, List.replicate 64 none,
          0, true, 64⟩ (')' :: rest) =
      .ok (some (0, eval_error sess E_EVAL_UNEXPECTED_RIGHT_PARENT 1 ch,
        ⟨[.numeric v], [], TOKEN_NUMBER, ch, 1, List.replicate 64 0,
          List.replicate 64 none, 0, true, 64⟩)) := by
  have hlex : eval_lex (sorted_operators P.signed_bitfields) (')' :: rest) ch =
      .ok (lex_finish ch TOKEN_RIGHT_PARENT (')' :: rest) rest .null) := rfl
  rw [lex_finish_one] at hlex
  refine parse_loop_end _ hlex ?_
  rw [parse_token_short (show TOKEN_RIGHT_PARENT ≠ TOKEN_EOF by decide)
    (show fits_token_buffer [')'] by decide)]
  unfold parse_switch parse_right_parent
  have h1 : token_in TOKEN_NUMBER (TOKEN_NUMBER ||| TOKEN_RIGHT_PARENT ||| TOKEN_NAME |||
      TOKEN_VARIABLE ||| TOKEN_LEFT_PARENT) = true := rfl
  have h2 : token_in TOKEN_NUMBER TOKEN_LEFT_PARENT = false := rfl
  have h3 : function_args_increment (List.replicate 64 none) 0 =
      .ok (List.replicate 64 none) := rfl
  have h4 : nesting_cell (List.replicate 64 (none : Option Int)) 0 = .ok none := rfl
  have h5 : nesting_cell (List.replicate 64 (0 : Int)) 0 = .ok 0 := rfl
  have h6 : close_parenthesis (V := V) none [] [.numeric v] =
      .ok (false, [], [.numeric v]) := rfl
  simp only [h1, h2, h3, h4, h5, h6, bind, Except.bind]
  simp [token_error, TOKEN_RIGHT_PARENT, TOKEN_LEFT_PARENT, TOKEN_EOF, TOKEN_ERROR,
    TOKEN_NUMBER, TOKEN_OPERATOR, pure, Except.pure, token_in, TOKEN_COMMA]

/-- The token loop on a comma where `last_token` is neither a number, a name nor a closing
parenthesis. -/
theorem parse_loop_comma_rejected {V : Type} {P : Platform V}
    {cb : Option (eval_callback V)} {n : Nat} {sess : Session V}
    {out ops : List (eval_stack_entry V)} {lt : Nat} {ch ln : Int} {pn : List Int}
    {fa : List (Option Int)} {nl : Int} {bs : Bool} {rest : List Char}
    (hlt : token_in lt (TOKEN_NUMBER ||| TOKEN_NAME ||| TOKEN_RIGHT_PARENT) = false) :
    parse_loop P cb (n + 1) sess ⟨out, ops, lt, ch, ln, pn, fa, nl, bs, 64⟩ (',' :: rest) =
      .ok (some (0, eval_error sess E_EVAL_UNEXPECTED_ARG_SEPARATOR ln ch,
        ⟨out, ops, lt, ch, ln, pn, fa, nl, true, 64⟩)) := by
  have hlex : eval_lex (sorted_operators P.signed_bitfields) (',' :: rest) ch =
      .ok (lex_finish ch TOKEN_COMMA (',' :: rest) rest .null) := rfl
  rw [lex_finish_one] at hlex
  refine parse_loop_end _ hlex ?_
  rw [parse_token_short (show TOKEN_COMMA ≠ TOKEN_EOF by decide)
    (show fits_token_buffer [','] by decide), parse_switch_comma _ _ _ _ _ rfl]
  unfold parse_comma
  simp only [hlt]
  rfl
/-! ## Registers, separators, positions and literals: the parser and the evaluator together -/

/-- C33: after `eval_initialize` the table `operators` holds the same entries ordered by
non-increasing spelling length, and the operator branch of `eval_lex` is longest-match: the
operator returned is one whose spelling starts the input and no operator with a longer
spelling does; none is returned exactly when no spelling starts the input.  So `**`, `<<` and
`>>` at the cursor are returned as such, a one-character operator is returned when no
two-character operator starts the input, and `eval_lex` returns `TOKEN_OPERATOR` with the
operator found, or `TOKEN_ERROR` when none matches.  The operator found is the same on every
arrangement of the table by non-increasing length, whatever order `qsort` leaves among the
entries of equal length. -/
theorem operator_lexing_longest_match (s : Bool) :
    List.Pairwise (fun a b => b.length ≤ a.length) (sorted_operators s) ∧
    (sorted_operators s).Perm (operators s) ∧
    (∀ str o, lex_operator (sorted_operators s) str = some o →
      o ∈ operators s ∧ o.token <+: str ∧
        ∀ o' ∈ operators s, o'.token <+: str → o'.length ≤ o.length) ∧
    (∀ str, lex_operator (sorted_operators s) str = none ↔
      ∀ o ∈ operators s, ¬ o.token <+: str) ∧
    (∀ rest, lex_operator (sorted_operators s) ('*' :: '*' :: rest) =
      some (operator_init s "**" 2 OP_POWER 9 ASSOC_RIGHT 0)) ∧
    (∀ rest, lex_operator (sorted_operators s) ('<' :: '<' :: rest) =
      some (operator_init s "<<" 2 OP_SHL 5 ASSOC_LEFT 0)) ∧
    (∀ rest, lex_operator (sorted_operators s) ('>' :: '>' :: rest) =
      some (operator_init s ">>" 2 OP_SHR 5 ASSOC_LEFT 0)) ∧
    (∀ o ∈ operators s, o.length = 1 → ∀ rest,
      (∀ o' ∈ operators s, o'.length = 2 → ¬ o'.token <+: o.token ++ rest) →
      lex_operator (sorted_operators s) (o.token ++ rest) = some o) ∧
    (∀ c cs ch, isspace c = false → (isalpha c || c == '_') = false → isdigit c = false →
      c ≠ '(' → c ≠ ')' → c ≠ '$' → c ≠ '#' → c ≠ ',' →
      eval_lex (sorted_operators s) (c :: cs) ch =
        match lex_operator (sorted_operators s) (c :: cs) with
        | some o => .ok { token := TOKEN_OPERATOR, text := (c :: cs).take o.length,
                          rest := (c :: cs).drop o.length, param := .operator o,
                          character := ch + ((o.length : Nat) : Int) - 1 }
        | none => .ok { token := TOKEN_ERROR, text := [], rest := c :: cs, param := .null,
                        character := ch - 1 }) ∧
    (∀ table : List operator_token, table.Perm (operators s) →
      List.Pairwise (fun a b => b.length ≤ a.length) table →
      ∀ str, lex_operator table str = lex_operator (sorted_operators s) str) := by
  have hperm := sorted_operators_perm s
  have hsorted := sorted_operators_pairwise s
  refine ⟨hsorted, hperm, lex_operator_some s _ hperm hsorted,
    lex_operator_none s _ hperm, ?_, ?_, ?_, ?_, ?_,
    fun table h1 h2 str => lex_operator_order_free s table _ h1 h2 hperm hsorted str⟩
  · intro rest
    cases s <;> exact rfl
  · intro rest
    cases s <;> exact rfl
  · intro rest
    cases s <;> exact rfl
  · intro o ho hlen rest hno
    cases hr : lex_operator (sorted_operators s) (o.token ++ rest) with
    | none =>
      exact absurd (List.prefix_append _ _) ((lex_operator_none s _ hperm _).1 hr o ho)
    | some o2 =>
      obtain ⟨h1, h2, h3⟩ := lex_operator_some s _ hperm hsorted _ _ hr
      have hle := h3 o ho (List.prefix_append _ _)
      have hle2 := operators_length_le_two s o2 h1
      have hl2 : o2.length = 1 := by
        rcases Nat.lt_or_ge o2.length 2 with h | h
        · omega
        · exact absurd h2 (hno o2 h1 (by omega))
      have htok : o2.token = o.token := by
        have e1 := (operators_spelling s o ho).1
        have e2 := (operators_spelling s o2 h1).1
        have hpre : o2.token <+: o.token :=
          List.prefix_of_prefix_length_le h2 (List.prefix_append _ _) (by omega)
        exact hpre.eq_of_length (by omega)
      rw [operators_token_injective s o2 h1 o ho htok]
  · intro c cs ch h1 h2 h3 h4 h5 h6 h7 h8
    rw [eval_lex_operator_branch _ _ _ _ h1 h2 h3 h4 h5 h6 h7 h8]
    cases hr : lex_operator (sorted_operators s) (c :: cs) with
    | none =>
      simp only [lex_finish]
      simp
    | some o =>
      obtain ⟨hm, hp, _⟩ := lex_operator_some s _ hperm hsorted _ _ hr
      have e := (operators_spelling s o hm).1
      have hlen : o.length ≤ (c :: cs).length := by
        rw [e]
        exact hp.length_le
      simp only [lex_finish]
      have hd : (c :: cs).length - ((c :: cs).drop o.length).length = o.length := by
        rw [List.length_drop]
        omega
      rw [hd]

/-- C36: the value stack of `eval_compute` stays within its allocation.  For every stream of
instructions `pre ++ post` and every run that has executed the instructions `pre`, the
number of values on the value stack is at most the number of instructions executed, hence at
most the number of entries allocated; when an instruction is left to execute, the index that
a push would write is below that number; and the run of `eval_compute` goes on from that
state. -/
theorem value_stack_within_allocation {V : Type} (P : Platform V)
    (cb : Option (eval_callback V)) (sess sess' : Session V) (cs' : compute_state V)
    (pre post : List (eval_stack_entry V))
    (h : compute_steps P cb sess { value_stack := [], result := none } pre =
      .ok (.next sess' cs')) :
    cs'.value_stack.length ≤ pre.length ∧
      cs'.value_stack.length ≤ (pre ++ post).length ∧
      (post ≠ [] → cs'.value_stack.length < (pre ++ post).length) ∧
      (∀ se sess'' cs'', compute_entry P cb sess' cs' se = .ok (.next sess'' cs'') →
        cs''.value_stack.length ≤ pre.length + 1) ∧
      compute_loop P cb sess { value_stack := [], result := none } (pre ++ post) =
        compute_loop P cb sess' cs' post := by
  have h1 := compute_steps_length P cb pre sess sess' _ cs' h
  simp only [List.length_nil, Nat.zero_add] at h1
  refine ⟨h1, ?_, ?_, ?_, compute_loop_append P cb pre post sess sess' _ cs' h⟩
  · simp only [List.length_append]
    omega
  · intro hp
    have : 0 < post.length := List.length_pos.2 hp
    simp only [List.length_append]
    omega
  · intro se sess'' cs'' he
    have := compute_entry_push P cb sess' sess'' cs' cs'' se he
    omega

/-- Witness of C36: after the two pushes of the stream `1 2 +` the value stack holds two
values. -/
theorem value_stack_within_allocation_witness :
    compute_steps exact none (Session.start exact) { value_stack := [], result := none }
        [.numeric ⟨1, 1⟩, .numeric ⟨2, 1⟩] =
      .ok (.next (Session.start exact)
        { value_stack := [⟨2, 1⟩, ⟨1, 1⟩], result := some ⟨2, 1⟩ }) ∧
    ([⟨2, 1⟩, ⟨1, 1⟩] : List Fraction).length ≤ 2 ∧
    ([⟨2, 1⟩, ⟨1, 1⟩] : List Fraction).length < 3 :=
  ⟨rfl,
    (value_stack_within_allocation exact none (Session.start exact) (Session.start exact)
      { value_stack := [⟨2, 1⟩, ⟨1, 1⟩], result := some ⟨2, 1⟩ }
      [.numeric ⟨1, 1⟩, .numeric ⟨2, 1⟩]
      [.operator (operator_init true "+" 1 OP_PLUS 5 ASSOC_LEFT 0)] rfl).1,
    (value_stack_within_allocation exact none (Session.start exact) (Session.start exact)
      { value_stack := [⟨2, 1⟩, ⟨1, 1⟩], result := some ⟨2, 1⟩ }
      [.numeric ⟨1, 1⟩, .numeric ⟨2, 1⟩]
      [.operator (operator_init true "+" 1 OP_PLUS 5 ASSOC_LEFT 0)] rfl).2.2.1 (by simp)⟩

/-- C31, at the failing input: for every numeric literal `a` the parser accepts
`a #63! #!`, and the second save, whose register number is implicit, resolves it to
`eval_last_register + 1`, which is 64: the evaluator indexes `eval_registers` and
`eval_registers_set` past their last cell.  The parser does reject every save token whose
explicit register number is 64 or more with `E_EVAL_INVALID_REGISTER_INDEX`, as soon as it
has copied the token. -/
theorem implicit_save_past_register_63 {V : Type} (P : Platform V) (sess : Session V)
    (a : List Char) (va : V) (ha : IsNumber P a va) :
    parses_to P none sess (a ++ " #63! #!".toList)
        [.numeric va, .register_save 63, .register_save (-1)] ∧
      evaluate P sess (a ++ " #63! #!".toList) =
        .error Fault.register_index_out_of_bounds ∧
      (∀ (cb : Option (eval_callback V)) (s : Session V) (st : parse_state V)
        (lx : lex_result) (id : Int),
        lx.token = TOKEN_REGISTER_SAVE → lx.param = .register id → id ≥ MAX_REGISTERS →
        parse_token P cb s st lx =
          (copy_token st lx).bind
            (fun st => .ok (token_error s st lx E_EVAL_INVALID_REGISTER_INDEX))) := by
  have hla := ha.length_pos
  unfold evaluate
  have key : ∃ ch, parse_loop P none 3 (Session.fresh P sess) (parse_start V)
      (a ++ " #63! #!".toList) = .ok (some (1, Session.fresh P sess,
        ⟨[.register_save (-1), .register_save 63, .numeric va], [], TOKEN_NUMBER, ch, 1,
         List.replicate 64 0, List.replicate 64 none, 0, true, 64⟩)) := by
    refine ⟨?_, ?_⟩
    swap
    simp only [parse_start]
    show parse_loop P none 3 _ _ (a ++ ' ' :: '#' :: '6' :: '3' :: '!' :: ' ' :: '#' :: '!' :: [])
      = _
    rw [parse_loop_number ha (by exact rfl) (by rfl) (by exact fits rfl),
      parse_loop_space,
      parse_loop_register_save (lex_register_save_63 _ _ _) (by decide) (by decide)
        (by exact fits rfl),
      parse_loop_space,
      parse_loop_register_save (lex_implicit_save _ _ _) (by decide) (by decide)
        (by exact fits rfl),
      parse_loop_nil]
    exact rfl
  obtain ⟨ch, key⟩ := key
  have hn : 3 ≤ (a ++ " #63! #!".toList).length + 1 := by simp
  refine ⟨⟨_, _, parse_loop_mono P none 3 _ _ _ _ key _ hn, rfl, rfl, rfl⟩,
    fault_of_loop [.numeric va, .register_save 63, .register_save (-1)] _ hn key rfl rfl rfl
      (by simp) (compute_loop_save_past_last P none _ va), ?_⟩
  intro cb s st lx id h1 h2 h3
  unfold parse_token
  rw [if_neg (by rw [h1]; decide)]
  cases copy_token st lx with
  | error f => rfl
  | ok st1 =>
    unfold parse_switch
    rw [h1, h2]
    simp only [if_pos h3]
    rfl

/-- Witness of C31: `1 #63! #!` makes the evaluator write register cell 64. -/
theorem implicit_save_past_register_63_witness :
    IsNumber exact ['1'] ⟨1, 1⟩ ∧
    evaluate exact (Session.start exact) "1 #63! #!".toList =
      .error Fault.register_index_out_of_bounds :=
  ⟨exact_one,
    (implicit_save_past_register_63 exact (Session.start exact) ['1'] ⟨1, 1⟩ exact_one).2.1⟩

/-- C40, at the failing input: for every register number `k` in 0..63 and every numeric
literal `a` the parser accepts `#k! a`, a save as first token, and hands the evaluator a
stream that starts with the save: the evaluator then reads `value_stack [-1]`. -/
theorem register_save_on_empty_value_stack {V : Type} (P : Platform V) (sess : Session V)
    (k : Nat) (hk : k < 64) (a : List Char) (va : V) (ha : IsNumber P a va) :
    parses_to P none sess ("#".toList ++ (Nat.repr k).toList ++ "! ".toList ++ a)
        [.register_save (k : Int), .numeric va] ∧
      evaluate P sess ("#".toList ++ (Nat.repr k).toList ++ "! ".toList ++ a) =
        .error Fault.value_stack_read_below := by
  have hla := ha.length_pos
  unfold evaluate
  have hid : ¬ ((k : Int) ≥ MAX_REGISTERS) := by
    have : MAX_REGISTERS = 64 := rfl
    omega
  have key : ∃ ch, parse_loop P none 2 (Session.fresh P sess) (parse_start V)
      ("#".toList ++ (Nat.repr k).toList ++ "! ".toList ++ a) =
      .ok (some (1, Session.fresh P sess,
        ⟨[.numeric va, .register_save (k : Int)], [], TOKEN_NUMBER, ch, 1,
         List.replicate 64 0, List.replicate 64 none, 0, true, 64⟩)) := by
    refine ⟨?_, ?_⟩
    swap
    simp only [List.append_assoc, parse_start]
    show parse_loop P none 2 _ _ ('#' :: ((Nat.repr k).toList ++ '!' :: ' ' :: a)) = _
    rw [parse_loop_register_save (lex_register_save _ k hk _ _) hid
        (register_token_fits k hk '!') (by exact fits rfl),
      parse_loop_space,
      parse_loop_number_last ha (show token_in TOKEN_EOF _ = true from rfl) (by exact fits rfl)]
    exact rfl
  obtain ⟨ch, key⟩ := key
  have hn : 2 ≤ ("#".toList ++ (Nat.repr k).toList ++ "! ".toList ++ a).length + 1 := by
    simp
  exact ⟨⟨_, _, parse_loop_mono P none 2 _ _ _ _ key _ hn, rfl, rfl, rfl⟩,
    fault_of_loop [.register_save (k : Int), .numeric va] _ hn key rfl rfl rfl
      (by simp) (compute_loop_save_first P none _ _ _)⟩

/-- Witness of C40: `#0! 5` is accepted by the parser and the save reads below the value
stack. -/
theorem register_save_on_empty_value_stack_witness :
    (0 : Nat) < 64 ∧ IsNumber exact ['5'] ⟨5, 1⟩ ∧
    evaluate exact (Session.start exact) "#0! 5".toList =
      .error Fault.value_stack_read_below :=
  ⟨by decide, exact_five,
    (register_save_on_empty_value_stack exact (Session.start exact) 0 (by decide) ['5']
      ⟨5, 1⟩ exact_five).2⟩

/-- C37, at the failing inputs: for every identifier `f` that the function registry knows
and all numeric literals `a` and `b`, the call entry emitted for `f((a))` carries
`argc = 2`, not 1, and the one emitted for `f((a), b)` carries `argc = 3`, not 2: the
parenthesis that closes the group counts an argument as the one that closes the call does.
Both evaluations fail with `E_EVAL_IMPLEMENTATION_ERROR`, whatever the arity of `f`, since
the value stack holds fewer values than `argc`; the name of the function found, which the
message prints, has 900 characters at most. -/
theorem parenthesised_argument_counted_twice {V : Type} (P : Platform V) (sess : Session V)
    (f a b : List Char) (va vb : V) (d : evaluator_function_definition V)
    (hf : identifier f = true) (ha : IsNumber P a va) (hb : IsNumber P b vb)
    (hd : eval_find_primitive (fun d => d.name)
      (Session.fresh P sess).eval_function_definitions f = some d)
    (hname : d.name.length ≤ 900) :
    parses_to P none sess (f ++ "((".toList ++ a ++ "))".toList)
        [.numeric va, .function_call f (some 2)] ∧
      evaluate P sess (f ++ "((".toList ++ a ++ "))".toList) =
        .ok (some ⟨0, P.double (P.ofInt 0),
          eval_error (Session.fresh P sess) E_EVAL_IMPLEMENTATION_ERROR (-1) (-1)⟩) ∧
      parses_to P none sess (f ++ "((".toList ++ a ++ "), ".toList ++ b ++ ")".toList)
        [.numeric va, .numeric vb, .function_call f (some 3)] ∧
      evaluate P sess (f ++ "((".toList ++ a ++ "), ".toList ++ b ++ ")".toList) =
        .ok (some ⟨0, P.double (P.ofInt 0),
          eval_error (Session.fresh P sess) E_EVAL_IMPLEMENTATION_ERROR (-1) (-1)⟩) := by
  have hla := ha.length_pos
  have hlb := hb.length_pos
  have hlf : 1 ≤ f.length := by
    cases f with
    | nil => cases hf
    | cons c cs => simp
  unfold evaluate
  obtain ⟨ch1, key1⟩ := parse_grouped_argument P (Session.fresh P sess) f a va hf ha
  obtain ⟨ch2, key2⟩ :=
    parse_grouped_first_argument P (Session.fresh P sess) f a b va vb hf ha hb
  have hn1 : 6 ≤ (f ++ "((".toList ++ a ++ "))".toList).length + 1 := by
    simp
    omega
  have hn2 : 8 ≤ (f ++ "((".toList ++ a ++ "), ".toList ++ b ++ ")".toList).length + 1 := by
    simp
    omega
  exact ⟨⟨_, _, parse_loop_mono P none 6 _ _ _ _ key1 _ hn1, rfl, rfl, rfl⟩,
    outcome_of_loop [.numeric va, .function_call f (some 2)]
      0 none hn1 key1 rfl rfl rfl (by simp)
      (compute_loop_call_short P none _ f d va hd hname),
    ⟨_, _, parse_loop_mono P none 8 _ _ _ _ key2 _ hn2, rfl, rfl, rfl⟩,
    outcome_of_loop [.numeric va, .numeric vb, .function_call f (some 3)]
      0 none hn2 key2 rfl rfl rfl (by simp)
      (compute_loop_call_short_two P none _ f d va vb hd hname)⟩

/-- Witness of C37: `sigma((1), 2)` fails with
`E_EVAL_IMPLEMENTATION_ERROR`. -/
theorem parenthesised_argument_counted_twice_witness :
    identifier "sigma".toList = true ∧ IsNumber exact ['1'] ⟨1, 1⟩ ∧
    IsNumber exact ['2'] ⟨2, 1⟩ ∧
    eval_find_primitive (fun d => d.name)
        (Session.fresh exact (Session.start exact)).eval_function_definitions
        "sigma".toList =
      some ⟨"sigma".toList, 2, 3, eval_primitive_sigma exact⟩ ∧
    "sigma".toList.length ≤ 900 ∧
    evaluate exact (Session.start exact) "sigma((1), 2)".toList =
      .ok (some ⟨0, ⟨0, 1⟩,
        eval_error (Session.fresh exact (Session.start exact))
          E_EVAL_IMPLEMENTATION_ERROR (-1) (-1)⟩) :=
  ⟨by decide, exact_one, exact_two, rfl, by decide,
    (parenthesised_argument_counted_twice exact (Session.start exact) "sigma".toList ['1']
      ['2'] ⟨1, 1⟩ ⟨2, 1⟩ _ (by decide) exact_one exact_two rfl (by decide)).2.2.2⟩

/-- C38, at the failing input: for every identifier `f`, every numeric literal `a` and every
text `b`, the minus sign of `f(a, -b)` follows a comma, where the parser takes no operator
as unary: the evaluation fails with `E_EVAL_UNEXPECTED_OPERATOR` at that token.  The minus
sign of `f(-a, b)` follows the opening parenthesis and is unary: where plain `int`
bit-fields are signed, an `f` that the lookup finds and that takes two arguments is called
on `-a` and `b`, and the evaluation returns what `f` returns, as a `double`. -/
theorem minus_after_comma_rejected {V : Type} (P : Platform V) (sess : Session V)
    (f a b : List Char) (va : V) (hf : identifier f = true) (ha : IsNumber P a va) :
    (∃ character,
      evaluate P sess (f ++ "(".toList ++ a ++ ", -".toList ++ b ++ ")".toList) =
        .ok (some ⟨0, P.double (P.ofInt 0),
          eval_error (Session.fresh P sess) E_EVAL_UNEXPECTED_OPERATOR 1 character⟩)) ∧
      (∀ (vb result : V) (d : evaluator_function_definition V), P.signed_bitfields = true →
        IsNumber P b vb →
        eval_find_primitive (fun d => d.name)
          (Session.fresh P sess).eval_function_definitions f = some d →
        d.min_args ≤ 2 → 2 ≤ d.max_args →
        d.func (Session.fresh P sess).evaluator_use_degrees 2 [P.neg va, vb] = .ok result →
        evaluate P sess (f ++ "(-".toList ++ a ++ ", ".toList ++ b ++ ")".toList) =
          succeeds P sess (P.double result)) := by
  have hla := ha.length_pos
  refine ⟨?_, fun vb result d hs hb hd hmin hmax hres =>
    spaced_call_two_negated P sess hs f a b va vb result d hf ha hb hd hmin hmax hres⟩
  unfold evaluate
  generalize hs : P.signed_bitfields = s
  have key : ∃ ch ch', parse_loop P none 5 (Session.fresh P sess) (parse_start V)
      (f ++ "(".toList ++ a ++ ", -".toList ++ b ++ ")".toList) =
      .ok (some (0, eval_error (Session.fresh P sess) E_EVAL_UNEXPECTED_OPERATOR 1 ch,
        ⟨[.numeric va], [.function_call f none], TOKEN_COMMA, ch', 1,
         (List.replicate 64 (0 : Int)).set 1 1,
         ((List.replicate 64 none).set 1 (some 0)).set 1 (some 1), 1, true, 64⟩)) := by
    obtain ⟨c, cs, rfl⟩ : ∃ c cs, f = c :: cs := by
      cases f with
      | nil => cases hf
      | cons c cs => exact ⟨c, cs, rfl⟩
    refine ⟨?_, ?_, ?_⟩
    rotate_left 2
    simp only [List.append_assoc, parse_start]
    show parse_loop P none 5 _ _ (c :: cs ++ '(' :: (a ++ ',' :: ' ' :: '-' :: (b ++ [')'])))
      = _
    rw [List.cons_append,
      parse_loop_name
        (by
          rw [← List.cons_append]
          exact lex_name _ (c :: cs) '(' _ _ hf (by decide))
        (by rfl) (identifier_fits _ hf) (by exact fits rfl),
      parse_loop_call_open (by exact fits rfl),
      parse_loop_number ha (by exact rfl) (by rfl) (by exact fits rfl),
      parse_loop_comma [.numeric va] [.function_call (c :: cs) none]
        (((List.replicate 64 none).set 1 (some 0)).set 1 (some 1))
        (by rfl) (by exact rfl) (by exact rfl),
      parse_loop_space,
      parse_loop_operator_rejected hs (lex_minus s _ _) (by rfl) (by rfl) (by decide)]
    first
      | done
      | exact rfl
  obtain ⟨ch, ch', key⟩ := key
  exact ⟨ch, evaluate_of_failed_loop 5 (by simp; omega) key⟩

/-- Witness of C38: `sigma(1, -2)` fails with `E_EVAL_UNEXPECTED_OPERATOR`, while
`sigma(-1, 2)` evaluates to 2. -/
theorem minus_after_comma_rejected_witness :
    identifier "sigma".toList = true ∧ IsNumber exact ['1'] ⟨1, 1⟩ ∧
    (∃ character, evaluate exact (Session.start exact) "sigma(1, -2)".toList =
      .ok (some ⟨0, ⟨0, 1⟩,
        eval_error (Session.fresh exact (Session.start exact))
          E_EVAL_UNEXPECTED_OPERATOR 1 character⟩)) ∧
    evaluate exact (Session.start exact) "sigma(-1, 2)".toList =
      succeeds exact (Session.start exact) ⟨2, 1⟩ :=
  ⟨by decide, exact_one,
    (minus_after_comma_rejected exact (Session.start exact) "sigma".toList ['1'] ['2']
      ⟨1, 1⟩ (by decide) exact_one).1,
    rfl⟩

/-- C39, at the failing input: for every register number `k` in 0..63, every numeric
literal `v` and every text `c`, the parser rejects the operator that follows the recall in
`v #k! + #k? * c`: `TOKEN_REGISTER_RECALL` is not among the tokens that an operator may
follow, and the evaluation fails with `E_EVAL_UNEXPECTED_OPERATOR` at that operator. -/
theorem operator_after_register_recall_rejected {V : Type} (P : Platform V)
    (sess : Session V) (k : Nat) (hk : k < 64) (v c : List Char) (vv : V)
    (hv : IsNumber P v vv) :
    ∃ character,
      evaluate P sess (v ++ " #".toList ++ (Nat.repr k).toList ++ "! + #".toList ++
          (Nat.repr k).toList ++ "? * ".toList ++ c) =
        .ok (some ⟨0, P.double (P.ofInt 0),
          eval_error (Session.fresh P sess) E_EVAL_UNEXPECTED_OPERATOR 1 character⟩) := by
  have hlv := hv.length_pos
  unfold evaluate
  generalize hs : P.signed_bitfields = s
  have hid : ¬ ((k : Int) ≥ MAX_REGISTERS) := by
    have : MAX_REGISTERS = 64 := rfl
    omega
  have key : ∃ ch ch', parse_loop P none 5 (Session.fresh P sess) (parse_start V)
      (v ++ " #".toList ++ (Nat.repr k).toList ++ "! + #".toList ++
          (Nat.repr k).toList ++ "? * ".toList ++ c) =
      .ok (some (0, eval_error (Session.fresh P sess) E_EVAL_UNEXPECTED_OPERATOR 1 ch,
        ⟨[.register_recall (k : Int), .register_save (k : Int), .numeric vv],
         [.operator (operator_init s "+" 1 OP_PLUS 5 ASSOC_LEFT 0)], TOKEN_REGISTER_RECALL,
         ch', 1, List.replicate 64 0, List.replicate 64 none, 0, true, 64⟩)) := by
    refine ⟨?_, ?_, ?_⟩
    rotate_left 2
    simp only [List.append_assoc, parse_start]
    show parse_loop P none 5 _ _
      (v ++ ' ' :: '#' :: ((Nat.repr k).toList ++ '!' :: ' ' :: '+' :: ' ' :: '#' ::
        ((Nat.repr k).toList ++ '?' :: ' ' :: '*' :: ' ' :: c))) = _
    rw [parse_loop_number hv (by exact rfl) (by rfl) (by exact fits rfl),
      parse_loop_space,
      parse_loop_register_save (lex_register_save _ k hk _ _) hid
        (register_token_fits k hk '!') (by exact fits rfl),
      parse_loop_space,
      parse_loop_binary hs [.register_save (k : Int), .numeric vv] []
        (lex_plus s _ _) (by rfl) (by rfl) (by cases s <;> decide)
        (by cases s <;> exact rfl) (by decide) (by exact fits rfl),
      parse_loop_space,
      parse_loop_register_recall (by rw [hs]; exact lex_register_recall _ k hk _ _)
        (by rfl) hid (register_token_fits k hk '?') (by exact fits rfl),
      parse_loop_space,
      parse_loop_operator_rejected hs (lex_star s ' ' _ _ (by decide)) (by rfl) (by rfl)
        (by decide)]
    first
      | done
      | exact rfl
  obtain ⟨ch, ch', key⟩ := key
  exact ⟨ch, evaluate_of_failed_loop 5 (by simp; omega) key⟩

/-- Witness of C39: `5 #0! + #0? * 2` fails with `E_EVAL_UNEXPECTED_OPERATOR`. -/
theorem operator_after_register_recall_rejected_witness :
    (0 : Nat) < 64 ∧ IsNumber exact ['5'] ⟨5, 1⟩ ∧
    ∃ character, evaluate exact (Session.start exact) "5 #0! + #0? * 2".toList =
      .ok (some ⟨0, ⟨0, 1⟩,
        eval_error (Session.fresh exact (Session.start exact))
          E_EVAL_UNEXPECTED_OPERATOR 1 character⟩) :=
  ⟨by decide, exact_five,
    operator_after_register_recall_rejected exact (Session.start exact) 0 (by decide)
      ['5'] ['2'] ⟨5, 1⟩ exact_five⟩

/-- C34, at the failing inputs: the column written with a positional error is not the offset
of the offending token.  For every numeric literal `a`, the unexpected `)` of `a)` is
reported at column `2 * |a|`, although it is the character number `|a| + 1` of the input:
`eval_lex` adds the length of a token minus one to the counter and `eval_parse` adds the
length again.  The `)` of `a )` is reported at the same column, although it stands one
character further: `eval_skip_spaces` advances the pointer `character`, not the counter.  On
a newline `eval_skip_spaces` stores 1 through the pointer it has advanced past the counter:
the line counter stays, and the store leaves defined behaviour. -/
theorem error_column_is_not_token_offset {V : Type} (P : Platform V) (sess : Session V)
    (a rest : List Char) (va : V) (ha : IsNumber P a va) :
    evaluate P sess (a ++ ")".toList) =
        .ok (some ⟨0, P.double (P.ofInt 0),
          eval_error (Session.fresh P sess) E_EVAL_UNEXPECTED_RIGHT_PARENT 1
            (2 * (a.length : Int) - 1)⟩) ∧
      evaluate P sess (a ++ " )".toList) =
        .ok (some ⟨0, P.double (P.ofInt 0),
          eval_error (Session.fresh P sess) E_EVAL_UNEXPECTED_RIGHT_PARENT 1
            (2 * (a.length : Int) - 1)⟩) ∧
      (eval_error (Session.fresh P sess) E_EVAL_UNEXPECTED_RIGHT_PARENT 1
          (2 * (a.length : Int) - 1)).evaluator_error =
        .positioned 1 (2 * (a.length : Int)) ∧
      evaluate P sess (a ++ '\n' :: rest) = .error Fault.stray_store := by
  have hla := ha.length_pos
  have hch : (0 : Int) + (a.length : Int) - 1 + (a.length : Int) = 2 * (a.length : Int) - 1 := by
    omega
  unfold evaluate
  have key1 : parse_loop P none 2 (Session.fresh P sess) (parse_start V) (a ++ ")".toList) =
      .ok (some (0, eval_error (Session.fresh P sess) E_EVAL_UNEXPECTED_RIGHT_PARENT 1
          (2 * (a.length : Int) - 1),
        ⟨[.numeric va], [], TOKEN_NUMBER, 2 * (a.length : Int) - 1, 1, List.replicate 64 0,
          List.replicate 64 none, 0, true, 64⟩)) := by
    simp only [parse_start]
    show parse_loop P none 2 _ _ (a ++ [')']) = _
    rw [parse_loop_number ha (by exact rfl) (by rfl) (by exact fits rfl), hch,
      parse_loop_right_parent_unopened]
  have key2 : parse_loop P none 2 (Session.fresh P sess) (parse_start V) (a ++ " )".toList) =
      .ok (some (0, eval_error (Session.fresh P sess) E_EVAL_UNEXPECTED_RIGHT_PARENT 1
          (2 * (a.length : Int) - 1),
        ⟨[.numeric va], [], TOKEN_NUMBER, 2 * (a.length : Int) - 1, 1, List.replicate 64 0,
          List.replicate 64 none, 0, true, 64⟩)) := by
    simp only [parse_start]
    show parse_loop P none 2 _ _ (a ++ [' ', ')']) = _
    rw [parse_loop_number ha (by exact rfl) (by rfl) (by exact fits rfl), hch,
      parse_loop_space, parse_loop_right_parent_unopened]
  have key3 : parse_loop P none ((a ++ '\n' :: rest).length + 1) (Session.fresh P sess)
      (parse_start V) (a ++ '\n' :: rest) = .error Fault.stray_store := by
    have hlen : (a ++ '\n' :: rest).length + 1 = (a.length + rest.length) + 1 + 1 := by
      simp
      omega
    rw [hlen]
    simp only [parse_start]
    rw [parse_loop_number ha (by exact rfl) (by rfl) (by exact fits rfl)]
    rfl
  refine ⟨evaluate_of_failed_loop 2 (by simp) key1, evaluate_of_failed_loop 2 (by simp) key2,
    ?_, evaluate_of_fault _ key3⟩
  simp only [eval_error]
  have hne : ¬ ((1 : Int) = -1) := by decide
  rw [if_neg hne]
  congr 1
  omega

/-- Witness of C34: the `)` of `12)` is the third character and is reported at column 4. -/
theorem error_column_is_not_token_offset_witness :
    IsNumber exact ['1', '2'] ⟨12, 1⟩ ∧
    evaluate exact (Session.start exact) "12)".toList =
      .ok (some ⟨0, ⟨0, 1⟩,
        eval_error (Session.fresh exact (Session.start exact))
          E_EVAL_UNEXPECTED_RIGHT_PARENT 1 3⟩) ∧
    (eval_error (Session.fresh exact (Session.start exact))
        E_EVAL_UNEXPECTED_RIGHT_PARENT 1 3).evaluator_error = .positioned 1 4 :=
  ⟨exact_decimal 12 (by norm_num),
    (error_column_is_not_token_offset exact (Session.start exact) ['1', '2'] [] ⟨12, 1⟩
      (exact_decimal 12 (by norm_num))).1,
    rfl⟩

/-- C35, at the failing inputs: number tokens that match no literal form of the grammar are
accepted.  On every platform `0x`, a base prefix without a digit, evaluates to 0, and so do
`0b`, `0o` and `0d`; `01d9`, where a base letter and the digit 9 follow a leading-zero octal
digit, evaluates to `(0 * 8 + 13) * 8 + 9`, which is 113 with exact arithmetic: `eval_lex`
lets a base letter follow any digits and `eval_double_value` adds up whatever follows the
second character. -/
theorem ungrammatical_literals_accepted :
    (∀ (V : Type) (P : Platform V) (sess : Session V),
      evaluate P sess "0x".toList = succeeds P sess (P.double (P.ofInt 0)) ∧
      evaluate P sess "0b".toList = succeeds P sess (P.double (P.ofInt 0)) ∧
      evaluate P sess "0o".toList = succeeds P sess (P.double (P.ofInt 0)) ∧
      evaluate P sess "0d".toList = succeeds P sess (P.double (P.ofInt 0)) ∧
      evaluate P sess "01d9".toList =
        succeeds P sess
          (P.double
            (P.dadd (P.dmul (P.dadd (P.dmul (P.ofInt 0) (P.ofInt 8)) (P.ofInt 13)) (P.ofInt 8))
              (P.ofInt 9)))) ∧
      evaluate exact (Session.start exact) "0x".toList =
        succeeds exact (Session.start exact) ⟨0, 1⟩ ∧
      evaluate exact (Session.start exact) "01d9".toList =
        succeeds exact (Session.start exact) ⟨113, 1⟩ := by
  refine ⟨?_, rfl, rfl⟩
  intro V P sess
  have run : ∀ (c : Char) (cs : List Char) (v : V),
      eval_lex (sorted_operators P.signed_bitfields) (c :: cs) 0 =
        .ok { token := TOKEN_NUMBER, text := c :: cs, rest := [], param := .null,
              character := ((c :: cs).length : Int) - 1 } →
      eval_double_value P (c :: cs) ((c :: cs).length : Int) = some v →
      fits_token_buffer (c :: cs) →
      evaluate P sess (c :: cs) = succeeds P sess (P.double v) := by
    intro c cs v hlex hv htext
    unfold evaluate succeeds
    have key : parse_loop P none 1 (Session.fresh P sess) (parse_start V) (c :: cs) =
        .ok (some (1, Session.fresh P sess,
          ⟨[.numeric v], [], TOKEN_NUMBER,
            ((c :: cs).length : Int) - 1 + ((c :: cs).length : Int), 1,
            List.replicate 64 0, List.replicate 64 none, 0, true, 64⟩)) := by
      simp only [parse_start]
      rw [parse_loop_number_token v hlex (show token_in TOKEN_EOF _ = true from rfl) hv htext
          (by exact fits rfl),
        parse_loop_nil]
    exact (run_of_loop [.numeric v] v (by simp) key rfl rfl rfl (by simp)
      (compute_loop_one P none _ v)).2
  exact ⟨run '0' ['x'] _ rfl rfl (by decide), run '0' ['b'] _ rfl rfl (by decide),
    run '0' ['o'] _ rfl rfl (by decide), run '0' ['d'] _ rfl rfl (by decide),
    run '0' ['1', 'd', '9'] _ rfl rfl (by decide)⟩

/-- Counterexample to C32: the comma of `sigma(3!, 7)` directly follows an operator, the
postfix `!`, and is accepted: the expression evaluates to `6 + 7`. -/
theorem comma_after_remembered_value_counterexample :
    evaluate exact (Session.start exact) "sigma(3!, 7)".toList =
      succeeds exact (Session.start exact) ⟨13, 1⟩ := rfl

/-- C32, amended: what decides on a comma is `last_token`, the last token that the parser
remembers (a register save and a postfix `!` are inert and leave it as it was), and the
operator stack.  The statement is about an iteration of the token loop whose copy of the
comma leaves the block of `current_token` as it is, with an operator stack of at most 8
entries, all of which find room among the 16 entries of the output stack.  Where `last_token`
is not a number, a name or a closing parenthesis, in particular at the start and after an
operator, a comma, an opening parenthesis, a register recall or a variable reference, the
parse ends with `E_EVAL_UNEXPECTED_ARG_SEPARATOR`; where it is one, the loop of the comma case
returns, the parse ends with the same error when the operator stack holds neither a
function-call marker nor a left parenthesis, and goes on otherwise.  So `f($x, 1)` is
rejected with that error, whatever the callback, for identifiers `f` and `x` of fewer than 63
characters. -/
theorem comma_after_remembered_value {V : Type} (P : Platform V)
    (cb : Option (eval_callback V)) (sess : Session V) (st : parse_state V) (lx : lex_result)
    (f x rest : List Char) (callback : eval_callback V)
    (htok : lx.token = TOKEN_COMMA) (hcopy : (lx.text.length : Int) + 1 < st.max_token_length)
    (hops : st.operator_stack.length ≤ 8)
    (hout : st.output_stack.length + st.operator_stack.length ≤ 16)
    (hf : identifier f = true) (hx : identifier x = true) :
    (∀ t ∈ [TOKEN_EOF, TOKEN_OPERATOR, TOKEN_COMMA, TOKEN_LEFT_PARENT, TOKEN_REGISTER_RECALL,
        TOKEN_VARIABLE],
      token_in t (TOKEN_NUMBER ||| TOKEN_NAME ||| TOKEN_RIGHT_PARENT) = false) ∧
    (token_in st.last_token (TOKEN_NUMBER ||| TOKEN_NAME ||| TOKEN_RIGHT_PARENT) = false →
      parse_token P cb sess st lx =
        .ok (token_error sess st lx E_EVAL_UNEXPECTED_ARG_SEPARATOR)) ∧
    (∀ fa, token_in st.last_token (TOKEN_NUMBER ||| TOKEN_NAME ||| TOKEN_RIGHT_PARENT) = true →
      function_args_increment st.function_args st.nesting_level = .ok fa →
      ∃ operator_stack output_stack,
        separate_arguments st.operator_stack st.output_stack =
          .ok (st.operator_stack.any encloses, operator_stack, output_stack) ∧
        parse_token P cb sess st lx =
          .ok (if st.operator_stack.any encloses = true then
              token_done sess
                { st with
                  function_args := fa
                  operator_stack := operator_stack
                  output_stack := output_stack }
                lx false
            else
              token_error sess
                { st with
                  function_args := fa
                  operator_stack := operator_stack
                  output_stack := output_stack }
                lx E_EVAL_UNEXPECTED_ARG_SEPARATOR)) ∧
    (∃ character,
      evaluate_ex P sess (f ++ "($".toList ++ x ++ ", ".toList ++ rest) (some callback) =
        .ok (some ⟨0, P.double (P.ofInt 0),
          eval_error (Session.fresh P sess) E_EVAL_UNEXPECTED_ARG_SEPARATOR 1
            character⟩)) := by
  refine ⟨by decide, ?_, ?_, ?_⟩
  · intro hlt
    rw [parse_token_comma P cb sess st lx htok hcopy]
    unfold parse_comma
    simp only [hlt]
    rfl
  · intro fa hlt hfa
    obtain ⟨r, hr⟩ := separate_arguments_returns st.operator_stack st.output_stack hops hout
    have hfound := separate_arguments_found st.operator_stack st.output_stack r hr
    obtain ⟨found, operator_stack, output_stack⟩ := r
    simp only at hfound
    subst hfound
    refine ⟨operator_stack, output_stack, hr, ?_⟩
    rw [parse_token_comma P cb sess st lx htok hcopy]
    unfold parse_comma
    simp only [hlt, hfa, hr, bind, Except.bind, if_true]
    cases st.operator_stack.any encloses <;> rfl
  · unfold evaluate_ex
    have hlx : 1 ≤ x.length := by
      cases x with
      | nil => cases hx
      | cons c cs => simp
    have key : ∃ ch ch', parse_loop P (some callback) 4 (Session.fresh P sess) (parse_start V)
        (f ++ "($".toList ++ x ++ ", ".toList ++ rest) =
        .ok (some (0, eval_error (Session.fresh P sess) E_EVAL_UNEXPECTED_ARG_SEPARATOR 1 ch,
          ⟨[.variable x], [.function_call f none], TOKEN_VARIABLE, ch', 1,
           (List.replicate 64 (0 : Int)).set 1 1,
           (List.replicate 64 none).set 1 (some 0), 1, true, 64⟩)) := by
      obtain ⟨c, cs, rfl⟩ : ∃ c cs, f = c :: cs := by
        cases f with
        | nil => cases hf
        | cons c cs => exact ⟨c, cs, rfl⟩
      refine ⟨?_, ?_, ?_⟩
      rotate_left 2
      simp only [List.append_assoc, parse_start]
      show parse_loop P (some callback) 4 _ _
        (c :: cs ++ '(' :: '$' :: (x ++ ',' :: ' ' :: rest)) = _
      rw [List.cons_append,
        parse_loop_name
          (by
            rw [← List.cons_append]
            exact lex_name _ (c :: cs) '(' _ _ hf (by decide))
          (by rfl) (identifier_fits _ hf) (by exact fits rfl),
        parse_loop_call_open (by exact fits rfl),
        parse_loop_variable_token (lex_variable _ x ',' _ _ hx (by decide)) (by rfl)
          (identifier_fits _ hx) (by exact fits rfl),
        parse_loop_comma_rejected (by rfl)]
      first
        | done
        | exact rfl
    obtain ⟨ch, ch', key⟩ := key
    exact ⟨ch, evaluate_of_failed_loop 4 (by simp; omega) key⟩

/-- Witness of C32: a comma at the start ends the parse with
`E_EVAL_UNEXPECTED_ARG_SEPARATOR`, and so does the comma of `sigma($x, 1)`. -/
theorem comma_after_remembered_value_witness :
    (⟨TOKEN_COMMA, [','], [], .null, 0⟩ : lex_result).token = TOKEN_COMMA ∧
    (([','] : List Char).length : Int) + 1 < (parse_start Fraction).max_token_length ∧
    (parse_start Fraction).operator_stack.length ≤ 8 ∧
    (parse_start Fraction).output_stack.length +
      (parse_start Fraction).operator_stack.length ≤ 16 ∧
    identifier "sigma".toList = true ∧ identifier "x".toList = true ∧
    parse_token exact none (Session.start exact) (parse_start Fraction)
        ⟨TOKEN_COMMA, [','], [], .null, 0⟩ =
      .ok (token_error (Session.start exact) (parse_start Fraction)
        ⟨TOKEN_COMMA, [','], [], .null, 0⟩ E_EVAL_UNEXPECTED_ARG_SEPARATOR) ∧
    ∃ character,
      evaluate_ex exact (Session.start exact) "sigma($x, 1)".toList
          (some (fun _ => (0, ⟨7, 1⟩))) =
        .ok (some ⟨0, ⟨0, 1⟩,
          eval_error (Session.fresh exact (Session.start exact))
            E_EVAL_UNEXPECTED_ARG_SEPARATOR 1 character⟩) :=
  ⟨rfl, by decide, by decide, by decide, by decide, by decide,
    (comma_after_remembered_value exact none (Session.start exact) (parse_start Fraction)
      ⟨TOKEN_COMMA, [','], [], .null, 0⟩ "sigma".toList "x".toList "1)".toList
      (fun _ => (0, ⟨7, 1⟩)) rfl (by decide) (by decide) (by decide) (by decide)
      (by decide)).2.1 rfl,
    (comma_after_remembered_value exact none (Session.start exact) (parse_start Fraction)
      ⟨TOKEN_COMMA, [','], [], .null, 0⟩ "sigma".toList "x".toList "1)".toList
      (fun _ => (0, ⟨7, 1⟩)) rfl (by decide) (by decide) (by decide) (by decide)
      (by decide)).2.2.2⟩

end Eval
